import Mathlib

/-!
# jongfish: board, move generator and perft

A shallow embedding of `engine/board/Board.{h,cpp}` and
`engine/movegen/MoveGen.cpp`.

Conventions of the embedding:

* a `Square` is the C++ `int`, here `Int`: squares are `0..63` and `NO_SQ = -1`; C++ `/` and `%`
  are `Int.tdiv` and `Int.tmod`.
* piece codes, the castling mask, move flags and promotion kinds are C++ `int`s that
  are never negative; they are `Nat` here.
* `std::array<int,64>` is `Fin 64 → Nat`; a read outside `0..63` (undefined in C++)
  gives `0`, a write outside `0..63` changes nothing.
* `std::vector` used as a stack (`history`, `stateHistory`) is a `List` whose head is
  the vector's back.
* the static Zobrist tables are a parameter `Z : ZobristKeys`; `uint64_t` keys are
  `Nat` combined with `^^^`.
* `while` loops take a fuel argument; each walks a ray of the board and the fuel given
  is never exhausted.
-/

namespace Jongfish

/-! ## Board.h -/

/-- The sentinel `NO_SQ`; a `Square` is the C++ `int`, here `Int`. -/
abbrev NO_SQ : Int := -1

inductive Color where
  | WHITE
  | BLACK
deriving DecidableEq, Repr

open Color

abbrev NONE : Nat := 0
abbrev PAWN : Nat := 1
abbrev KNIGHT : Nat := 2
abbrev BISHOP : Nat := 3
abbrev ROOK : Nat := 4
abbrev QUEEN : Nat := 5
abbrev KING : Nat := 6

/-- The opposite colour, `c==WHITE?BLACK:WHITE`. -/
def opposite (c : Color) : Color := if c = WHITE then BLACK else WHITE

/-- Piece code of a colour and a piece type, `(int)p + (c == BLACK ? 6 : 0)`. -/
def makePiece (c : Color) (p : Nat) : Nat := p + (if c = BLACK then 6 else 0)

/-- Colour of a piece code, `(pc >= 7) ? BLACK : WHITE`. -/
def pieceColor (pc : Nat) : Color := if pc ≥ 7 then BLACK else WHITE

/-- Piece type of a piece code, `pc > 6 ? pc - 6 : pc`. -/
def pieceType (pc : Nat) : Nat := if pc > 6 then pc - 6 else pc

/-- The C `abs` on `int`. -/
def cabs (x : Int) : Int := if x < 0 then -x else x

/-- A move packed in a `uint16_t`. -/
structure Move where
  data : Nat
deriving DecidableEq, Repr

/-- The constructor `Move(from, to, flags, promo)`:
`(uint16_t)(from | (to<<6) | (flags<<12) | (promo<<14))`. -/
def Move.new (from_ to_ : Int) (flags promo : Nat) : Move :=
  ⟨(from_.toNat ||| (to_.toNat <<< 6) ||| (flags <<< 12) ||| (promo <<< 14)) % 65536⟩

def Move.from_ (m : Move) : Int := ((m.data &&& 63 : Nat) : Int)

def Move.to_ (m : Move) : Int := (((m.data >>> 6) &&& 63 : Nat) : Int)

def Move.flags (m : Move) : Nat := (m.data >>> 12) &&& 3

def Move.promo (m : Move) : Nat := (m.data >>> 14) &&& 3

def Move.isNull (m : Move) : Bool := m.data == 0

abbrev FLAG_NORMAL : Nat := 0
abbrev FLAG_CASTLE : Nat := 1
abbrev FLAG_EP : Nat := 2
abbrev FLAG_PROMO : Nat := 3

/-- The struct `BoardState`. -/
structure BoardState where
  squares : Fin 64 → Nat
  castling : Nat
  epSquare : Int
  halfmove : Int
  fullmove : Int
  sideToMove : Color
  zobrist : Nat
  lastMove : Move
  capturedPiece : Nat
  prevCastling : Nat
  prevEP : Int
  prevHalfmove : Int

/-- The value-initialised `BoardState{}`. -/
def BoardState.init : BoardState where
  squares := fun _ => 0
  castling := 0
  epSquare := NO_SQ
  halfmove := 0
  fullmove := 1
  sideToMove := WHITE
  zobrist := 0
  lastMove := ⟨0⟩
  capturedPiece := 0
  prevCastling := 0
  prevEP := NO_SQ
  prevHalfmove := 0

/-- The class `Board`: the live state and the two history vectors. -/
structure Board where
  state : BoardState
  history : List Move
  stateHistory : List BoardState

/-- The static tables `zKeys[13][64]`, `zSide`, `zCastle[16]`, `zEP[8]`. -/
structure ZobristKeys where
  zKeys : Nat → Int → Nat
  zSide : Nat
  zCastle : Nat → Nat
  zEP : Int → Nat

/-- The read `squares[s]` of the array. -/
def sqAt (sq : Fin 64 → Nat) (s : Int) : Nat :=
  if h : 0 ≤ s ∧ s < 64 then sq ⟨s.toNat, by omega⟩ else 0

/-- The read `state.squares[s]`, also `Board::pieceAt`. -/
def BoardState.pieceAt (st : BoardState) (s : Int) : Nat :=
  sqAt st.squares s

/-- The write `squares[s] = v`. -/
def setSq (sq : Fin 64 → Nat) (s : Int) (v : Nat) : Fin 64 → Nat :=
  fun j => if (j.val : Int) = s then v else sq j

/-- The squares `0..63` in the order of `for (int s=0;s<64;s++)`. -/
def allSquares : List Int := (List.range 64).map Int.ofNat

/-! ## Board.cpp: attacks and check -/

/-- One iteration target of the king loop of `isSquareAttacked`. -/
def kingAttackAt (st : BoardState) (s : Int) (byColor : Color) (o : Int) : Bool :=
  let t := s + o
  if t < 0 ∨ t > 63 then false
  else if cabs (t.tmod 8 - s.tmod 8) > 1 then false
  else if cabs (t.tdiv 8 - s.tdiv 8) > 1 then false
  else
    let pc := st.pieceAt t
    decide (pc ≠ 0 ∧ pieceColor pc = byColor ∧ pieceType pc = KING)

/-- One iteration target of the knight loop of `isSquareAttacked`. -/
def knightAttackAt (st : BoardState) (s : Int) (byColor : Color) (o : Int) : Bool :=
  let t := s + o
  if t < 0 ∨ t > 63 then false
  else
    let df := cabs (t.tmod 8 - s.tmod 8)
    if df ≠ 1 ∧ df ≠ 2 then false
    else
      let pc := st.pieceAt t
      decide (pc ≠ 0 ∧ pieceColor pc = byColor ∧ pieceType pc = KNIGHT)

/-- One of the two pawn tests of `isSquareAttacked`, for the square `t1`. -/
def pawnAttackAt (st : BoardState) (s : Int) (byColor : Color) (t1 : Int) : Bool :=
  if t1 ≥ 0 ∧ t1 < 64 ∧ cabs (t1.tmod 8 - s.tmod 8) = 1 then
    decide (st.pieceAt t1 = makePiece byColor PAWN)
  else false

/-- The `while (t>=0&&t<64)` loop over one rook direction `d`; `true` is the
`return true`, `false` is a `break` or the loop's end. -/
def rookRayAttack (st : BoardState) (byColor : Color) (d : Int) : Nat → Int → Bool
  | 0, _ => false
  | fuel + 1, t =>
    if t ≥ 0 ∧ t < 64 then
      if d = 1 ∧ t.tmod 8 = 0 then false
      else if d = -1 ∧ t.tmod 8 = 7 then false
      else
        let pc := st.pieceAt t
        if pc ≠ 0 then
          decide (pieceColor pc = byColor ∧ (pieceType pc = ROOK ∨ pieceType pc = QUEEN))
        else rookRayAttack st byColor d fuel (t + d)
    else false

/-- The `while (t>=0&&t<64)` loop over one bishop direction `d`. -/
def bishopRayAttack (st : BoardState) (s : Int) (byColor : Color) (d : Int) :
    Nat → Int → Bool
  | 0, _ => false
  | fuel + 1, t =>
    if t ≥ 0 ∧ t < 64 then
      let tf := t.tmod 8
      let sf := s.tmod 8
      if cabs (tf - sf) ≠ cabs (t.tdiv 8 - s.tdiv 8) then false
      else
        let pc := st.pieceAt t
        if pc ≠ 0 then
          decide (pieceColor pc = byColor ∧ (pieceType pc = BISHOP ∨ pieceType pc = QUEEN))
        else bishopRayAttack st s byColor d fuel (t + d)
    else false

/-- `Board::isSquareAttacked`. -/
def isSquareAttacked (st : BoardState) (s : Int) (byColor : Color) : Bool :=
  ([-9, -8, -7, -1, 1, 7, 8, 9].any (kingAttackAt st s byColor))
  || ([-17, -15, -10, -6, 6, 10, 15, 17].any (knightAttackAt st s byColor))
  || (if byColor = WHITE then
        pawnAttackAt st s WHITE (s - 7) || pawnAttackAt st s WHITE (s - 9)
      else
        pawnAttackAt st s BLACK (s + 7) || pawnAttackAt st s BLACK (s + 9))
  || ([1, -1, 8, -8].any (fun d => rookRayAttack st byColor d 64 (s + d)))
  || ([9, -9, 7, -7].any (fun d => bishopRayAttack st s byColor d 64 (s + d)))

/-- The king search of `isInCheck`: the first square holding `kpc`, or `-1`. -/
def findPiece (st : BoardState) (kpc : Nat) : Int :=
  (allSquares.find? (fun s => decide (st.pieceAt s = kpc))).getD (-1)

/-- `Board::isInCheck`. -/
def isInCheck (st : BoardState) (c : Color) : Bool :=
  let kpc := makePiece c KING
  let ks := findPiece st kpc
  if ks = -1 then false
  else isSquareAttacked st ks (if c = WHITE then BLACK else WHITE)

/-! ## Board.cpp: make and unmake -/

/-- `Board::unmakeMove`. -/
def unmakeMove (b : Board) : Board :=
  match b.stateHistory with
  | [] => b
  | top :: rest =>
    { state := top, history := b.history.tail, stateHistory := rest }

/-- `makeMove`, lines 239-243: the bookkeeping fields are saved. -/
def mvHeader (st : BoardState) (m : Move) : BoardState :=
  { st with prevCastling := st.castling, prevEP := st.epSquare,
            prevHalfmove := st.halfmove, capturedPiece := 0, lastMove := m }

/-- `makeMove`, lines 245-247: the old ep and castling keys leave the hash. -/
def mvOldKeys (Z : ZobristKeys) (st : BoardState) : BoardState :=
  let st : BoardState :=
    if st.epSquare ≠ NO_SQ then
      { st with zobrist := st.zobrist ^^^ Z.zEP (st.epSquare.tmod 8) }
    else st
  { st with zobrist := st.zobrist ^^^ Z.zCastle st.castling }

/-- `makeMove`, lines 251-257: captured piece, halfmove clock, ep square cleared. -/
def mvClocks (st : BoardState) (pc cap : Nat) : BoardState :=
  let st : BoardState := { st with capturedPiece := cap }
  let st : BoardState :=
    if cap ≠ 0 ∨ pieceType pc = PAWN then { st with halfmove := 0 }
    else { st with halfmove := st.halfmove + 1 }
  { st with epSquare := NO_SQ }

/-- `makeMove`, lines 259-265: the en passant branch. -/
def mvEnPassant (Z : ZobristKeys) (st : BoardState) (to_ : Int) : BoardState :=
  let capSq : Int := to_ + (if st.sideToMove = WHITE then -8 else 8)
  let st : BoardState := { st with capturedPiece := st.pieceAt capSq }
  let st : BoardState :=
    { st with zobrist := st.zobrist ^^^ Z.zKeys (st.pieceAt capSq) capSq }
  let st : BoardState := { st with squares := setSq st.squares capSq 0 }
  { st with zobrist := st.zobrist ^^^ Z.zKeys 0 capSq }

/-- `makeMove`, lines 266-283: the castle branch, which moves the rook. -/
def mvCastleRook (Z : ZobristKeys) (st : BoardState) (to_ : Int) : BoardState :=
  let rf : Int :=
    if to_ = 6 ∨ to_ = 62 then (if st.sideToMove = WHITE then 7 else 63)
    else (if st.sideToMove = WHITE then 0 else 56)
  let rt : Int :=
    if to_ = 6 ∨ to_ = 62 then (if st.sideToMove = WHITE then 5 else 61)
    else (if st.sideToMove = WHITE then 3 else 59)
  let rpc := st.pieceAt rf
  let st : BoardState := { st with zobrist := st.zobrist ^^^ Z.zKeys rpc rf }
  let st : BoardState := { st with squares := setSq st.squares rf 0 }
  let st : BoardState := { st with zobrist := st.zobrist ^^^ Z.zKeys 0 rf }
  let st : BoardState := { st with zobrist := st.zobrist ^^^ Z.zKeys 0 rt }
  let st : BoardState := { st with squares := setSq st.squares rt rpc }
  { st with zobrist := st.zobrist ^^^ Z.zKeys rpc rt }

/-- `makeMove`, lines 285-300: the piece leaves `from` and it, or the promoted piece,
lands on `to`. -/
def mvPiece (Z : ZobristKeys) (st : BoardState) (m : Move) (pc cap : Nat) : BoardState :=
  let from_ := m.from_
  let to_ := m.to_
  let st : BoardState := { st with zobrist := st.zobrist ^^^ Z.zKeys pc from_ }
  let st : BoardState := { st with squares := setSq st.squares from_ 0 }
  let st : BoardState := { st with zobrist := st.zobrist ^^^ Z.zKeys 0 from_ }
  if m.flags = FLAG_PROMO then
    let npc := makePiece st.sideToMove ([KNIGHT, BISHOP, ROOK, QUEEN].getD m.promo 0)
    let st : BoardState := { st with zobrist := st.zobrist ^^^ Z.zKeys cap to_ }
    let st : BoardState := { st with squares := setSq st.squares to_ npc }
    { st with zobrist := st.zobrist ^^^ Z.zKeys npc to_ }
  else
    let st : BoardState := { st with zobrist := st.zobrist ^^^ Z.zKeys cap to_ }
    let st : BoardState := { st with squares := setSq st.squares to_ pc }
    { st with zobrist := st.zobrist ^^^ Z.zKeys pc to_ }

/-- `makeMove`, lines 302-306: the ep square after a two-square pawn advance. -/
def mvEpSquare (Z : ZobristKeys) (st : BoardState) (pc : Nat) (from_ to_ : Int) :
    BoardState :=
  if pieceType pc = PAWN ∧ cabs (to_ - from_) = 16 then
    let st : BoardState := { st with epSquare := (from_ + to_).tdiv 2 }
    { st with zobrist := st.zobrist ^^^ Z.zEP (st.epSquare.tmod 8) }
  else st

/-- `makeMove`, lines 308-317: castling rights; `&= ~k` on a non-negative 32-bit
`int` is `&&&` with the 32-bit complement of `k`. -/
def mvCastling (Z : ZobristKeys) (st : BoardState) (from_ to_ : Int) : BoardState :=
  let st : BoardState :=
    if from_ = 4 ∨ to_ = 4 then { st with castling := st.castling &&& 4294967292 } else st
  let st : BoardState :=
    if from_ = 60 ∨ to_ = 60 then { st with castling := st.castling &&& 4294967283 } else st
  let st : BoardState :=
    if from_ = 0 ∨ to_ = 0 then { st with castling := st.castling &&& 4294967293 } else st
  let st : BoardState :=
    if from_ = 7 ∨ to_ = 7 then { st with castling := st.castling &&& 4294967294 } else st
  let st : BoardState :=
    if from_ = 56 ∨ to_ = 56 then { st with castling := st.castling &&& 4294967287 } else st
  let st : BoardState :=
    if from_ = 63 ∨ to_ = 63 then { st with castling := st.castling &&& 4294967291 } else st
  { st with zobrist := st.zobrist ^^^ Z.zCastle st.castling }

/-- `makeMove`, lines 319-322: the side to move flips. -/
def mvSide (Z : ZobristKeys) (st : BoardState) : BoardState :=
  let st : BoardState :=
    { st with sideToMove := if st.sideToMove = WHITE then BLACK else WHITE }
  let st : BoardState := { st with zobrist := st.zobrist ^^^ Z.zSide }
  if st.sideToMove = WHITE then { st with fullmove := st.fullmove + 1 } else st

/-- The part of `Board::makeMove` between the snapshot push and the legality test
(lines 236-322), on `state`. -/
def applyMove (Z : ZobristKeys) (st0 : BoardState) (m : Move) : BoardState :=
  let from_ := m.from_
  let to_ := m.to_
  let flags := m.flags
  let st := mvHeader st0 m
  let st := mvOldKeys Z st
  let pc := st.pieceAt from_
  let cap := st.pieceAt to_
  let st := mvClocks st pc cap
  let st :=
    if flags = FLAG_EP then mvEnPassant Z st to_
    else if flags = FLAG_CASTLE then mvCastleRook Z st to_
    else st
  let st := mvPiece Z st m pc cap
  let st := mvEpSquare Z st pc from_ to_
  let st := mvCastling Z st from_ to_
  mvSide Z st

/-- `Board::makeMove`: the board afterwards and the returned `bool`. -/
def makeMove (Z : ZobristKeys) (b : Board) (m : Move) : Board × Bool :=
  let b1 : Board := { b with stateHistory := b.state :: b.stateHistory }
  let b2 : Board := { b1 with state := applyMove Z b1.state m }
  let mover := if b2.state.sideToMove = WHITE then BLACK else WHITE
  if isInCheck b2.state mover then (unmakeMove b2, false)
  else ({ b2 with history := m :: b2.history }, true)

/-! ## Board.cpp: Zobrist key and FEN -/

/-- `Board::recomputeZobrist`: the key it stores. -/
def recomputeZobrist (Z : ZobristKeys) (st : BoardState) : BoardState :=
  let st : BoardState := { st with zobrist := 0 }
  let st : BoardState :=
    allSquares.foldl
      (fun (acc : BoardState) s =>
        { acc with zobrist := acc.zobrist ^^^ Z.zKeys (acc.pieceAt s) s }) st
  let st : BoardState :=
    if st.sideToMove = BLACK then { st with zobrist := st.zobrist ^^^ Z.zSide } else st
  let st : BoardState := { st with zobrist := st.zobrist ^^^ Z.zCastle st.castling }
  if st.epSquare ≠ NO_SQ then
    { st with zobrist := st.zobrist ^^^ Z.zEP (st.epSquare.tmod 8) }
  else st

/-- The static function `charToPiece`. -/
def charToPiece (c : Char) : Nat :=
  if c = 'P' then 1 else if c = 'N' then 2 else if c = 'B' then 3
  else if c = 'R' then 4 else if c = 'Q' then 5 else if c = 'K' then 6
  else if c = 'p' then 7 else if c = 'n' then 8 else if c = 'b' then 9
  else if c = 'r' then 10 else if c = 'q' then 11 else if c = 'k' then 12
  else 0

/-- The static function `pieceToChar`, an index into `".PNBRQKpnbrqk"`. -/
def pieceToChar (pc : Nat) : Char :=
  ['.', 'P', 'N', 'B', 'R', 'Q', 'K', 'p', 'n', 'b', 'r', 'q', 'k'].getD pc (Char.ofNat 0)

/-- The C `isspace` in the default locale. -/
def isspace (c : Char) : Bool :=
  decide (c = ' ' ∨ (9 ≤ c.toNat ∧ c.toNat ≤ 13))

/-- One `ss >> token` on the rest of the stream: the token (empty when the extraction
fails) and the rest of the stream. -/
def readToken (cs : List Char) : List Char × List Char :=
  let cs := cs.dropWhile isspace
  (cs.takeWhile (fun c => !isspace c), cs.dropWhile (fun c => !isspace c))

/-- The library function `std::stoi` in base 10: `none` when it throws
(`invalid_argument` without a digit, `out_of_range` outside a 32-bit `int`). -/
def stoi (s : List Char) : Option Int :=
  let s := s.dropWhile isspace
  let neg : Bool := s.head? = some '-'
  let s := if s.head? = some '-' ∨ s.head? = some '+' then s.tail else s
  let ds := s.takeWhile Char.isDigit
  if ds = [] then none
  else
    let n : Nat := ds.foldl (fun a c => 10 * a + (c.toNat - 48)) 0
    let v : Int := if neg then -(n : Int) else (n : Int)
    if -2147483648 ≤ v ∧ v ≤ 2147483647 then some v else none

/-- The decimal digits of `n`, most significant first; `fuel` bounds the digit count. -/
def natDigits : Nat → Nat → List Char → List Char
  | 0, _, acc => acc
  | fuel + 1, n, acc =>
    let acc := Char.ofNat (48 + n % 10) :: acc
    if n / 10 = 0 then acc else natDigits fuel (n / 10) acc

/-- The library function `std::to_string(int)`. -/
def to_string (v : Int) : List Char :=
  if v < 0 then '-' :: natDigits (v.natAbs + 1) v.natAbs []
  else natDigits (v.natAbs + 1) v.natAbs []

/-- One iteration of the placement loop `for (char c : board)` of `loadFEN`, on the
squares and the cursor `sq`. -/
def placeChar (acc : (Fin 64 → Nat) × Int) (c : Char) : (Fin 64 → Nat) × Int :=
  if c = '/' then (acc.1, acc.2 - 16)
  else if c ≥ '1' ∧ c ≤ '8' then (acc.1, acc.2 + ((c.toNat : Int) - 48))
  else (setSq acc.1 acc.2 (charToPiece c), acc.2 + 1)

/-- One iteration of the loop `for (char c : castle)` of `loadFEN`. -/
def castleChar (cr : Nat) (c : Char) : Nat :=
  let cr := if c = 'K' then cr ||| 1 else cr
  let cr := if c = 'Q' then cr ||| 2 else cr
  let cr := if c = 'k' then cr ||| 4 else cr
  if c = 'q' then cr ||| 8 else cr

/-- The six `std::string`s filled by `ss >> board >> side >> castle >> ep >> hm >> fm`. -/
structure FenFields where
  board : List Char
  side : List Char
  castle : List Char
  ep : List Char
  hm : List Char
  fm : List Char

/-- The line `ss >> board >> side >> castle >> ep >> hm >> fm` of `loadFEN`. -/
def readFields (fen : List Char) : FenFields :=
  let r1 := readToken fen
  let r2 := readToken r1.2
  let r3 := readToken r2.2
  let r4 := readToken r3.2
  let r5 := readToken r4.2
  let r6 := readToken r5.2
  { board := r1.1, side := r2.1, castle := r3.1, ep := r4.1, hm := r5.1, fm := r6.1 }

/-- `Board::loadFEN` after the fields are read (lines 53-74); `none` when `std::stoi`
throws. -/
def loadFields (Z : ZobristKeys) (t : FenFields) : Option Board :=
  let st : BoardState := BoardState.init
  let st : BoardState := { st with squares := (t.board.foldl placeChar (st.squares, 56)).1 }
  let st : BoardState := { st with sideToMove := if t.side = ['w'] then WHITE else BLACK }
  let st : BoardState := { st with castling := 0 }
  let st : BoardState := { st with castling := t.castle.foldl castleChar st.castling }
  let st : BoardState :=
    if t.ep ≠ ['-'] then
      let f : Int := ((t.ep.getD 0 (Char.ofNat 0)).toNat : Int) - 97
      let r : Int := ((t.ep.getD 1 (Char.ofNat 0)).toNat : Int) - 49
      { st with epSquare := r * 8 + f }
    else st
  match (if t.hm = [] then some 0 else stoi t.hm),
      (if t.fm = [] then some 1 else stoi t.fm) with
  | some h, some f =>
    let st : BoardState := { st with halfmove := h }
    let st : BoardState := { st with fullmove := f }
    some { state := recomputeZobrist Z st, history := [], stateHistory := [] }
  | _, _ => none

/-- `Board::loadFEN` on the characters of the string; `none` when `std::stoi` throws. -/
def loadFENChars (Z : ZobristKeys) (fen : List Char) : Option Board :=
  loadFields Z (readFields fen)

/-- `Board::loadFEN`. -/
def loadFEN (Z : ZobristKeys) (fen : String) : Option Board :=
  loadFENChars Z fen.toList

/-- One iteration of the file loop of `toFEN`, on the output and the counter `empty`. -/
def fenFileStep (st : BoardState) (r : Int) (acc : List Char × Nat) (f : Int) :
    List Char × Nat :=
  let pc := st.pieceAt (r * 8 + f)
  if pc = 0 then (acc.1, acc.2 + 1)
  else
    ((if acc.2 ≠ 0 then acc.1 ++ [Char.ofNat (48 + acc.2)] else acc.1) ++ [pieceToChar pc], 0)

/-- One iteration of the rank loop of `toFEN`: the characters appended for rank `r`. -/
def fenRank (st : BoardState) (r : Int) : List Char :=
  let acc := [0, 1, 2, 3, 4, 5, 6, 7].foldl (fenFileStep st r) ([], 0)
  let out := if acc.2 ≠ 0 then acc.1 ++ [Char.ofNat (48 + acc.2)] else acc.1
  if r > 0 then out ++ ['/'] else out

/-- `Board::toFEN` as a list of characters. -/
def toFENChars (st : BoardState) : List Char :=
  let fen := [7, 6, 5, 4, 3, 2, 1, 0].flatMap (fenRank st)
  let fen := fen ++ (if st.sideToMove = WHITE then [' ', 'w', ' '] else [' ', 'b', ' '])
  let cas : List Char := []
  let cas := if st.castling &&& 1 ≠ 0 then cas ++ ['K'] else cas
  let cas := if st.castling &&& 2 ≠ 0 then cas ++ ['Q'] else cas
  let cas := if st.castling &&& 4 ≠ 0 then cas ++ ['k'] else cas
  let cas := if st.castling &&& 8 ≠ 0 then cas ++ ['q'] else cas
  let cas := if cas = [] then ['-'] else cas
  let fen := fen ++ cas ++ [' ']
  let fen :=
    if st.epSquare = NO_SQ then fen ++ ['-']
    else
      fen ++ [Char.ofNat (97 + st.epSquare.tmod 8).toNat,
              Char.ofNat (49 + st.epSquare.tdiv 8).toNat]
  fen ++ [' '] ++ to_string st.halfmove ++ [' '] ++ to_string st.fullmove

/-- `Board::toFEN`. -/
def toFEN (b : Board) : String :=
  String.mk (toFENChars b.state)

/-! ## MoveGen.cpp -/

/-- The loop `for (int p=0;p<4;p++) moves.push_back(Move(s,t,FLAG_PROMO,p))`. -/
def promoMoves (s t : Int) : List Move :=
  [0, 1, 2, 3].map (fun p => Move.new s t FLAG_PROMO p)

/-- The body of the capture loop `for (int df : {-1,1})` of `addPawnMoves`. -/
def pawnCaptureMoves (st : BoardState) (side : Color) (dir promoRank : Int) (s : Int)
    (df : Int) : List Move :=
  let f := s.tmod 8
  let tf := f + df
  if tf < 0 ∨ tf > 7 then []
  else
    let t := s + dir + df
    if t < 0 ∨ t > 63 then []
    else if t = st.epSquare then [Move.new s t FLAG_EP 0]
    else
      let cap := st.pieceAt t
      if cap ≠ 0 ∧ pieceColor cap ≠ side then
        if t.tdiv 8 = promoRank then promoMoves s t
        else [Move.new s t FLAG_NORMAL 0]
      else []

/-- The forward part of `addPawnMoves` for the pawn on `s`. -/
def pawnForwardMoves (st : BoardState) (dir startRank promoRank : Int) (s : Int) :
    List Move :=
  let r := s.tdiv 8
  let fwd := s + dir
  if fwd < 0 ∨ fwd > 63 then []
  else if st.pieceAt fwd = 0 then
    if fwd.tdiv 8 = promoRank then promoMoves s fwd
    else
      Move.new s fwd FLAG_NORMAL 0 ::
        (if r = startRank then
          let dbl := fwd + dir
          if st.pieceAt dbl = 0 then [Move.new s dbl FLAG_NORMAL 0] else []
        else [])
  else []

/-- The static function `addPawnMoves`: the moves it appends, in order. -/
def addPawnMoves (st : BoardState) (capturesOnly : Bool) : List Move :=
  let side := st.sideToMove
  let dir : Int := if side = WHITE then 8 else -8
  let startRank : Int := if side = WHITE then 1 else 6
  let promoRank : Int := if side = WHITE then 7 else 0
  let wP := makePiece WHITE PAWN
  let bP := makePiece BLACK PAWN
  let myPawn := if side = WHITE then wP else bP
  allSquares.flatMap (fun s =>
    if st.pieceAt s ≠ myPawn then []
    else
      [-1, 1].flatMap (pawnCaptureMoves st side dir promoRank s) ++
        (if capturesOnly then [] else pawnForwardMoves st dir startRank promoRank s))

/-- The body of the offset loop of `addKnightMoves`. -/
def knightMoveAt (st : BoardState) (side : Color) (capturesOnly : Bool) (s : Int)
    (o : Int) : List Move :=
  let sf := s.tmod 8
  let sr := s.tdiv 8
  let t := s + o
  if t < 0 ∨ t > 63 then []
  else
    let df := cabs (t.tmod 8 - sf)
    let dr := cabs (t.tdiv 8 - sr)
    if ¬ ((df = 1 ∧ dr = 2) ∨ (df = 2 ∧ dr = 1)) then []
    else
      let cap := st.pieceAt t
      if cap ≠ 0 ∧ pieceColor cap = side then []
      else if capturesOnly = true ∧ ¬ (cap ≠ 0) then []
      else [Move.new s t FLAG_NORMAL 0]

/-- The static function `addKnightMoves`. -/
def addKnightMoves (st : BoardState) (capturesOnly : Bool) : List Move :=
  let side := st.sideToMove
  let myN := makePiece side KNIGHT
  allSquares.flatMap (fun s =>
    if st.pieceAt s ≠ myN then []
    else [-17, -15, -10, -6, 6, 10, 15, 17].flatMap (knightMoveAt st side capturesOnly s))

/-- The `while (true)` loop of `addSliding` over one rook direction `d` from `s`;
`t` is the loop variable. -/
def rookRayMoves (st : BoardState) (side : Color) (capturesOnly : Bool) (s d : Int) :
    Nat → Int → List Move
  | 0, _ => []
  | fuel + 1, t =>
    let nt := t + d
    if nt < 0 ∨ nt > 63 then []
    else if d = 1 ∧ nt.tmod 8 = 0 then []
    else if d = -1 ∧ nt.tmod 8 = 7 then []
    else if cabs d = 1 ∧ nt.tdiv 8 ≠ s.tdiv 8 then []
    else
      let cap := st.pieceAt nt
      if cap ≠ 0 ∧ pieceColor cap = side then []
      else
        (if capturesOnly = false ∨ cap ≠ 0 then [Move.new s nt FLAG_NORMAL 0] else []) ++
          (if cap ≠ 0 then [] else rookRayMoves st side capturesOnly s d fuel nt)

/-- The `while (true)` loop of `addSliding` over one bishop direction `d` from `s`. -/
def bishopRayMoves (st : BoardState) (side : Color) (capturesOnly : Bool) (s d : Int) :
    Nat → Int → List Move
  | 0, _ => []
  | fuel + 1, t =>
    let nt := t + d
    if nt < 0 ∨ nt > 63 then []
    else
      let df := cabs (nt.tmod 8 - t.tmod 8)
      if df ≠ 1 then []
      else
        let cap := st.pieceAt nt
        if cap ≠ 0 ∧ pieceColor cap = side then []
        else
          (if capturesOnly = false ∨ cap ≠ 0 then [Move.new s nt FLAG_NORMAL 0] else []) ++
            (if cap ≠ 0 then [] else bishopRayMoves st side capturesOnly s d fuel nt)

/-- The static function `addSliding`. -/
def addSliding (st : BoardState) (capturesOnly : Bool) : List Move :=
  let side := st.sideToMove
  allSquares.flatMap (fun s =>
    let pc := st.pieceAt s
    if pc = 0 ∨ pieceColor pc ≠ side then []
    else
      let pt := pieceType pc
      if pt ≠ ROOK ∧ pt ≠ BISHOP ∧ pt ≠ QUEEN then []
      else
        let isRook : Bool := pt = ROOK ∨ pt = QUEEN
        let isBish : Bool := pt = BISHOP ∨ pt = QUEEN
        (if isRook then
          [1, -1, 8, -8].flatMap (fun d => rookRayMoves st side capturesOnly s d 64 s)
        else []) ++
        (if isBish then
          [9, -9, 7, -7].flatMap (fun d => bishopRayMoves st side capturesOnly s d 64 s)
        else []))

/-- The body of the offset loop of `addKingMoves`. -/
def kingMoveAt (st : BoardState) (side : Color) (capturesOnly : Bool) (s : Int)
    (o : Int) : List Move :=
  let sf := s.tmod 8
  let sr := s.tdiv 8
  let t := s + o
  if t < 0 ∨ t > 63 then []
  else if cabs (t.tmod 8 - sf) > 1 ∨ cabs (t.tdiv 8 - sr) > 1 then []
  else
    let cap := st.pieceAt t
    if cap ≠ 0 ∧ pieceColor cap = side then []
    else if capturesOnly = true ∧ ¬ (cap ≠ 0) then []
    else [Move.new s t FLAG_NORMAL 0]

/-- The castling part of `addKingMoves`. -/
def castleMoves (st : BoardState) (side : Color) : List Move :=
  let opp := if side = WHITE then BLACK else WHITE
  let cr := st.castling
  if side = WHITE then
    (if cr &&& 1 ≠ 0 ∧ st.pieceAt 5 = 0 ∧ st.pieceAt 6 = 0 ∧
        isSquareAttacked st 4 opp = false ∧ isSquareAttacked st 5 opp = false ∧
        isSquareAttacked st 6 opp = false then
      [Move.new 4 6 FLAG_CASTLE 0] else []) ++
    (if cr &&& 2 ≠ 0 ∧ st.pieceAt 3 = 0 ∧ st.pieceAt 2 = 0 ∧ st.pieceAt 1 = 0 ∧
        isSquareAttacked st 4 opp = false ∧ isSquareAttacked st 3 opp = false ∧
        isSquareAttacked st 2 opp = false then
      [Move.new 4 2 FLAG_CASTLE 0] else [])
  else
    (if cr &&& 4 ≠ 0 ∧ st.pieceAt 61 = 0 ∧ st.pieceAt 62 = 0 ∧
        isSquareAttacked st 60 opp = false ∧ isSquareAttacked st 61 opp = false ∧
        isSquareAttacked st 62 opp = false then
      [Move.new 60 62 FLAG_CASTLE 0] else []) ++
    (if cr &&& 8 ≠ 0 ∧ st.pieceAt 59 = 0 ∧ st.pieceAt 58 = 0 ∧ st.pieceAt 57 = 0 ∧
        isSquareAttacked st 60 opp = false ∧ isSquareAttacked st 59 opp = false ∧
        isSquareAttacked st 58 opp = false then
      [Move.new 60 58 FLAG_CASTLE 0] else [])

/-- The static function `addKingMoves`. -/
def addKingMoves (st : BoardState) (capturesOnly : Bool) : List Move :=
  let side := st.sideToMove
  let myK := makePiece side KING
  allSquares.flatMap (fun s =>
    if st.pieceAt s ≠ myK then []
    else
      [-9, -8, -7, -1, 1, 7, 8, 9].flatMap (kingMoveAt st side capturesOnly s) ++
        (if capturesOnly then [] else castleMoves st side))

/-- `MoveGen::generateMoves`. -/
def generateMoves (b : Board) : List Move :=
  addPawnMoves b.state false ++ addKnightMoves b.state false ++
    addSliding b.state false ++ addKingMoves b.state false

/-- `MoveGen::generateCaptures`. -/
def generateCaptures (b : Board) : List Move :=
  addPawnMoves b.state true ++ addKnightMoves b.state true ++
    addSliding b.state true ++ addKingMoves b.state true

/-- One iteration of the loop of `generateLegalMoves`: the list `legal` and the board. -/
def legalStep (Z : ZobristKeys) (acc : List Move × Board) (m : Move) : List Move × Board :=
  let r := makeMove Z acc.2 m
  if r.2 = true then (acc.1 ++ [m], unmakeMove r.1) else (acc.1, r.1)

/-- `MoveGen::generateLegalMoves`: the returned vector and the board afterwards. -/
def generateLegalMoves (Z : ZobristKeys) (b : Board) : List Move × Board :=
  (generateMoves b).foldl (legalStep Z) ([], b)

/-- `MoveGen::perft`: the returned `uint64_t` and the board afterwards. -/
def perft (Z : ZobristKeys) : Board → Nat → Nat × Board
  | b, 0 => (1, b)
  | b, depth + 1 =>
    (generateMoves b).foldl
      (fun (acc : Nat × Board) m =>
        let r := makeMove Z acc.2 m
        if r.2 = true then
          let p := perft Z r.1 depth
          ((acc.1 + p.1) % 18446744073709551616, unmakeMove p.2)
        else (acc.1, r.1))
      (0, b)

/-! ## Auxiliary definitions -/


/-- The legality test of `makeMove` on the state alone. -/
def leavesInCheck (Z : ZobristKeys) (st : BoardState) (m : Move) : Bool :=
  isInCheck (applyMove Z st m)
    (if (applyMove Z st m).sideToMove = WHITE then BLACK else WHITE)

/-- A key table used for concrete instances. -/
def sampleKeys : ZobristKeys where
  zKeys := fun pc s => 1 + pc * 64 + s.toNat
  zSide := 1000
  zCastle := fun c => 2000 + c
  zEP := fun f => 3000 + f.toNat

/-- The board after `loadFEN`, or the empty board when `loadFEN` throws. -/
def boardOfFEN (Z : ZobristKeys) (fen : String) : Board :=
  (loadFEN Z fen).getD { state := BoardState.init, history := [], stateHistory := [] }

/-- The to-square of a generated move that is neither a castle nor en passant: empty, or
an enemy piece on a square the side to move attacks. -/
def TargetOK (st : BoardState) (t : Int) : Prop :=
  st.pieceAt t = 0 ∨
    (st.pieceAt t ≠ 0 ∧ pieceColor (st.pieceAt t) ≠ st.sideToMove ∧
      isSquareAttacked st t st.sideToMove = true)

/-- The conditions under which `addKingMoves` emits the castle move `s -> t`. -/
def CastleOK (st : BoardState) (s t : Int) : Prop :=
  (st.sideToMove = WHITE ∧ s = 4 ∧
    ((t = 6 ∧ st.castling &&& 1 ≠ 0 ∧ st.pieceAt 5 = 0 ∧ st.pieceAt 6 = 0 ∧
        isSquareAttacked st 4 BLACK = false ∧ isSquareAttacked st 5 BLACK = false ∧
        isSquareAttacked st 6 BLACK = false) ∨
     (t = 2 ∧ st.castling &&& 2 ≠ 0 ∧ st.pieceAt 3 = 0 ∧ st.pieceAt 2 = 0 ∧
        st.pieceAt 1 = 0 ∧
        isSquareAttacked st 4 BLACK = false ∧ isSquareAttacked st 3 BLACK = false ∧
        isSquareAttacked st 2 BLACK = false))) ∨
  (st.sideToMove = BLACK ∧ s = 60 ∧
    ((t = 62 ∧ st.castling &&& 4 ≠ 0 ∧ st.pieceAt 61 = 0 ∧ st.pieceAt 62 = 0 ∧
        isSquareAttacked st 60 WHITE = false ∧ isSquareAttacked st 61 WHITE = false ∧
        isSquareAttacked st 62 WHITE = false) ∨
     (t = 58 ∧ st.castling &&& 8 ≠ 0 ∧ st.pieceAt 59 = 0 ∧ st.pieceAt 58 = 0 ∧
        st.pieceAt 57 = 0 ∧
        isSquareAttacked st 60 WHITE = false ∧ isSquareAttacked st 59 WHITE = false ∧
        isSquareAttacked st 58 WHITE = false)))

/-- The square of the pawn taken by an en passant capture onto `t`:
`to + (sideToMove==WHITE?-8:8)`. -/
def epCapSq (st : BoardState) (t : Int) : Int :=
  t + (if st.sideToMove = WHITE then -8 else 8)

/-- What holds of every move of `generateMoves`: it is `Move(s, t, fl, p)` for two
different squares of the board, and by its flag
* Normal: `s` holds a piece of the side to move and `t` is empty or an attacked enemy piece;
* Promotion: `s` holds a pawn of the side to move, `t` as for Normal;
* EnPassant: `s` holds a pawn of the side to move, `t` is the ep square and the square
  behind it is on the board and differs from `s` and `t`;
* Castle: the castling conditions hold. -/
def GenFacts (st : BoardState) (m : Move) : Prop :=
  ∃ (s t : Int) (fl p : Nat), m = Move.new s t fl p ∧
    0 ≤ s ∧ s < 64 ∧ 0 ≤ t ∧ t < 64 ∧ s ≠ t ∧
    ((fl = FLAG_NORMAL ∧ p = 0 ∧ st.pieceAt s ≠ 0 ∧
        pieceColor (st.pieceAt s) = st.sideToMove ∧ TargetOK st t) ∨
     (fl = FLAG_PROMO ∧ p ≤ 3 ∧ st.pieceAt s = makePiece st.sideToMove PAWN ∧
        TargetOK st t) ∨
     (fl = FLAG_EP ∧ p = 0 ∧ st.pieceAt s = makePiece st.sideToMove PAWN ∧
        t = st.epSquare ∧ 0 ≤ epCapSq st t ∧ epCapSq st t < 64 ∧
        epCapSq st t ≠ s ∧ epCapSq st t ≠ t) ∨
     (fl = FLAG_CASTLE ∧ p = 0 ∧ CastleOK st s t))

/-- The loop tests of `addSliding` on a rook-direction square `x`. -/
def RookStepOK (s d x : Int) : Prop :=
  ¬ (x < 0 ∨ x > 63) ∧ ¬ (d = 1 ∧ x.tmod 8 = 0) ∧ ¬ (d = -1 ∧ x.tmod 8 = 7) ∧
    ¬ (cabs d = 1 ∧ x.tdiv 8 ≠ s.tdiv 8)

/-- The loop tests of `addSliding` on a bishop-direction step from `a` to `b`. -/
def BishopStepOK (a b : Int) : Prop :=
  ¬ (b < 0 ∨ b > 63) ∧ ¬ (cabs (b.tmod 8 - a.tmod 8) ≠ 1)

/-- The rook's from-square in `makeMove`'s castle branch. -/
def castleRookFrom (side : Color) (to_ : Int) : Int :=
  if to_ = 6 ∨ to_ = 62 then (if side = WHITE then 7 else 63)
  else (if side = WHITE then 0 else 56)

/-- The rook's to-square in `makeMove`'s castle branch. -/
def castleRookTo (side : Color) (to_ : Int) : Int :=
  if to_ = 6 ∨ to_ = 62 then (if side = WHITE then 5 else 61)
  else (if side = WHITE then 3 else 59)

/-- The piece `makeMove` puts on the to-square. -/
def placedPiece (st : BoardState) (m : Move) : Nat :=
  if m.flags = FLAG_PROMO then
    makePiece st.sideToMove ([KNIGHT, BISHOP, ROOK, QUEEN].getD m.promo 0)
  else st.pieceAt m.from_

/-- The test `pieceType(pc)==PAWN && abs(to-from)==16` of `makeMove`. -/
def isDoublePush (st : BoardState) (m : Move) : Prop :=
  pieceType (st.pieceAt m.from_) = PAWN ∧ cabs (m.to_ - m.from_) = 16

instance (st : BoardState) (m : Move) : Decidable (isDoublePush st m) := by
  unfold isDoublePush; infer_instance

/-- The key recomputed from scratch: the XOR of the piece-square key of every square,
the side key if Black is to move, the castling-mask key, and the ep-file key if an ep
square is set. -/
def hashOf (Z : ZobristKeys) (st : BoardState) : Nat :=
  allSquares.foldl (fun h s => h ^^^ Z.zKeys (st.pieceAt s) s) 0
    ^^^ (if st.sideToMove = BLACK then Z.zSide else 0)
    ^^^ Z.zCastle st.castling
    ^^^ (if st.epSquare ≠ NO_SQ then Z.zEP (st.epSquare.tmod 8) else 0)

/-- The stored key agrees with `recomputeZobrist`. -/
def ZobristOK (Z : ZobristKeys) (st : BoardState) : Prop :=
  st.zobrist = (recomputeZobrist Z st).zobrist

/-- The XOR of the piece-square keys of the 64 squares. -/
def pieceKeySum (Z : ZobristKeys) (q : Fin 64 → Nat) : Nat :=
  allSquares.foldl (fun h s => h ^^^ Z.zKeys (sqAt q s) s) 0

/-- `Board::countPiece`. -/
def countPiece (st : BoardState) (c : Color) (p : Nat) : Nat :=
  let pc := makePiece c p
  allSquares.foldl (fun cnt s => if st.pieceAt s = pc then cnt + 1 else cnt) 0

/-- Exactly one king of each colour is on the board. -/
def OneKingEach (st : BoardState) : Prop :=
  countPiece st WHITE KING = 1 ∧ countPiece st BLACK KING = 1

/-- The ep square, if set, is empty and the square behind it (from the side to move)
holds a pawn of the other colour. -/
def EpSquareOK (st : BoardState) : Prop :=
  st.epSquare ≠ NO_SQ →
    st.pieceAt st.epSquare = 0 ∧
    st.pieceAt (epCapSq st st.epSquare) = makePiece (opposite st.sideToMove) PAWN

/-- The number of squares of the array holding the code `k`. -/
def countSq (k : Nat) (q : Fin 64 → Nat) : Nat :=
  allSquares.foldl (fun cnt s => if sqAt q s = k then cnt + 1 else cnt) 0

/-! ## FEN round trip: auxiliary definitions -/

/-- The digit loop of `std::stoi`. -/
def parseDigits (ds : List Char) (a : Nat) : Nat :=
  ds.foldl (fun a c => 10 * a + (c.toNat - 48)) a

/-- The squares written once the placement parser has read ranks above `r` and the
first `f` files of rank `r` of the array `Q`. -/
def rankBoard (Q : Fin 64 → Nat) (r f : Int) : Fin 64 → Nat :=
  fun j => if (8 * r ≤ (j.val : Int) ∧ (j.val : Int) < 8 * r + f) ∨ 8 * (r + 1) ≤ (j.val : Int)
    then Q j else 0

/-- The invariant of the file loop of `toFEN` against the placement parser. -/
def FileInv (Q : Fin 64 → Nat) (r f : Int) (acc : List Char × Nat) : Prop :=
  (acc.2 : Int) ≤ f ∧
    acc.1.foldl placeChar (rankBoard Q r 0, 8 * r) = (rankBoard Q r f, 8 * r + f - acc.2) ∧
    (∀ c ∈ acc.1, isspace c = false) ∧ (acc.1 = [] → (acc.2 : Int) = f)

/-- The castling field of `toFEN`. -/
def fenCastling (cr : Nat) : List Char :=
  let cas : List Char := []
  let cas := if cr &&& 1 ≠ 0 then cas ++ ['K'] else cas
  let cas := if cr &&& 2 ≠ 0 then cas ++ ['Q'] else cas
  let cas := if cr &&& 4 ≠ 0 then cas ++ ['k'] else cas
  let cas := if cr &&& 8 ≠ 0 then cas ++ ['q'] else cas
  if cas = [] then ['-'] else cas

/-- The ep field of `toFEN`. -/
def fenEp (ep : Int) : List Char :=
  if ep = NO_SQ then ['-']
  else [Char.ofNat (97 + ep.tmod 8).toNat, Char.ofNat (49 + ep.tdiv 8).toNat]

/-- The position can be written by `toFEN` and read back: piece codes `0..12`, castling
mask `0..15`, ep square unset or on the board, and clocks that are non-negative 32-bit
`int`s. -/
def FenWellFormed (st : BoardState) : Prop :=
  (∀ j, st.squares j ≤ 12) ∧ st.castling ≤ 15 ∧
    (st.epSquare = NO_SQ ∨ (0 ≤ st.epSquare ∧ st.epSquare < 64)) ∧
    (0 ≤ st.halfmove ∧ st.halfmove ≤ 2147483647) ∧
    (0 ≤ st.fullmove ∧ st.fullmove ≤ 2147483647)

/-! ## A packed board for evaluation

The functions below repeat `isSquareAttacked`, `isInCheck`, `makeMove`, `generateMoves`
and `perft` on a board packed into one natural number, with squares as natural numbers.
They are written with the recursors and the binary operations of `Nat` only, and are
proved equal to the functions above before they are evaluated. -/

/-- A position reduced to what move generation reads: the 64 squares packed four bits
each, whether White is to move, the castling mask and the ep square (64 for none). -/
structure FPos where
  q : Nat
  w : Bool
  cr : Nat
  ep : Nat

/-- The conditional, on the recursor. -/
def bsel {α : Type} (b : Bool) (x y : α) : α := @Bool.rec (fun _ => α) y x b

/-- The conjunction, on the recursor. -/
def band (a b : Bool) : Bool := @Bool.rec (fun _ => Bool) false b a

/-- The disjunction, on the recursor. -/
def bor (a b : Bool) : Bool := @Bool.rec (fun _ => Bool) b true a

/-- The negation, on the recursor. -/
def bnot (a : Bool) : Bool := @Bool.rec (fun _ => Bool) true false a

/-- Whether `t` is a square. -/
def lt64 (t : Nat) : Bool := Nat.ble t 63

/-- The packed read of square `s`. -/
def fget (q s : Nat) : Nat := Nat.land (Nat.shiftRight q (Nat.mul 4 s)) 15

/-- The packed write of `v` to square `s`. -/
def fset (q s v : Nat) : Nat :=
  Nat.xor q (Nat.shiftLeft (Nat.xor (fget q s) v) (Nat.mul 4 s))

/-- The square `s + d` or `s - d`, and 64 when that is below 0. -/
def fadd (s : Nat) (up : Bool) (d : Nat) : Nat :=
  bsel up (Nat.add s d) (bsel (Nat.ble d s) (Nat.sub s d) 64)

/-- The absolute difference. -/
def adiff (a b : Nat) : Nat := Nat.add (Nat.sub a b) (Nat.sub b a)

/-- The packed move with fields in range. -/
def fmk (s t fl p : Nat) : Move :=
  ⟨Nat.add s (Nat.add (Nat.mul 64 t) (Nat.add (Nat.mul 4096 fl) (Nat.mul 16384 p)))⟩

/-- The piece code of colour `w` (true for White) and type `p`. -/
def fpc (w : Bool) (p : Nat) : Nat := bsel w p (Nat.add p 6)

/-- Whether the non-empty piece code is of colour `w`. -/
def fown (w : Bool) (pc : Nat) : Bool := bsel w (Nat.ble pc 6) (Nat.ble 7 pc)

/-- The king test of `isSquareAttacked` at offset `+d` or `-d`. -/
def fkingAt (q s k : Nat) (up : Bool) (d : Nat) : Bool :=
  let t := fadd s up d
  band (lt64 t) (band (Nat.beq (fget q t) k)
    (band (Nat.ble (adiff (Nat.land t 7) (Nat.land s 7)) 1)
      (Nat.ble (adiff (Nat.shiftRight t 3) (Nat.shiftRight s 3)) 1)))

/-- The knight test of `isSquareAttacked`. -/
def fknightAt (q s k : Nat) (up : Bool) (d : Nat) : Bool :=
  let t := fadd s up d
  band (lt64 t) (band (Nat.beq (fget q t) k)
    (bor (Nat.beq (adiff (Nat.land t 7) (Nat.land s 7)) 1)
      (Nat.beq (adiff (Nat.land t 7) (Nat.land s 7)) 2)))

/-- The pawn test of `isSquareAttacked`. -/
def fpawnAt (q s k : Nat) (t : Nat) : Bool :=
  band (lt64 t) (band (Nat.beq (fget q t) k)
    (Nat.beq (adiff (Nat.land t 7) (Nat.land s 7)) 1))

/-- The rook loop of `isSquareAttacked`; `wr` is the file at which the ray has wrapped. -/
def frookRay (q a b : Nat) (up : Bool) (d wr : Nat) (fuel : Nat) : Nat → Bool :=
  @Nat.rec (fun _ => Nat → Bool) (fun _ => false)
    (fun _ ih t =>
      band (lt64 t) (band (bnot (Nat.beq (Nat.land t 7) wr))
        (bsel (Nat.beq (fget q t) 0) (ih (fadd t up d))
          (bor (Nat.beq (fget q t) a) (Nat.beq (fget q t) b)))))
    fuel

/-- The bishop loop of `isSquareAttacked`. -/
def fbishopRay (q a b sf sr : Nat) (up : Bool) (d : Nat) (fuel : Nat) : Nat → Bool :=
  @Nat.rec (fun _ => Nat → Bool) (fun _ => false)
    (fun _ ih t =>
      band (lt64 t)
        (band (Nat.beq (adiff (Nat.land t 7) sf) (adiff (Nat.shiftRight t 3) sr))
          (bsel (Nat.beq (fget q t) 0) (ih (fadd t up d))
            (bor (Nat.beq (fget q t) a) (Nat.beq (fget q t) b)))))
    fuel

/-- The king loop of `isSquareAttacked`. -/
def fkingAtk (q s k : Nat) : Bool :=
  bor (fkingAt q s k false 9) (bor (fkingAt q s k false 8) (bor (fkingAt q s k false 7)
    (bor (fkingAt q s k false 1) (bor (fkingAt q s k true 1) (bor (fkingAt q s k true 7)
      (bor (fkingAt q s k true 8) (fkingAt q s k true 9)))))))

/-- The knight loop of `isSquareAttacked`. -/
def fknightAtk (q s k : Nat) : Bool :=
  bor (fknightAt q s k false 17) (bor (fknightAt q s k false 15)
    (bor (fknightAt q s k false 10) (bor (fknightAt q s k false 6)
      (bor (fknightAt q s k true 6) (bor (fknightAt q s k true 10)
        (bor (fknightAt q s k true 15) (fknightAt q s k true 17)))))))

/-- The pawn tests of `isSquareAttacked`. -/
def fpawnAtk (q s : Nat) (w : Bool) : Bool :=
  bsel w (bor (fpawnAt q s 1 (fadd s false 7)) (fpawnAt q s 1 (fadd s false 9)))
    (bor (fpawnAt q s 7 (fadd s true 7)) (fpawnAt q s 7 (fadd s true 9)))

/-- The rook loops of `isSquareAttacked`. -/
def frookAtk (q s a b : Nat) : Bool :=
  bor (frookRay q a b true 1 0 64 (fadd s true 1))
    (bor (frookRay q a b false 1 7 64 (fadd s false 1))
      (bor (frookRay q a b true 8 8 64 (fadd s true 8))
        (frookRay q a b false 8 8 64 (fadd s false 8))))

/-- The bishop loops of `isSquareAttacked`. -/
def fbishopAtk (q s a b : Nat) : Bool :=
  bor (fbishopRay q a b (Nat.land s 7) (Nat.shiftRight s 3) true 9 64 (fadd s true 9))
    (bor (fbishopRay q a b (Nat.land s 7) (Nat.shiftRight s 3) false 9 64 (fadd s false 9))
      (bor (fbishopRay q a b (Nat.land s 7) (Nat.shiftRight s 3) true 7 64 (fadd s true 7))
        (fbishopRay q a b (Nat.land s 7) (Nat.shiftRight s 3) false 7 64
          (fadd s false 7))))

/-- The packed `isSquareAttacked`; `w` is true when White attacks. -/
def fattacked (q s : Nat) (w : Bool) : Bool :=
  bor (fkingAtk q s (fpc w 6)) (bor (fknightAtk q s (fpc w 2)) (bor (fpawnAtk q s w)
    (bor (frookAtk q s (fpc w 4) (fpc w 5)) (fbishopAtk q s (fpc w 3) (fpc w 5)))))

/-- The first of the last `n` squares that holds `k`, or 64. -/
def ffind (q k : Nat) (n : Nat) : Nat :=
  @Nat.rec (fun _ => Nat) 64
    (fun j ih => bsel (Nat.beq (fget q (Nat.sub 63 j)) k) (Nat.sub 63 j) ih) n

/-- The packed `isInCheck`; `w` is true for White's king. -/
def fcheck (q : Nat) (w : Bool) : Bool :=
  let ks := ffind q (fpc w 6) 64
  bsel (Nat.beq ks 64) false (fattacked q ks (bnot w))

/-- One `castling &= ~k` of `makeMove`, made when `from` or `to` is `c`. -/
def fmask (cr fr to_ c k : Nat) : Nat :=
  bsel (bor (Nat.beq fr c) (Nat.beq to_ c)) (Nat.land cr k) cr

/-- The new castling mask of `makeMove`. -/
def fcastling (cr fr to_ : Nat) : Nat :=
  fmask (fmask (fmask (fmask (fmask (fmask cr fr to_ 4 4294967292) fr to_ 60 4294967283)
    fr to_ 0 4294967293) fr to_ 7 4294967294) fr to_ 56 4294967287) fr to_ 63 4294967291

/-- The squares after the en passant or castle branch of `makeMove`. -/
def fspecial (q : Nat) (w : Bool) (fl to_ : Nat) : Nat :=
  bsel (Nat.beq fl 2)
    (bsel (lt64 (fadd to_ (bnot w) 8)) (fset q (fadd to_ (bnot w) 8) 0) q)
    (bsel (Nat.beq fl 1)
      (bsel (bor (Nat.beq to_ 6) (Nat.beq to_ 62))
        (bsel w (fset (fset q 7 0) 5 (fget q 7)) (fset (fset q 63 0) 61 (fget q 63)))
        (bsel w (fset (fset q 0 0) 3 (fget q 0)) (fset (fset q 56 0) 59 (fget q 56))))
      q)

/-- The packed `applyMove`, from the fields of the move. -/
def fapplyAt (p : FPos) (fr to_ fl pr : Nat) : FPos :=
  { q := fset (fset (fspecial p.q p.w fl to_) fr 0) to_
      (bsel (Nat.beq fl 3) (fpc p.w (Nat.add pr 2)) (fget p.q fr))
    w := bnot p.w
    cr := fcastling p.cr fr to_
    ep := bsel (band (bor (Nat.beq (fget p.q fr) 1) (Nat.beq (fget p.q fr) 7))
        (Nat.beq (adiff to_ fr) 16)) (Nat.shiftRight (Nat.add fr to_) 1) 64 }

/-- The packed `applyMove`. -/
def fapply (p : FPos) (m : Move) : FPos :=
  fapplyAt p (Nat.land m.data 63) (Nat.land (Nat.shiftRight m.data 6) 63)
    (Nat.land (Nat.shiftRight m.data 12) 3) (Nat.land (Nat.shiftRight m.data 14) 3)

/-- The four promotion moves, put before `rest`. -/
def fpromo (s t : Nat) (rest : List Move) : List Move :=
  fmk s t 3 0 :: fmk s t 3 1 :: fmk s t 3 2 :: fmk s t 3 3 :: rest

/-- The capture of `addPawnMoves` to the square `t`, when the file test `ok` passed. -/
def fpawnCap (p : FPos) (s : Nat) (ok : Bool) (t : Nat) (rest : List Move) : List Move :=
  bsel (band ok (lt64 t))
    (bsel (Nat.beq t p.ep) (fmk s t 2 0 :: rest)
      (bsel (band (bnot (Nat.beq (fget p.q t) 0)) (bnot (fown p.w (fget p.q t))))
        (bsel (Nat.beq (Nat.shiftRight t 3) (bsel p.w 7 0)) (fpromo s t rest)
          (fmk s t 0 0 :: rest))
        rest))
    rest

/-- The forward part of `addPawnMoves`. -/
def fpawnFwd (p : FPos) (s : Nat) (rest : List Move) : List Move :=
  let fwd := fadd s p.w 8
  bsel (band (lt64 fwd) (Nat.beq (fget p.q fwd) 0))
    (bsel (Nat.beq (Nat.shiftRight fwd 3) (bsel p.w 7 0)) (fpromo s fwd rest)
      (fmk s fwd 0 0 ::
        bsel (band (Nat.beq (Nat.shiftRight s 3) (bsel p.w 1 6))
            (Nat.beq (fget p.q (fadd fwd p.w 8)) 0))
          (fmk s (fadd fwd p.w 8) 0 0 :: rest) rest))
    rest

/-- The loop `for (int s=0;s<64;s++)` with body `f`, put before `rest`. -/
def fpass (f : Nat → List Move → List Move) (rest : List Move) (n : Nat) : List Move :=
  @Nat.rec (fun _ => List Move) rest (fun j ih => f (Nat.sub 63 j) ih) n

/-- The packed `addPawnMoves`. -/
def fpawns (p : FPos) (rest : List Move) : List Move :=
  fpass (fun s r =>
    bsel (Nat.beq (fget p.q s) (fpc p.w 1))
      (fpawnCap p s (Nat.ble 1 (Nat.land s 7)) (bsel p.w (Nat.add s 7) (fadd s false 9))
        (fpawnCap p s (Nat.ble (Nat.land s 7) 6) (bsel p.w (Nat.add s 9) (fadd s false 7))
          (fpawnFwd p s r)))
      r) rest 64

/-- The body of the offset loop of `addKnightMoves`. -/
def fknightMove (p : FPos) (s : Nat) (up : Bool) (d : Nat) (rest : List Move) : List Move :=
  let t := fadd s up d
  let df := adiff (Nat.land t 7) (Nat.land s 7)
  let dr := adiff (Nat.shiftRight t 3) (Nat.shiftRight s 3)
  bsel (band (lt64 t) (band (bor (band (Nat.beq df 1) (Nat.beq dr 2))
      (band (Nat.beq df 2) (Nat.beq dr 1)))
      (bor (Nat.beq (fget p.q t) 0) (bnot (fown p.w (fget p.q t))))))
    (fmk s t 0 0 :: rest) rest

/-- The packed `addKnightMoves`. -/
def fknights (p : FPos) (rest : List Move) : List Move :=
  fpass (fun s r =>
    bsel (Nat.beq (fget p.q s) (fpc p.w 2))
      (fknightMove p s false 17 (fknightMove p s false 15 (fknightMove p s false 10
        (fknightMove p s false 6 (fknightMove p s true 6 (fknightMove p s true 10
          (fknightMove p s true 15 (fknightMove p s true 17 r))))))))
      r) rest 64

/-- The rook loop of `addSliding`. -/
def frookMoves (p : FPos) (s sr : Nat) (up : Bool) (d wr : Nat) (rest : List Move)
    (fuel : Nat) : Nat → List Move :=
  @Nat.rec (fun _ => Nat → List Move) (fun _ => rest)
    (fun _ ih t =>
      let nt := fadd t up d
      bsel (band (lt64 nt) (band (bnot (Nat.beq (Nat.land nt 7) wr))
          (bor (bnot (Nat.beq d 1)) (Nat.beq (Nat.shiftRight nt 3) sr))))
        (bsel (Nat.beq (fget p.q nt) 0) (fmk s nt 0 0 :: ih nt)
          (bsel (fown p.w (fget p.q nt)) rest (fmk s nt 0 0 :: rest)))
        rest)
    fuel

/-- The bishop loop of `addSliding`. -/
def fbishopMoves (p : FPos) (s : Nat) (up : Bool) (d : Nat) (rest : List Move)
    (fuel : Nat) : Nat → List Move :=
  @Nat.rec (fun _ => Nat → List Move) (fun _ => rest)
    (fun _ ih t =>
      let nt := fadd t up d
      bsel (band (lt64 nt) (Nat.beq (adiff (Nat.land nt 7) (Nat.land t 7)) 1))
        (bsel (Nat.beq (fget p.q nt) 0) (fmk s nt 0 0 :: ih nt)
          (bsel (fown p.w (fget p.q nt)) rest (fmk s nt 0 0 :: rest)))
        rest)
    fuel

/-- The moves of the rook directions from `s`. -/
def frookAll (p : FPos) (s : Nat) (rest : List Move) : List Move :=
  frookMoves p s (Nat.shiftRight s 3) true 1 0
    (frookMoves p s (Nat.shiftRight s 3) false 1 7
      (frookMoves p s (Nat.shiftRight s 3) true 8 8
        (frookMoves p s (Nat.shiftRight s 3) false 8 8 rest 64 s) 64 s) 64 s) 64 s

/-- The moves of the bishop directions from `s`. -/
def fbishopAll (p : FPos) (s : Nat) (rest : List Move) : List Move :=
  fbishopMoves p s true 9 (fbishopMoves p s false 9 (fbishopMoves p s true 7
    (fbishopMoves p s false 7 rest 64 s) 64 s) 64 s) 64 s

/-- The packed `addSliding`. -/
def fsliding (p : FPos) (rest : List Move) : List Move :=
  fpass (fun s r =>
    let pt := bsel p.w (fget p.q s) (Nat.sub (fget p.q s) 6)
    bsel (Nat.beq pt 4) (frookAll p s r)
      (bsel (Nat.beq pt 3) (fbishopAll p s r)
        (bsel (Nat.beq pt 5) (frookAll p s (fbishopAll p s r)) r))) rest 64

/-- The body of the offset loop of `addKingMoves`. -/
def fkingMove (p : FPos) (s : Nat) (up : Bool) (d : Nat) (rest : List Move) : List Move :=
  let t := fadd s up d
  bsel (band (lt64 t) (band (Nat.ble (adiff (Nat.land t 7) (Nat.land s 7)) 1)
      (band (Nat.ble (adiff (Nat.shiftRight t 3) (Nat.shiftRight s 3)) 1)
        (bor (Nat.beq (fget p.q t) 0) (bnot (fown p.w (fget p.q t)))))))
    (fmk s t 0 0 :: rest) rest

/-- One castle of `addKingMoves`: right bit `bit`, empty squares `e1 e2 e3`, squares
`a1 a2 a3` not attacked. -/
def fcastle1 (p : FPos) (bit e1 e2 e3 a1 a2 a3 : Nat) (m : Move) (rest : List Move) :
    List Move :=
  bsel (band (bnot (Nat.beq (Nat.land p.cr bit) 0)) (band (Nat.beq (fget p.q e1) 0)
      (band (Nat.beq (fget p.q e2) 0) (band (Nat.beq (fget p.q e3) 0)
      (band (bnot (fattacked p.q a1 (bnot p.w))) (band (bnot (fattacked p.q a2 (bnot p.w)))
        (bnot (fattacked p.q a3 (bnot p.w)))))))))
    (m :: rest) rest

/-- The castling part of `addKingMoves`. -/
def fcastles (p : FPos) (rest : List Move) : List Move :=
  bsel p.w
    (fcastle1 p 1 5 6 6 4 5 6 (fmk 4 6 1 0) (fcastle1 p 2 3 2 1 4 3 2 (fmk 4 2 1 0) rest))
    (fcastle1 p 4 61 62 62 60 61 62 (fmk 60 62 1 0)
      (fcastle1 p 8 59 58 57 60 59 58 (fmk 60 58 1 0) rest))

/-- The packed `addKingMoves`. -/
def fkings (p : FPos) (rest : List Move) : List Move :=
  fpass (fun s r =>
    bsel (Nat.beq (fget p.q s) (fpc p.w 6))
      (fkingMove p s false 9 (fkingMove p s false 8 (fkingMove p s false 7
        (fkingMove p s false 1 (fkingMove p s true 1 (fkingMove p s true 7
          (fkingMove p s true 8 (fkingMove p s true 9 (fcastles p r)))))))))
      r) rest 64

/-- The packed `generateMoves`. -/
def fgen (p : FPos) : List Move :=
  fpawns p (fknights p (fsliding p (fkings p [])))

/-- The loop of `perft` over the moves, with `cnt` the count below a position. -/
def fsum (cnt : FPos → Nat) (p : FPos) (l : List Move) : Nat → Nat :=
  @List.rec Move (fun _ => Nat → Nat) (fun acc => acc)
    (fun m _ ih acc =>
      ih (bsel (fcheck (fapply p m).q p.w) acc
        (Nat.mod (Nat.add acc (cnt (fapply p m))) 18446744073709551616)))
    l

/-- The packed `perft`. -/
def fperft (depth : Nat) : FPos → Nat :=
  @Nat.rec (fun _ => FPos → Nat) (fun _ => 1) (fun _ ih p => fsum ih p (fgen p) 0) depth

/-- The ep square as a natural number, 64 for none. -/
def fep (e : Int) : Nat := if 0 ≤ e ∧ e < 64 then e.toNat else 64

/-- The offset `+d` or `-d` of a loop. -/
def ofs (up : Bool) (d : Nat) : Int := if up = true then (d : Int) else -(d : Int)

/-- The packed squares `q` hold the array `sq`. -/
def Packs (sq : Fin 64 → Nat) (q : Nat) : Prop :=
  ∀ s : Nat, fget q s = sqAt sq (s : Int)

/-- The packed position `p` holds what move generation reads of `st`. -/
def Rel (st : BoardState) (p : FPos) : Prop :=
  Packs st.squares p.q ∧ p.w = decide (st.sideToMove = WHITE) ∧ p.cr = st.castling ∧
    p.ep = fep st.epSquare

/-- The packed loop variable `t2` stands for the loop variable `t`: the same square, or
both off the board. -/
def SqRel (t2 : Nat) (t : Int) : Prop :=
  (t2 < 64 ∧ (t2 : Int) = t) ∨ (64 ≤ t2 ∧ (t < 0 ∨ 63 < t))

/-- The step of the loop of `perft`. -/
def perftStep (Z : ZobristKeys) (depth : Nat) (acc : Nat × Board) (m : Move) : Nat × Board :=
  let r := makeMove Z acc.2 m
  if r.2 = true then
    let p := perft Z r.1 depth
    ((acc.1 + p.1) % 18446744073709551616, unmakeMove p.2)
  else (acc.1, r.1)

/-- The decidable form of `Rel`: the packed squares are below `16^64` and agree with the
array on the 64 squares. -/
def RelCheck (st : BoardState) (p : FPos) : Prop :=
  p.q < 16 ^ 64 ∧ (∀ s : Nat, s < 64 → fget p.q s = sqAt st.squares (s : Int)) ∧
    p.w = decide (st.sideToMove = WHITE) ∧ p.cr = st.castling ∧ p.ep = fep st.epSquare

instance (st : BoardState) (p : FPos) : Decidable (RelCheck st p) := by
  unfold RelCheck; infer_instance

/-- The standard start position. -/
def startFEN : String := "rnbqkbnr/pppppppp/8/8/8/8/PPPPPPPP/RNBQKBNR w KQkq - 0 1"

/-- The second perft position of the test table. -/
def kiwipeteFEN : String :=
  "r3k2r/p1ppqpb1/bn2pnp1/3PN3/1p2P3/2N2Q1p/PPPBBPPP/R3K2R w KQkq - 0 1"

/-- The third perft position of the test table. -/
def endgameFEN : String := "8/2p5/3p4/KP5r/1R3p1k/8/4P1P1/8 w - - 0 1"

/-- The packed start position. -/
def startPos : FPos :=
  ⟨76265467260222285964963404843614094093081043925358754943478448598578464445220, true, 15, 64⟩

/-- The packed second perft position. -/
def kiwipetePos : FPos :=
  ⟨72391258208698030583099454012664896491535374323463582861798647365033137668100, true, 15, 64⟩

/-- The packed third perft position. -/
def endgamePos : FPos :=
  ⟨11248566351718020312876456936837837152662534530621450104078336, true, 0, 64⟩

/-! ## Board.cpp: draw detection -/

/-- The loop of `Board::repetitionCount` over the undo stack, from its back; `first` is
true at the index `size - 1`, where the loop never breaks. -/
def repetitionLoop (z : Nat) : List BoardState → Bool → Int → Int
  | [], _, cnt => cnt
  | s :: rest, first, cnt =>
    let cnt := if s.zobrist = z then cnt + 1 else cnt
    if s.halfmove = 0 ∧ first = false then cnt else repetitionLoop z rest false cnt

/-- `Board::repetitionCount`. -/
def repetitionCount (b : Board) : Int :=
  repetitionLoop b.state.zobrist b.stateHistory true 1

/-- `Board::isDraw`. -/
def isDraw (b : Board) : Bool :=
  if b.state.halfmove ≥ 100 then true
  else if repetitionCount b ≥ 3 then true
  else
    let wn := countPiece b.state WHITE KNIGHT
    let bn := countPiece b.state BLACK KNIGHT
    let wb := countPiece b.state WHITE BISHOP
    let bb := countPiece b.state BLACK BISHOP
    let wr := countPiece b.state WHITE ROOK
    let br := countPiece b.state BLACK ROOK
    let wq := countPiece b.state WHITE QUEEN
    let bq := countPiece b.state BLACK QUEEN
    let wp := countPiece b.state WHITE PAWN
    let bp := countPiece b.state BLACK PAWN
    if wp ≠ 0 ∨ bp ≠ 0 ∨ wr ≠ 0 ∨ br ≠ 0 ∨ wq ≠ 0 ∨ bq ≠ 0 then false
    else if wn = 0 ∧ wb = 0 ∧ bn = 0 ∧ bb = 0 then true
    else if wb = 1 ∧ wn = 0 ∧ bb = 0 ∧ bn = 0 ∧ wp = 0 ∧ bp = 0 then true
    else if bb = 1 ∧ bn = 0 ∧ wb = 0 ∧ wn = 0 ∧ wp = 0 ∧ bp = 0 then true
    else if wn = 1 ∧ wb = 0 ∧ bb = 0 ∧ bn = 0 ∧ wp = 0 ∧ bp = 0 then true
    else if bn = 1 ∧ bb = 0 ∧ wb = 0 ∧ wn = 0 ∧ wp = 0 ∧ bp = 0 then true
    else false

/-- The board carries no pawn, rook or queen. -/
def NoHeavyOrPawn (st : BoardState) : Prop :=
  countPiece st WHITE PAWN = 0 ∧ countPiece st BLACK PAWN = 0 ∧
  countPiece st WHITE ROOK = 0 ∧ countPiece st BLACK ROOK = 0 ∧
  countPiece st WHITE QUEEN = 0 ∧ countPiece st BLACK QUEEN = 0

/-- Colour `c` has exactly one minor piece (one bishop and no knight, or one knight and no
bishop) and the other colour `o` has none. -/
def LoneMinor (st : BoardState) (c o : Color) : Prop :=
  ((countPiece st c BISHOP = 1 ∧ countPiece st c KNIGHT = 0) ∨
    (countPiece st c KNIGHT = 1 ∧ countPiece st c BISHOP = 0)) ∧
  countPiece st o BISHOP = 0 ∧ countPiece st o KNIGHT = 0

/-- No minor piece at all on the board. -/
def NoMinor (st : BoardState) : Prop :=
  countPiece st WHITE KNIGHT = 0 ∧ countPiece st WHITE BISHOP = 0 ∧
  countPiece st BLACK KNIGHT = 0 ∧ countPiece st BLACK BISHOP = 0

/-- A run of `makeMove` calls that each return true, capture nothing and move no pawn;
`none` when one of the moves is not of this kind. -/
def quietRun (Z : ZobristKeys) : Board → List Move → Option Board
  | b, [] => some b
  | b, m :: ms =>
    if (makeMove Z b m).2 = true ∧ b.state.pieceAt m.to_ = 0 ∧ m.flags ≠ FLAG_EP ∧
        pieceType (b.state.pieceAt m.from_) ≠ PAWN then
      quietRun Z (makeMove Z b m).1 ms
    else none

/-! ## The knight shuffle -/

/-- The board after the moves `ms` are made in order with `makeMove`. -/
def playMoves (Z : ZobristKeys) (b : Board) (ms : List Move) : Board :=
  ms.foldl (fun b m => (makeMove Z b m).1) b

/-- The knights go out and come back: Nf3 Nf6 Ng1 Ng8. -/
def knightShuffle : List Move :=
  [Move.new 6 21 0 0, Move.new 62 45 0 0, Move.new 21 6 0 0, Move.new 45 62 0 0]

/-- The board after the first `n` plies of the knight shuffle, played twice, from the
standard position. -/
def shuffleBoard (Z : ZobristKeys) (n : Nat) : Board :=
  playMoves Z (boardOfFEN Z startFEN) ((knightShuffle ++ knightShuffle).take n)

/-- On the packed position: `m` is generated, leaves the own king safe, lands on an empty
square and is not made by a pawn. -/
def fquiet (p : FPos) (m : Move) : Prop :=
  m ∈ fgen p ∧ fcheck (fapply p m).q p.w = false ∧ fget p.q (m.data / 64 % 64) = 0 ∧
    pieceType (fget p.q (m.data % 64)) ≠ PAWN

instance (p : FPos) (m : Move) : Decidable (fquiet p m) := by
  unfold fquiet; infer_instance

/-- A key table with better mixing than `mixedKeys`, for instances about repetition. -/
def mixedKeys : ZobristKeys where
  zKeys := fun pc s =>
    ((pc * 64 + s.toNat + 1) * (pc * 64 + s.toNat + 1) * 2654435761) % 18446744073709551616
  zSide := 9650029242287828579
  zCastle := fun c => ((c + 1) * (c + 1) * 40503) % 18446744073709551616
  zEP := fun f => ((f.toNat + 1) * (f.toNat + 1) * 2246822519) % 18446744073709551616

/-! ## Search.h and Search.cpp -/

abbrev CHECKMATE : Int := 100000

abbrev DRAW : Int := 0

abbrev TT_SIZE : Nat := 1048576

/-- The struct `TTEntry`. -/
structure TTEntry where
  key : Nat
  depth : Int
  score : Int
  best : Move
  flag : Int

/-- The default `TTEntry{}`. -/
def TTEntry.init : TTEntry := ⟨0, 0, 0, ⟨0⟩, 0⟩

/-- The data members of the class `Search` that the search reads and writes. The members
`shouldStop`, `startTime` and `timeLimit` only feed `timeUp()`; in their place `clock`
counts the calls of `timeUp()` made so far. -/
structure Search where
  nodesSearched : Int
  depthReached : Int
  lastScore : Int
  bestMoveFound : Move
  tt : Nat → TTEntry
  killers : Int → Nat → Move
  history : Int → Int → Int
  clock : Nat

/-- What the search takes from outside: the Zobrist keys, `Eval::evaluate`, the answers of
the successive calls of `timeUp()`, and `std::sort` (called with the comparison
`score(a) > score(b)`). -/
structure SearchEnv where
  Z : ZobristKeys
  evaluate : Board → Int
  timeUpAt : Nat → Bool
  sortBy : (Move → Int) → List Move → List Move

/-- `Search::timeUp`: the answer and the object with the call counted. -/
def timeUp (E : SearchEnv) (S : Search) : Bool × Search :=
  (E.timeUpAt S.clock, { S with clock := S.clock + 1 })

/-- `Search::clearHeuristics`. -/
def clearHeuristics (S : Search) : Search :=
  { S with killers := fun _ _ => ⟨0⟩, history := fun _ _ => 0 }

/-- `Search::storeTT`. -/
def storeTT (S : Search) (key : Nat) (depth score : Int) (best : Move) (flag : Int) : Search :=
  let idx := key % TT_SIZE
  let e := S.tt idx
  if e.key = key ∧ e.depth > depth then S
  else { S with tt := fun i => if i = idx then ⟨key, depth, score, best, flag⟩ else S.tt i }

/-- `Search::probeTT`; `none` is the null pointer. -/
def probeTT (S : Search) (key : Nat) : Option TTEntry :=
  let idx := key % TT_SIZE
  if (S.tt idx).key = key then some (S.tt idx) else none

/-- `Eval::materialValue`, for the piece codes 0..12. -/
def materialValue (pc : Nat) : Int :=
  if pc = 0 then 0
  else [0, 100, 320, 330, 500, 900, 20000, 100, 320, 330, 500, 900, 20000].getD pc 0

/-- `Search::scoreCapture`. -/
def scoreCapture (b : Board) (m : Move) : Int :=
  let cap := b.state.pieceAt m.to_
  let atk := b.state.pieceAt m.from_
  if cap = 0 then 0 else materialValue cap * 10 - materialValue atk

/-- `Search::moveScore`. -/
def moveScore (S : Search) (b : Board) (m ttMove : Move) (ply : Int) : Int :=
  if m = ttMove then 100000
  else
    let cap := b.state.pieceAt m.to_
    if cap ≠ 0 then 10000 + scoreCapture b m
    else if m.flags = FLAG_EP then 9000
    else if m.flags = FLAG_PROMO then 8000 + (m.promo : Int) * 100
    else if ply < 128 ∧ S.killers ply 0 = m then 7000
    else if ply < 128 ∧ S.killers ply 1 = m then 6900
    else S.history m.from_ m.to_

/-- `Search::orderMoves`. -/
def orderMoves (E : SearchEnv) (S : Search) (b : Board) (moves : List Move) (ttMove : Move)
    (ply : Int) : List Move :=
  E.sortBy (fun m => moveScore S b m ttMove ply) moves

/-- The loop of `quiesce` over the sorted captures; `rec` is the recursive call
`quiesce(board, ., ., ply+1)`. -/
def quiesceLoop (Z : ZobristKeys)
    (rec : Search → Board → Int → Int → Option (Int × Search × Board)) (beta : Int) :
    List Move → Search → Board → Int → Option (Int × Search × Board)
  | [], S, b, alpha => some (alpha, S, b)
  | m :: ms, S, b, alpha =>
    let r := makeMove Z b m
    if r.2 = false then quiesceLoop Z rec beta ms S r.1 alpha
    else
      match rec S r.1 (-beta) (-alpha) with
      | none => none
      | some (v, S, b) =>
        let score := -v
        let b := unmakeMove b
        if score ≥ beta then some (beta, S, b)
        else quiesceLoop Z rec beta ms S b (if score > alpha then score else alpha)

/-- `Search::quiesce`: the returned value, the object and the board afterwards; `none`
when the recursion is deeper than `fuel`. -/
def quiesce (E : SearchEnv) : Nat → Search → Board → Int → Int → Int →
    Option (Int × Search × Board)
  | 0, _, _, _, _, _ => none
  | fuel + 1, S, b, alpha, beta, ply =>
    let S : Search := { S with nodesSearched := S.nodesSearched + 1 }
    let t := timeUp E S
    if t.1 = true then some (alpha, t.2, b)
    else
      let S := t.2
      let stand := E.evaluate b
      let stand := if b.state.sideToMove = BLACK then -stand else stand
      if stand ≥ beta then some (beta, S, b)
      else
        let alpha := if stand > alpha then stand else alpha
        let caps := E.sortBy (fun m => scoreCapture b m) (generateCaptures b)
        quiesceLoop E.Z (fun S b a c => quiesce E fuel S b a c (ply + 1)) beta caps S b alpha

/-- The transposition-table part of `alphaBeta` (lines 93-104): the value returned at
once, if any, and `alpha`, `beta` and `ttMove` afterwards. -/
def ttCut (tte : Option TTEntry) (depth alpha beta : Int) : Option Int × Int × Int × Move :=
  match tte with
  | none => (none, alpha, beta, ⟨0⟩)
  | some e =>
    if e.depth ≥ depth then
      if e.flag = 0 then (some e.score, alpha, beta, ⟨0⟩)
      else
        let alpha := if e.flag = 1 then max alpha e.score else alpha
        let beta := if e.flag = 2 then min beta e.score else beta
        if alpha ≥ beta then (some e.score, alpha, beta, ⟨0⟩)
        else (none, alpha, beta, e.best)
    else (none, alpha, beta, e.best)

/-- The null-move block of `alphaBeta` (lines 110-124): it pushes and pops the undo
stack and nothing else. -/
def nullMoveBlock (b : Board) (nullMoveAllowed inCheck : Bool) (depth : Int) : Board :=
  if nullMoveAllowed = true ∧ inCheck = false ∧ depth ≥ 3 then
    let c := b.state.sideToMove
    let minors := countPiece b.state c KNIGHT + countPiece b.state c BISHOP +
      countPiece b.state c ROOK + countPiece b.state c QUEEN
    if minors > 0 then
      let b1 : Board := { b with stateHistory := b.state :: b.stateHistory }
      { b1 with stateHistory := b1.stateHistory.tail }
    else b
  else b

/-- The search of the move just made in the loop of `alphaBeta` (lines 140-160): late move
reduction, principal variation search or the full window; `rec depth alpha beta` is the
recursive call `alphaBeta(board, depth, alpha, beta, ply+1, true)`. The value is `score`. -/
def searchMove (rec : Int → Int → Int → Search → Board → Option (Int × Search × Board))
    (depth alpha beta : Int) (inCheck : Bool) (moveCount : Int) (m : Move) (S : Search)
    (b : Board) : Option (Int × Search × Board) :=
  let isCapture : Bool :=
    match b.stateHistory with
    | s :: _ => s.capturedPiece ≠ 0
    | [] => false
  let newDepth := depth - 1
  if moveCount > 4 ∧ depth ≥ 3 ∧ inCheck = false ∧ isCapture = false ∧ m.flags ≠ FLAG_PROMO then
    let R : Int := 1 + (if moveCount > 8 then 1 else 0) + (if depth > 6 then 1 else 0)
    match rec (newDepth - R) (-alpha - 1) (-alpha) S b with
    | none => none
    | some (v, S, b) =>
      if -v > alpha then
        match rec newDepth (-beta) (-alpha) S b with
        | none => none
        | some (v, S, b) => some (-v, S, b)
      else some (-v, S, b)
  else if moveCount > 1 then
    match rec newDepth (-alpha - 1) (-alpha) S b with
    | none => none
    | some (v, S, b) =>
      if -v > alpha ∧ -v < beta then
        match rec newDepth (-beta) (-alpha) S b with
        | none => none
        | some (v, S, b) => some (-v, S, b)
      else some (-v, S, b)
  else
    match rec newDepth (-beta) (-alpha) S b with
    | none => none
    | some (v, S, b) => some (-v, S, b)

/-- Lines 166-173 of `alphaBeta`: a score above `alpha` raises it and records the move,
at the root also in `bestMoveFound` and `lastScore`. -/
def raiseAlpha (S : Search) (ply alpha score : Int) (m best : Move) : Search × Int × Move :=
  if score > alpha then
    (if ply = 0 then { S with bestMoveFound := m, lastScore := score } else S, score, m)
  else (S, alpha, best)

/-- Lines 175-182 of `alphaBeta`: the killer and history updates at a cutoff. -/
def cutoffUpdate (S : Search) (b : Board) (depth ply : Int) (m : Move) : Search :=
  let S : Search :=
    if b.state.pieceAt m.to_ = 0 ∧ ply < 128 then
      let S : Search :=
        { S with killers := fun p i => if p = ply ∧ i = 1 then S.killers ply 0 else S.killers p i }
      { S with killers := fun p i => if p = ply ∧ i = 0 then m else S.killers p i }
    else S
  { S with history := fun f t =>
      if f = m.from_ ∧ t = m.to_ then S.history f t + depth * depth else S.history f t }

/-- The move loop of `alphaBeta` (lines 133-184): the object, the board, `alpha` and
`bestMove` when the loop is left. -/
def abLoop (E : SearchEnv)
    (rec : Int → Int → Int → Search → Board → Option (Int × Search × Board))
    (depth beta ply : Int) (inCheck : Bool) :
    List Move → Search → Board → Int → Move → Int → Option (Search × Board × Int × Move)
  | [], S, b, alpha, best, _ => some (S, b, alpha, best)
  | m :: ms, S, b, alpha, best, moveCount =>
    let r := makeMove E.Z b m
    if r.2 = false then abLoop E rec depth beta ply inCheck ms S r.1 alpha best moveCount
    else
      match searchMove rec depth alpha beta inCheck (moveCount + 1) m S r.1 with
      | none => none
      | some (score, S, b) =>
        let b := unmakeMove b
        let t := timeUp E S
        if t.1 = true then some (t.2, b, alpha, best)
        else
          let u := raiseAlpha t.2 ply alpha score m best
          if u.2.1 ≥ beta then some (cutoffUpdate u.1 b depth ply m, b, u.2.1, u.2.2)
          else abLoop E rec depth beta ply inCheck ms u.1 b u.2.1 u.2.2 (moveCount + 1)

/-- Lines 186-191 of `alphaBeta`: the store into the transposition table. -/
def abStore (E : SearchEnv) (S : Search) (key : Nat) (depth alpha origAlpha beta : Int)
    (best : Move) : Search :=
  let t := timeUp E S
  if t.1 = false ∧ best.isNull = false then
    let flag : Int := if alpha ≤ origAlpha then 2 else if alpha ≥ beta then 1 else 0
    storeTT t.2 key depth alpha best flag
  else t.2

/-- `Search::alphaBeta`: the returned value, the object and the board afterwards; `none`
when the recursion is deeper than `fuel`. -/
def alphaBeta (E : SearchEnv) : Nat → Search → Board → Int → Int → Int → Int → Bool →
    Option (Int × Search × Board)
  | 0, _, _, _, _, _, _, _ => none
  | fuel + 1, S, b, depth, alpha, beta, ply, nullMoveAllowed =>
    let t := timeUp E S
    if t.1 = true then some (alpha, t.2, b)
    else
      let S : Search := { t.2 with nodesSearched := t.2.nodesSearched + 1 }
      if isDraw b = true then some (DRAW, S, b)
      else
        let key := b.state.zobrist
        let c := ttCut (probeTT S key) depth alpha beta
        match c.1 with
        | some v => some (v, S, b)
        | none =>
          let alpha := c.2.1
          let beta := c.2.2.1
          let ttMove := c.2.2.2
          if depth ≤ 0 then quiesce E fuel S b alpha beta ply
          else
            let inCheck := isInCheck b.state b.state.sideToMove
            let b := nullMoveBlock b nullMoveAllowed inCheck depth
            let moves := orderMoves E S b (generateMoves b) ttMove ply
            if moves = [] then
              some (if inCheck = true then -(CHECKMATE - ply) else DRAW, S, b)
            else
              match abLoop E (fun d a c S b => alphaBeta E fuel S b d a c (ply + 1) true)
                  depth beta ply inCheck moves S b alpha ⟨0⟩ 0 with
              | none => none
              | some (S, b, alpha2, best) =>
                some (alpha2, abStore E S key depth alpha2 alpha beta best, b)

/-- The iterative-deepening loop of `findBestMove` (lines 213-229), with `n` iterations
left and `depth` the loop variable. -/
def deepen (E : SearchEnv) (fuel : Nat) : Nat → Int → Search → Board → Option (Search × Board)
  | 0, _, S, b => some (S, b)
  | n + 1, depth, S, b =>
    let prevBest := S.bestMoveFound
    let prevScore := S.lastScore
    match alphaBeta E fuel S b depth (-CHECKMATE) CHECKMATE 0 true with
    | none => none
    | some (score, S, b) =>
      let t := timeUp E S
      if t.1 = true then
        some ({ t.2 with bestMoveFound := prevBest, lastScore := prevScore }, b)
      else
        let S : Search := { t.2 with depthReached := depth }
        if score ≥ CHECKMATE - 200 then some (S, b)
        else deepen E fuel n (depth + 1) S b

/-- `Search::findBestMove`: the returned move, the object and the board afterwards; `none`
when a recursion of the search is deeper than `fuel`. -/
def findBestMove (E : SearchEnv) (fuel : Nat) (S : Search) (b : Board) (maxDepth : Int) :
    Option (Move × Search × Board) :=
  let S : Search := { S with nodesSearched := 0, depthReached := 0 }
  let S := clearHeuristics S
  let g := generateLegalMoves E.Z b
  match g.1 with
  | [] => some (⟨0⟩, S, g.2)
  | [m] => some (m, S, g.2)
  | m :: _ :: _ =>
    let S : Search := { S with bestMoveFound := m, lastScore := 0 }
    match deepen E fuel maxDepth.toNat 1 S g.2 with
    | none => none
    | some (S, b) => some (S.bestMoveFound, S, b)

/-! ## Search: auxiliary definitions -/

/-- The default-constructed `Search`. -/
def Search.init : Search where
  nodesSearched := 0
  depthReached := 0
  lastScore := 0
  bestMoveFound := ⟨0⟩
  tt := fun _ => TTEntry.init
  killers := fun _ _ => ⟨0⟩
  history := fun _ _ => 0
  clock := 0

/-- An environment for concrete instances: the keys `sampleKeys`, an evaluation that is
always 0, a clock that answers `timeUp()` from the call number `limit` on, and insertion
sort. -/
def sampleEnv (limit : Nat) : SearchEnv where
  Z := sampleKeys
  evaluate := fun _ => 0
  timeUpAt := fun k => decide (limit ≤ k)
  sortBy := fun f l => l.insertionSort (fun a b => f a ≥ f b)

/-- The position of the mate-in-1 example of the specification. -/
def stalemateFEN : String := "8/8/8/8/8/3k4/3p4/3K4 w - - 0 1"

/-- The packed form of `stalemateFEN`. -/
def stalematePos : FPos := ⟨906694364834117183365120, true, 0, 64⟩

/-- White to move with the king on a1 in check from a rook on a2: Kb1 is the only legal
move. -/
def onlyMoveFEN : String := "8/8/8/8/8/1k6/r7/K7 w - - 0 1"

/-- The board `c` has the state and the undo stack of `b`. -/
def BFrame (b c : Board) : Prop :=
  c.state = b.state ∧ c.stateHistory = b.stateHistory

/-- The search object `T` has the root results of `S` and a clock that is not behind. -/
def SFrame (S T : Search) : Prop :=
  T.bestMoveFound = S.bestMoveFound ∧ T.lastScore = S.lastScore ∧ S.clock ≤ T.clock

/-- `std::sort` returns a permutation of its input. -/
def SortOK (E : SearchEnv) : Prop :=
  ∀ (f : Move → Int) (l : List Move), (E.sortBy f l).Perm l

/-- From `S` to `T` the clock has not gone back, below the root `bestMoveFound` and
`lastScore` are kept, and at the root `bestMoveFound` is kept or satisfies `P`. -/
def RootInv (P : Move → Prop) (ply : Int) (S T : Search) : Prop :=
  S.clock ≤ T.clock ∧
  (ply ≠ 0 → T.bestMoveFound = S.bestMoveFound ∧ T.lastScore = S.lastScore) ∧
  (T.bestMoveFound = S.bestMoveFound ∨ P T.bestMoveFound)

/-- What holds of every move of `generateCaptures` besides `GenFacts`: an en passant move
is not a two-square step, and every other move lands on an occupied square. -/
def CapFacts (st : BoardState) (m : Move) : Prop :=
  (m.flags = FLAG_EP → cabs (m.to_ - m.from_) ≠ 16) ∧
  (m.flags ≠ FLAG_EP → st.pieceAt m.to_ ≠ 0)

/-- The number of occupied squares. -/
def occupied (st : BoardState) : Nat := 64 - countSq 0 st.squares

/-- The measure that every move of `generateCaptures` decreases: three times the number of
occupied squares, plus one when an ep square is set. -/
def captureMeasure (st : BoardState) : Nat :=
  3 * occupied st + (if st.epSquare ≠ NO_SQ then 1 else 0)

/-- The castling bit `i` is one that a move between `fr` and `to_` clears: bits 0 and 1
when an end is square 4, bits 2 and 3 when an end is 60, bit 1 for 0, bit 0 for 7, bit 3
for 56, bit 2 for 63. -/
def clearsBit (fr to_ : Int) (i : Nat) : Prop :=
  (i = 0 ∧ ((fr = 4 ∨ to_ = 4) ∨ (fr = 7 ∨ to_ = 7))) ∨
  (i = 1 ∧ ((fr = 4 ∨ to_ = 4) ∨ (fr = 0 ∨ to_ = 0))) ∨
  (i = 2 ∧ ((fr = 60 ∨ to_ = 60) ∨ (fr = 63 ∨ to_ = 63))) ∨
  (i = 3 ∧ ((fr = 60 ∨ to_ = 60) ∨ (fr = 56 ∨ to_ = 56)))

instance (fr to_ : Int) (i : Nat) : Decidable (clearsBit fr to_ i) := by
  unfold clearsBit; infer_instance

/-- A king on e1 in check from a rook on e2, with the right to castle short. -/
def checkedKingFEN : String := "4k3/8/8/8/8/8/4r3/4K2R w K - 0 1"

/-- The moves of the pawn on `s`: their from-square is `s`, and they are a diagonal step, a
single push onto an empty square, or a double push from the start rank. -/
def PawnShape (st : BoardState) (dir startRank : Int) (s : Int) (fr to_ : Int) (fl : Nat) :
    Prop :=
  fr = s ∧
    ((to_ = s + dir - 1 ∨ to_ = s + dir + 1) ∨
     (to_ = s + dir ∧ st.pieceAt to_ = 0 ∧ fl ≠ FLAG_EP) ∨
     (to_ = s + dir + dir ∧ s.tdiv 8 = startRank ∧ fl = FLAG_NORMAL ∧ st.pieceAt to_ = 0))

/-- Both sides may castle on both wings, nothing stands between kings and rooks. -/
def castleFEN : String := "r3k2r/8/8/8/8/8/8/R3K2R w KQkq - 0 1"

/-- Black to move, mated on the back rank by the rook on a8. -/
def backRankMateFEN : String := "R5k1/5ppp/8/8/8/8/8/4K3 b - - 0 1"

/-- A move flagged en passant, or one whose to-square holds a piece of the side that is
not to move. -/
def capturesEnemy (st : BoardState) (m : Move) : Bool :=
  decide (m.flags = FLAG_EP) ||
    (decide (st.pieceAt m.to_ ≠ 0) && decide (pieceColor (st.pieceAt m.to_) ≠ st.sideToMove))

/-- White to move with a pawn on a7 and a8 empty. -/
def pushPromoFEN : String := "4k3/P7/8/8/8/8/8/4K3 w - - 0 1"

/-- The pawn of the side to move on `s` reaches the last-rank square `t` by a single push
onto an empty square, or by a capture of an enemy piece one rank ahead and one file to the
side. -/
def PromoReach (st : BoardState) (s t : Int) : Prop :=
  0 ≤ s ∧ s < 64 ∧ 0 ≤ t ∧ t < 64 ∧
  st.pieceAt s = makePiece st.sideToMove PAWN ∧
  t / 8 = (if st.sideToMove = WHITE then 7 else 0) ∧
  ((t = s + (if st.sideToMove = WHITE then 8 else -8) ∧ st.pieceAt t = 0) ∨
   (t / 8 = s / 8 + (if st.sideToMove = WHITE then 1 else -1) ∧
    (t % 8 = s % 8 + 1 ∨ t % 8 = s % 8 - 1) ∧
    st.pieceAt t ≠ 0 ∧ pieceColor (st.pieceAt t) ≠ st.sideToMove))

instance (st : BoardState) (s t : Int) : Decidable (PromoReach st s t) := by
  unfold PromoReach; infer_instance

/-- White to move: the pawn on a7 can push to a8 or capture the knight on b8. -/
def promoFEN : String := "1n2k3/P7/8/8/8/8/8/4K3 w - - 0 1"

/-- The file of a square, 0 for the a-file. -/
def fileOf (s : Int) : Int := s % 8

/-- The rank of a square, 0 for the first rank. -/
def rankOf (s : Int) : Int := s / 8

/-- The diagonal of a square: constant along the direction a1-h8. -/
def diagOf (s : Int) : Int := s % 8 - s / 8

/-- The anti-diagonal of a square: constant along the direction a8-h1. -/
def antiOf (s : Int) : Int := s % 8 + s / 8

/-- The number `x` lies strictly between `a` and `b`. -/
def strictlyBetween (a b x : Int) : Prop := (a < x ∧ x < b) ∨ (b < x ∧ x < a)

instance (a b x : Int) : Decidable (strictlyBetween a b x) := by
  unfold strictlyBetween; infer_instance

/-- Every square of the line through `s` (the squares with the same `inv`) that lies
strictly between `s` and `t` (in the coordinate `ord`) is empty. -/
def clearBetween (st : BoardState) (inv ord : Int → Int) (s t : Int) : Prop :=
  ∀ x ∈ allSquares, inv x = inv s → strictlyBetween (ord s) (ord t) (ord x) →
    st.pieceAt x = 0

instance (st : BoardState) (inv ord : Int → Int) (s t : Int) :
    Decidable (clearBetween st inv ord s t) := by
  unfold clearBetween; infer_instance

/-- A pawn of colour `c` on `t` attacks `s`: file distance 1, and `t` one rank below `s`
for White, one rank above for Black. -/
def pawnAttacksFrom (c : Color) (t s : Int) : Prop :=
  cabs (fileOf t - fileOf s) = 1 ∧ rankOf t = rankOf s + (if c = WHITE then -1 else 1)

/-- A knight on `t` attacks `s`: (file distance, rank distance) is (1,2) or (2,1). -/
def knightAttacksFrom (t s : Int) : Prop :=
  (cabs (fileOf t - fileOf s) = 1 ∧ cabs (rankOf t - rankOf s) = 2) ∨
  (cabs (fileOf t - fileOf s) = 2 ∧ cabs (rankOf t - rankOf s) = 1)

/-- A king on `t` attacks `s`: file and rank distance at most 1, and `t` is not `s`. -/
def kingAttacksFrom (t s : Int) : Prop :=
  cabs (fileOf t - fileOf s) ≤ 1 ∧ cabs (rankOf t - rankOf s) ≤ 1 ∧ t ≠ s

/-- A rook on `t` attacks `s`: same rank or same file, every square strictly between
empty. -/
def rookAttacksFrom (st : BoardState) (t s : Int) : Prop :=
  t ≠ s ∧
  ((rankOf t = rankOf s ∧ clearBetween st rankOf fileOf s t) ∨
   (fileOf t = fileOf s ∧ clearBetween st fileOf rankOf s t))

/-- A bishop on `t` attacks `s`: same diagonal or anti-diagonal, every square strictly
between empty. -/
def bishopAttacksFrom (st : BoardState) (t s : Int) : Prop :=
  t ≠ s ∧
  ((diagOf t = diagOf s ∧ clearBetween st diagOf rankOf s t) ∨
   (antiOf t = antiOf s ∧ clearBetween st antiOf rankOf s t))

/-- Some piece of colour `c` attacks the square `s` geometrically: a pawn, a knight, a
king, a rook or queen along a rank or file, or a bishop or queen along a diagonal. -/
def attackedGeometrically (st : BoardState) (s : Int) (c : Color) : Prop :=
  ∃ t ∈ allSquares,
    (st.pieceAt t = makePiece c PAWN ∧ pawnAttacksFrom c t s) ∨
    (st.pieceAt t = makePiece c KNIGHT ∧ knightAttacksFrom t s) ∨
    (st.pieceAt t = makePiece c KING ∧ kingAttacksFrom t s) ∨
    ((st.pieceAt t = makePiece c ROOK ∨ st.pieceAt t = makePiece c QUEEN) ∧
      rookAttacksFrom st t s) ∨
    ((st.pieceAt t = makePiece c BISHOP ∨ st.pieceAt t = makePiece c QUEEN) ∧
      bishopAttacksFrom st t s)

instance (st : BoardState) (s : Int) (c : Color) :
    Decidable (attackedGeometrically st s c) := by
  unfold attackedGeometrically pawnAttacksFrom knightAttacksFrom kingAttacksFrom
    rookAttacksFrom bishopAttacksFrom
  infer_instance

/-! ## Eval.cpp -/

/-- The table `PST_PAWN_MG`: piece-square values of pawns in the middlegame, index 0 first. -/
def PST_PAWN_MG : List Int :=
  [0, 0, 0, 0, 0, 0, 0, 0,
   50, 50, 50, 50, 50, 50, 50, 50,
   10, 10, 20, 30, 30, 20, 10, 10,
   5, 5, 10, 25, 25, 10, 5, 5,
   0, 0, 0, 20, 20, 0, 0, 0,
   5, -5, -10, 0, 0, -10, -5, 5,
   5, 10, 10, -20, -20, 10, 10, 5,
   0, 0, 0, 0, 0, 0, 0, 0]

/-- The table `PST_PAWN_EG`: piece-square values of pawns in the endgame, index 0 first. -/
def PST_PAWN_EG : List Int :=
  [0, 0, 0, 0, 0, 0, 0, 0,
   80, 80, 80, 80, 80, 80, 80, 80,
   50, 50, 50, 50, 50, 50, 50, 50,
   30, 30, 30, 30, 30, 30, 30, 30,
   20, 20, 20, 20, 20, 20, 20, 20,
   10, 10, 10, 10, 10, 10, 10, 10,
   5, 5, 5, 5, 5, 5, 5, 5,
   0, 0, 0, 0, 0, 0, 0, 0]

/-- The table `PST_KNIGHT`: piece-square values of knights, index 0 first. -/
def PST_KNIGHT : List Int :=
  [-50, -40, -30, -30, -30, -30, -40, -50,
   -40, -20, 0, 0, 0, 0, -20, -40,
   -30, 0, 10, 15, 15, 10, 0, -30,
   -30, 5, 15, 20, 20, 15, 5, -30,
   -30, 0, 15, 20, 20, 15, 0, -30,
   -30, 5, 10, 15, 15, 10, 5, -30,
   -40, -20, 0, 5, 5, 0, -20, -40,
   -50, -40, -30, -30, -30, -30, -40, -50]

/-- The table `PST_BISHOP`: piece-square values of bishops, index 0 first. -/
def PST_BISHOP : List Int :=
  [-20, -10, -10, -10, -10, -10, -10, -20,
   -10, 0, 0, 0, 0, 0, 0, -10,
   -10, 0, 5, 10, 10, 5, 0, -10,
   -10, 5, 5, 10, 10, 5, 5, -10,
   -10, 0, 10, 10, 10, 10, 0, -10,
   -10, 10, 10, 10, 10, 10, 10, -10,
   -10, 5, 0, 0, 0, 0, 5, -10,
   -20, -10, -10, -10, -10, -10, -10, -20]

/-- The table `PST_ROOK`: piece-square values of rooks, index 0 first. -/
def PST_ROOK : List Int :=
  [0, 0, 0, 0, 0, 0, 0, 0,
   5, 10, 10, 10, 10, 10, 10, 5,
   -5, 0, 0, 0, 0, 0, 0, -5,
   -5, 0, 0, 0, 0, 0, 0, -5,
   -5, 0, 0, 0, 0, 0, 0, -5,
   -5, 0, 0, 0, 0, 0, 0, -5,
   -5, 0, 0, 0, 0, 0, 0, -5,
   0, 0, 0, 5, 5, 0, 0, 0]

/-- The table `PST_QUEEN`: piece-square values of queens, index 0 first. -/
def PST_QUEEN : List Int :=
  [-20, -10, -10, -5, -5, -10, -10, -20,
   -10, 0, 0, 0, 0, 0, 0, -10,
   -10, 0, 5, 5, 5, 5, 0, -10,
   -5, 0, 5, 5, 5, 5, 0, -5,
   0, 0, 5, 5, 5, 5, 0, -5,
   -10, 5, 5, 5, 5, 5, 0, -10,
   -10, 0, 5, 0, 0, 0, 0, -10,
   -20, -10, -10, -5, -5, -10, -10, -20]

/-- The table `PST_KING_MG`: piece-square values of the king in the middlegame, index 0 first. -/
def PST_KING_MG : List Int :=
  [-30, -40, -40, -50, -50, -40, -40, -30,
   -30, -40, -40, -50, -50, -40, -40, -30,
   -30, -40, -40, -50, -50, -40, -40, -30,
   -30, -40, -40, -50, -50, -40, -40, -30,
   -20, -30, -30, -40, -40, -30, -30, -20,
   -10, -20, -20, -20, -20, -20, -20, -10,
   20, 20, 0, 0, 0, 0, 20, 20,
   20, 30, 10, 0, 0, 10, 30, 20]

/-- The table `PST_KING_EG`: piece-square values of the king in the endgame, index 0 first. -/
def PST_KING_EG : List Int :=
  [-50, -40, -30, -20, -20, -30, -40, -50,
   -30, -20, -10, 0, 0, -10, -20, -30,
   -30, -10, 20, 30, 30, 20, -10, -30,
   -30, -10, 30, 40, 40, 30, -10, -30,
   -30, -10, 30, 40, 40, 30, -10, -30,
   -30, -10, 20, 30, 30, 20, -10, -30,
   -30, -30, 0, 0, 0, 0, -30, -30,
   -50, -30, -30, -30, -30, -30, -30, -50]

/-- The read `T[s]` of a piece-square table. -/
def pstAt (T : List Int) (s : Int) : Int := T.getD s.toNat 0

/-- The static function `flipSq`. -/
def flipSq (s : Int) : Int := (7 - s.tdiv 8) * 8 + s.tmod 8

/-- The static function `getPST`. -/
def getPST (pt : Nat) (c : Color) (sq : Int) (endgame : Bool) : Int :=
  let s := if c = BLACK then flipSq sq else sq
  if pt = PAWN then (if endgame then pstAt PST_PAWN_EG s else pstAt PST_PAWN_MG s)
  else if pt = KNIGHT then pstAt PST_KNIGHT s
  else if pt = BISHOP then pstAt PST_BISHOP s
  else if pt = ROOK then pstAt PST_ROOK s
  else if pt = QUEEN then pstAt PST_QUEEN s
  else if pt = KING then (if endgame then pstAt PST_KING_EG s else pstAt PST_KING_MG s)
  else 0

/-- `Eval::gamePhase`. -/
def gamePhase (st : BoardState) : Int :=
  let phase : Int := allSquares.foldl (fun phase s =>
    let pt := pieceType (st.pieceAt s)
    let phase := if pt = KNIGHT ∨ pt = BISHOP then phase + 1 else phase
    let phase := if pt = ROOK then phase + 2 else phase
    if pt = QUEEN then phase + 4 else phase) 0
  min phase 24

/-- The counter `myFiles[f]` (or `oppFiles[f]`) of `evaluatePawnStructure` after the
counting loop, for the pawn code `pc`. -/
def pawnsOnFile (st : BoardState) (pc : Nat) (f : Int) : Int :=
  allSquares.foldl (fun n s => if st.pieceAt s = pc ∧ s.tmod 8 = f then n + 1 else n) 0

/-- The three tests of one round of the passed-pawn loop of `evaluatePawnStructure`, on
the rank `rr`: one of them sets `passed=false`. -/
def pawnAhead (st : BoardState) (oppPawn : Nat) (f rr : Int) : Bool :=
  (f > 0 ∧ st.pieceAt (rr * 8 + f - 1) = oppPawn) ∨ st.pieceAt (rr * 8 + f) = oppPawn ∨
    (f < 7 ∧ st.pieceAt (rr * 8 + f + 1) = oppPawn)

/-- The value of `passed` after the passed-pawn loop of `evaluatePawnStructure`: the ranks
`r+1 .. 7` for White, `r-1 .. 0` for Black. -/
def pawnPassed (st : BoardState) (c : Color) (oppPawn : Nat) (f r : Int) : Bool :=
  ([0, 1, 2, 3, 4, 5, 6, 7].filter (fun rr => if c = WHITE then r < rr else rr < r)).all
    (fun rr => !pawnAhead st oppPawn f rr)

/-- The value of `stopAttacked` in `evaluatePawnStructure`. -/
def stopAttacked (st : BoardState) (c : Color) (oppPawn : Nat) (f stopSq : Int) : Bool :=
  if c = WHITE then
    let atkSq1 := stopSq + 8 - 1
    let atkSq2 := stopSq + 8 + 1
    (f > 0 ∧ stopSq + 8 < 64 ∧ st.pieceAt (stopSq + 8 - 1) = oppPawn) ∨
    (f > 0 ∧ atkSq1 ≥ 0 ∧ atkSq1 < 64 ∧ atkSq1.tmod 8 = f - 1 ∧ st.pieceAt atkSq1 = oppPawn) ∨
    (f < 7 ∧ atkSq2 ≥ 0 ∧ atkSq2 < 64 ∧ atkSq2.tmod 8 = f + 1 ∧ st.pieceAt atkSq2 = oppPawn)
  else
    let atkSq1 := stopSq - 8 - 1
    let atkSq2 := stopSq - 8 + 1
    (f > 0 ∧ atkSq1 ≥ 0 ∧ atkSq1 < 64 ∧ atkSq1.tmod 8 = f - 1 ∧ st.pieceAt atkSq1 = oppPawn) ∨
    (f < 7 ∧ atkSq2 ≥ 0 ∧ atkSq2 < 64 ∧ atkSq2.tmod 8 = f + 1 ∧ st.pieceAt atkSq2 = oppPawn)

/-- The body of the second loop of `evaluatePawnStructure` for a pawn of `c` on `s`: the
new value of `score`. -/
def pawnTerms (st : BoardState) (c : Color) (score : Int) (s : Int) : Int :=
  let opp := if c = WHITE then BLACK else WHITE
  let myPawn := makePiece c PAWN
  let oppPawn := makePiece opp PAWN
  let f := s.tmod 8
  let r := s.tdiv 8
  let score := if pawnsOnFile st myPawn f > 1 then score - 15 else score
  let isolated : Bool :=
    ¬ ((f > 0 ∧ pawnsOnFile st myPawn (f - 1) > 0) ∨ (f < 7 ∧ pawnsOnFile st myPawn (f + 1) > 0))
  let score := if isolated then score - 20 else score
  let score :=
    if pawnPassed st c oppPawn f r then
      (if c = WHITE then score + (20 + r * 10) else score + (20 + (7 - r) * 10))
    else score
  let stopSq := if c = WHITE then s + 8 else s - 8
  if stopSq ≥ 0 ∧ stopSq < 64 then
    let canBeSupported : Bool :=
      (f > 0 ∧ pawnsOnFile st myPawn (f - 1) > 0) ∨ (f < 7 ∧ pawnsOnFile st myPawn (f + 1) > 0)
    if stopAttacked st c oppPawn f stopSq = true ∧ canBeSupported = false then score - 10
    else score
  else score

/-- The static function `evaluatePawnStructure`. -/
def evaluatePawnStructure (st : BoardState) (c : Color) : Int :=
  allSquares.foldl (fun score s =>
    if st.pieceAt s ≠ makePiece c PAWN then score else pawnTerms st c score s) 0

/-- The flag `myPawnOnFile[f]` (or `oppPawnOnFile[f]`) of `evaluateRooks` after the
marking loop, for the pawn code `pc`. -/
def pawnOnFile (st : BoardState) (pc : Nat) (f : Int) : Bool :=
  allSquares.any (fun s => decide (st.pieceAt s = pc ∧ s.tmod 8 = f))

/-- The static function `evaluateRooks`. -/
def evaluateRooks (st : BoardState) (c : Color) : Int :=
  let myR := makePiece c ROOK
  let myP := makePiece c PAWN
  let oppP := makePiece (if c = WHITE then BLACK else WHITE) PAWN
  let seventhRank : Int := if c = WHITE then 6 else 1
  allSquares.foldl (fun score s =>
    if st.pieceAt s ≠ myR then score
    else
      let f := s.tmod 8
      let r := s.tdiv 8
      let score :=
        if pawnOnFile st myP f = false then
          (if pawnOnFile st oppP f = false then score + 20 else score + 10)
        else score
      if r = seventhRank then score + 25 else score) 0

/-- The static function `evaluateKingSafety`. -/
def evaluateKingSafety (st : BoardState) (c : Color) (phase : Int) : Int :=
  let opp := if c = WHITE then BLACK else WHITE
  let myK := makePiece c KING
  let ks := findPiece st myK
  if ks < 0 then 0
  else
    let kr := ks.tdiv 8
    let kf := ks.tmod 8
    let myP := makePiece c PAWN
    let score : Int :=
      if phase > 8 then
        let shieldRank := if c = WHITE then kr + 1 else kr - 1
        let shields : Int := [-1, 0, 1].foldl (fun n df =>
          let sf := kf + df
          if sf < 0 ∨ sf > 7 then n
          else if shieldRank ≥ 0 ∧ shieldRank < 8 ∧ st.pieceAt (shieldRank * 8 + sf) = myP
            then n + 1
          else n) 0
        let score := shields * 10
        if kf ≥ 2 ∧ kf ≤ 5 then score - 20 else score
      else 0
    let attackers : Int := [-2, -1, 0, 1, 2].foldl (fun n ds =>
      [-2, -1, 0, 1, 2].foldl (fun n df =>
        let ts := ks + ds * 8 + df
        if ts < 0 ∨ ts > 63 then n
        else
          let pc := st.pieceAt ts
          if pc ≠ 0 ∧ pieceColor pc = opp ∧ pieceType pc ≠ PAWN then n + 1 else n) n) 0
    score - attackers * 8

/-- The `while(true)` loop of `mobility` over one diagonal direction `d`: the number of
times it runs `moves++`; `none` when the rounds outnumber `fuel`. -/
def mobDiagRay (st : BoardState) (c : Color) (d : Int) : Nat → Int → Option Int
  | 0, _ => none
  | fuel + 1, t =>
    let nt := t + d
    if nt < 0 ∨ nt > 63 then some 0
    else if cabs (nt.tmod 8 - t.tmod 8) ≠ 1 then some 0
    else
      let cap := st.pieceAt nt
      if cap ≠ 0 ∧ pieceColor cap = c then some 0
      else if cap ≠ 0 then some 1
      else (mobDiagRay st c d fuel nt).map (fun n => n + 1)

/-- The `while(true)` loop of `mobility` over one rook direction `d` from `s`. -/
def mobLineRay (st : BoardState) (c : Color) (s d : Int) : Nat → Int → Option Int
  | 0, _ => none
  | fuel + 1, t =>
    let nt := t + d
    if nt < 0 ∨ nt > 63 then some 0
    else if cabs d = 1 ∧ nt.tdiv 8 ≠ s.tdiv 8 then some 0
    else
      let cap := st.pieceAt nt
      if cap ≠ 0 ∧ pieceColor cap = c then some 0
      else if cap ≠ 0 then some 1
      else (mobLineRay st c s d fuel nt).map (fun n => n + 1)

/-- The sum of the counts of a ray loop over the directions `dirs`. -/
def mobRays (ray : Int → Option Int) (dirs : List Int) : Option Int :=
  dirs.foldlM (fun moves d => (ray d).map (fun n => moves + n)) 0

/-- The knight branch of `mobility`: the value of `moves`. -/
def mobKnight (st : BoardState) (c : Color) (s : Int) : Int :=
  [-17, -15, -10, -6, 6, 10, 15, 17].foldl (fun moves o =>
    let t := s + o
    if t < 0 ∨ t > 63 then moves
    else
      let df := cabs (t.tmod 8 - s.tmod 8)
      if df ≠ 1 ∧ df ≠ 2 then moves
      else
        let cap := st.pieceAt t
        if cap = 0 ∨ pieceColor cap ≠ c then moves + 1 else moves) 0

/-- The body of the loop of `mobility` for the square `s`: the new value of `score`. -/
def mobilityAt (st : BoardState) (c : Color) (score : Int) (s : Int) : Option Int :=
  let pc := st.pieceAt s
  if pc = 0 ∨ pieceColor pc ≠ c then some score
  else
    let pt := pieceType pc
    if pt = PAWN ∨ pt = KING then some score
    else
      let first : Option (Int × Int) :=
        if pt = KNIGHT then
          let moves := mobKnight st c s
          some (moves, score + moves * 2)
        else if pt = BISHOP ∨ pt = QUEEN then
          (mobRays (fun d => mobDiagRay st c d 64 s) [9, -9, 7, -7]).map (fun moves =>
            (moves, if pt = BISHOP then score + moves * 2 else score))
        else some (0, score)
      match first with
      | none => none
      | some (moves, score) =>
        if pt = ROOK ∨ pt = QUEEN then
          (mobRays (fun d => mobLineRay st c s d 64 s) [1, -1, 8, -8]).map (fun n =>
            let moves := moves + n
            let score := if pt = ROOK then score + moves else score
            if pt = QUEEN then score + moves else score)
        else some score

/-- The static function `mobility`. -/
def mobility (st : BoardState) (c : Color) : Option Int :=
  allSquares.foldlM (mobilityAt st c) 0

/-- The conversion `(int)x` of a float: truncation towards zero. -/
def ftrunc (q : ℚ) : Int := q.num.tdiv q.den

/-- The expression `(int)(pst_mg*(1-eg) + pst_eg*eg)` of `evaluate`; `rnd` is the rounding
of the float format, applied to every conversion and every operation. -/
def pstBlend (rnd : ℚ → ℚ) (eg : ℚ) (pst_mg pst_eg : Int) : Int :=
  ftrunc (rnd (rnd (rnd (pst_mg : ℚ) * rnd (1 - eg)) + rnd (rnd (pst_eg : ℚ) * eg)))

/-- The expression `(int)(ks*(float)phase/24.0f)` of `evaluate`. -/
def kingBlend (rnd : ℚ → ℚ) (phase ks : Int) : Int :=
  ftrunc (rnd (rnd (rnd (ks : ℚ) * rnd (phase : ℚ)) / 24))

/-- `Eval::evaluate`, with the floats as rationals rounded by `rnd`; `none` when a loop of
`mobility` runs out of fuel. The local `endgame` of the source is not read. -/
def evaluate (rnd : ℚ → ℚ) (b : Board) : Option Int :=
  let st := b.state
  let phase := gamePhase st
  let eg : ℚ := rnd (1 - rnd (rnd (phase : ℚ) / 24))
  let score : Int := allSquares.foldl (fun score s =>
    let pc := st.pieceAt s
    if pc = 0 then score
    else
      let c := pieceColor pc
      let pt := pieceType pc
      let val := materialValue pc
      let pst_mg := getPST pt c s false
      let pst_eg := getPST pt c s true
      let pst := pstBlend rnd eg pst_mg pst_eg
      let total := val + pst
      if c = WHITE then score + total else score - total) 0
  let score := score + evaluatePawnStructure st WHITE
  let score := score - evaluatePawnStructure st BLACK
  let score := score + evaluateRooks st WHITE
  let score := score - evaluateRooks st BLACK
  let score := if countPiece st WHITE BISHOP ≥ 2 then score + 30 else score
  let score := if countPiece st BLACK BISHOP ≥ 2 then score - 30 else score
  match mobility st WHITE, mobility st BLACK with
  | some mw, some mb =>
    let score := score + mw
    let score := score - mb
    let wks := evaluateKingSafety st WHITE phase
    let bks := evaluateKingSafety st BLACK phase
    let score := score + kingBlend rnd phase wks
    let score := score - kingBlend rnd phase bks
    some score
  | _, _ => none

/-- The value of `evaluate` when the tapering weights are exactly 1 and 0 and the
king-safety weight is exactly 1: no float is left. -/
def evaluateExact (b : Board) : Option Int :=
  let st := b.state
  let phase := gamePhase st
  let score : Int := allSquares.foldl (fun score s =>
    let pc := st.pieceAt s
    if pc = 0 then score
    else
      let c := pieceColor pc
      let pt := pieceType pc
      let total := materialValue pc + getPST pt c s false
      if c = WHITE then score + total else score - total) 0
  let score := score + evaluatePawnStructure st WHITE
  let score := score - evaluatePawnStructure st BLACK
  let score := score + evaluateRooks st WHITE
  let score := score - evaluateRooks st BLACK
  let score := if countPiece st WHITE BISHOP ≥ 2 then score + 30 else score
  let score := if countPiece st BLACK BISHOP ≥ 2 then score - 30 else score
  match mobility st WHITE, mobility st BLACK with
  | some mw, some mb =>
    let score := score + mw
    let score := score - mb
    let score := score + evaluateKingSafety st WHITE phase
    let score := score - evaluateKingSafety st BLACK phase
    some score
  | _, _ => none

/-- White to move: the king on e1 can take the pawn on e2 or step to d2. -/
def kingCaptureFEN : String := "4k3/8/8/8/8/8/4p3/4K3 w - - 0 1"

/-- White to move: the queen on d5 can take each of the eight pawns around it. -/
def queenPawnsFEN : String := "4k3/8/2ppp3/2pQp3/2ppp3/8/8/4K3 w - - 0 1"

/-- The body of the second loop of `evaluatePawnStructure` without its doubled-pawn line
`if (myFiles[f]>1) score-=15;`: the isolated, passed and backward terms. -/
def pawnTermsUndoubled (st : BoardState) (c : Color) (score : Int) (s : Int) : Int :=
  let opp := if c = WHITE then BLACK else WHITE
  let myPawn := makePiece c PAWN
  let oppPawn := makePiece opp PAWN
  let f := s.tmod 8
  let r := s.tdiv 8
  let isolated : Bool :=
    ¬ ((f > 0 ∧ pawnsOnFile st myPawn (f - 1) > 0) ∨ (f < 7 ∧ pawnsOnFile st myPawn (f + 1) > 0))
  let score := if isolated then score - 20 else score
  let score :=
    if pawnPassed st c oppPawn f r then
      (if c = WHITE then score + (20 + r * 10) else score + (20 + (7 - r) * 10))
    else score
  let stopSq := if c = WHITE then s + 8 else s - 8
  if stopSq ≥ 0 ∧ stopSq < 64 then
    let canBeSupported : Bool :=
      (f > 0 ∧ pawnsOnFile st myPawn (f - 1) > 0) ∨ (f < 7 ∧ pawnsOnFile st myPawn (f + 1) > 0)
    if stopAttacked st c oppPawn f stopSq = true ∧ canBeSupported = false then score - 10
    else score
  else score

/-- The function `evaluatePawnStructure` without its doubled-pawn line. -/
def pawnStructureUndoubled (st : BoardState) (c : Color) : Int :=
  allSquares.foldl (fun score s =>
    if st.pieceAt s ≠ makePiece c PAWN then score else pawnTermsUndoubled st c score s) 0

/-- White to move with pawns on a2 and a3 and no other pawn. -/
def doubledPawnsFEN : String := "4k3/8/8/8/8/P7/P7/4K3 w - - 0 1"

/-- The squares the attacker loop of `evaluateKingSafety` looks at for a king on `ks`:
the indices `ks + ds*8 + df` with `ds` and `df` in `-2..2`. -/
def kingZone (ks t : Int) : Prop :=
  ∃ ds ∈ ([-2, -1, 0, 1, 2] : List Int), ∃ df ∈ ([-2, -1, 0, 1, 2] : List Int),
    t = ks + ds * 8 + df

instance (ks t : Int) : Decidable (kingZone ks t) := by
  unfold kingZone; infer_instance

/-- The 5x5 box centred on `ks`: file distance at most 2 and rank distance at most 2. -/
def kingBox (ks t : Int) : Prop :=
  cabs (t.tmod 8 - ks.tmod 8) ≤ 2 ∧ cabs (t.tdiv 8 - ks.tdiv 8) ≤ 2

instance (ks t : Int) : Decidable (kingBox ks t) := by
  unfold kingBox; infer_instance

/-- The number of pawns of `c` on the rank in front of the king on `ks`, on the king's
file and the files next to it. -/
def shieldPawns (st : BoardState) (c : Color) (ks : Int) : Int :=
  ((allSquares.filter (fun s => decide
    (s.tdiv 8 = (if c = WHITE then ks.tdiv 8 + 1 else ks.tdiv 8 - 1) ∧
      cabs (s.tmod 8 - ks.tmod 8) ≤ 1 ∧ st.pieceAt s = makePiece c PAWN))).length : Int)

/-- The number of squares of `kingZone ks` holding a piece of the other colour that is
not a pawn. -/
def zoneAttackers (st : BoardState) (c : Color) (ks : Int) : Int :=
  ((allSquares.filter (fun t => decide
    (kingZone ks t ∧ st.pieceAt t ≠ 0 ∧
      pieceColor (st.pieceAt t) = (if c = WHITE then BLACK else WHITE) ∧
      pieceType (st.pieceAt t) ≠ PAWN))).length : Int)

/-- The two kings on e1 and e8 and nothing else. -/
def bareKingsFEN : String := "4k3/8/8/8/8/8/8/4K3 w - - 0 1"

/-- The white king on a1 and a black rook on h1. -/
def cornerKingFEN : String := "4k3/8/8/8/8/8/8/K6r w - - 0 1"

/-- White to move, ep square e6 with the black pawn on e5 behind it and a black knight on
e6 itself; the white pawn on d5 can capture en passant. -/
def epOccupiedFEN : String := "4k3/8/4n3/3Pp3/8/8/8/4K3 w - e6 0 1"

/-- White to move, ep square e6 empty with the black pawn on e5 behind it. -/
def epReadyFEN : String := "4k3/8/8/3Pp3/8/8/8/4K3 w - e6 0 1"

/-- Every slot of the table of `T` is the slot of `S`, or holds a non-null move with the
flag Exact (0) or LowerBound (1). -/
def TTStep (S T : Search) : Prop :=
  ∀ i, T.tt i = S.tt i ∨
    ((T.tt i).best.isNull = false ∧ ((T.tt i).flag = 0 ∨ (T.tt i).flag = 1))

/-- The castling rights agree with the board: each set castling bit has its king and its
rook on their home squares, and the ep square, if set, is on rank 3 or rank 6 (rank index
2 or 5). -/
def CastlingHome (st : BoardState) : Prop :=
  (st.castling &&& 1 ≠ 0 →
    st.pieceAt 4 = makePiece WHITE KING ∧ st.pieceAt 7 = makePiece WHITE ROOK) ∧
  (st.castling &&& 2 ≠ 0 →
    st.pieceAt 4 = makePiece WHITE KING ∧ st.pieceAt 0 = makePiece WHITE ROOK) ∧
  (st.castling &&& 4 ≠ 0 →
    st.pieceAt 60 = makePiece BLACK KING ∧ st.pieceAt 63 = makePiece BLACK ROOK) ∧
  (st.castling &&& 8 ≠ 0 →
    st.pieceAt 60 = makePiece BLACK KING ∧ st.pieceAt 56 = makePiece BLACK ROOK) ∧
  (st.epSquare ≠ NO_SQ → st.epSquare.tdiv 8 = 2 ∨ st.epSquare.tdiv 8 = 5)

instance (st : BoardState) : Decidable (CastlingHome st) := by
  unfold CastlingHome; infer_instance

/-! # Theorems -/

/-! ## Make and unmake -/

theorem makeMove_snd (Z : ZobristKeys) (b : Board) (m : Move) :
    (makeMove Z b m).2 = !leavesInCheck Z b.state m := by
  unfold makeMove leavesInCheck
  by_cases h : isInCheck (applyMove Z b.state m)
      (if (applyMove Z b.state m).sideToMove = WHITE then BLACK else WHITE) = true
  · simp [h]
  · simp [h]

theorem makeMove_fst_of_true (Z : ZobristKeys) (b : Board) (m : Move)
    (h : (makeMove Z b m).2 = true) :
    (makeMove Z b m).1 =
      { state := applyMove Z b.state m, history := m :: b.history,
        stateHistory := b.state :: b.stateHistory } := by
  unfold makeMove at h ⊢
  by_cases hc : isInCheck (applyMove Z b.state m)
      (if (applyMove Z b.state m).sideToMove = WHITE then BLACK else WHITE) = true
  · simp [hc] at h
  · simp [hc]

theorem makeMove_fst_of_false (Z : ZobristKeys) (b : Board) (m : Move)
    (h : (makeMove Z b m).2 = false) :
    (makeMove Z b m).1 =
      { state := b.state, history := b.history.tail, stateHistory := b.stateHistory } := by
  unfold makeMove at h ⊢
  by_cases hc : isInCheck (applyMove Z b.state m)
      (if (applyMove Z b.state m).sideToMove = WHITE then BLACK else WHITE) = true
  · simp [hc, unmakeMove]
  · simp [hc] at h

theorem unmakeMove_makeMove_of_true (Z : ZobristKeys) (b : Board) (m : Move)
    (h : (makeMove Z b m).2 = true) : unmakeMove (makeMove Z b m).1 = b := by
  rw [makeMove_fst_of_true Z b m h]
  simp [unmakeMove]

/-- One step of `generateLegalMoves` keeps the state and the undo stack. -/
theorem legalStep_frame (Z : ZobristKeys) (acc : List Move × Board) (m : Move) :
    (legalStep Z acc m).2.state = acc.2.state ∧
      (legalStep Z acc m).2.stateHistory = acc.2.stateHistory ∧
      (legalStep Z acc m).1 =
        acc.1 ++ (if leavesInCheck Z acc.2.state m = true then [] else [m]) := by
  unfold legalStep
  cases h : (makeMove Z acc.2 m).2
  · have h2 := makeMove_fst_of_false Z acc.2 m h
    have h3 := makeMove_snd Z acc.2 m
    rw [h] at h3
    simp at h3
    simp [h, h2, h3]
  · have h2 := unmakeMove_makeMove_of_true Z acc.2 m h
    have h3 := makeMove_snd Z acc.2 m
    rw [h] at h3
    simp at h3
    simp [h, h2, h3]

theorem legalFold_frame (Z : ZobristKeys) (ms : List Move) (acc : List Move × Board) :
    (ms.foldl (legalStep Z) acc).2.state = acc.2.state ∧
      (ms.foldl (legalStep Z) acc).2.stateHistory = acc.2.stateHistory ∧
      (ms.foldl (legalStep Z) acc).1 =
        acc.1 ++ ms.filter (fun m => !leavesInCheck Z acc.2.state m) := by
  induction ms generalizing acc with
  | nil => simp
  | cons m ms ih =>
    obtain ⟨h1, h2, h3⟩ := legalStep_frame Z acc m
    obtain ⟨i1, i2, i3⟩ := ih (legalStep Z acc m)
    simp only [List.foldl_cons]
    refine ⟨by rw [i1, h1], by rw [i2, h2], ?_⟩
    rw [i3, h3, h1, List.filter_cons]
    cases h : leavesInCheck Z acc.2.state m <;> simp

theorem generateLegalMoves_eq_filter (Z : ZobristKeys) (b : Board) :
    (generateLegalMoves Z b).1 =
      (generateMoves b).filter (fun m => (makeMove Z b m).2) := by
  unfold generateLegalMoves
  rw [(legalFold_frame Z (generateMoves b) ([], b)).2.2]
  simp [makeMove_snd]

/-- C1: for every position and every move `m` of `generateLegalMoves`, `makeMove(m)`
returns true and the following `unmakeMove()` restores the board exactly: the state
(squares, side to move, castling mask, ep square, clocks, zobrist key), the undo stack
and the move history. -/
theorem makeMove_unmakeMove_restores (Z : ZobristKeys) (b : Board) (m : Move)
    (h : m ∈ (generateLegalMoves Z b).1) :
    (makeMove Z b m).2 = true ∧ unmakeMove (makeMove Z b m).1 = b := by
  rw [generateLegalMoves_eq_filter, List.mem_filter] at h
  exact ⟨h.2, unmakeMove_makeMove_of_true Z b m h.2⟩

set_option maxRecDepth 100000 in
theorem makeMove_unmakeMove_restores_witness :
    Move.new 4 12 0 0 ∈
        (generateLegalMoves sampleKeys (boardOfFEN sampleKeys "4k3/8/8/8/8/8/8/4K3 w - - 0 1")).1 ∧
      ((makeMove sampleKeys (boardOfFEN sampleKeys "4k3/8/8/8/8/8/8/4K3 w - - 0 1")
          (Move.new 4 12 0 0)).2 = true ∧
        unmakeMove (makeMove sampleKeys (boardOfFEN sampleKeys "4k3/8/8/8/8/8/8/4K3 w - - 0 1")
          (Move.new 4 12 0 0)).1 = boardOfFEN sampleKeys "4k3/8/8/8/8/8/8/4K3 w - - 0 1") :=
  have h : Move.new 4 12 0 0 ∈
      (generateLegalMoves sampleKeys
        (boardOfFEN sampleKeys "4k3/8/8/8/8/8/8/4K3 w - - 0 1")).1 := by decide!
  ⟨h, makeMove_unmakeMove_restores _ _ _ h⟩

/-! ## Check detection -/

theorem find_range_spec (p : Int → Bool) (n a : Nat) :
    match ((List.range' a n).map Int.ofNat).find? p with
    | some k => ∃ i : Nat, a ≤ i ∧ i < a + n ∧ k = (i : Int) ∧ p k = true ∧
        ∀ j : Nat, a ≤ j → j < i → p (j : Int) = false
    | none => ∀ j : Nat, a ≤ j → j < a + n → p (j : Int) = false := by
  induction n generalizing a with
  | zero =>
    simp
    intro j h1 h2
    omega
  | succ n ih =>
    simp only [List.range'_succ, List.map_cons, List.find?_cons]
    cases hp : p (Int.ofNat a)
    · simp only []
      have := ih (a + 1)
      split at this
      · next k hk =>
        rw [hk]
        obtain ⟨i, h1, h2, h3, h4, h5⟩ := this
        refine ⟨i, by omega, by omega, h3, h4, ?_⟩
        intro j hj1 hj2
        by_cases hja : j = a
        · subst hja; exact hp
        · exact h5 j (by omega) hj2
      · next hk =>
        rw [hk]
        intro j hj1 hj2
        by_cases hja : j = a
        · subst hja; exact hp
        · exact this j (by omega) (by omega)
    · simp only []
      exact ⟨a, le_refl _, by omega, rfl, hp, fun j h1 h2 => by omega⟩

/-- The king search finds the lowest square holding the piece code, and `-1` exactly
when no square holds it. -/
theorem findPiece_spec (st : BoardState) (kpc : Nat) :
    (findPiece st kpc = -1 ∧ ∀ s : Int, 0 ≤ s → s < 64 → st.pieceAt s ≠ kpc) ∨
    (0 ≤ findPiece st kpc ∧ findPiece st kpc < 64 ∧
      st.pieceAt (findPiece st kpc) = kpc ∧
      ∀ s : Int, 0 ≤ s → s < findPiece st kpc → st.pieceAt s ≠ kpc) := by
  have h := find_range_spec (fun s => decide (st.pieceAt s = kpc)) 64 0
  unfold findPiece allSquares
  rw [List.range_eq_range']
  split at h
  · next k hk =>
    right
    rw [hk]
    obtain ⟨i, _, h2, h3, h4, h5⟩ := h
    simp only [Option.getD_some]
    subst h3
    refine ⟨by omega, by omega, by simpa using h4, ?_⟩
    intro s hs1 hs2
    have := h5 s.toNat (by omega) (by omega)
    rw [Int.toNat_of_nonneg hs1] at this
    simpa using this
  · next hk =>
    left
    rw [hk]
    refine ⟨rfl, ?_⟩
    intro s hs1 hs2
    have := h s.toNat (by omega) (by omega)
    rw [Int.toNat_of_nonneg hs1] at this
    simpa using this

/-- `isInCheck(c)` holds exactly when the lowest square holding `c`'s king is attacked
by the other colour. -/
theorem isInCheck_iff (st : BoardState) (c : Color) :
    isInCheck st c = true ↔
      ∃ ks : Int, 0 ≤ ks ∧ ks < 64 ∧ st.pieceAt ks = makePiece c KING ∧
        (∀ s : Int, 0 ≤ s → s < ks → st.pieceAt s ≠ makePiece c KING) ∧
        isSquareAttacked st ks (opposite c) = true := by
  unfold isInCheck opposite
  simp only []
  rcases findPiece_spec st (makePiece c KING) with ⟨h1, h2⟩ | ⟨h1, h2, h3, h4⟩
  · rw [h1]
    simp only [if_true]
    constructor
    · intro h; cases h
    · rintro ⟨ks, k1, k2, k3, _, _⟩
      exact absurd k3 (h2 ks k1 k2)
  · have hne : findPiece st (makePiece c KING) ≠ -1 := by omega
    rw [if_neg hne]
    constructor
    · intro h
      exact ⟨_, h1, h2, h3, h4, h⟩
    · rintro ⟨ks, k1, k2, k3, k4, k5⟩
      have : ks = findPiece st (makePiece c KING) := by
        rcases lt_trichotomy ks (findPiece st (makePiece c KING)) with hlt | heq | hgt
        · exact absurd k3 (h4 ks k1 hlt)
        · exact heq
        · exact absurd h3 (k4 _ h1 hgt)
      rw [← this]
      exact k5

theorem applyMove_sideToMove (Z : ZobristKeys) (st : BoardState) (m : Move) :
    (applyMove Z st m).sideToMove = (if st.sideToMove = WHITE then BLACK else WHITE) := by
  simp only [applyMove, mvHeader, mvOldKeys, mvClocks, mvEnPassant, mvCastleRook, mvPiece,
    mvEpSquare, mvCastling, mvSide, apply_ite BoardState.sideToMove, ite_self]

/-- The colour tested by `makeMove` is the side that moved. -/
theorem leavesInCheck_eq (Z : ZobristKeys) (st : BoardState) (m : Move) :
    leavesInCheck Z st m = isInCheck (applyMove Z st m) st.sideToMove := by
  unfold leavesInCheck
  rw [applyMove_sideToMove]
  cases st.sideToMove <;> simp

/-- C3: in a position where the side to move has its king on the board, `makeMove(m)`
returns true exactly when, with the move applied, no square holds that side's king
attacked by the opponent (the king looked at is the one on the lowest square); and after
a successful `makeMove` the side that just moved is not in check. -/
theorem makeMove_true_iff_king_safe (Z : ZobristKeys) (b : Board) (m : Move)
    (hk : ∃ s : Int, 0 ≤ s ∧ s < 64 ∧
      b.state.pieceAt s = makePiece b.state.sideToMove KING) :
    ((makeMove Z b m).2 = true ↔
      ¬ ∃ ks : Int, 0 ≤ ks ∧ ks < 64 ∧
        (applyMove Z b.state m).pieceAt ks = makePiece b.state.sideToMove KING ∧
        (∀ s : Int, 0 ≤ s → s < ks →
          (applyMove Z b.state m).pieceAt s ≠ makePiece b.state.sideToMove KING) ∧
        isSquareAttacked (applyMove Z b.state m) ks (opposite b.state.sideToMove) = true) ∧
    ((makeMove Z b m).2 = true →
      (makeMove Z b m).1.state = applyMove Z b.state m ∧
      isInCheck (makeMove Z b m).1.state b.state.sideToMove = false) := by
  have _ := hk
  have hs := makeMove_snd Z b m
  rw [leavesInCheck_eq] at hs
  constructor
  · rw [hs, ← isInCheck_iff]
    simp
  · intro h
    rw [makeMove_fst_of_true Z b m h]
    rw [h] at hs
    simpa using hs

set_option maxRecDepth 100000 in
theorem makeMove_true_iff_king_safe_witness :
    (∃ s : Int, 0 ≤ s ∧ s < 64 ∧
      (boardOfFEN sampleKeys "4k3/8/8/8/8/8/8/4K3 w - - 0 1").state.pieceAt s =
        makePiece (boardOfFEN sampleKeys "4k3/8/8/8/8/8/8/4K3 w - - 0 1").state.sideToMove KING) ∧
    (makeMove sampleKeys (boardOfFEN sampleKeys "4k3/8/8/8/8/8/8/4K3 w - - 0 1")
        (Move.new 4 12 0 0)).2 = true ∧
    isInCheck (makeMove sampleKeys (boardOfFEN sampleKeys "4k3/8/8/8/8/8/8/4K3 w - - 0 1")
        (Move.new 4 12 0 0)).1.state WHITE = false :=
  have hk : ∃ s : Int, 0 ≤ s ∧ s < 64 ∧
      (boardOfFEN sampleKeys "4k3/8/8/8/8/8/8/4K3 w - - 0 1").state.pieceAt s =
        makePiece (boardOfFEN sampleKeys "4k3/8/8/8/8/8/8/4K3 w - - 0 1").state.sideToMove KING :=
    ⟨4, by decide, by decide, by decide!⟩
  have ht : (makeMove sampleKeys (boardOfFEN sampleKeys "4k3/8/8/8/8/8/8/4K3 w - - 0 1")
        (Move.new 4 12 0 0)).2 = true := by decide!
  ⟨hk, ht, ((makeMove_true_iff_king_safe sampleKeys _ (Move.new 4 12 0 0) hk).2 ht).2⟩

/-- C4: when `makeMove(m)` returns false the state (squares, side to move, castling
mask, ep square, halfmove, fullmove, zobrist key) and the undo stack are as before the
call. -/
theorem makeMove_false_restores (Z : ZobristKeys) (b : Board) (m : Move)
    (h : (makeMove Z b m).2 = false) :
    (makeMove Z b m).1.state = b.state ∧
      (makeMove Z b m).1.stateHistory = b.stateHistory := by
  rw [makeMove_fst_of_false Z b m h]
  exact ⟨rfl, rfl⟩

set_option maxRecDepth 100000 in
theorem makeMove_false_restores_witness :
    (makeMove sampleKeys (boardOfFEN sampleKeys "R2k4/8/8/8/8/8/8/4K3 b - - 0 1")
        (Move.new 59 58 0 0)).2 = false ∧
    ((makeMove sampleKeys (boardOfFEN sampleKeys "R2k4/8/8/8/8/8/8/4K3 b - - 0 1")
        (Move.new 59 58 0 0)).1.state =
        (boardOfFEN sampleKeys "R2k4/8/8/8/8/8/8/4K3 b - - 0 1").state ∧
      (makeMove sampleKeys (boardOfFEN sampleKeys "R2k4/8/8/8/8/8/8/4K3 b - - 0 1")
        (Move.new 59 58 0 0)).1.stateHistory =
        (boardOfFEN sampleKeys "R2k4/8/8/8/8/8/8/4K3 b - - 0 1").stateHistory) :=
  have hf : (makeMove sampleKeys (boardOfFEN sampleKeys "R2k4/8/8/8/8/8/8/4K3 b - - 0 1")
        (Move.new 59 58 0 0)).2 = false := by decide!
  ⟨hf, makeMove_false_restores sampleKeys _ _ hf⟩

/-- A failed `makeMove` pops the move history although it has not pushed the move. -/
theorem makeMove_false_history (Z : ZobristKeys) (b : Board) (m : Move)
    (h : (makeMove Z b m).2 = false) :
    (makeMove Z b m).1.history = b.history.tail := by
  rw [makeMove_fst_of_false Z b m h]

/-- `unmakeMove` keeps the two stacks at equal length, and is the identity on an empty
undo stack. -/
theorem unmakeMove_lengths (b : Board) (h : b.history.length = b.stateHistory.length) :
    (unmakeMove b).history.length = (unmakeMove b).stateHistory.length ∧
      (b.stateHistory = [] → unmakeMove b = b) := by
  unfold unmakeMove
  cases hs : b.stateHistory with
  | nil => simp [h, hs]
  | cons top rest =>
    rw [hs] at h
    simp [h]

/-- C5 (the code breaks it): after `loadFEN("4k3/8/8/8/8/8/8/R3K3 w - - 0 1")` and the
successful `makeMove` of Ra1-a8 both stacks have length 1; the generated move Ke8-d8 then
fails in `makeMove`, which leaves the undo stack at length 1 and the move history at
length 0. -/
theorem failed_makeMove_desyncs_history :
    (makeMove sampleKeys (boardOfFEN sampleKeys "4k3/8/8/8/8/8/8/R3K3 w - - 0 1")
        (Move.new 0 56 0 0)).2 = true ∧
    (makeMove sampleKeys (boardOfFEN sampleKeys "4k3/8/8/8/8/8/8/R3K3 w - - 0 1")
        (Move.new 0 56 0 0)).1.history.length = 1 ∧
    (makeMove sampleKeys (boardOfFEN sampleKeys "4k3/8/8/8/8/8/8/R3K3 w - - 0 1")
        (Move.new 0 56 0 0)).1.stateHistory.length = 1 ∧
    Move.new 60 59 0 0 ∈ generateMoves
      (makeMove sampleKeys (boardOfFEN sampleKeys "4k3/8/8/8/8/8/8/R3K3 w - - 0 1")
        (Move.new 0 56 0 0)).1 ∧
    (makeMove sampleKeys
      (makeMove sampleKeys (boardOfFEN sampleKeys "4k3/8/8/8/8/8/8/R3K3 w - - 0 1")
        (Move.new 0 56 0 0)).1 (Move.new 60 59 0 0)).2 = false ∧
    (makeMove sampleKeys
      (makeMove sampleKeys (boardOfFEN sampleKeys "4k3/8/8/8/8/8/8/R3K3 w - - 0 1")
        (Move.new 0 56 0 0)).1 (Move.new 60 59 0 0)).1.history.length = 0 ∧
    (makeMove sampleKeys
      (makeMove sampleKeys (boardOfFEN sampleKeys "4k3/8/8/8/8/8/8/R3K3 w - - 0 1")
        (Move.new 0 56 0 0)).1 (Move.new 60 59 0 0)).1.stateHistory.length = 1 := by
  set_option maxRecDepth 100000 in decide!

/-! ## The packed move -/

theorem Move.new_data (s t : Int) (fl p : Nat) (hs0 : 0 ≤ s) (hs : s < 64) (ht0 : 0 ≤ t)
    (ht : t < 64) (hf : fl ≤ 3) (hp : p ≤ 3) :
    (Move.new s t fl p).data = s.toNat + 64 * t.toNat + 4096 * fl + 16384 * p := by
  unfold Move.new
  simp only [Nat.shiftLeft_eq]
  have h1 : s.toNat ||| t.toNat * 2 ^ 6 = 2 ^ 6 * t.toNat + s.toNat := by
    rw [Nat.lor_comm, Nat.mul_comm]
    exact (Nat.mul_add_lt_is_or (by omega) _).symm
  have h2 : 2 ^ 6 * t.toNat + s.toNat ||| fl * 2 ^ 12 = 2 ^ 12 * fl + (2 ^ 6 * t.toNat + s.toNat) := by
    rw [Nat.lor_comm, Nat.mul_comm]
    exact (Nat.mul_add_lt_is_or (by omega) _).symm
  have h3 : 2 ^ 12 * fl + (2 ^ 6 * t.toNat + s.toNat) ||| p * 2 ^ 14 =
      2 ^ 14 * p + (2 ^ 12 * fl + (2 ^ 6 * t.toNat + s.toNat)) := by
    rw [Nat.lor_comm, Nat.mul_comm]
    exact (Nat.mul_add_lt_is_or (by omega) _).symm
  rw [h1, h2, h3]
  omega

theorem Move.from_of_data (m : Move) : m.from_ = ((m.data % 64 : Nat) : Int) := by
  unfold Move.from_
  rw [show (63 : Nat) = 2 ^ 6 - 1 from rfl, Nat.and_pow_two_sub_one_eq_mod]

theorem Move.to_of_data (m : Move) : m.to_ = ((m.data / 64 % 64 : Nat) : Int) := by
  unfold Move.to_
  rw [show (63 : Nat) = 2 ^ 6 - 1 from rfl, Nat.and_pow_two_sub_one_eq_mod,
    Nat.shiftRight_eq_div_pow]

theorem Move.flags_of_data (m : Move) : m.flags = m.data / 4096 % 4 := by
  unfold Move.flags
  rw [show (3 : Nat) = 2 ^ 2 - 1 from rfl, Nat.and_pow_two_sub_one_eq_mod,
    Nat.shiftRight_eq_div_pow]

theorem Move.promo_of_data (m : Move) : m.promo = m.data / 16384 % 4 := by
  unfold Move.promo
  rw [show (3 : Nat) = 2 ^ 2 - 1 from rfl, Nat.and_pow_two_sub_one_eq_mod,
    Nat.shiftRight_eq_div_pow]

theorem Move.new_fields (s t : Int) (fl p : Nat) (hs0 : 0 ≤ s) (hs : s < 64) (ht0 : 0 ≤ t)
    (ht : t < 64) (hf : fl ≤ 3) (hp : p ≤ 3) :
    (Move.new s t fl p).from_ = s ∧ (Move.new s t fl p).to_ = t ∧
      (Move.new s t fl p).flags = fl ∧ (Move.new s t fl p).promo = p := by
  rw [Move.from_of_data, Move.to_of_data, Move.flags_of_data, Move.promo_of_data,
    Move.new_data s t fl p hs0 hs ht0 ht hf hp]
  refine ⟨?_, ?_, ?_, ?_⟩ <;> omega

theorem Move.from_range (m : Move) : 0 ≤ m.from_ ∧ m.from_ < 64 := by
  rw [Move.from_of_data]; omega

theorem Move.to_range (m : Move) : 0 ≤ m.to_ ∧ m.to_ < 64 := by
  rw [Move.to_of_data]; omega

/-! ## Generated moves -/

theorem tmod8 {x : Int} (h : 0 ≤ x) : x.tmod 8 = x % 8 := Int.tmod_eq_emod h (by decide)

theorem tdiv8 {x : Int} (h : 0 ≤ x) : x.tdiv 8 = x / 8 := Int.tdiv_eq_ediv h (by decide)

theorem mem_allSquares {s : Int} : s ∈ allSquares ↔ 0 ≤ s ∧ s < 64 := by
  unfold allSquares
  simp only [List.mem_map, List.mem_range]
  constructor
  · rintro ⟨a, h1, rfl⟩
    simp only [Int.ofNat_eq_coe]
    omega
  · rintro ⟨h1, h2⟩
    exact ⟨s.toNat, by omega, by simp [Int.toNat_of_nonneg h1]⟩

theorem attacked_of_king (st : BoardState) (t : Int) (c : Color) (o : Int)
    (ho : o ∈ [-9, -8, -7, -1, 1, 7, 8, 9]) (h : kingAttackAt st t c o = true) :
    isSquareAttacked st t c = true := by
  unfold isSquareAttacked
  have : ([-9, -8, -7, -1, 1, 7, 8, 9] : List Int).any (kingAttackAt st t c) = true :=
    List.any_eq_true.mpr ⟨o, ho, h⟩
  simp [this]

theorem attacked_of_knight (st : BoardState) (t : Int) (c : Color) (o : Int)
    (ho : o ∈ [-17, -15, -10, -6, 6, 10, 15, 17]) (h : knightAttackAt st t c o = true) :
    isSquareAttacked st t c = true := by
  unfold isSquareAttacked
  have : ([-17, -15, -10, -6, 6, 10, 15, 17] : List Int).any (knightAttackAt st t c) = true :=
    List.any_eq_true.mpr ⟨o, ho, h⟩
  simp [this]

theorem attacked_of_pawn (st : BoardState) (t : Int) (c : Color) (s : Int)
    (hs : (c = WHITE ∧ (s = t - 7 ∨ s = t - 9)) ∨ (c = BLACK ∧ (s = t + 7 ∨ s = t + 9)))
    (h : pawnAttackAt st t c s = true) :
    isSquareAttacked st t c = true := by
  unfold isSquareAttacked
  rcases hs with ⟨rfl, rfl | rfl⟩ | ⟨rfl, rfl | rfl⟩ <;> simp [h]

theorem attacked_of_rook (st : BoardState) (t : Int) (c : Color) (d : Int)
    (hd : d ∈ [1, -1, 8, -8]) (h : rookRayAttack st c d 64 (t + d) = true) :
    isSquareAttacked st t c = true := by
  unfold isSquareAttacked
  have : ([1, -1, 8, -8] : List Int).any (fun d => rookRayAttack st c d 64 (t + d)) = true :=
    List.any_eq_true.mpr ⟨d, hd, h⟩
  simp [this]

theorem attacked_of_bishop (st : BoardState) (t : Int) (c : Color) (d : Int)
    (hd : d ∈ [9, -9, 7, -7]) (h : bishopRayAttack st t c d 64 (t + d) = true) :
    isSquareAttacked st t c = true := by
  unfold isSquareAttacked
  have : ([9, -9, 7, -7] : List Int).any (fun d => bishopRayAttack st t c d 64 (t + d)) = true :=
    List.any_eq_true.mpr ⟨d, hd, h⟩
  simp [this]

theorem makePiece_facts (c : Color) (p : Nat) (hp : 1 ≤ p ∧ p ≤ 6) :
    makePiece c p ≠ 0 ∧ pieceColor (makePiece c p) = c ∧ pieceType (makePiece c p) = p := by
  unfold makePiece pieceColor pieceType
  cases c <;> simp <;> omega


theorem mem_promoMoves {s t : Int} {m : Move} (h : m ∈ promoMoves s t) :
    ∃ p : Nat, p ≤ 3 ∧ m = Move.new s t FLAG_PROMO p := by
  unfold promoMoves at h
  simp only [List.map_cons, List.map_nil, List.mem_cons, List.mem_singleton,
    List.not_mem_nil, or_false] at h
  rcases h with h | h | h | h
  · exact ⟨0, by omega, h⟩
  · exact ⟨1, by omega, h⟩
  · exact ⟨2, by omega, h⟩
  · exact ⟨3, by omega, h⟩

/-- The pawn direction of the side to move. -/
theorem pawnDir_cases (st : BoardState) :
    (st.sideToMove = WHITE ∧ (if st.sideToMove = WHITE then (8 : Int) else -8) = 8) ∨
    (st.sideToMove = BLACK ∧ (if st.sideToMove = WHITE then (8 : Int) else -8) = -8) := by
  cases h : st.sideToMove <;> simp

theorem pawn_attacks_target (st : BoardState) (s df dir : Int)
    (hs0 : 0 ≤ s) (hs : s < 64)
    (hp : st.pieceAt s = makePiece st.sideToMove PAWN) (hdf : df = -1 ∨ df = 1)
    (hdir : (st.sideToMove = WHITE ∧ dir = 8) ∨ (st.sideToMove = BLACK ∧ dir = -8))
    (h1 : ¬ (s % 8 + df < 0 ∨ s % 8 + df > 7))
    (h2 : ¬ (s + dir + df < 0 ∨ s + dir + df > 63)) :
    isSquareAttacked st (s + dir + df) st.sideToMove = true := by
  apply attacked_of_pawn st _ st.sideToMove s
  · rcases hdir with ⟨hc, rfl⟩ | ⟨hc, rfl⟩
    · left; exact ⟨hc, by omega⟩
    · right; exact ⟨hc, by omega⟩
  · unfold pawnAttackAt
    rw [tmod8 hs0, tmod8 (by omega), if_pos]
    · simpa using hp
    · refine ⟨hs0, hs, ?_⟩
      unfold cabs
      rcases hdir with ⟨_, rfl⟩ | ⟨_, rfl⟩ <;> split_ifs <;> omega

theorem pawnCaptureMoves_facts (st : BoardState) (promoRank s df dir : Int) (m : Move)
    (hs0 : 0 ≤ s) (hs : s < 64)
    (hp : st.pieceAt s = makePiece st.sideToMove PAWN) (hdf : df = -1 ∨ df = 1)
    (hdir : (st.sideToMove = WHITE ∧ dir = 8) ∨ (st.sideToMove = BLACK ∧ dir = -8))
    (hm : m ∈ pawnCaptureMoves st st.sideToMove dir promoRank s df) :
    GenFacts st m := by
  unfold pawnCaptureMoves at hm
  simp only [] at hm
  rw [tmod8 hs0] at hm
  by_cases h1 : s % 8 + df < 0 ∨ s % 8 + df > 7
  · rw [if_pos h1] at hm; cases hm
  rw [if_neg h1] at hm
  by_cases h2 : s + dir + df < 0 ∨ s + dir + df > 63
  · rw [if_pos h2] at hm; cases hm
  rw [if_neg h2] at hm
  have hne : s ≠ s + dir + df := by
    rcases hdir with ⟨_, rfl⟩ | ⟨_, rfl⟩ <;> omega
  have hpf := makePiece_facts st.sideToMove PAWN (by decide)
  by_cases h3 : s + dir + df = st.epSquare
  · rw [if_pos h3] at hm
    simp only [List.mem_singleton] at hm
    refine ⟨s, _, FLAG_EP, 0, hm, hs0, hs, by omega, by omega, hne, ?_⟩
    right; right; left
    refine ⟨rfl, rfl, hp, h3, ?_⟩
    unfold epCapSq
    rcases hdir with ⟨hc, rfl⟩ | ⟨hc, rfl⟩ <;> simp [hc] <;> omega
  rw [if_neg h3] at hm
  by_cases h4 : st.pieceAt (s + dir + df) ≠ 0 ∧
      pieceColor (st.pieceAt (s + dir + df)) ≠ st.sideToMove
  · rw [if_pos h4] at hm
    have hatt := pawn_attacks_target st s df dir hs0 hs hp hdf hdir h1 h2
    by_cases h5 : (s + dir + df).tdiv 8 = promoRank
    · rw [if_pos h5] at hm
      obtain ⟨p, hp3, rfl⟩ := mem_promoMoves hm
      refine ⟨s, _, FLAG_PROMO, p, rfl, hs0, hs, by omega, by omega, hne, ?_⟩
      right; left
      exact ⟨rfl, hp3, hp, Or.inr ⟨h4.1, h4.2, hatt⟩⟩
    · rw [if_neg h5] at hm
      simp only [List.mem_singleton] at hm
      refine ⟨s, _, FLAG_NORMAL, 0, hm, hs0, hs, by omega, by omega, hne, ?_⟩
      left
      exact ⟨rfl, rfl, by rw [hp]; exact hpf.1, by rw [hp]; exact hpf.2.1,
        Or.inr ⟨h4.1, h4.2, hatt⟩⟩
  · rw [if_neg h4] at hm; cases hm

theorem pawnForwardMoves_facts (st : BoardState) (startRank promoRank s dir : Int) (m : Move)
    (hs0 : 0 ≤ s) (hs : s < 64)
    (hp : st.pieceAt s = makePiece st.sideToMove PAWN)
    (hdir : (st.sideToMove = WHITE ∧ dir = 8 ∧ startRank = 1) ∨
      (st.sideToMove = BLACK ∧ dir = -8 ∧ startRank = 6))
    (hm : m ∈ pawnForwardMoves st dir startRank promoRank s) :
    GenFacts st m := by
  unfold pawnForwardMoves at hm
  simp only [] at hm
  rw [tdiv8 hs0] at hm
  have hpf := makePiece_facts st.sideToMove PAWN (by decide)
  by_cases h1 : s + dir < 0 ∨ s + dir > 63
  · rw [if_pos h1] at hm; cases hm
  rw [if_neg h1] at hm
  have hne : s ≠ s + dir := by
    rcases hdir with ⟨_, rfl, _⟩ | ⟨_, rfl, _⟩ <;> omega
  by_cases h2 : st.pieceAt (s + dir) = 0
  · rw [if_pos h2] at hm
    by_cases h3 : (s + dir).tdiv 8 = promoRank
    · rw [if_pos h3] at hm
      obtain ⟨p, hp3, rfl⟩ := mem_promoMoves hm
      refine ⟨s, _, FLAG_PROMO, p, rfl, hs0, hs, by omega, by omega, hne, ?_⟩
      right; left
      exact ⟨rfl, hp3, hp, Or.inl h2⟩
    · rw [if_neg h3] at hm
      rcases List.mem_cons.mp hm with hm | hm
      · refine ⟨s, _, FLAG_NORMAL, 0, hm, hs0, hs, by omega, by omega, hne, ?_⟩
        left
        exact ⟨rfl, rfl, by rw [hp]; exact hpf.1, by rw [hp]; exact hpf.2.1, Or.inl h2⟩
      · by_cases h4 : s / 8 = startRank
        · rw [if_pos h4] at hm
          by_cases h5 : st.pieceAt (s + dir + dir) = 0
          · rw [if_pos h5] at hm
            simp only [List.mem_singleton] at hm
            have hr : 0 ≤ s + dir + dir ∧ s + dir + dir < 64 ∧ s ≠ s + dir + dir := by
              rcases hdir with ⟨_, rfl, rfl⟩ | ⟨_, rfl, rfl⟩ <;> omega
            refine ⟨s, _, FLAG_NORMAL, 0, hm, hs0, hs, hr.1, hr.2.1, hr.2.2, ?_⟩
            left
            exact ⟨rfl, rfl, by rw [hp]; exact hpf.1, by rw [hp]; exact hpf.2.1, Or.inl h5⟩
          · rw [if_neg h5] at hm; cases hm
        · rw [if_neg h4] at hm; cases hm
  · rw [if_neg h2] at hm; cases hm


theorem addPawnMoves_facts (st : BoardState) (co : Bool) (m : Move)
    (hm : m ∈ addPawnMoves st co) : GenFacts st m := by
  unfold addPawnMoves at hm
  simp only [List.mem_flatMap] at hm
  obtain ⟨s, hs, hm⟩ := hm
  rw [mem_allSquares] at hs
  by_cases hp : st.pieceAt s ≠
      (if st.sideToMove = WHITE then makePiece WHITE PAWN else makePiece BLACK PAWN)
  · rw [if_pos hp] at hm; cases hm
  rw [if_neg hp] at hm
  have hp' : st.pieceAt s = makePiece st.sideToMove PAWN := by
    have := not_not.mp hp
    rw [this]
    cases st.sideToMove <;> rfl
  rcases List.mem_append.mp hm with hm | hm
  · simp only [List.mem_flatMap] at hm
    obtain ⟨df, hdf, hm⟩ := hm
    simp only [List.mem_cons, List.mem_singleton, List.not_mem_nil, or_false] at hdf
    refine pawnCaptureMoves_facts st _ s df _ m hs.1 hs.2 hp' hdf ?_ hm
    cases st.sideToMove <;> simp
  · cases co
    · simp only [Bool.false_eq_true, if_false] at hm
      refine pawnForwardMoves_facts st _ _ s _ m hs.1 hs.2 hp' ?_ hm
      cases st.sideToMove <;> simp
    · simp at hm

theorem cabs_eq (x : Int) : cabs x = if x < 0 then -x else x := rfl

theorem knightMoveAt_facts (st : BoardState) (co : Bool) (s o : Int) (m : Move)
    (hs0 : 0 ≤ s) (hs : s < 64)
    (hp : st.pieceAt s = makePiece st.sideToMove KNIGHT)
    (ho : o ∈ [-17, -15, -10, -6, 6, 10, 15, 17])
    (hm : m ∈ knightMoveAt st st.sideToMove co s o) : GenFacts st m := by
  unfold knightMoveAt at hm
  simp only [] at hm
  by_cases h1 : s + o < 0 ∨ s + o > 63
  · rw [if_pos h1] at hm; cases hm
  rw [if_neg h1] at hm
  rw [tmod8 hs0, tdiv8 hs0, tmod8 (by omega), tdiv8 (by omega)] at hm
  by_cases h2 : ¬ ((cabs ((s + o) % 8 - s % 8) = 1 ∧ cabs ((s + o) / 8 - s / 8) = 2) ∨
      (cabs ((s + o) % 8 - s % 8) = 2 ∧ cabs ((s + o) / 8 - s / 8) = 1))
  · rw [if_pos h2] at hm; cases hm
  rw [if_neg h2] at hm
  have h2' := not_not.mp h2
  by_cases h3 : st.pieceAt (s + o) ≠ 0 ∧ pieceColor (st.pieceAt (s + o)) = st.sideToMove
  · rw [if_pos h3] at hm; cases hm
  rw [if_neg h3] at hm
  have hpf := makePiece_facts st.sideToMove KNIGHT (by decide)
  have hne : s ≠ s + o := by
    simp only [List.mem_cons, List.mem_singleton, List.not_mem_nil, or_false] at ho
    omega
  have hmem : m = Move.new s (s + o) FLAG_NORMAL 0 := by
    split_ifs at hm
    · cases hm
    · simpa using hm
  refine ⟨s, _, FLAG_NORMAL, 0, hmem, hs0, hs, by omega, by omega, hne, ?_⟩
  left
  refine ⟨rfl, rfl, by rw [hp]; exact hpf.1, by rw [hp]; exact hpf.2.1, ?_⟩
  by_cases hc : st.pieceAt (s + o) = 0
  · exact Or.inl hc
  · right
    refine ⟨hc, fun hcol => h3 ⟨hc, hcol⟩, ?_⟩
    apply attacked_of_knight st _ st.sideToMove (-o)
    · simp only [List.mem_cons, List.mem_singleton, List.not_mem_nil, or_false] at ho ⊢
      omega
    · unfold knightAttackAt
      simp only []
      have e : s + o + -o = s := by omega
      rw [e, if_neg (by omega), tmod8 hs0, tmod8 (by omega), if_neg]
      · rw [hp]; simp [hpf.1, hpf.2.1, hpf.2.2]
      · simp only [cabs_eq] at h2' ⊢
        split_ifs at h2' ⊢ <;> omega

theorem addKnightMoves_facts (st : BoardState) (co : Bool) (m : Move)
    (hm : m ∈ addKnightMoves st co) : GenFacts st m := by
  unfold addKnightMoves at hm
  simp only [List.mem_flatMap] at hm
  obtain ⟨s, hs, hm⟩ := hm
  rw [mem_allSquares] at hs
  by_cases hp : st.pieceAt s ≠ makePiece st.sideToMove KNIGHT
  · rw [if_pos hp] at hm; cases hm
  rw [if_neg hp] at hm
  simp only [List.mem_flatMap] at hm
  obtain ⟨o, ho, hm⟩ := hm
  exact knightMoveAt_facts st co s o m hs.1 hs.2 (not_not.mp hp) ho hm


theorem kingMoveAt_facts (st : BoardState) (co : Bool) (s o : Int) (m : Move)
    (hs0 : 0 ≤ s) (hs : s < 64)
    (hp : st.pieceAt s = makePiece st.sideToMove KING)
    (ho : o ∈ [-9, -8, -7, -1, 1, 7, 8, 9])
    (hm : m ∈ kingMoveAt st st.sideToMove co s o) : GenFacts st m := by
  unfold kingMoveAt at hm
  simp only [] at hm
  by_cases h1 : s + o < 0 ∨ s + o > 63
  · rw [if_pos h1] at hm; cases hm
  rw [if_neg h1] at hm
  rw [tmod8 hs0, tdiv8 hs0, tmod8 (by omega), tdiv8 (by omega)] at hm
  by_cases h2 : cabs ((s + o) % 8 - s % 8) > 1 ∨ cabs ((s + o) / 8 - s / 8) > 1
  · rw [if_pos h2] at hm; cases hm
  rw [if_neg h2] at hm
  by_cases h3 : st.pieceAt (s + o) ≠ 0 ∧ pieceColor (st.pieceAt (s + o)) = st.sideToMove
  · rw [if_pos h3] at hm; cases hm
  rw [if_neg h3] at hm
  have hpf := makePiece_facts st.sideToMove KING (by decide)
  have hne : s ≠ s + o := by
    simp only [List.mem_cons, List.mem_singleton, List.not_mem_nil, or_false] at ho
    omega
  have hmem : m = Move.new s (s + o) FLAG_NORMAL 0 := by
    split_ifs at hm
    · cases hm
    · simpa using hm
  refine ⟨s, _, FLAG_NORMAL, 0, hmem, hs0, hs, by omega, by omega, hne, ?_⟩
  left
  refine ⟨rfl, rfl, by rw [hp]; exact hpf.1, by rw [hp]; exact hpf.2.1, ?_⟩
  by_cases hc : st.pieceAt (s + o) = 0
  · exact Or.inl hc
  · right
    refine ⟨hc, fun hcol => h3 ⟨hc, hcol⟩, ?_⟩
    apply attacked_of_king st _ st.sideToMove (-o)
    · simp only [List.mem_cons, List.mem_singleton, List.not_mem_nil, or_false] at ho ⊢
      omega
    · unfold kingAttackAt
      simp only []
      have e : s + o + -o = s := by omega
      rw [e, if_neg (by omega), tmod8 hs0, tmod8 (by omega), tdiv8 hs0, tdiv8 (by omega),
        if_neg, if_neg]
      · rw [hp]; simp [hpf.1, hpf.2.1, hpf.2.2]
      · simp only [cabs_eq] at h2 ⊢
        split_ifs at h2 ⊢ <;> omega
      · simp only [cabs_eq] at h2 ⊢
        split_ifs at h2 ⊢ <;> omega

theorem castleMoves_facts (st : BoardState) (m : Move)
    (hm : m ∈ castleMoves st st.sideToMove) : GenFacts st m := by
  unfold castleMoves at hm
  simp only [] at hm
  cases hc : st.sideToMove
  · rw [hc] at hm
    simp only [if_true] at hm
    rcases List.mem_append.mp hm with hm | hm
    · split_ifs at hm with h
      · simp only [List.mem_singleton] at hm
        refine ⟨4, 6, FLAG_CASTLE, 0, hm, by omega, by omega, by omega, by omega, by omega, ?_⟩
        right; right; right
        refine ⟨rfl, rfl, Or.inl ⟨hc, rfl, Or.inl ⟨rfl, ?_⟩⟩⟩
        simpa using h
      · cases hm
    · split_ifs at hm with h
      · simp only [List.mem_singleton] at hm
        refine ⟨4, 2, FLAG_CASTLE, 0, hm, by omega, by omega, by omega, by omega, by omega, ?_⟩
        right; right; right
        refine ⟨rfl, rfl, Or.inl ⟨hc, rfl, Or.inr ⟨rfl, ?_⟩⟩⟩
        simpa using h
      · cases hm
  · rw [hc] at hm
    simp only [reduceCtorEq, if_false] at hm
    rcases List.mem_append.mp hm with hm | hm
    · split_ifs at hm with h
      · simp only [List.mem_singleton] at hm
        refine ⟨60, 62, FLAG_CASTLE, 0, hm, by omega, by omega, by omega, by omega, by omega, ?_⟩
        right; right; right
        refine ⟨rfl, rfl, Or.inr ⟨hc, rfl, Or.inl ⟨rfl, ?_⟩⟩⟩
        simpa using h
      · cases hm
    · split_ifs at hm with h
      · simp only [List.mem_singleton] at hm
        refine ⟨60, 58, FLAG_CASTLE, 0, hm, by omega, by omega, by omega, by omega, by omega, ?_⟩
        right; right; right
        refine ⟨rfl, rfl, Or.inr ⟨hc, rfl, Or.inr ⟨rfl, ?_⟩⟩⟩
        simpa using h
      · cases hm

theorem addKingMoves_facts (st : BoardState) (co : Bool) (m : Move)
    (hm : m ∈ addKingMoves st co) : GenFacts st m := by
  unfold addKingMoves at hm
  simp only [List.mem_flatMap] at hm
  obtain ⟨s, hs, hm⟩ := hm
  rw [mem_allSquares] at hs
  by_cases hp : st.pieceAt s ≠ makePiece st.sideToMove KING
  · rw [if_pos hp] at hm; cases hm
  rw [if_neg hp] at hm
  rcases List.mem_append.mp hm with hm | hm
  · simp only [List.mem_flatMap] at hm
    obtain ⟨o, ho, hm⟩ := hm
    exact kingMoveAt_facts st co s o m hs.1 hs.2 (not_not.mp hp) ho hm
  · cases co
    · simp only [Bool.false_eq_true, if_false] at hm
      exact castleMoves_facts st m hm
    · simp at hm


theorem rookRayMoves_mem (st : BoardState) (side : Color) (co : Bool) (s d : Int)
    (fuel : Nat) (t : Int) (m : Move)
    (hm : m ∈ rookRayMoves st side co s d fuel t) :
    ∃ k : Nat, m = Move.new s (t + ((k : Int) + 1) * d) FLAG_NORMAL 0 ∧
      (∀ j : Nat, j ≤ k → RookStepOK s d (t + ((j : Int) + 1) * d)) ∧
      (∀ j : Nat, j < k → st.pieceAt (t + ((j : Int) + 1) * d) = 0) ∧
      ¬ (st.pieceAt (t + ((k : Int) + 1) * d) ≠ 0 ∧
        pieceColor (st.pieceAt (t + ((k : Int) + 1) * d)) = side) := by
  induction fuel generalizing t with
  | zero => simp [rookRayMoves] at hm
  | succ fuel ih =>
    unfold rookRayMoves at hm
    simp only [] at hm
    by_cases h1 : t + d < 0 ∨ t + d > 63
    · rw [if_pos h1] at hm; cases hm
    rw [if_neg h1] at hm
    by_cases h2 : d = 1 ∧ (t + d).tmod 8 = 0
    · rw [if_pos h2] at hm; cases hm
    rw [if_neg h2] at hm
    by_cases h3 : d = -1 ∧ (t + d).tmod 8 = 7
    · rw [if_pos h3] at hm; cases hm
    rw [if_neg h3] at hm
    by_cases h4 : cabs d = 1 ∧ (t + d).tdiv 8 ≠ s.tdiv 8
    · rw [if_pos h4] at hm; cases hm
    rw [if_neg h4] at hm
    by_cases h5 : st.pieceAt (t + d) ≠ 0 ∧ pieceColor (st.pieceAt (t + d)) = side
    · rw [if_pos h5] at hm; cases hm
    rw [if_neg h5] at hm
    have hok : RookStepOK s d (t + d) := ⟨h1, h2, h3, h4⟩
    rcases List.mem_append.mp hm with hm | hm
    · have hmem : m = Move.new s (t + d) FLAG_NORMAL 0 := by
        split_ifs at hm
        · simpa using hm
        · cases hm
      refine ⟨0, by simpa using hmem, ?_, ?_, ?_⟩
      · intro j hj
        have : j = 0 := by omega
        subst this
        simpa using hok
      · intro j hj; omega
      · simpa using h5
    · by_cases h6 : st.pieceAt (t + d) ≠ 0
      · rw [if_pos h6] at hm; cases hm
      rw [if_neg h6] at hm
      obtain ⟨k, hk1, hk2, hk3, hk4⟩ := ih (t + d) hm
      have e : ∀ j : Nat, t + d + ((j : Int) + 1) * d = t + (((j + 1 : Nat) : Int) + 1) * d := by
        intro j; push_cast; ring
      refine ⟨k + 1, by rw [hk1, e], ?_, ?_, by rw [← e]; exact hk4⟩
      · intro j hj
        cases j with
        | zero => simpa using hok
        | succ j => rw [← e]; exact hk2 j (by omega)
      · intro j hj
        cases j with
        | zero => simpa using not_not.mp h6
        | succ j => rw [← e]; exact hk3 j (by omega)

/-- The square a ray reaches after no step. -/
theorem ray_zero (x e : Int) : x + ((0 : Nat) : Int) * e = x := by
  rw [show ((0 : Nat) : Int) = 0 from rfl, Int.zero_mul, Int.add_zero]

/-- The square a ray reaches after its first step. -/
theorem ray_one (x e : Int) : x + (((0 : Nat) : Int) + 1) * e = x + e := by
  rw [show ((0 : Nat) : Int) + 1 = 1 from rfl, Int.one_mul]

/-- A ray from the next square, against the ray from the square itself. -/
theorem ray_succ (x e : Int) (j : Nat) :
    x + e + (j : Int) * e = x + ((j + 1 : Nat) : Int) * e := by
  rw [show ((j + 1 : Nat) : Int) = (j : Int) + 1 from rfl, Int.add_mul, Int.one_mul,
    Int.add_assoc, Int.add_comm e]

/-- The target of a step of a ray from the next square. -/
theorem ray_succ_one (x e : Int) (j : Nat) :
    x + e + ((j : Int) + 1) * e = x + (((j + 1 : Nat) : Int) + 1) * e := by
  rw [show ((j + 1 : Nat) : Int) = (j : Int) + 1 from rfl, Int.add_mul ((j : Int) + 1) 1 e,
    Int.one_mul, Int.add_assoc, Int.add_comm e]

theorem rookRayAttack_hit (st : BoardState) (c : Color) (e : Int) (n : Nat) :
    ∀ (fuel : Nat) (x : Int), n < fuel →
      (∀ j : Nat, j ≤ n → (0 ≤ x + (j : Int) * e ∧ x + (j : Int) * e < 64) ∧
        ¬ (e = 1 ∧ (x + (j : Int) * e).tmod 8 = 0) ∧
        ¬ (e = -1 ∧ (x + (j : Int) * e).tmod 8 = 7)) →
      (∀ j : Nat, j < n → st.pieceAt (x + (j : Int) * e) = 0) →
      st.pieceAt (x + (n : Int) * e) ≠ 0 →
      pieceColor (st.pieceAt (x + (n : Int) * e)) = c →
      (pieceType (st.pieceAt (x + (n : Int) * e)) = ROOK ∨
        pieceType (st.pieceAt (x + (n : Int) * e)) = QUEEN) →
      rookRayAttack st c e fuel x = true := by
  induction n with
  | zero =>
    intro fuel x hf hA _ hp hc ht
    obtain ⟨f, rfl⟩ : ∃ f, fuel = f + 1 := ⟨fuel - 1, by omega⟩
    have hA0 := hA 0 (Nat.le_refl _)
    rw [ray_zero] at hA0 hp hc ht
    unfold rookRayAttack
    rw [if_pos ⟨hA0.1.1, hA0.1.2⟩, if_neg hA0.2.1, if_neg hA0.2.2]
    simp only []
    rw [if_pos hp]
    exact decide_eq_true ⟨hc, ht⟩
  | succ n ih =>
    intro fuel x hf hA hE hp hc ht
    obtain ⟨f, rfl⟩ : ∃ f, fuel = f + 1 := ⟨fuel - 1, by omega⟩
    have hA0 := hA 0 (by omega)
    have hE0 := hE 0 (by omega)
    rw [ray_zero] at hA0 hE0
    unfold rookRayAttack
    rw [if_pos ⟨hA0.1.1, hA0.1.2⟩, if_neg hA0.2.1, if_neg hA0.2.2]
    simp only []
    rw [if_neg (fun h => h hE0)]
    apply ih f (x + e) (by omega)
    · intro j hj; rw [ray_succ]; exact hA (j + 1) (by omega)
    · intro j hj; rw [ray_succ]; exact hE (j + 1) (by omega)
    · rw [ray_succ]; exact hp
    · rw [ray_succ]; exact hc
    · rw [ray_succ]; exact ht


theorem RookStepOK.arith {s d x : Int} (h : RookStepOK s d x) (hs0 : 0 ≤ s) :
    0 ≤ x ∧ x ≤ 63 ∧ ¬ (d = 1 ∧ x % 8 = 0) ∧ ¬ (d = -1 ∧ x % 8 = 7) ∧
      ¬ ((d = 1 ∨ d = -1) ∧ x / 8 ≠ s / 8) := by
  obtain ⟨h1, h2, h3, h4⟩ := h
  have hx : 0 ≤ x := by omega
  rw [tmod8 hx] at h2 h3
  rw [tdiv8 hx, tdiv8 hs0, cabs_eq] at h4
  refine ⟨hx, by omega, h2, h3, ?_⟩
  intro ⟨hd, hne⟩
  apply h4
  refine ⟨?_, hne⟩
  rcases hd with rfl | rfl <;> decide

theorem rook_target_attacked (st : BoardState) (c : Color) (s d : Int) (k : Nat)
    (hs0 : 0 ≤ s) (hs : s < 64) (hd : d = 1 ∨ d = -1 ∨ d = 8 ∨ d = -8)
    (hpc : st.pieceAt s ≠ 0) (hcol : pieceColor (st.pieceAt s) = c)
    (hty : pieceType (st.pieceAt s) = ROOK ∨ pieceType (st.pieceAt s) = QUEEN)
    (hok : ∀ j : Nat, j ≤ k → RookStepOK s d (s + ((j : Int) + 1) * d))
    (hemp : ∀ j : Nat, j < k → st.pieceAt (s + ((j : Int) + 1) * d) = 0) :
    isSquareAttacked st (s + ((k : Int) + 1) * d) c = true := by
  have hok' := fun j hj => (hok j hj).arith hs0
  have hT := hok' k (le_refl _)
  have hlast : s + ((k : Int) + 1) * d + -d + (k : Int) * -d = s := by ring
  apply attacked_of_rook st _ c (-d)
  · simp only [List.mem_cons, List.mem_singleton, List.not_mem_nil, or_false]
    omega
  apply rookRayAttack_hit st c (-d) k 64
  · rcases hd with rfl | rfl | rfl | rfl <;> omega
  · intro j hj
    by_cases hjk : j = k
    · subst hjk
      rw [hlast, tmod8 hs0]
      refine ⟨⟨hs0, hs⟩, ?_, ?_⟩
      · rcases hd with rfl | rfl | rfl | rfl <;> omega
      · rcases hd with rfl | rfl | rfl | rfl <;> omega
    · have hj' : k - j - 1 ≤ k := by omega
      have h := hok' (k - j - 1) hj'
      have e : s + (((k - j - 1 : Nat) : Int) + 1) * d =
          s + ((k : Int) + 1) * d + -d + (j : Int) * -d := by
        have : ((k - j - 1 : Nat) : Int) = (k : Int) - j - 1 := by omega
        rw [this]; ring
      rw [e] at h
      have hnn : 0 ≤ s + ((k : Int) + 1) * d + -d + (j : Int) * -d := h.1
      rw [tmod8 hnn]
      refine ⟨⟨h.1, by omega⟩, ?_, ?_⟩
      · intro ⟨hd1, hm⟩
        have hd' : d = -1 := by omega
        subst hd'
        omega
      · intro ⟨hd1, hm⟩
        have hd' : d = 1 := by omega
        subst hd'
        omega
  · intro j hj
    have h := hemp (k - j - 1) (by omega)
    have e : s + (((k - j - 1 : Nat) : Int) + 1) * d =
        s + ((k : Int) + 1) * d + -d + (j : Int) * -d := by
      have : ((k - j - 1 : Nat) : Int) = (k : Int) - j - 1 := by omega
      rw [this]; ring
    rw [e] at h
    exact h
  · rw [hlast]; exact hpc
  · rw [hlast]; exact hcol
  · rw [hlast]; exact hty


theorem bishopRayMoves_mem (st : BoardState) (side : Color) (co : Bool) (s d : Int)
    (fuel : Nat) (t : Int) (m : Move)
    (hm : m ∈ bishopRayMoves st side co s d fuel t) :
    ∃ k : Nat, m = Move.new s (t + ((k : Int) + 1) * d) FLAG_NORMAL 0 ∧
      (∀ j : Nat, j ≤ k → BishopStepOK (t + (j : Int) * d) (t + ((j : Int) + 1) * d)) ∧
      (∀ j : Nat, j < k → st.pieceAt (t + ((j : Int) + 1) * d) = 0) ∧
      ¬ (st.pieceAt (t + ((k : Int) + 1) * d) ≠ 0 ∧
        pieceColor (st.pieceAt (t + ((k : Int) + 1) * d)) = side) := by
  induction fuel generalizing t with
  | zero => unfold bishopRayMoves at hm; cases hm
  | succ fuel ih =>
    unfold bishopRayMoves at hm
    simp only [] at hm
    by_cases h1 : t + d < 0 ∨ t + d > 63
    · rw [if_pos h1] at hm; cases hm
    rw [if_neg h1] at hm
    by_cases h2 : cabs ((t + d).tmod 8 - t.tmod 8) ≠ 1
    · rw [if_pos h2] at hm; cases hm
    rw [if_neg h2] at hm
    by_cases h5 : st.pieceAt (t + d) ≠ 0 ∧ pieceColor (st.pieceAt (t + d)) = side
    · rw [if_pos h5] at hm; cases hm
    rw [if_neg h5] at hm
    have hok : BishopStepOK t (t + d) := ⟨h1, h2⟩
    rcases List.mem_append.mp hm with hm | hm
    · have hmem : m = Move.new s (t + d) FLAG_NORMAL 0 := by
        split_ifs at hm
        · exact List.mem_singleton.mp hm
        · cases hm
      refine ⟨0, by rw [ray_one]; exact hmem, ?_, ?_, ?_⟩
      · intro j hj
        have : j = 0 := by omega
        subst this
        rw [ray_zero, ray_one]; exact hok
      · intro j hj; omega
      · rw [ray_one]; exact h5
    · by_cases h6 : st.pieceAt (t + d) ≠ 0
      · rw [if_pos h6] at hm; cases hm
      rw [if_neg h6] at hm
      obtain ⟨k, hk1, hk2, hk3, hk4⟩ := ih (t + d) hm
      have e := ray_succ_one t d
      have e' := ray_succ t d
      refine ⟨k + 1, by rw [hk1, e], ?_, ?_, by rw [← e]; exact hk4⟩
      · intro j hj
        cases j with
        | zero => rw [ray_zero, ray_one]; exact hok
        | succ j => rw [← e, ← e']; exact hk2 j (by omega)
      · intro j hj
        cases j with
        | zero => rw [ray_one]; exact not_not.mp h6
        | succ j => rw [← e]; exact hk3 j (by omega)

theorem bishopRayAttack_hit (st : BoardState) (S : Int) (c : Color) (e : Int) (n : Nat) :
    ∀ (fuel : Nat) (x : Int), n < fuel →
      (∀ j : Nat, j ≤ n → (0 ≤ x + (j : Int) * e ∧ x + (j : Int) * e < 64) ∧
        ¬ (cabs ((x + (j : Int) * e).tmod 8 - S.tmod 8) ≠
          cabs ((x + (j : Int) * e).tdiv 8 - S.tdiv 8))) →
      (∀ j : Nat, j < n → st.pieceAt (x + (j : Int) * e) = 0) →
      st.pieceAt (x + (n : Int) * e) ≠ 0 →
      pieceColor (st.pieceAt (x + (n : Int) * e)) = c →
      (pieceType (st.pieceAt (x + (n : Int) * e)) = BISHOP ∨
        pieceType (st.pieceAt (x + (n : Int) * e)) = QUEEN) →
      bishopRayAttack st S c e fuel x = true := by
  induction n with
  | zero =>
    intro fuel x hf hA _ hp hc ht
    obtain ⟨f, rfl⟩ : ∃ f, fuel = f + 1 := ⟨fuel - 1, by omega⟩
    have hA0 := hA 0 (Nat.le_refl _)
    rw [ray_zero] at hA0 hp hc ht
    unfold bishopRayAttack
    rw [if_pos ⟨hA0.1.1, hA0.1.2⟩]
    simp only []
    rw [if_neg hA0.2, if_pos hp]
    exact decide_eq_true ⟨hc, ht⟩
  | succ n ih =>
    intro fuel x hf hA hE hp hc ht
    obtain ⟨f, rfl⟩ : ∃ f, fuel = f + 1 := ⟨fuel - 1, by omega⟩
    have hA0 := hA 0 (by omega)
    have hE0 := hE 0 (by omega)
    rw [ray_zero] at hA0 hE0
    unfold bishopRayAttack
    rw [if_pos ⟨hA0.1.1, hA0.1.2⟩]
    simp only []
    rw [if_neg hA0.2, if_neg (fun h => h hE0)]
    apply ih f (x + e) (by omega)
    · intro j hj; rw [ray_succ]; exact hA (j + 1) (by omega)
    · intro j hj; rw [ray_succ]; exact hE (j + 1) (by omega)
    · rw [ray_succ]; exact hp
    · rw [ray_succ]; exact hc
    · rw [ray_succ]; exact ht

/-- Along a bishop ray whose steps pass the generator's test, file and rank move by one
per step in the direction of `d`. -/
theorem bishop_path_coords (s d : Int) (k : Nat) (hs0 : 0 ≤ s) (hs : s < 64)
    (hd : d = 9 ∨ d = -9 ∨ d = 7 ∨ d = -7)
    (hok : ∀ j : Nat, j ≤ k → BishopStepOK (s + (j : Int) * d) (s + ((j : Int) + 1) * d)) :
    ∀ j : Nat, j ≤ k + 1 →
      0 ≤ s + (j : Int) * d ∧ s + (j : Int) * d < 64 ∧
      (s + (j : Int) * d) % 8 - s % 8 = (j : Int) * (if d = 9 ∨ d = -7 then 1 else -1) ∧
      (s + (j : Int) * d) / 8 - s / 8 = (j : Int) * (if d = 9 ∨ d = 7 then 1 else -1) := by
  intro j
  induction j with
  | zero =>
    intro _
    rw [ray_zero, show ((0 : Nat) : Int) = 0 from rfl, Int.zero_mul, Int.zero_mul, Int.sub_self,
      Int.sub_self]
    exact ⟨hs0, hs, rfl, rfl⟩
  | succ j ih =>
    intro hj
    obtain ⟨i1, i2, i3, i4⟩ := ih (by omega)
    obtain ⟨o1, o2⟩ := hok j (by omega)
    have hnn : 0 ≤ s + ((j : Int) + 1) * d := by omega
    rw [tmod8 hnn, tmod8 i1, cabs_eq] at o2
    simp only [show ∀ n : Nat, ((n + 1 : Nat) : Int) = (n : Int) + 1 from fun _ => rfl]
    rcases hd with rfl | rfl | rfl | rfl <;>
    simp only [Int.reduceNeg, Int.reduceEq, or_false, or_true, false_or, true_or, if_true,
      if_false] at i3 i4 ⊢ <;>
    split_ifs at o2 <;> omega


theorem bishop_target_attacked (st : BoardState) (c : Color) (s d : Int) (k : Nat)
    (hs0 : 0 ≤ s) (hs : s < 64) (hd : d = 9 ∨ d = -9 ∨ d = 7 ∨ d = -7)
    (hpc : st.pieceAt s ≠ 0) (hcol : pieceColor (st.pieceAt s) = c)
    (hty : pieceType (st.pieceAt s) = BISHOP ∨ pieceType (st.pieceAt s) = QUEEN)
    (hok : ∀ j : Nat, j ≤ k → BishopStepOK (s + (j : Int) * d) (s + ((j : Int) + 1) * d))
    (hemp : ∀ j : Nat, j < k → st.pieceAt (s + ((j : Int) + 1) * d) = 0) :
    isSquareAttacked st (s + ((k : Int) + 1) * d) c = true := by
  have hco := bishop_path_coords s d k hs0 hs hd hok
  have hT := hco (k + 1) (le_refl _)
  have hTe : s + ((k + 1 : Nat) : Int) * d = s + ((k : Int) + 1) * d := rfl
  rw [hTe] at hT
  have hlast : s + ((k : Int) + 1) * d + -d + (k : Int) * -d = s := by ring
  apply attacked_of_bishop st _ c (-d)
  · simp only [List.mem_cons, List.mem_singleton, List.not_mem_nil, or_false]
    omega
  apply bishopRayAttack_hit st _ c (-d) k 64
  · rcases hd with rfl | rfl | rfl | rfl <;> omega
  · intro j hj
    have h := hco (k - j) (by omega)
    have e : s + ((k - j : Nat) : Int) * d =
        s + ((k : Int) + 1) * d + -d + (j : Int) * -d := by
      have : ((k - j : Nat) : Int) = (k : Int) - j := by omega
      rw [this]; ring
    rw [e] at h
    rw [tmod8 h.1, tdiv8 h.1, tmod8 hT.1, tdiv8 hT.1]
    refine ⟨⟨h.1, h.2.1⟩, ?_⟩
    simp only [cabs_eq]
    rcases hd with rfl | rfl | rfl | rfl <;>
    simp only [Int.reduceNeg, Int.reduceEq, or_false, or_true, false_or, true_or, if_true,
      if_false] at h hT <;>
    split_ifs <;> omega
  · intro j hj
    have h := hemp (k - j - 1) (by omega)
    have e : s + (((k - j - 1 : Nat) : Int) + 1) * d =
        s + ((k : Int) + 1) * d + -d + (j : Int) * -d := by
      have : ((k - j - 1 : Nat) : Int) = (k : Int) - j - 1 := by omega
      rw [this]; ring
    rw [e] at h
    exact h
  · rw [hlast]; exact hpc
  · rw [hlast]; exact hcol
  · rw [hlast]; exact hty

theorem addSliding_facts (st : BoardState) (co : Bool) (m : Move)
    (hm : m ∈ addSliding st co) : GenFacts st m := by
  unfold addSliding at hm
  simp only [List.mem_flatMap] at hm
  obtain ⟨s, hs, hm⟩ := hm
  rw [mem_allSquares] at hs
  by_cases hp : st.pieceAt s = 0 ∨ pieceColor (st.pieceAt s) ≠ st.sideToMove
  · rw [if_pos hp] at hm; cases hm
  rw [if_neg hp] at hm
  have hpc : st.pieceAt s ≠ 0 := fun h => hp (Or.inl h)
  have hcol : pieceColor (st.pieceAt s) = st.sideToMove := by
    by_contra h; exact hp (Or.inr h)
  by_cases hq : pieceType (st.pieceAt s) ≠ ROOK ∧ pieceType (st.pieceAt s) ≠ BISHOP ∧
      pieceType (st.pieceAt s) ≠ QUEEN
  · rw [if_pos hq] at hm; cases hm
  rw [if_neg hq] at hm
  rcases List.mem_append.mp hm with hm | hm
  · by_cases hr : pieceType (st.pieceAt s) = ROOK ∨ pieceType (st.pieceAt s) = QUEEN
    · simp only [hr, decide_True, if_true, List.mem_flatMap] at hm
      obtain ⟨d, hd, hm⟩ := hm
      simp only [List.mem_cons, List.mem_singleton, List.not_mem_nil, or_false] at hd
      obtain ⟨k, hk1, hk2, hk3, hk4⟩ := rookRayMoves_mem st _ co s d 64 s m hm
      have hT := (hk2 k (le_refl _)).arith hs.1
      refine ⟨s, _, FLAG_NORMAL, 0, hk1, hs.1, hs.2, hT.1, by omega, ?_, ?_⟩
      · rcases hd with rfl | rfl | rfl | rfl <;> omega
      · left
        refine ⟨rfl, rfl, hpc, hcol, ?_⟩
        by_cases hc : st.pieceAt (s + ((k : Int) + 1) * d) = 0
        · exact Or.inl hc
        · exact Or.inr ⟨hc, fun h => hk4 ⟨hc, h⟩,
            rook_target_attacked st _ s d k hs.1 hs.2 hd hpc hcol hr hk2 hk3⟩
    · simp [hr] at hm
  · by_cases hr : pieceType (st.pieceAt s) = BISHOP ∨ pieceType (st.pieceAt s) = QUEEN
    · simp only [hr, decide_True, if_true, List.mem_flatMap] at hm
      obtain ⟨d, hd, hm⟩ := hm
      simp only [List.mem_cons, List.mem_singleton, List.not_mem_nil, or_false] at hd
      obtain ⟨k, hk1, hk2, hk3, hk4⟩ := bishopRayMoves_mem st _ co s d 64 s m hm
      have hT := bishop_path_coords s d k hs.1 hs.2 hd hk2 (k + 1) (le_refl _)
      have hTe : s + ((k + 1 : Nat) : Int) * d = s + ((k : Int) + 1) * d := by
        push_cast; ring
      rw [hTe] at hT
      refine ⟨s, _, FLAG_NORMAL, 0, hk1, hs.1, hs.2, hT.1, hT.2.1, ?_, ?_⟩
      · rcases hd with rfl | rfl | rfl | rfl <;> omega
      · left
        refine ⟨rfl, rfl, hpc, hcol, ?_⟩
        by_cases hc : st.pieceAt (s + ((k : Int) + 1) * d) = 0
        · exact Or.inl hc
        · exact Or.inr ⟨hc, fun h => hk4 ⟨hc, h⟩,
            bishop_target_attacked st _ s d k hs.1 hs.2 hd hpc hcol hr hk2 hk3⟩
    · simp [hr] at hm

/-- Every move of `generateMoves` has the shape and the properties of `GenFacts`. -/
theorem generateMoves_facts (b : Board) (m : Move) (hm : m ∈ generateMoves b) :
    GenFacts b.state m := by
  unfold generateMoves at hm
  simp only [List.mem_append] at hm
  rcases hm with ((hm | hm) | hm) | hm
  · exact addPawnMoves_facts _ _ _ hm
  · exact addKnightMoves_facts _ _ _ hm
  · exact addSliding_facts _ _ _ hm
  · exact addKingMoves_facts _ _ _ hm

/-! ## The fields after `makeMove` -/

theorem pieceAt_eq (st : BoardState) (s : Int) : st.pieceAt s = sqAt st.squares s := rfl

theorem ite_xor_eq (c : Prop) [Decidable c] (z e : Nat) :
    (if c then z ^^^ e else z) = z ^^^ (if c then e else 0) := by
  split_ifs <;> simp

theorem mvHeader_fields (st : BoardState) (m : Move) :
    (mvHeader st m).squares = st.squares ∧ (mvHeader st m).castling = st.castling ∧
    (mvHeader st m).epSquare = st.epSquare ∧ (mvHeader st m).sideToMove = st.sideToMove ∧
    (mvHeader st m).zobrist = st.zobrist :=
  ⟨rfl, rfl, rfl, rfl, rfl⟩

theorem mvOldKeys_fields (Z : ZobristKeys) (st : BoardState) :
    (mvOldKeys Z st).squares = st.squares ∧ (mvOldKeys Z st).castling = st.castling ∧
    (mvOldKeys Z st).epSquare = st.epSquare ∧ (mvOldKeys Z st).sideToMove = st.sideToMove ∧
    (mvOldKeys Z st).zobrist =
      st.zobrist ^^^ (if st.epSquare ≠ NO_SQ then Z.zEP (st.epSquare.tmod 8) else 0)
        ^^^ Z.zCastle st.castling := by
  unfold mvOldKeys
  by_cases h : st.epSquare ≠ NO_SQ <;> simp [h]

theorem mvClocks_fields (st : BoardState) (pc cap : Nat) :
    (mvClocks st pc cap).squares = st.squares ∧ (mvClocks st pc cap).castling = st.castling ∧
    (mvClocks st pc cap).epSquare = NO_SQ ∧ (mvClocks st pc cap).sideToMove = st.sideToMove ∧
    (mvClocks st pc cap).zobrist = st.zobrist := by
  unfold mvClocks
  by_cases h : cap ≠ 0 ∨ pieceType pc = PAWN <;> simp [h]

theorem mvEnPassant_fields (Z : ZobristKeys) (st : BoardState) (to_ : Int) :
    (mvEnPassant Z st to_).squares = setSq st.squares (epCapSq st to_) 0 ∧
    (mvEnPassant Z st to_).castling = st.castling ∧
    (mvEnPassant Z st to_).epSquare = st.epSquare ∧
    (mvEnPassant Z st to_).sideToMove = st.sideToMove ∧
    (mvEnPassant Z st to_).zobrist =
      st.zobrist ^^^ Z.zKeys (st.pieceAt (epCapSq st to_)) (epCapSq st to_)
        ^^^ Z.zKeys 0 (epCapSq st to_) := by
  unfold mvEnPassant epCapSq
  exact ⟨rfl, rfl, rfl, rfl, rfl⟩

theorem mvCastleRook_fields (Z : ZobristKeys) (st : BoardState) (to_ : Int) :
    (mvCastleRook Z st to_).squares =
      setSq (setSq st.squares (castleRookFrom st.sideToMove to_) 0)
        (castleRookTo st.sideToMove to_) (st.pieceAt (castleRookFrom st.sideToMove to_)) ∧
    (mvCastleRook Z st to_).castling = st.castling ∧
    (mvCastleRook Z st to_).epSquare = st.epSquare ∧
    (mvCastleRook Z st to_).sideToMove = st.sideToMove ∧
    (mvCastleRook Z st to_).zobrist =
      st.zobrist
        ^^^ Z.zKeys (st.pieceAt (castleRookFrom st.sideToMove to_))
          (castleRookFrom st.sideToMove to_)
        ^^^ Z.zKeys 0 (castleRookFrom st.sideToMove to_)
        ^^^ Z.zKeys 0 (castleRookTo st.sideToMove to_)
        ^^^ Z.zKeys (st.pieceAt (castleRookFrom st.sideToMove to_))
          (castleRookTo st.sideToMove to_) := by
  unfold mvCastleRook castleRookFrom castleRookTo
  exact ⟨rfl, rfl, rfl, rfl, rfl⟩

theorem mvPiece_fields (Z : ZobristKeys) (st : BoardState) (m : Move) (pc cap : Nat) :
    (mvPiece Z st m pc cap).squares =
      setSq (setSq st.squares m.from_ 0) m.to_
        (if m.flags = FLAG_PROMO then
          makePiece st.sideToMove ([KNIGHT, BISHOP, ROOK, QUEEN].getD m.promo 0)
         else pc) ∧
    (mvPiece Z st m pc cap).castling = st.castling ∧
    (mvPiece Z st m pc cap).epSquare = st.epSquare ∧
    (mvPiece Z st m pc cap).sideToMove = st.sideToMove ∧
    (mvPiece Z st m pc cap).zobrist =
      st.zobrist ^^^ Z.zKeys pc m.from_ ^^^ Z.zKeys 0 m.from_ ^^^ Z.zKeys cap m.to_
        ^^^ Z.zKeys (if m.flags = FLAG_PROMO then
          makePiece st.sideToMove ([KNIGHT, BISHOP, ROOK, QUEEN].getD m.promo 0)
         else pc) m.to_ := by
  unfold mvPiece
  by_cases h : m.flags = FLAG_PROMO <;> simp [h]

theorem mvEpSquare_fields (Z : ZobristKeys) (st : BoardState) (pc : Nat) (from_ to_ : Int) :
    (mvEpSquare Z st pc from_ to_).squares = st.squares ∧
    (mvEpSquare Z st pc from_ to_).castling = st.castling ∧
    (mvEpSquare Z st pc from_ to_).epSquare =
      (if pieceType pc = PAWN ∧ cabs (to_ - from_) = 16 then (from_ + to_).tdiv 2
       else st.epSquare) ∧
    (mvEpSquare Z st pc from_ to_).sideToMove = st.sideToMove ∧
    (mvEpSquare Z st pc from_ to_).zobrist =
      st.zobrist ^^^ (if pieceType pc = PAWN ∧ cabs (to_ - from_) = 16 then
        Z.zEP (((from_ + to_).tdiv 2).tmod 8) else 0) := by
  unfold mvEpSquare
  by_cases h : pieceType pc = PAWN ∧ cabs (to_ - from_) = 16 <;> simp [h]

theorem mvCastling_fields (Z : ZobristKeys) (st : BoardState) (from_ to_ : Int) :
    (mvCastling Z st from_ to_).squares = st.squares ∧
    (mvCastling Z st from_ to_).epSquare = st.epSquare ∧
    (mvCastling Z st from_ to_).sideToMove = st.sideToMove ∧
    (mvCastling Z st from_ to_).zobrist =
      st.zobrist ^^^ Z.zCastle (mvCastling Z st from_ to_).castling := by
  unfold mvCastling
  simp only [apply_ite BoardState.squares, apply_ite BoardState.epSquare,
    apply_ite BoardState.sideToMove, apply_ite BoardState.zobrist, ite_self, and_self]

theorem mvSide_fields (Z : ZobristKeys) (st : BoardState) :
    (mvSide Z st).squares = st.squares ∧ (mvSide Z st).castling = st.castling ∧
    (mvSide Z st).epSquare = st.epSquare ∧
    (mvSide Z st).sideToMove = (if st.sideToMove = WHITE then BLACK else WHITE) ∧
    (mvSide Z st).zobrist = st.zobrist ^^^ Z.zSide := by
  unfold mvSide
  cases h : st.sideToMove <;> simp


theorem mvSpecial_fields (Z : ZobristKeys) (st : BoardState) (fl : Nat) (to_ : Int) :
    (if fl = FLAG_EP then mvEnPassant Z st to_
      else if fl = FLAG_CASTLE then mvCastleRook Z st to_ else st).squares =
      (if fl = FLAG_EP then setSq st.squares (epCapSq st to_) 0
       else if fl = FLAG_CASTLE then
         setSq (setSq st.squares (castleRookFrom st.sideToMove to_) 0)
           (castleRookTo st.sideToMove to_) (st.pieceAt (castleRookFrom st.sideToMove to_))
       else st.squares) ∧
    (if fl = FLAG_EP then mvEnPassant Z st to_
      else if fl = FLAG_CASTLE then mvCastleRook Z st to_ else st).castling = st.castling ∧
    (if fl = FLAG_EP then mvEnPassant Z st to_
      else if fl = FLAG_CASTLE then mvCastleRook Z st to_ else st).epSquare = st.epSquare ∧
    (if fl = FLAG_EP then mvEnPassant Z st to_
      else if fl = FLAG_CASTLE then mvCastleRook Z st to_ else st).sideToMove =
      st.sideToMove ∧
    (if fl = FLAG_EP then mvEnPassant Z st to_
      else if fl = FLAG_CASTLE then mvCastleRook Z st to_ else st).zobrist =
      st.zobrist ^^^
        (if fl = FLAG_EP then
          Z.zKeys (st.pieceAt (epCapSq st to_)) (epCapSq st to_) ^^^ Z.zKeys 0 (epCapSq st to_)
        else if fl = FLAG_CASTLE then
          Z.zKeys (st.pieceAt (castleRookFrom st.sideToMove to_))
              (castleRookFrom st.sideToMove to_)
            ^^^ Z.zKeys 0 (castleRookFrom st.sideToMove to_)
            ^^^ Z.zKeys 0 (castleRookTo st.sideToMove to_)
            ^^^ Z.zKeys (st.pieceAt (castleRookFrom st.sideToMove to_))
              (castleRookTo st.sideToMove to_)
        else 0) := by
  by_cases h1 : fl = FLAG_EP
  · simp only [if_pos h1]
    obtain ⟨a, b, c, d, e⟩ := mvEnPassant_fields Z st to_
    exact ⟨a, b, c, d, by rw [e, Nat.xor_assoc]⟩
  · simp only [if_neg h1]
    by_cases h2 : fl = FLAG_CASTLE
    · simp only [if_pos h2]
      obtain ⟨a, b, c, d, e⟩ := mvCastleRook_fields Z st to_
      exact ⟨a, b, c, d, by rw [e]; simp only [Nat.xor_assoc]⟩
    · simp only [if_neg h2, Nat.xor_zero, and_self]

theorem applyMove_squares (Z : ZobristKeys) (st : BoardState) (m : Move) :
    (applyMove Z st m).squares =
      setSq (setSq
        (if m.flags = FLAG_EP then setSq st.squares (epCapSq st m.to_) 0
         else if m.flags = FLAG_CASTLE then
           setSq (setSq st.squares (castleRookFrom st.sideToMove m.to_) 0)
             (castleRookTo st.sideToMove m.to_)
             (st.pieceAt (castleRookFrom st.sideToMove m.to_))
         else st.squares) m.from_ 0) m.to_ (placedPiece st m) := by
  unfold applyMove placedPiece
  simp only [(mvSide_fields _ _).1, (mvCastling_fields _ _ _ _).1, (mvEpSquare_fields _ _ _ _ _).1,
    (mvPiece_fields _ _ _ _ _).1, (mvSpecial_fields _ _ _ _).1, (mvSpecial_fields _ _ _ _).2.2.2.1,
    (mvClocks_fields _ _ _).1, (mvClocks_fields _ _ _).2.2.2.1,
    (mvOldKeys_fields _ _).1, (mvOldKeys_fields _ _).2.2.2.1,
    (mvHeader_fields _ _).1, (mvHeader_fields _ _).2.2.2.1, pieceAt_eq, epCapSq]

theorem applyMove_epSquare (Z : ZobristKeys) (st : BoardState) (m : Move) :
    (applyMove Z st m).epSquare =
      if isDoublePush st m then (m.from_ + m.to_).tdiv 2 else NO_SQ := by
  unfold applyMove isDoublePush
  simp only [(mvSide_fields _ _).2.2.1, (mvCastling_fields _ _ _ _).2.1,
    (mvEpSquare_fields _ _ _ _ _).2.2.1, (mvPiece_fields _ _ _ _ _).2.2.1,
    (mvSpecial_fields _ _ _ _).2.2.1, (mvClocks_fields _ _ _).2.2.1,
    pieceAt_eq, (mvOldKeys_fields _ _).1, (mvHeader_fields _ _).1]

theorem applyMove_zobrist (Z : ZobristKeys) (st : BoardState) (m : Move) :
    (applyMove Z st m).zobrist =
      st.zobrist
        ^^^ (if st.epSquare ≠ NO_SQ then Z.zEP (st.epSquare.tmod 8) else 0)
        ^^^ Z.zCastle st.castling
        ^^^ (if m.flags = FLAG_EP then
              Z.zKeys (st.pieceAt (epCapSq st m.to_)) (epCapSq st m.to_)
                ^^^ Z.zKeys 0 (epCapSq st m.to_)
            else if m.flags = FLAG_CASTLE then
              Z.zKeys (st.pieceAt (castleRookFrom st.sideToMove m.to_))
                  (castleRookFrom st.sideToMove m.to_)
                ^^^ Z.zKeys 0 (castleRookFrom st.sideToMove m.to_)
                ^^^ Z.zKeys 0 (castleRookTo st.sideToMove m.to_)
                ^^^ Z.zKeys (st.pieceAt (castleRookFrom st.sideToMove m.to_))
                  (castleRookTo st.sideToMove m.to_)
            else 0)
        ^^^ Z.zKeys (st.pieceAt m.from_) m.from_
        ^^^ Z.zKeys 0 m.from_
        ^^^ Z.zKeys (st.pieceAt m.to_) m.to_
        ^^^ Z.zKeys (placedPiece st m) m.to_
        ^^^ (if isDoublePush st m then Z.zEP (((m.from_ + m.to_).tdiv 2).tmod 8) else 0)
        ^^^ Z.zCastle (applyMove Z st m).castling
        ^^^ Z.zSide := by
  unfold applyMove placedPiece isDoublePush
  simp only [(mvSide_fields _ _).2.2.2.2, (mvSide_fields _ _).2.1]
  rw [(mvCastling_fields _ _ _ _).2.2.2]
  simp only [
    (mvEpSquare_fields _ _ _ _ _).2.2.2.2, (mvPiece_fields _ _ _ _ _).2.2.2.2,
    (mvPiece_fields _ _ _ _ _).2.2.2.1, (mvSpecial_fields _ _ _ _).2.2.2.2,
    (mvSpecial_fields _ _ _ _).2.2.2.1,
    (mvClocks_fields _ _ _).2.2.2.2, (mvClocks_fields _ _ _).2.2.2.1, (mvClocks_fields _ _ _).1,
    (mvOldKeys_fields _ _).2.2.2.2, (mvOldKeys_fields _ _).2.2.2.1, (mvOldKeys_fields _ _).1,
    (mvOldKeys_fields _ _).2.2.1, (mvOldKeys_fields _ _).2.1,
    (mvHeader_fields _ _).1, (mvHeader_fields _ _).2.2.2.1, (mvHeader_fields _ _).2.2.2.2,
    (mvHeader_fields _ _).2.2.1, (mvHeader_fields _ _).2.1, pieceAt_eq, epCapSq]

/-! ## The Zobrist key -/

theorem sqAt_setSq_same (q : Fin 64 → Nat) (i : Int) (v : Nat) (h0 : 0 ≤ i) (h1 : i < 64) :
    sqAt (setSq q i v) i = v := by
  unfold sqAt setSq
  rw [dif_pos ⟨h0, h1⟩]
  simp [Int.toNat_of_nonneg h0]

theorem sqAt_setSq_ne (q : Fin 64 → Nat) (i s : Int) (v : Nat) (h : s ≠ i) :
    sqAt (setSq q i v) s = sqAt q s := by
  unfold sqAt setSq
  by_cases hs : 0 ≤ s ∧ s < 64
  · rw [dif_pos hs, dif_pos hs]
    simp only []
    rw [if_neg]
    simp only [Int.toNat_of_nonneg hs.1]
    exact h
  · rw [dif_neg hs, dif_neg hs]

theorem foldl_xor_acc (f : Int → Nat) (l : List Int) (a : Nat) :
    l.foldl (fun h s => h ^^^ f s) a = a ^^^ l.foldl (fun h s => h ^^^ f s) 0 := by
  induction l generalizing a with
  | nil => simp
  | cons x l ih =>
    simp only [List.foldl_cons]
    rw [ih (a ^^^ f x), ih (0 ^^^ f x), Nat.zero_xor, Nat.xor_assoc]

theorem foldl_xor_congr (f g : Int → Nat) (l : List Int) (a : Nat)
    (h : ∀ s ∈ l, f s = g s) :
    l.foldl (fun h s => h ^^^ f s) a = l.foldl (fun h s => h ^^^ g s) a := by
  induction l generalizing a with
  | nil => rfl
  | cons x l ih =>
    simp only [List.foldl_cons]
    rw [h x (List.mem_cons_self _ _)]
    exact ih _ (fun s hs => h s (List.mem_cons_of_mem _ hs))

theorem foldl_xor_update (f g : Int → Nat) (l : List Int) (i : Int)
    (hnd : l.Nodup) (hi : i ∈ l) (h : ∀ s ∈ l, s ≠ i → g s = f s) :
    l.foldl (fun h s => h ^^^ g s) 0 = l.foldl (fun h s => h ^^^ f s) 0 ^^^ f i ^^^ g i := by
  induction l with
  | nil => cases hi
  | cons x l ih =>
    simp only [List.foldl_cons, Nat.zero_xor]
    rw [foldl_xor_acc g, foldl_xor_acc f l (f x)]
    rw [List.nodup_cons] at hnd
    rcases List.mem_cons.mp hi with rfl | hil
    · have hc : l.foldl (fun h s => h ^^^ g s) 0 = l.foldl (fun h s => h ^^^ f s) 0 := by
        apply foldl_xor_congr
        intro s hs
        exact h s (List.mem_cons_of_mem _ hs) (fun e => hnd.1 (e ▸ hs))
      rw [hc]
      ac_nf
      simp only [Nat.xor_cancel_left]
    · have hx : g x = f x := h x (List.mem_cons_self _ _) (fun e => hnd.1 (e ▸ hil))
      rw [ih hnd.2 hil (fun s hs => h s (List.mem_cons_of_mem _ hs)), hx]
      ac_nf

theorem allSquares_nodup : allSquares.Nodup := by
  unfold allSquares
  exact (List.nodup_range 64).map (fun a b h => by simpa using h)

theorem pieceKeySum_setSq (Z : ZobristKeys) (q : Fin 64 → Nat) (i : Int) (v : Nat)
    (h0 : 0 ≤ i) (h1 : i < 64) :
    pieceKeySum Z (setSq q i v) =
      pieceKeySum Z q ^^^ Z.zKeys (sqAt q i) i ^^^ Z.zKeys v i := by
  unfold pieceKeySum
  have := foldl_xor_update (fun s => Z.zKeys (sqAt q s) s)
    (fun s => Z.zKeys (sqAt (setSq q i v) s) s) allSquares i allSquares_nodup
    (mem_allSquares.mpr ⟨h0, h1⟩) (fun s _ hs => by simp only [sqAt_setSq_ne q i s v hs])
  simp only [] at this
  rw [this, sqAt_setSq_same q i v h0 h1]

theorem recompute_fold (Z : ZobristKeys) (l : List Int) (st : BoardState) :
    (l.foldl (fun (acc : BoardState) s =>
        { acc with zobrist := acc.zobrist ^^^ Z.zKeys (acc.pieceAt s) s }) st) =
      { st with zobrist := l.foldl (fun h s => h ^^^ Z.zKeys (sqAt st.squares s) s) st.zobrist } := by
  induction l generalizing st with
  | nil => rfl
  | cons x l ih =>
    simp only [List.foldl_cons]
    rw [ih]
    rfl

/-- `recomputeZobrist` changes the key only, and stores `hashOf`. -/
theorem recomputeZobrist_eq (Z : ZobristKeys) (st : BoardState) :
    recomputeZobrist Z st = { st with zobrist := hashOf Z st } := by
  have hf := recompute_fold Z allSquares { st with zobrist := 0 }
  unfold recomputeZobrist hashOf
  simp only []
  rw [hf]
  cases hs : st.sideToMove <;> by_cases he : st.epSquare ≠ NO_SQ <;>
    simp [hs, he, pieceAt_eq]


theorem hashOf_eq (Z : ZobristKeys) (st : BoardState) :
    hashOf Z st = pieceKeySum Z st.squares
      ^^^ (if st.sideToMove = BLACK then Z.zSide else 0)
      ^^^ Z.zCastle st.castling
      ^^^ (if st.epSquare ≠ NO_SQ then Z.zEP (st.epSquare.tmod 8) else 0) := rfl

theorem GenFacts.fields {st : BoardState} {s t : Int} {fl p : Nat}
    (hs0 : 0 ≤ s) (hs : s < 64) (ht0 : 0 ≤ t) (ht : t < 64)
    (hcase : (fl = FLAG_NORMAL ∧ p = 0 ∧ st.pieceAt s ≠ 0 ∧
        pieceColor (st.pieceAt s) = st.sideToMove ∧ TargetOK st t) ∨
     (fl = FLAG_PROMO ∧ p ≤ 3 ∧ st.pieceAt s = makePiece st.sideToMove PAWN ∧
        TargetOK st t) ∨
     (fl = FLAG_EP ∧ p = 0 ∧ st.pieceAt s = makePiece st.sideToMove PAWN ∧
        t = st.epSquare ∧ 0 ≤ epCapSq st t ∧ epCapSq st t < 64 ∧
        epCapSq st t ≠ s ∧ epCapSq st t ≠ t) ∨
     (fl = FLAG_CASTLE ∧ p = 0 ∧ CastleOK st s t)) :
    (Move.new s t fl p).from_ = s ∧ (Move.new s t fl p).to_ = t ∧
      (Move.new s t fl p).flags = fl ∧ (Move.new s t fl p).promo = p := by
  apply Move.new_fields s t fl p hs0 hs ht0 ht
  · rcases hcase with ⟨rfl, _⟩ | ⟨rfl, _⟩ | ⟨rfl, _⟩ | ⟨rfl, _⟩ <;> decide
  · rcases hcase with ⟨_, rfl, _⟩ | ⟨_, h, _⟩ | ⟨_, rfl, _⟩ | ⟨_, rfl, _⟩ <;> omega

/-- The piece-square part of the key after a generated move. -/
theorem pieceKeySum_applyMove (Z : ZobristKeys) (st : BoardState) (m : Move)
    (hg : GenFacts st m) :
    pieceKeySum Z (applyMove Z st m).squares =
      pieceKeySum Z st.squares
        ^^^ (if m.flags = FLAG_EP then
              Z.zKeys (st.pieceAt (epCapSq st m.to_)) (epCapSq st m.to_)
                ^^^ Z.zKeys 0 (epCapSq st m.to_)
            else if m.flags = FLAG_CASTLE then
              Z.zKeys (st.pieceAt (castleRookFrom st.sideToMove m.to_))
                  (castleRookFrom st.sideToMove m.to_)
                ^^^ Z.zKeys 0 (castleRookFrom st.sideToMove m.to_)
                ^^^ Z.zKeys 0 (castleRookTo st.sideToMove m.to_)
                ^^^ Z.zKeys (st.pieceAt (castleRookFrom st.sideToMove m.to_))
                  (castleRookTo st.sideToMove m.to_)
            else 0)
        ^^^ Z.zKeys (st.pieceAt m.from_) m.from_
        ^^^ Z.zKeys 0 m.from_
        ^^^ Z.zKeys (st.pieceAt m.to_) m.to_
        ^^^ Z.zKeys (placedPiece st m) m.to_ := by
  obtain ⟨s, t, fl, p, rfl, hs0, hs, ht0, ht, hne, hcase⟩ := hg
  obtain ⟨hf, ht', hfl, hp⟩ := GenFacts.fields hs0 hs ht0 ht hcase
  rw [applyMove_squares]
  simp only [hf, ht', hfl, pieceAt_eq]
  have hts : t ≠ s := fun h => hne h.symm
  rcases hcase with ⟨rfl, _⟩ | ⟨rfl, _⟩ | ⟨rfl, _, _, _, hc0, hc1, hcs, hct⟩ | ⟨rfl, _, hc⟩
  · simp only [show ¬ (FLAG_NORMAL = FLAG_EP) by decide,
      show ¬ (FLAG_NORMAL = FLAG_CASTLE) by decide, if_false, Nat.xor_zero]
    rw [pieceKeySum_setSq Z _ t _ ht0 ht, pieceKeySum_setSq Z _ s _ hs0 hs,
      sqAt_setSq_ne _ s t _ hts]
  · simp only [show ¬ (FLAG_PROMO = FLAG_EP) by decide,
      show ¬ (FLAG_PROMO = FLAG_CASTLE) by decide, if_false, Nat.xor_zero]
    rw [pieceKeySum_setSq Z _ t _ ht0 ht, pieceKeySum_setSq Z _ s _ hs0 hs,
      sqAt_setSq_ne _ s t _ hts]
  · simp only [if_true]
    rw [pieceKeySum_setSq Z _ t _ ht0 ht, pieceKeySum_setSq Z _ s _ hs0 hs,
      pieceKeySum_setSq Z _ _ _ hc0 hc1,
      sqAt_setSq_ne _ s t _ hts, sqAt_setSq_ne _ _ t _ (fun h => hct h.symm),
      sqAt_setSq_ne _ _ s _ (fun h => hcs h.symm)]
    simp only [Nat.xor_assoc]
  · simp only [show ¬ (FLAG_CASTLE = FLAG_EP) by decide, if_false, if_true]
    have hr : 0 ≤ castleRookFrom st.sideToMove t ∧ castleRookFrom st.sideToMove t < 64 ∧
        0 ≤ castleRookTo st.sideToMove t ∧ castleRookTo st.sideToMove t < 64 ∧
        castleRookFrom st.sideToMove t ≠ castleRookTo st.sideToMove t ∧
        s ≠ castleRookFrom st.sideToMove t ∧ s ≠ castleRookTo st.sideToMove t ∧
        t ≠ castleRookFrom st.sideToMove t ∧ t ≠ castleRookTo st.sideToMove t ∧
        sqAt st.squares (castleRookTo st.sideToMove t) = 0 := by
      unfold castleRookFrom castleRookTo
      rcases hc with ⟨hw, rfl, ⟨rfl, _, h5, _⟩ | ⟨rfl, _, h3, _⟩⟩ |
        ⟨hb, rfl, ⟨rfl, _, h61, _⟩ | ⟨rfl, _, h59, _⟩⟩
      · simp [hw]; exact h5
      · simp [hw]; exact h3
      · simp [hb]; exact h61
      · simp [hb]; exact h59
    obtain ⟨r1, r2, r3, r4, r5, r6, r7, r8, r9, r10⟩ := hr
    rw [pieceKeySum_setSq Z _ t _ ht0 ht, pieceKeySum_setSq Z _ s _ hs0 hs,
      pieceKeySum_setSq Z _ _ _ r3 r4, pieceKeySum_setSq Z _ _ _ r1 r2,
      sqAt_setSq_ne _ s t _ hts, sqAt_setSq_ne _ _ t _ r9, sqAt_setSq_ne _ _ t _ r8,
      sqAt_setSq_ne _ _ s _ r7, sqAt_setSq_ne _ _ s _ r6,
      sqAt_setSq_ne _ _ _ _ (fun h => r5 h.symm), r10]
    simp only [Nat.xor_assoc]


theorem applyMove_zobristOK (Z : ZobristKeys) (st : BoardState) (m : Move)
    (hok : st.zobrist = hashOf Z st) (hg : GenFacts st m) :
    (applyMove Z st m).zobrist = hashOf Z (applyMove Z st m) := by
  rw [hashOf_eq Z (applyMove Z st m), pieceKeySum_applyMove Z st m hg, applyMove_zobrist,
    applyMove_sideToMove, applyMove_epSquare, hok, hashOf_eq Z st]
  have hE : (if (if isDoublePush st m then (m.from_ + m.to_).tdiv 2 else NO_SQ) ≠ NO_SQ then
        Z.zEP ((if isDoublePush st m then (m.from_ + m.to_).tdiv 2 else NO_SQ).tmod 8)
      else 0) =
      (if isDoublePush st m then Z.zEP (((m.from_ + m.to_).tdiv 2).tmod 8) else 0) := by
    by_cases hd : isDoublePush st m
    · simp only [hd, if_true]
      rw [if_pos]
      have h1 := m.from_range
      have h2 := m.to_range
      have : (0 : Int) ≤ (m.from_ + m.to_).tdiv 2 := by
        rw [Int.tdiv_eq_ediv (by omega) (by decide)]; omega
      unfold NO_SQ; omega
    · simp [hd]
  have hS : (if (if st.sideToMove = WHITE then BLACK else WHITE) = BLACK then Z.zSide else 0) =
      (if st.sideToMove = BLACK then Z.zSide else 0) ^^^ Z.zSide := by
    cases st.sideToMove <;> simp
  rw [hE, hS]
  ac_nf
  simp only [Nat.xor_cancel_left, Nat.xor_self, Nat.xor_zero]

theorem loadFEN_eq_boardOfFEN (Z : ZobristKeys) (fen : String)
    (h : (loadFEN Z fen).isSome = true) : loadFEN Z fen = some (boardOfFEN Z fen) := by
  unfold boardOfFEN
  cases hl : loadFEN Z fen with
  | none => rw [hl] at h; cases h
  | some b => rfl

/-- C2: the stored zobrist key equals the key recomputed from scratch, which is the XOR
of the piece-square key of every square, the side key if Black is to move, the
castling-mask key and the ep-file key if an ep square is set; this holds after
`loadFEN`, and if it holds in a position it holds again after every successful
`makeMove` of a move from `generateMoves`, for every key table `Z`. -/
theorem zobrist_matches_recompute (Z : ZobristKeys) :
    (∀ st : BoardState, (recomputeZobrist Z st).zobrist = hashOf Z st) ∧
    (∀ (fen : String) (b : Board), loadFEN Z fen = some b → ZobristOK Z b.state) ∧
    (∀ (b : Board) (m : Move), ZobristOK Z b.state → m ∈ generateMoves b →
      (makeMove Z b m).2 = true → ZobristOK Z (makeMove Z b m).1.state) := by
  refine ⟨fun st => by rw [recomputeZobrist_eq], ?_, ?_⟩
  · intro fen b h
    unfold loadFEN loadFENChars loadFields at h
    simp only [] at h
    split at h
    · simp only [Option.some.injEq] at h
      subst h
      unfold ZobristOK
      simp only [recomputeZobrist_eq]
      rfl
    · cases h
  · intro b m hok hm ht
    unfold ZobristOK at hok ⊢
    rw [recomputeZobrist_eq] at hok ⊢
    rw [makeMove_fst_of_true Z b m ht]
    exact applyMove_zobristOK Z b.state m hok (generateMoves_facts b m hm)

set_option maxRecDepth 100000 in
theorem zobrist_matches_recompute_witness :
    ZobristOK sampleKeys (boardOfFEN sampleKeys "4k3/8/8/8/8/8/8/4K3 w - - 0 1").state ∧
    Move.new 4 12 0 0 ∈ generateMoves (boardOfFEN sampleKeys "4k3/8/8/8/8/8/8/4K3 w - - 0 1") ∧
    (makeMove sampleKeys (boardOfFEN sampleKeys "4k3/8/8/8/8/8/8/4K3 w - - 0 1")
      (Move.new 4 12 0 0)).2 = true ∧
    ZobristOK sampleKeys (makeMove sampleKeys
      (boardOfFEN sampleKeys "4k3/8/8/8/8/8/8/4K3 w - - 0 1") (Move.new 4 12 0 0)).1.state :=
  have h0 : ZobristOK sampleKeys
      (boardOfFEN sampleKeys "4k3/8/8/8/8/8/8/4K3 w - - 0 1").state :=
    (zobrist_matches_recompute sampleKeys).2.1 "4k3/8/8/8/8/8/8/4K3 w - - 0 1" _
      (loadFEN_eq_boardOfFEN _ _ (by decide!))
  have h1 : Move.new 4 12 0 0 ∈
      generateMoves (boardOfFEN sampleKeys "4k3/8/8/8/8/8/8/4K3 w - - 0 1") := by decide!
  have h2 : (makeMove sampleKeys (boardOfFEN sampleKeys "4k3/8/8/8/8/8/8/4K3 w - - 0 1")
      (Move.new 4 12 0 0)).2 = true := by decide!
  ⟨h0, h1, h2, (zobrist_matches_recompute sampleKeys).2.2 _ _ h0 h1 h2⟩

/-! ## Kings are never captured -/

theorem countPiece_eq (st : BoardState) (c : Color) (p : Nat) :
    countPiece st c p = countSq (makePiece c p) st.squares := rfl

theorem foldl_count_acc (P : Int → Prop) [DecidablePred P] (l : List Int) (a : Nat) :
    l.foldl (fun cnt s => if P s then cnt + 1 else cnt) a =
      a + l.foldl (fun cnt s => if P s then cnt + 1 else cnt) 0 := by
  induction l generalizing a with
  | nil => simp
  | cons x l ih =>
    simp only [List.foldl_cons]
    rw [ih, ih (if P x then 0 + 1 else 0)]
    split_ifs <;> omega

theorem foldl_count_congr (P Q : Int → Prop) [DecidablePred P] [DecidablePred Q]
    (l : List Int) (h : ∀ s ∈ l, (P s ↔ Q s)) :
    l.foldl (fun cnt s => if P s then cnt + 1 else cnt) 0 =
      l.foldl (fun cnt s => if Q s then cnt + 1 else cnt) 0 := by
  induction l with
  | nil => rfl
  | cons x l ih =>
    simp only [List.foldl_cons]
    rw [foldl_count_acc P, foldl_count_acc Q, ih (fun s hs => h s (List.mem_cons_of_mem _ hs))]
    have := h x (List.mem_cons_self _ _)
    by_cases hp : P x
    · rw [if_pos hp, if_pos (this.mp hp)]
    · rw [if_neg hp, if_neg (fun hq => hp (this.mpr hq))]

theorem foldl_count_update (P Q : Int → Prop) [DecidablePred P] [DecidablePred Q]
    (l : List Int) (i : Int) (hnd : l.Nodup) (hi : i ∈ l)
    (h : ∀ s ∈ l, s ≠ i → (Q s ↔ P s)) :
    l.foldl (fun cnt s => if Q s then cnt + 1 else cnt) 0 + (if P i then 1 else 0) =
      l.foldl (fun cnt s => if P s then cnt + 1 else cnt) 0 + (if Q i then 1 else 0) := by
  induction l with
  | nil => cases hi
  | cons x l ih =>
    simp only [List.foldl_cons]
    rw [foldl_count_acc Q, foldl_count_acc P]
    rw [List.nodup_cons] at hnd
    rcases List.mem_cons.mp hi with rfl | hil
    · have hc := foldl_count_congr Q P l
        (fun s hs => h s (List.mem_cons_of_mem _ hs) (fun e => hnd.1 (e ▸ hs)))
      rw [hc]
      split_ifs <;> omega
    · have hx : Q x ↔ P x := h x (List.mem_cons_self _ _) (fun e => hnd.1 (e ▸ hil))
      have := ih hnd.2 hil (fun s hs => h s (List.mem_cons_of_mem _ hs))
      by_cases hp : P x
      · rw [if_pos hp, if_pos (hx.mpr hp)]; omega
      · rw [if_neg hp, if_neg (fun hq => hp (hx.mp hq))]; omega

theorem countSq_setSq (k : Nat) (q : Fin 64 → Nat) (i : Int) (v : Nat)
    (h0 : 0 ≤ i) (h1 : i < 64) :
    countSq k (setSq q i v) + (if sqAt q i = k then 1 else 0) =
      countSq k q + (if v = k then 1 else 0) := by
  unfold countSq
  have := foldl_count_update (fun s => sqAt q s = k) (fun s => sqAt (setSq q i v) s = k)
    allSquares i allSquares_nodup (mem_allSquares.mpr ⟨h0, h1⟩)
    (fun s _ hs => by simp only [sqAt_setSq_ne q i s v hs])
  simp only [sqAt_setSq_same q i v h0 h1] at this
  exact this

theorem countSq_pos (k : Nat) (q : Fin 64 → Nat) (i : Int) (hk : k ≠ 0)
    (h0 : 0 ≤ i) (h1 : i < 64) (h : sqAt q i = k) : 1 ≤ countSq k q := by
  have := countSq_setSq k q i 0 h0 h1
  rw [if_pos h, if_neg (fun e => hk e.symm)] at this
  omega

/-- With exactly one square holding `k`, two squares holding `k` are the same square. -/
theorem countSq_one_unique (k : Nat) (q : Fin 64 → Nat) (i j : Int) (hk : k ≠ 0)
    (hc : countSq k q = 1) (hi0 : 0 ≤ i) (hi1 : i < 64) (hj0 : 0 ≤ j) (hj1 : j < 64)
    (hi : sqAt q i = k) (hj : sqAt q j = k) : i = j := by
  by_contra hne
  have h1 := countSq_setSq k q i 0 hi0 hi1
  rw [if_pos hi, if_neg (fun e => hk e.symm)] at h1
  have h2 := countSq_pos k (setSq q i 0) j hk hj0 hj1
    (by rw [sqAt_setSq_ne q i j 0 (fun e => hne e.symm)]; exact hj)
  omega


theorem countSq_move (k : Nat) (q : Fin 64 → Nat) (s t : Int) (v : Nat) (hk : k ≠ 0)
    (hs0 : 0 ≤ s) (hs : s < 64) (ht0 : 0 ≤ t) (ht : t < 64) (hne : s ≠ t) :
    countSq k (setSq (setSq q s 0) t v) + (if sqAt q s = k then 1 else 0)
        + (if sqAt q t = k then 1 else 0) =
      countSq k q + (if v = k then 1 else 0) := by
  have h1 := countSq_setSq k q s 0 hs0 hs
  have h2 := countSq_setSq k (setSq q s 0) t v ht0 ht
  rw [sqAt_setSq_ne q s t 0 (fun e => hne e.symm)] at h2
  rw [if_neg (fun e : 0 = k => hk e.symm)] at h1
  omega

theorem opposite_opposite (c : Color) : opposite (opposite c) = c := by
  cases c <;> rfl

theorem king_code_ne_zero (c : Color) : makePiece c KING ≠ 0 :=
  (makePiece_facts c KING (by decide)).1

/-- In a position with one king each where the side not to move is not in check, the
to-square of a generated move that is neither a castle nor en passant holds no king. -/
theorem target_not_king (st : BoardState) (t : Int) (c : Color)
    (hk : OneKingEach st) (hnc : isInCheck st (opposite st.sideToMove) = false)
    (ht0 : 0 ≤ t) (ht : t < 64) (htg : TargetOK st t) :
    st.pieceAt t ≠ makePiece c KING := by
  intro he
  have hf := makePiece_facts c KING (by decide)
  rcases htg with h0 | ⟨_, hcol, hatt⟩
  · rw [h0] at he; exact hf.1 he.symm
  · rw [he, hf.2.1] at hcol
    have hc : c = opposite st.sideToMove := by
      cases c <;> cases hs : st.sideToMove <;> simp_all [opposite]
    subst hc
    have : isInCheck st (opposite st.sideToMove) = true := by
      rw [isInCheck_iff]
      refine ⟨t, ht0, ht, he, ?_, by rw [opposite_opposite]; exact hatt⟩
      intro s hs0 hs1 hse
      have hcount : countSq (makePiece (opposite st.sideToMove) KING) st.squares = 1 := by
        have := hk
        unfold OneKingEach at this
        rw [countPiece_eq, countPiece_eq] at this
        cases hs : st.sideToMove <;> simp only [opposite, hs] at * <;> simp [this]
      have := countSq_one_unique _ st.squares s t hf.1 hcount hs0 (by omega) ht0 ht hse he
      omega
    rw [this] at hnc
    cases hnc

theorem promo_piece_not_king (side c : Color) (p : Nat) (hp : p ≤ 3) :
    makePiece side ([KNIGHT, BISHOP, ROOK, QUEEN].getD p 0) ≠ makePiece c KING := by
  have : p = 0 ∨ p = 1 ∨ p = 2 ∨ p = 3 := by omega
  rcases this with rfl | rfl | rfl | rfl <;> cases side <;> cases c <;> decide

theorem pawn_not_king (side c : Color) : makePiece side PAWN ≠ makePiece c KING := by
  cases side <;> cases c <;> decide

/-- A generated move keeps the number of kings of either colour. -/
theorem countSq_king_applyMove (Z : ZobristKeys) (st : BoardState) (m : Move) (c : Color)
    (hk : OneKingEach st) (hnc : isInCheck st (opposite st.sideToMove) = false)
    (hep : EpSquareOK st) (hg : GenFacts st m) :
    countSq (makePiece c KING) (applyMove Z st m).squares =
      countSq (makePiece c KING) st.squares := by
  obtain ⟨s, t, fl, p, rfl, hs0, hs, ht0, ht, hne, hcase⟩ := hg
  obtain ⟨hf, ht', hfl, hp⟩ := GenFacts.fields hs0 hs ht0 ht hcase
  have hk0 := king_code_ne_zero c
  rw [applyMove_squares]
  unfold placedPiece
  simp only [hf, ht', hfl, hp, pieceAt_eq]
  rcases hcase with ⟨rfl, _, _, _, htg⟩ | ⟨rfl, hp3, hpawn, htg⟩ |
    ⟨rfl, _, hpawn, hte, hc0, hc1, hcs, hct⟩ | ⟨rfl, _, hc⟩
  · simp only [show ¬ (FLAG_NORMAL = FLAG_EP) by decide,
      show ¬ (FLAG_NORMAL = FLAG_CASTLE) by decide,
      show ¬ (FLAG_NORMAL = FLAG_PROMO) by decide, if_false]
    have h := countSq_move (makePiece c KING) st.squares s t (sqAt st.squares s) hk0
      hs0 hs ht0 ht hne
    have htk := target_not_king st t c hk hnc ht0 ht htg
    rw [pieceAt_eq] at htk
    rw [if_neg htk] at h
    omega
  · simp only [show ¬ (FLAG_PROMO = FLAG_EP) by decide,
      show ¬ (FLAG_PROMO = FLAG_CASTLE) by decide, if_false, if_true]
    have h := countSq_move (makePiece c KING) st.squares s t
      (makePiece st.sideToMove ([KNIGHT, BISHOP, ROOK, QUEEN].getD p 0)) hk0
      hs0 hs ht0 ht hne
    have htk := target_not_king st t c hk hnc ht0 ht htg
    rw [pieceAt_eq] at htk hpawn
    rw [if_neg htk, if_neg (promo_piece_not_king _ c p hp3), hpawn,
      if_neg (pawn_not_king _ c)] at h
    omega
  · simp only [show ¬ (FLAG_EP = FLAG_PROMO) by decide, if_false, if_true]
    have hset : st.epSquare ≠ NO_SQ := by rw [← hte]; unfold NO_SQ; omega
    obtain ⟨e1, e2⟩ := hep hset
    rw [← hte, pieceAt_eq] at e1 e2
    have h0 := countSq_setSq (makePiece c KING) st.squares (epCapSq st t) 0 hc0 hc1
    rw [e2, if_neg (pawn_not_king _ c), if_neg (fun e : 0 = _ => hk0 e.symm)] at h0
    have h := countSq_move (makePiece c KING) (setSq st.squares (epCapSq st t) 0) s t
      (sqAt st.squares s) hk0 hs0 hs ht0 ht hne
    rw [sqAt_setSq_ne _ _ s _ (fun e => hcs e.symm),
      sqAt_setSq_ne _ _ t _ (fun e => hct e.symm), e1,
      if_neg (fun e : 0 = _ => hk0 e.symm)] at h
    omega
  · simp only [show ¬ (FLAG_CASTLE = FLAG_EP) by decide,
      show ¬ (FLAG_CASTLE = FLAG_PROMO) by decide, if_false, if_true]
    have hr : 0 ≤ castleRookFrom st.sideToMove t ∧ castleRookFrom st.sideToMove t < 64 ∧
        0 ≤ castleRookTo st.sideToMove t ∧ castleRookTo st.sideToMove t < 64 ∧
        castleRookFrom st.sideToMove t ≠ castleRookTo st.sideToMove t ∧
        s ≠ castleRookFrom st.sideToMove t ∧ s ≠ castleRookTo st.sideToMove t ∧
        t ≠ castleRookFrom st.sideToMove t ∧ t ≠ castleRookTo st.sideToMove t ∧
        sqAt st.squares (castleRookTo st.sideToMove t) = 0 ∧ sqAt st.squares t = 0 := by
      unfold castleRookFrom castleRookTo
      rcases hc with ⟨hw, rfl, ⟨rfl, _, h5, h6, _⟩ | ⟨rfl, _, h3, h2, _⟩⟩ |
        ⟨hb, rfl, ⟨rfl, _, h61, h62, _⟩ | ⟨rfl, _, h59, h58, _⟩⟩
      · simp [hw]; exact ⟨h5, h6⟩
      · simp [hw]; exact ⟨h3, h2⟩
      · simp [hb]; exact ⟨h61, h62⟩
      · simp [hb]; exact ⟨h59, h58⟩
    obtain ⟨r1, r2, r3, r4, r5, r6, r7, r8, r9, r10, r11⟩ := hr
    have h0 := countSq_move (makePiece c KING) st.squares _ _
      (sqAt st.squares (castleRookFrom st.sideToMove t)) hk0 r1 r2 r3 r4 r5
    rw [r10, if_neg (fun e : 0 = _ => hk0 e.symm)] at h0
    have h := countSq_move (makePiece c KING)
      (setSq (setSq st.squares (castleRookFrom st.sideToMove t) 0)
        (castleRookTo st.sideToMove t) (sqAt st.squares (castleRookFrom st.sideToMove t)))
      s t (sqAt st.squares s) hk0 hs0 hs ht0 ht hne
    rw [sqAt_setSq_ne _ _ s _ r7, sqAt_setSq_ne _ _ s _ r6,
      sqAt_setSq_ne _ _ t _ r9, sqAt_setSq_ne _ _ t _ r8, r11,
      if_neg (fun e : 0 = _ => hk0 e.symm)] at h
    omega

/-- What a generated move takes off the board is not a king: the to-square holds no
king and, for en passant, neither does the square behind it. -/
theorem generated_move_spares_kings (st : BoardState) (m : Move) (c : Color)
    (hk : OneKingEach st) (hnc : isInCheck st (opposite st.sideToMove) = false)
    (hep : EpSquareOK st) (hg : GenFacts st m) :
    st.pieceAt m.to_ ≠ makePiece c KING ∧
      (m.flags = FLAG_EP → st.pieceAt (epCapSq st m.to_) ≠ makePiece c KING) := by
  obtain ⟨s, t, fl, p, rfl, hs0, hs, ht0, ht, hne, hcase⟩ := hg
  obtain ⟨hf, ht', hfl, hp⟩ := GenFacts.fields hs0 hs ht0 ht hcase
  have hk0 := king_code_ne_zero c
  rw [ht', hfl]
  rcases hcase with ⟨rfl, _, _, _, htg⟩ | ⟨rfl, hp3, hpawn, htg⟩ |
    ⟨rfl, _, hpawn, hte, hc0, hc1, hcs, hct⟩ | ⟨rfl, _, hc⟩
  · exact ⟨target_not_king st t c hk hnc ht0 ht htg, fun h => by cases h⟩
  · exact ⟨target_not_king st t c hk hnc ht0 ht htg, fun h => by cases h⟩
  · have hset : st.epSquare ≠ NO_SQ := by rw [← hte]; unfold NO_SQ; omega
    obtain ⟨e1, e2⟩ := hep hset
    rw [← hte] at e1 e2
    exact ⟨by rw [e1]; exact fun e => hk0 e.symm, fun _ => by rw [e2]; exact pawn_not_king _ c⟩
  · refine ⟨?_, fun h => by cases h⟩
    rcases hc with ⟨_, _, ⟨rfl, _, _, h6, _⟩ | ⟨rfl, _, _, h2, _⟩⟩ |
      ⟨_, _, ⟨rfl, _, _, h62, _⟩ | ⟨rfl, _, _, h58, _⟩⟩
    · rw [h6]; exact fun e => hk0 e.symm
    · rw [h2]; exact fun e => hk0 e.symm
    · rw [h62]; exact fun e => hk0 e.symm
    · rw [h58]; exact fun e => hk0 e.symm

/-- C6: from a position with exactly one king of each colour, in which the side not to
move is not in check and whose ep square (if set) is empty with an enemy pawn directly
behind it, every successful `makeMove` of a move from `generateMoves` yields a position
with exactly one king of each colour in which the side not to move is not in check; the
move takes no king (neither on its to-square nor, en passant, behind it). -/
theorem makeMove_keeps_kings (Z : ZobristKeys) (b : Board) (m : Move)
    (hk : OneKingEach b.state)
    (hnc : isInCheck b.state (opposite b.state.sideToMove) = false)
    (hep : EpSquareOK b.state)
    (hm : m ∈ generateMoves b) (ht : (makeMove Z b m).2 = true) :
    OneKingEach (makeMove Z b m).1.state ∧
      isInCheck (makeMove Z b m).1.state
        (opposite (makeMove Z b m).1.state.sideToMove) = false ∧
      ∀ c : Color, b.state.pieceAt m.to_ ≠ makePiece c KING ∧
        (m.flags = FLAG_EP → b.state.pieceAt (epCapSq b.state m.to_) ≠ makePiece c KING) := by
  have hg := generateMoves_facts b m hm
  have hs := makeMove_snd Z b m
  rw [ht, leavesInCheck_eq] at hs
  rw [makeMove_fst_of_true Z b m ht]
  simp only []
  refine ⟨?_, ?_, fun c => generated_move_spares_kings b.state m c hk hnc hep hg⟩
  · have hk' := hk
    unfold OneKingEach at hk' ⊢
    rw [countPiece_eq, countPiece_eq] at hk' ⊢
    rw [countSq_king_applyMove Z b.state m WHITE hk hnc hep hg,
      countSq_king_applyMove Z b.state m BLACK hk hnc hep hg]
    exact hk'
  · rw [applyMove_sideToMove]
    have : opposite (if b.state.sideToMove = WHITE then BLACK else WHITE) =
        b.state.sideToMove := by
      cases b.state.sideToMove <;> rfl
    rw [this]
    simpa using hs.symm

set_option maxRecDepth 100000 in
theorem makeMove_keeps_kings_witness :
    OneKingEach (boardOfFEN sampleKeys "4k3/8/8/8/4Pp2/8/8/4K3 b - e3 0 1").state ∧
    isInCheck (boardOfFEN sampleKeys "4k3/8/8/8/4Pp2/8/8/4K3 b - e3 0 1").state
      (opposite (boardOfFEN sampleKeys "4k3/8/8/8/4Pp2/8/8/4K3 b - e3 0 1").state.sideToMove)
      = false ∧
    EpSquareOK (boardOfFEN sampleKeys "4k3/8/8/8/4Pp2/8/8/4K3 b - e3 0 1").state ∧
    Move.new 29 20 FLAG_EP 0 ∈
      generateMoves (boardOfFEN sampleKeys "4k3/8/8/8/4Pp2/8/8/4K3 b - e3 0 1") ∧
    (makeMove sampleKeys (boardOfFEN sampleKeys "4k3/8/8/8/4Pp2/8/8/4K3 b - e3 0 1")
      (Move.new 29 20 FLAG_EP 0)).2 = true ∧
    OneKingEach (makeMove sampleKeys
      (boardOfFEN sampleKeys "4k3/8/8/8/4Pp2/8/8/4K3 b - e3 0 1")
      (Move.new 29 20 FLAG_EP 0)).1.state :=
  have h1 : OneKingEach (boardOfFEN sampleKeys "4k3/8/8/8/4Pp2/8/8/4K3 b - e3 0 1").state :=
    ⟨by decide!, by decide!⟩
  have h2 : isInCheck (boardOfFEN sampleKeys "4k3/8/8/8/4Pp2/8/8/4K3 b - e3 0 1").state
      (opposite (boardOfFEN sampleKeys "4k3/8/8/8/4Pp2/8/8/4K3 b - e3 0 1").state.sideToMove)
      = false := by decide!
  have h3 : EpSquareOK (boardOfFEN sampleKeys "4k3/8/8/8/4Pp2/8/8/4K3 b - e3 0 1").state :=
    fun _ => ⟨by decide!, by decide!⟩
  have h4 : Move.new 29 20 FLAG_EP 0 ∈
      generateMoves (boardOfFEN sampleKeys "4k3/8/8/8/4Pp2/8/8/4K3 b - e3 0 1") := by decide!
  have h5 : (makeMove sampleKeys (boardOfFEN sampleKeys "4k3/8/8/8/4Pp2/8/8/4K3 b - e3 0 1")
      (Move.new 29 20 FLAG_EP 0)).2 = true := by decide!
  ⟨h1, h2, h3, h4, h5, (makeMove_keeps_kings sampleKeys _ _ h1 h2 h3 h4 h5).1⟩

/-! ## FEN round trip -/

/-! ## FEN round trip -/

theorem digitChar_facts (d : Nat) (h : d < 10) :
    (Char.ofNat (48 + d)).isDigit = true ∧ isspace (Char.ofNat (48 + d)) = false ∧
      (Char.ofNat (48 + d)).toNat - 48 = d ∧ Char.ofNat (48 + d) ≠ '-' ∧
      Char.ofNat (48 + d) ≠ '+' := by
  interval_cases d <;> decide

theorem natDigits_spec (fuel : Nat) :
    ∀ (n : Nat) (acc : List Char), n < fuel →
      ∃ ds : List Char, natDigits fuel n acc = ds ++ acc ∧ ds ≠ [] ∧
        (∀ c ∈ ds, c.isDigit = true ∧ isspace c = false ∧ c ≠ '-' ∧ c ≠ '+') ∧
        ∀ a : Nat, parseDigits ds a = a * 10 ^ ds.length + n := by
  induction fuel with
  | zero => intro n acc h; omega
  | succ fuel ih =>
    intro n acc h
    unfold natDigits
    simp only []
    have hd := digitChar_facts (n % 10) (Nat.mod_lt _ (by decide))
    by_cases h0 : n / 10 = 0
    · rw [if_pos h0]
      refine ⟨[Char.ofNat (48 + n % 10)], rfl, by simp, ?_, ?_⟩
      · intro c hc
        simp only [List.mem_singleton] at hc
        subst hc
        exact ⟨hd.1, hd.2.1, hd.2.2.2.1, hd.2.2.2.2⟩
      · intro a
        simp only [parseDigits, List.foldl_cons, List.foldl_nil, List.length_singleton, hd.2.2.1]
        omega
    · rw [if_neg h0]
      obtain ⟨ds, e1, e2, e3, e4⟩ := ih (n / 10) (Char.ofNat (48 + n % 10) :: acc) (by omega)
      refine ⟨ds ++ [Char.ofNat (48 + n % 10)], by rw [e1]; simp, by simp, ?_, ?_⟩
      · intro c hc
        rcases List.mem_append.mp hc with hc | hc
        · exact e3 c hc
        · simp only [List.mem_singleton] at hc
          subst hc
          exact ⟨hd.1, hd.2.1, hd.2.2.2.1, hd.2.2.2.2⟩
      · intro a
        have := e4 a
        simp only [parseDigits, List.foldl_append, List.foldl_cons, List.foldl_nil,
          List.length_append, List.length_singleton, hd.2.2.1] at this ⊢
        rw [this, pow_succ]
        have := Nat.div_add_mod n 10
        nlinarith

/-- `std::stoi(std::to_string(v))` is `v` for a non-negative 32-bit `int`; the text is
not empty and has no whitespace. -/
theorem stoi_to_string (v : Int) (h0 : 0 ≤ v) (h1 : v ≤ 2147483647) :
    stoi (to_string v) = some v ∧ to_string v ≠ [] ∧
      ∀ c ∈ to_string v, isspace c = false := by
  obtain ⟨ds, e1, e2, e3, e4⟩ := natDigits_spec (v.natAbs + 1) v.natAbs [] (by omega)
  have hts : to_string v = ds := by
    unfold to_string
    rw [if_neg (by omega), e1, List.append_nil]
  rw [hts]
  refine ⟨?_, e2, fun c hc => (e3 c hc).2.1⟩
  obtain ⟨c, cs, rfl⟩ := List.exists_cons_of_ne_nil e2
  have hc := e3 c (List.mem_cons_self _ _)
  have hdw : (c :: cs).dropWhile isspace = c :: cs := by
    simp [List.dropWhile, hc.2.1]
  have htw : (c :: cs).takeWhile Char.isDigit = c :: cs := by
    rw [List.takeWhile_eq_self_iff]
    intro x hx; exact (e3 x hx).1
  unfold stoi
  simp only [hdw, List.head?_cons, Option.some.injEq, hc.2.2.1, hc.2.2.2, or_self, if_false,
    htw, decide_False, Bool.false_eq_true]
  have hp := e4 0
  unfold parseDigits at hp
  rw [hp]
  simp only [zero_mul, zero_add]
  rw [if_neg (by simp), if_pos (by omega)]
  congr 1
  omega

/-! ## FEN round trip: the placement field -/

theorem pieceChar_facts (pc : Nat) (h1 : 1 ≤ pc) (h2 : pc ≤ 12) :
    pieceToChar pc ≠ '/' ∧ ¬ (pieceToChar pc ≥ '1' ∧ pieceToChar pc ≤ '8') ∧
      charToPiece (pieceToChar pc) = pc ∧ isspace (pieceToChar pc) = false := by
  interval_cases pc <;> decide

theorem emptyChar_facts (e : Nat) (h1 : 1 ≤ e) (h2 : e ≤ 8) :
    Char.ofNat (48 + e) ≠ '/' ∧ (Char.ofNat (48 + e) ≥ '1' ∧ Char.ofNat (48 + e) ≤ '8') ∧
      ((Char.ofNat (48 + e)).toNat : Int) - 48 = e ∧ isspace (Char.ofNat (48 + e)) = false := by
  interval_cases e <;> decide

theorem placeChar_piece (acc : (Fin 64 → Nat) × Int) (pc : Nat) (h1 : 1 ≤ pc) (h2 : pc ≤ 12) :
    placeChar acc (pieceToChar pc) = (setSq acc.1 acc.2 pc, acc.2 + 1) := by
  obtain ⟨a, b, c, _⟩ := pieceChar_facts pc h1 h2
  unfold placeChar
  rw [if_neg a, if_neg b, c]

theorem placeChar_empty (acc : (Fin 64 → Nat) × Int) (e : Nat) (h1 : 1 ≤ e) (h2 : e ≤ 8) :
    placeChar acc (Char.ofNat (48 + e)) = (acc.1, acc.2 + e) := by
  obtain ⟨a, b, c, _⟩ := emptyChar_facts e h1 h2
  unfold placeChar
  rw [if_neg a, if_pos b, c]

theorem placeChar_slash (acc : (Fin 64 → Nat) × Int) :
    placeChar acc '/' = (acc.1, acc.2 - 16) := by
  unfold placeChar
  rw [if_pos rfl]

theorem rankBoard_step_empty (Q : Fin 64 → Nat) (r f : Int)
    (hq : sqAt Q (r * 8 + f) = 0) :
    rankBoard Q r (f + 1) = rankBoard Q r f := by
  funext j
  unfold rankBoard
  by_cases hj : (j.val : Int) = 8 * r + f
  · have hz : Q j = 0 := by
      unfold sqAt at hq
      rw [dif_pos (by omega)] at hq
      have : (⟨(r * 8 + f).toNat, by omega⟩ : Fin 64) = j := by
        apply Fin.ext; simp only []; omega
      rw [this] at hq; exact hq
    rw [hz]; simp
  · have : ((8 * r ≤ (j.val : Int) ∧ (j.val : Int) < 8 * r + (f + 1)) ∨ 8 * (r + 1) ≤ (j.val : Int)) ↔
        ((8 * r ≤ (j.val : Int) ∧ (j.val : Int) < 8 * r + f) ∨ 8 * (r + 1) ≤ (j.val : Int)) := by
      omega
    simp only [this]

theorem rankBoard_step_piece (Q : Fin 64 → Nat) (r f : Int)
    (hf0 : 0 ≤ f) (hf1 : f ≤ 7) :
    setSq (rankBoard Q r f) (8 * r + f) (sqAt Q (r * 8 + f)) = rankBoard Q r (f + 1) := by
  funext j
  unfold setSq rankBoard
  by_cases hj : (j.val : Int) = 8 * r + f
  · rw [if_pos hj, if_pos (by omega)]
    unfold sqAt
    rw [dif_pos (by omega)]
    congr 1
    apply Fin.ext; simp only []; omega
  · rw [if_neg hj]
    have : ((8 * r ≤ (j.val : Int) ∧ (j.val : Int) < 8 * r + (f + 1)) ∨ 8 * (r + 1) ≤ (j.val : Int)) ↔
        ((8 * r ≤ (j.val : Int) ∧ (j.val : Int) < 8 * r + f) ∨ 8 * (r + 1) ≤ (j.val : Int)) := by
      omega
    simp only [this]

theorem fileInv_step (st : BoardState) (r f : Int) (acc : List Char × Nat)
    (hq : ∀ j, st.squares j ≤ 12) (hf0 : 0 ≤ f) (hf1 : f ≤ 7)
    (h : FileInv st.squares r f acc) :
    FileInv st.squares r (f + 1) (fenFileStep st r acc f) := by
  obtain ⟨i1, i2, i3, i4⟩ := h
  unfold fenFileStep
  simp only [pieceAt_eq]
  by_cases hz : sqAt st.squares (r * 8 + f) = 0
  · rw [if_pos hz]
    refine ⟨by push_cast; omega, ?_, i3, fun h => by push_cast; rw [i4 h]⟩
    simp only []
    rw [i2, rankBoard_step_empty _ r f hz]
    congr 1
    push_cast; omega
  · rw [if_neg hz]
    have hpc : 1 ≤ sqAt st.squares (r * 8 + f) ∧ sqAt st.squares (r * 8 + f) ≤ 12 := by
      refine ⟨by omega, ?_⟩
      unfold sqAt
      split
      · exact hq _
      · omega
    refine ⟨by simp; omega, ?_, ?_, ?_⟩
    · simp only []
      by_cases he : acc.2 ≠ 0
      · rw [if_pos he, List.foldl_append, List.foldl_append, i2]
        simp only [List.foldl_cons, List.foldl_nil]
        rw [placeChar_empty _ _ (by omega) (by omega), placeChar_piece _ _ hpc.1 hpc.2]
        simp only []
        rw [show 8 * r + f - (acc.2 : Int) + (acc.2 : Int) = 8 * r + f by omega,
          rankBoard_step_piece _ r f hf0 hf1]
        congr 1
        push_cast; omega
      · rw [if_neg he, List.foldl_append, i2]
        simp only [List.foldl_cons, List.foldl_nil]
        rw [placeChar_piece _ _ hpc.1 hpc.2]
        simp only []
        have : (acc.2 : Int) = 0 := by
          have := not_not.mp he
          omega
        rw [this, show 8 * r + f - (0 : Int) = 8 * r + f by omega,
          rankBoard_step_piece _ r f hf0 hf1]
        congr 1
        push_cast; omega
    · intro c hc
      simp only [List.mem_append, List.mem_singleton] at hc
      rcases hc with hc | rfl
      · split_ifs at hc with he
        · simp only [List.mem_append, List.mem_singleton] at hc
          rcases hc with hc | rfl
          · exact i3 c hc
          · exact (emptyChar_facts _ (by omega) (by omega)).2.2.2
        · exact i3 c hc
      · exact (pieceChar_facts _ hpc.1 hpc.2).2.2.2
    · intro h
      simp at h


/-- The text `toFEN` emits for rank `r` is read back by the placement parser as that
rank; it is not empty and has no whitespace. -/
theorem fenRank_parse (st : BoardState) (r : Int) (hq : ∀ j, st.squares j ≤ 12)
    (h0 : 0 ≤ r) :
    (fenRank st r).foldl placeChar (rankBoard st.squares r 0, 8 * r) =
        (rankBoard st.squares r 8, if r > 0 then 8 * (r - 1) else 8) ∧
      (∀ c ∈ fenRank st r, isspace c = false) ∧ fenRank st r ≠ [] := by
  have i0 : FileInv st.squares r 0 ([], 0) :=
    ⟨by simp, by simp, by simp, by simp⟩
  have i1 := fileInv_step st r 0 _ hq (by omega) (by omega) i0
  have i2 := fileInv_step st r 1 _ hq (by omega) (by omega) i1
  have i3 := fileInv_step st r 2 _ hq (by omega) (by omega) i2
  have i4 := fileInv_step st r 3 _ hq (by omega) (by omega) i3
  have i5 := fileInv_step st r 4 _ hq (by omega) (by omega) i4
  have i6 := fileInv_step st r 5 _ hq (by omega) (by omega) i5
  have i7 := fileInv_step st r 6 _ hq (by omega) (by omega) i6
  have i8 := fileInv_step st r 7 _ hq (by omega) (by omega) i7
  simp only [zero_add, show (1 : Int) + 1 = 2 by rfl, show (2 : Int) + 1 = 3 by rfl,
    show (3 : Int) + 1 = 4 by rfl, show (4 : Int) + 1 = 5 by rfl,
    show (5 : Int) + 1 = 6 by rfl, show (6 : Int) + 1 = 7 by rfl,
    show (7 : Int) + 1 = 8 by rfl] at i8
  unfold fenRank
  simp only [List.foldl_cons, List.foldl_nil]
  generalize fenFileStep st r (fenFileStep st r (fenFileStep st r (fenFileStep st r
    (fenFileStep st r (fenFileStep st r (fenFileStep st r (fenFileStep st r ([], 0) 0) 1) 2)
      3) 4) 5) 6) 7 = acc at i8 ⊢
  obtain ⟨j1, j2, j3, j4⟩ := i8
  have hflush : (if acc.2 ≠ 0 then acc.1 ++ [Char.ofNat (48 + acc.2)] else acc.1).foldl placeChar
        (rankBoard st.squares r 0, 8 * r) = (rankBoard st.squares r 8, 8 * r + 8) ∧
      (∀ c ∈ (if acc.2 ≠ 0 then acc.1 ++ [Char.ofNat (48 + acc.2)] else acc.1),
        isspace c = false) ∧
      (if acc.2 ≠ 0 then acc.1 ++ [Char.ofNat (48 + acc.2)] else acc.1) ≠ [] := by
    by_cases he : acc.2 ≠ 0
    · rw [if_pos he]
      refine ⟨?_, ?_, by simp⟩
      · rw [List.foldl_append, j2]
        simp only [List.foldl_cons, List.foldl_nil]
        rw [placeChar_empty _ _ (by omega) (by omega)]
        simp only []
        congr 1
        omega
      · intro c hc
        simp only [List.mem_append, List.mem_singleton] at hc
        rcases hc with hc | rfl
        · exact j3 c hc
        · exact (emptyChar_facts _ (by omega) (by omega)).2.2.2
    · rw [if_neg he]
      have hz : acc.2 = 0 := not_not.mp he
      refine ⟨?_, j3, ?_⟩
      · rw [j2, hz]; simp
      · intro h
        have := j4 h
        rw [hz] at this
        simp at this
  obtain ⟨f1, f2, f3⟩ := hflush
  by_cases hr : r > 0
  · simp only [if_pos hr]
    refine ⟨?_, ?_, by simp⟩
    · rw [List.foldl_append, f1]
      simp only [List.foldl_cons, List.foldl_nil]
      rw [placeChar_slash]
      simp only []
      congr 1
      omega
    · intro c hc
      simp only [List.mem_append, List.mem_singleton] at hc
      rcases hc with hc | rfl
      · exact f2 c hc
      · decide
  · simp only [if_neg hr]
    refine ⟨?_, f2, f3⟩
    rw [f1]
    congr 1
    omega

theorem rankBoard_next (Q : Fin 64 → Nat) (r : Int) :
    rankBoard Q r 8 = rankBoard Q (r - 1) 0 := by
  funext j
  unfold rankBoard
  have : ((8 * r ≤ (j.val : Int) ∧ (j.val : Int) < 8 * r + 8) ∨ 8 * (r + 1) ≤ (j.val : Int)) ↔
      ((8 * (r - 1) ≤ (j.val : Int) ∧ (j.val : Int) < 8 * (r - 1) + 0) ∨
        8 * (r - 1 + 1) ≤ (j.val : Int)) := by omega
  simp only [this]

theorem rankBoard_top (Q : Fin 64 → Nat) : rankBoard Q 7 0 = fun _ => 0 := by
  funext j
  unfold rankBoard
  rw [if_neg]
  have := j.isLt
  omega

theorem rankBoard_bottom (Q : Fin 64 → Nat) : rankBoard Q 0 8 = Q := by
  funext j
  unfold rankBoard
  rw [if_pos]
  omega

/-- The placement field of `toFEN` is read back as the squares of the position. -/
theorem placement_parse (st : BoardState) (hq : ∀ j, st.squares j ≤ 12) :
    (([7, 6, 5, 4, 3, 2, 1, 0] : List Int).flatMap (fenRank st)).foldl placeChar
        (BoardState.init.squares, 56) = (st.squares, 8) ∧
      (∀ c ∈ ([7, 6, 5, 4, 3, 2, 1, 0] : List Int).flatMap (fenRank st), isspace c = false) ∧
      ([7, 6, 5, 4, 3, 2, 1, 0] : List Int).flatMap (fenRank st) ≠ [] := by
  have r7 := fenRank_parse st 7 hq (by omega)
  have r6 := fenRank_parse st 6 hq (by omega)
  have r5 := fenRank_parse st 5 hq (by omega)
  have r4 := fenRank_parse st 4 hq (by omega)
  have r3 := fenRank_parse st 3 hq (by omega)
  have r2 := fenRank_parse st 2 hq (by omega)
  have r1 := fenRank_parse st 1 hq (by omega)
  have r0 := fenRank_parse st 0 hq (by omega)
  have e7 := rankBoard_next st.squares 7
  have e6 := rankBoard_next st.squares 6
  have e5 := rankBoard_next st.squares 5
  have e4 := rankBoard_next st.squares 4
  have e3 := rankBoard_next st.squares 3
  have e2 := rankBoard_next st.squares 2
  have e1 := rankBoard_next st.squares 1
  norm_num at r7 r6 r5 r4 r3 r2 r1 r0 e7 e6 e5 e4 e3 e2 e1
  refine ⟨?_, ?_, ?_⟩
  · simp only [List.flatMap_cons, List.flatMap_nil, List.append_nil, List.foldl_append]
    have hs : BoardState.init.squares = rankBoard st.squares 7 0 := by
      rw [rankBoard_top]; rfl
    rw [hs, r7.1, e7, r6.1, e6, r5.1, e5, r4.1, e4, r3.1, e3, r2.1, e2, r1.1, e1, r0.1,
      rankBoard_bottom]
  · intro c hc
    simp only [List.flatMap_cons, List.flatMap_nil, List.append_nil, List.mem_append] at hc
    rcases hc with h | h | h | h | h | h | h | h
    · exact r7.2.1 c h
    · exact r6.2.1 c h
    · exact r5.2.1 c h
    · exact r4.2.1 c h
    · exact r3.2.1 c h
    · exact r2.2.1 c h
    · exact r1.2.1 c h
    · exact r0.2.1 c h
  · simp only [List.flatMap_cons, List.flatMap_nil, List.append_nil]
    intro h
    have := List.append_eq_nil.mp h
    exact r7.2.2 this.1

/-! ## FEN round trip: the fields -/

theorem takeDrop_token (p : Char → Bool) (tok rest : List Char) (x : Char)
    (h : ∀ c ∈ tok, p c = true) (hx : p x = false) :
    (tok ++ x :: rest).takeWhile p = tok ∧ (tok ++ x :: rest).dropWhile p = x :: rest := by
  induction tok with
  | nil => simp [List.takeWhile, List.dropWhile, hx]
  | cons c tok ih =>
    have hc := h c (List.mem_cons_self _ _)
    have := ih (fun d hd => h d (List.mem_cons_of_mem _ hd))
    simp [List.takeWhile, List.dropWhile, hc, this]

theorem readToken_token (tok rest : List Char) (hne : tok ≠ [])
    (hns : ∀ c ∈ tok, isspace c = false) :
    readToken (tok ++ ' ' :: rest) = (tok, ' ' :: rest) := by
  obtain ⟨c, cs, rfl⟩ := List.exists_cons_of_ne_nil hne
  have hc := hns c (List.mem_cons_self _ _)
  unfold readToken
  have hd : (c :: cs ++ ' ' :: rest).dropWhile isspace = c :: cs ++ ' ' :: rest := by
    simp [List.dropWhile, hc]
  simp only [hd]
  have := takeDrop_token (fun c => !isspace c) (c :: cs) rest ' '
    (fun d hd => by simp [hns d hd]) (by decide)
  rw [this.1, this.2]

theorem readToken_space (xs : List Char) : readToken (' ' :: xs) = readToken xs := by
  unfold readToken
  have : (' ' :: xs).dropWhile isspace = xs.dropWhile isspace := by
    rw [List.dropWhile_cons_of_pos (by decide)]
  rw [this]

theorem readToken_last (tok : List Char) (hne : tok ≠ [])
    (hns : ∀ c ∈ tok, isspace c = false) :
    (readToken tok).1 = tok := by
  obtain ⟨c, cs, rfl⟩ := List.exists_cons_of_ne_nil hne
  have hc := hns c (List.mem_cons_self _ _)
  unfold readToken
  have hd : (c :: cs).dropWhile isspace = c :: cs := by
    simp [List.dropWhile, hc]
  simp only [hd]
  rw [List.takeWhile_eq_self_iff]
  intro d hd
  simp [hns d hd]

theorem fenCastling_parse (cr : Nat) (h : cr ≤ 15) :
    (fenCastling cr).foldl castleChar 0 = cr ∧ fenCastling cr ≠ [] ∧
      ∀ c ∈ fenCastling cr, isspace c = false := by
  interval_cases cr <;> decide

theorem fenEp_parse (ep : Int) (h0 : 0 ≤ ep) (h1 : ep < 64) :
    fenEp ep ≠ ['-'] ∧ fenEp ep ≠ [] ∧ (∀ c ∈ fenEp ep, isspace c = false) ∧
      ((((fenEp ep).getD 1 (Char.ofNat 0)).toNat : Int) - 49) * 8 +
        ((((fenEp ep).getD 0 (Char.ofNat 0)).toNat : Int) - 97) = ep := by
  obtain ⟨n, rfl⟩ : ∃ n : Nat, ep = (n : Int) := ⟨ep.toNat, by omega⟩
  have hn : n < 64 := by omega
  interval_cases n <;> decide

theorem toFENChars_eq (st : BoardState) :
    toFENChars st =
      ([7, 6, 5, 4, 3, 2, 1, 0] : List Int).flatMap (fenRank st) ++ ' ' ::
        ([if st.sideToMove = WHITE then 'w' else 'b'] ++ ' ' ::
          (fenCastling st.castling ++ ' ' ::
            (fenEp st.epSquare ++ ' ' ::
              (to_string st.halfmove ++ ' ' :: to_string st.fullmove)))) := by
  unfold toFENChars fenCastling fenEp
  cases st.sideToMove <;> by_cases he : st.epSquare = NO_SQ <;>
    simp [he, List.append_assoc]

theorem readFields_toFENChars (st : BoardState) (h : FenWellFormed st) :
    readFields (toFENChars st) =
      { board := ([7, 6, 5, 4, 3, 2, 1, 0] : List Int).flatMap (fenRank st),
        side := [if st.sideToMove = WHITE then 'w' else 'b'],
        castle := fenCastling st.castling,
        ep := fenEp st.epSquare,
        hm := to_string st.halfmove,
        fm := to_string st.fullmove } := by
  obtain ⟨hq, hcr, hep, hhm, hfm⟩ := h
  obtain ⟨_, p2, p3⟩ := placement_parse st hq
  obtain ⟨_, c2, c3⟩ := fenCastling_parse st.castling hcr
  obtain ⟨_, s2, s3⟩ := stoi_to_string st.halfmove hhm.1 hhm.2
  obtain ⟨_, f2, f3⟩ := stoi_to_string st.fullmove hfm.1 hfm.2
  have hside : ∀ c ∈ [if st.sideToMove = WHITE then 'w' else 'b'], isspace c = false := by
    intro c hc
    simp only [List.mem_singleton] at hc
    subst hc
    cases st.sideToMove <;> decide
  have hepf : fenEp st.epSquare ≠ [] ∧ (∀ c ∈ fenEp st.epSquare, isspace c = false) := by
    rcases hep with he | ⟨h0, h1⟩
    · rw [he]; decide
    · exact ⟨(fenEp_parse _ h0 h1).2.1, (fenEp_parse _ h0 h1).2.2.1⟩
  rw [toFENChars_eq]
  have h1 := readToken_token _ (([if st.sideToMove = WHITE then 'w' else 'b'] ++ ' ' ::
          (fenCastling st.castling ++ ' ' ::
            (fenEp st.epSquare ++ ' ' ::
              (to_string st.halfmove ++ ' ' :: to_string st.fullmove))))) p3 p2
  have h2 := readToken_token _ ((fenCastling st.castling ++ ' ' ::
            (fenEp st.epSquare ++ ' ' ::
              (to_string st.halfmove ++ ' ' :: to_string st.fullmove)))) (by simp) hside
  have h3 := readToken_token _ ((fenEp st.epSquare ++ ' ' ::
              (to_string st.halfmove ++ ' ' :: to_string st.fullmove))) c2 c3
  have h4 := readToken_token _ (to_string st.halfmove ++ ' ' :: to_string st.fullmove)
    hepf.1 hepf.2
  have h5 := readToken_token _ (to_string st.fullmove) s2 s3
  have h6 := readToken_last _ f2 f3
  unfold readFields
  simp only [h1, readToken_space, h2, h3, h4, h5, h6]

theorem loadFENChars_toFENChars (Z : ZobristKeys) (st : BoardState) (h : FenWellFormed st) :
    loadFENChars Z (toFENChars st) =
      some { state := recomputeZobrist Z
               { BoardState.init with
                   squares := st.squares, sideToMove := st.sideToMove,
                   castling := st.castling, epSquare := st.epSquare,
                   halfmove := st.halfmove, fullmove := st.fullmove },
             history := [], stateHistory := [] } := by
  unfold loadFENChars
  rw [readFields_toFENChars st h]
  obtain ⟨hq, hcr, hep, hhm, hfm⟩ := h
  obtain ⟨p1, _, _⟩ := placement_parse st hq
  obtain ⟨c1, _, _⟩ := fenCastling_parse st.castling hcr
  obtain ⟨s1, s2, _⟩ := stoi_to_string st.halfmove hhm.1 hhm.2
  obtain ⟨f1, f2, _⟩ := stoi_to_string st.fullmove hfm.1 hfm.2
  have hsd : (if [if st.sideToMove = WHITE then 'w' else 'b'] = ['w'] then WHITE else BLACK) =
      st.sideToMove := by
    cases st.sideToMove <;> decide
  unfold loadFields
  simp only [if_neg s2, if_neg f2, s1, f1, p1, c1, hsd]
  rcases hep with he | ⟨h0, h1⟩
  · have hf : fenEp st.epSquare = ['-'] := by rw [he]; rfl
    rw [hf, if_neg (by simp), he]
    rfl
  · obtain ⟨e1, _, _, e4⟩ := fenEp_parse _ h0 h1
    rw [if_pos e1]
    simp only [e4]


/-- C7: for every position whose squares hold piece codes 0..12, whose castling mask is
in 0..15, whose ep square is unset or in 0..63 and whose halfmove and fullmove are
non-negative (32-bit) ints, `loadFEN(toFEN(P))` succeeds and yields a position with the
same squares, side to move, castling mask, ep square, halfmove and fullmove, with empty
histories and with the zobrist key recomputed for that state. -/
theorem loadFEN_toFEN_roundtrip (Z : ZobristKeys) (b : Board) (h : FenWellFormed b.state) :
    ∃ b' : Board, loadFEN Z (toFEN b) = some b' ∧
      b'.state.squares = b.state.squares ∧ b'.state.sideToMove = b.state.sideToMove ∧
      b'.state.castling = b.state.castling ∧ b'.state.epSquare = b.state.epSquare ∧
      b'.state.halfmove = b.state.halfmove ∧ b'.state.fullmove = b.state.fullmove ∧
      b'.history = [] ∧ b'.stateHistory = [] ∧
      b'.state.zobrist = (recomputeZobrist Z b'.state).zobrist ∧
      b'.state.zobrist = hashOf Z b'.state := by
  have hl : loadFEN Z (toFEN b) = loadFENChars Z (toFENChars b.state) := rfl
  rw [hl, loadFENChars_toFENChars Z b.state h]
  refine ⟨_, rfl, ?_, ?_, ?_, ?_, ?_, ?_, rfl, rfl, ?_, ?_⟩ <;>
    simp only [recomputeZobrist_eq] <;> rfl

set_option maxRecDepth 100000 in
theorem loadFEN_toFEN_roundtrip_witness :
    FenWellFormed (boardOfFEN sampleKeys "4k3/8/8/8/4Pp2/8/8/R3K3 b Q e3 5 9").state ∧
    ∃ b' : Board,
      loadFEN sampleKeys (toFEN (boardOfFEN sampleKeys "4k3/8/8/8/4Pp2/8/8/R3K3 b Q e3 5 9"))
        = some b' ∧
      b'.state.squares =
        (boardOfFEN sampleKeys "4k3/8/8/8/4Pp2/8/8/R3K3 b Q e3 5 9").state.squares ∧
      b'.state.epSquare = 20 ∧ b'.state.castling = 2 ∧ b'.state.halfmove = 5 ∧
      b'.state.fullmove = 9 :=
  have h : FenWellFormed (boardOfFEN sampleKeys "4k3/8/8/8/4Pp2/8/8/R3K3 b Q e3 5 9").state :=
    ⟨by decide!, by decide!, Or.inr ⟨by decide!, by decide!⟩, ⟨by decide!, by decide!⟩,
      ⟨by decide!, by decide!⟩⟩
  have hr := loadFEN_toFEN_roundtrip sampleKeys _ h
  ⟨h, hr.choose, hr.choose_spec.1, hr.choose_spec.2.1,
    hr.choose_spec.2.2.2.2.1.trans (by decide!),
    hr.choose_spec.2.2.2.1.trans (by decide!),
    hr.choose_spec.2.2.2.2.2.1.trans (by decide!),
    hr.choose_spec.2.2.2.2.2.2.1.trans (by decide!)⟩

/-! ## `loadFEN` does not validate -/

/-- C8 as stated fails: `loadFEN` produces a position from a FEN whose side field is `x`
(Black to move results), from one whose placement holds `?` (an empty square results)
and from one whose last rank covers five files only. -/
theorem loadFEN_accepts_malformed :
    (loadFEN sampleKeys "4k3/8/8/8/8/8/8/4K3 x - - 0 1").isSome = true ∧
    (boardOfFEN sampleKeys "4k3/8/8/8/8/8/8/4K3 x - - 0 1").state.sideToMove = BLACK ∧
    (loadFEN sampleKeys "4k3/8/8/8/8/8/8/?3K3 w - - 0 1").isSome = true ∧
    (boardOfFEN sampleKeys "4k3/8/8/8/8/8/8/?3K3 w - - 0 1").state.pieceAt 0 = 0 ∧
    (boardOfFEN sampleKeys "4k3/8/8/8/8/8/8/?3K3 w - - 0 1").state.pieceAt 4 = 6 ∧
    (loadFEN sampleKeys "4k3/8/8/8/8/8/8/4K w - - 0 1").isSome = true := by
  set_option maxRecDepth 100000 in decide!

theorem loadFields_isSome (Z : ZobristKeys) (t : FenFields) :
    (loadFields Z t).isSome = true ↔
      (t.hm = [] ∨ (stoi t.hm).isSome = true) ∧ (t.fm = [] ∨ (stoi t.fm).isSome = true) := by
  unfold loadFields
  simp only []
  by_cases h1 : t.hm = [] <;> by_cases h2 : t.fm = [] <;>
    cases hs1 : stoi t.hm <;> cases hs2 : stoi t.fm <;> simp [h1, h2]

theorem loadFields_state (Z : ZobristKeys) (t : FenFields) (b : Board)
    (h : loadFields Z t = some b) :
    b.state.squares = (t.board.foldl placeChar (BoardState.init.squares, 56)).1 ∧
      b.state.sideToMove = (if t.side = ['w'] then WHITE else BLACK) ∧
      b.state.castling = t.castle.foldl castleChar 0 ∧
      b.history = [] ∧ b.stateHistory = [] := by
  unfold loadFields at h
  simp only [] at h
  split at h
  · simp only [Option.some.injEq] at h
    subst h
    by_cases he : t.ep ≠ ['-']
    · rw [if_pos he, recomputeZobrist_eq]
      exact ⟨rfl, rfl, rfl, rfl, rfl⟩
    · rw [if_neg he, recomputeZobrist_eq]
      exact ⟨rfl, rfl, rfl, rfl, rfl⟩
  · cases h

/-- C8, amended: `loadFEN` validates nothing and has no failure result of its own. It
produces a position exactly when each clock field is missing or accepted by `std::stoi`
(which otherwise throws); then the squares are what the placement loop wrote, whatever
the placement characters are, and the side to move is White for the side field `w` and
Black for every other side field. In the placement loop a character that is not `/`, not
a digit `1..8` and not a piece letter writes an empty square and advances one file, and
a rank may cover any number of files. -/
theorem loadFEN_never_rejects (Z : ZobristKeys) (fen : String) :
    ((loadFEN Z fen).isSome = true ↔
      ((readFields fen.toList).hm = [] ∨ (stoi (readFields fen.toList).hm).isSome = true) ∧
      ((readFields fen.toList).fm = [] ∨ (stoi (readFields fen.toList).fm).isSome = true)) ∧
    (∀ b : Board, loadFEN Z fen = some b →
      b.state.squares =
        ((readFields fen.toList).board.foldl placeChar (BoardState.init.squares, 56)).1 ∧
      b.state.sideToMove = (if (readFields fen.toList).side = ['w'] then WHITE else BLACK)) ∧
    (∀ (acc : (Fin 64 → Nat) × Int) (c : Char), c ≠ '/' → ¬ (c ≥ '1' ∧ c ≤ '8') →
      charToPiece c = 0 → placeChar acc c = (setSq acc.1 acc.2 0, acc.2 + 1)) := by
  refine ⟨loadFields_isSome Z _, ?_, ?_⟩
  · intro b hb
    have := loadFields_state Z _ b hb
    exact ⟨this.1, this.2.1⟩
  · intro acc c h1 h2 h3
    unfold placeChar
    rw [if_neg h1, if_neg h2, h3]

set_option maxRecDepth 100000 in
theorem loadFEN_never_rejects_witness :
    (loadFEN sampleKeys "4k3/8/8/8/8/8/8/?3K3 x - - 0 1").isSome = true ∧
    (boardOfFEN sampleKeys "4k3/8/8/8/8/8/8/?3K3 x - - 0 1").state.sideToMove = BLACK ∧
    placeChar (BoardState.init.squares, 0) '?' = (setSq BoardState.init.squares 0 0, 0 + 1) :=
  have h1 : (loadFEN sampleKeys "4k3/8/8/8/8/8/8/?3K3 x - - 0 1").isSome = true :=
    (loadFEN_never_rejects sampleKeys "4k3/8/8/8/8/8/8/?3K3 x - - 0 1").1.mpr
      ⟨Or.inr (by decide!), Or.inr (by decide!)⟩
  ⟨h1,
    ((loadFEN_never_rejects sampleKeys "4k3/8/8/8/8/8/8/?3K3 x - - 0 1").2.1 _
      (loadFEN_eq_boardOfFEN _ _ h1)).2.trans (by decide!),
    (loadFEN_never_rejects sampleKeys "4k3/8/8/8/8/8/8/?3K3 x - - 0 1").2.2 _ '?'
      (by decide) (by decide) (by decide)⟩

/-! ## The packed board: reads and writes -/

theorem bsel_eq {α : Type} (b : Bool) (x y : α) : bsel b x y = if b = true then x else y := by
  cases b <;> rfl

theorem band_eq (a b : Bool) : band a b = (a && b) := by cases a <;> rfl

theorem bor_eq (a b : Bool) : bor a b = (a || b) := by cases a <;> rfl

theorem bnot_eq (a : Bool) : bnot a = !a := by cases a <;> rfl

theorem nbeq_eq (a b : Nat) : Nat.beq a b = decide (a = b) := by
  rw [Bool.eq_iff_iff, Nat.beq_eq, decide_eq_true_iff]

theorem nble_eq (a b : Nat) : Nat.ble a b = decide (a ≤ b) := by
  rw [Bool.eq_iff_iff, Nat.ble_eq, decide_eq_true_iff]

theorem lt64_eq (t : Nat) : lt64 t = decide (t < 64) := by
  unfold lt64
  rw [nble_eq]
  by_cases h : t < 64
  · simp [h]; omega
  · simp [h]; omega

theorem fget_eq (q s : Nat) : fget q s = q / 16 ^ s % 16 := by
  unfold fget
  show (q >>> (4 * s)) &&& 15 = _
  rw [Nat.shiftRight_eq_div_pow, show (15 : Nat) = 2 ^ 4 - 1 from rfl,
    Nat.and_pow_two_sub_one_eq_mod, pow_mul]
  rfl

theorem fget_lt (q s : Nat) : fget q s < 16 := by
  rw [fget_eq]
  exact Nat.mod_lt _ (by decide)

theorem fget_testBit (q s i : Nat) :
    (fget q s).testBit i = (decide (i < 4) && q.testBit (4 * s + i)) := by
  unfold fget
  show ((q >>> (4 * s)) &&& 15).testBit i = _
  rw [show (15 : Nat) = 2 ^ 4 - 1 from rfl, Nat.and_pow_two_sub_one_eq_mod,
    Nat.testBit_mod_two_pow, Nat.testBit_shiftRight]

theorem testBit_lt16 {v : Nat} (hv : v < 16) {i : Nat} (hi : 4 ≤ i) : v.testBit i = false := by
  apply Nat.testBit_eq_false_of_lt
  calc v < 2 ^ 4 := hv
    _ ≤ 2 ^ i := Nat.pow_le_pow_right (by decide) hi

theorem fget_fset (q s v t : Nat) (hv : v < 16) :
    fget (fset q s v) t = if t = s then v else fget q t := by
  apply Nat.eq_of_testBit_eq
  intro i
  rw [fget_testBit]
  unfold fset
  show (decide (i < 4) && (q ^^^ ((fget q s ^^^ v) <<< (4 * s))).testBit (4 * t + i)) = _
  rw [Nat.testBit_xor, Nat.testBit_shiftLeft, Nat.testBit_xor, fget_testBit]
  by_cases hts : t = s
  · subst hts
    rw [if_pos rfl]
    by_cases hi : i < 4
    · have e : 4 * t + i - 4 * t = i := by omega
      simp [hi, e]
    · simp [hi, testBit_lt16 hv (by omega : 4 ≤ i)]
  · rw [if_neg hts, fget_testBit]
    by_cases hi : i < 4
    · by_cases hlt : t < s
      · have : ¬ (4 * t + i ≥ 4 * s) := by omega
        simp [hi, this]
      · have h4 : 4 ≤ 4 * t + i - 4 * s := by omega
        have h5 : ¬ (4 * t + i - 4 * s < 4) := by omega
        simp [hi, h5, testBit_lt16 hv h4]
    · simp [hi]

theorem fget_high (q s : Nat) (hq : q < 16 ^ 64) (hs : 64 ≤ s) : fget q s = 0 := by
  rw [fget_eq]
  have : q / 16 ^ s = 0 := by
    apply Nat.div_eq_of_lt
    calc q < 16 ^ 64 := hq
      _ ≤ 16 ^ s := Nat.pow_le_pow_right (by decide) hs
  rw [this]

theorem sqAt_high (sq : Fin 64 → Nat) (s : Int) (h : ¬ (0 ≤ s ∧ s < 64)) : sqAt sq s = 0 := by
  unfold sqAt
  rw [dif_neg h]

theorem setSq_high (sq : Fin 64 → Nat) (s : Int) (v : Nat) (h : ¬ (0 ≤ s ∧ s < 64)) :
    setSq sq s v = sq := by
  funext j
  unfold setSq
  have : ¬ ((j.val : Int) = s) := by
    intro e
    have := j.isLt
    omega
  rw [if_neg this]

/-- A packed board that agrees with the array on the 64 squares holds it. -/
theorem packs_of_check (sq : Fin 64 → Nat) (q : Nat) (hq : q < 16 ^ 64)
    (h : ∀ s : Nat, s < 64 → fget q s = sqAt sq (s : Int)) : Packs sq q := by
  intro s
  by_cases hs : s < 64
  · exact h s hs
  · rw [fget_high q s hq (by omega), sqAt_high]
    omega

theorem sqAt_setSq (sq : Fin 64 → Nat) (s t : Int) (v : Nat) (hs : 0 ≤ s ∧ s < 64) :
    sqAt (setSq sq s v) t = if t = s then v else sqAt sq t := by
  unfold sqAt setSq
  by_cases ht : 0 ≤ t ∧ t < 64
  · rw [dif_pos ht, dif_pos ht]
    by_cases e : t = s
    · rw [if_pos e, if_pos]
      simp only
      omega
    · rw [if_neg e, if_neg]
      simp only
      omega
  · rw [dif_neg ht, dif_neg ht]
    have : ¬ t = s := by omega
    rw [if_neg this]

/-- A write to a square of the board is the packed write. -/
theorem packs_setSq (sq : Fin 64 → Nat) (q s v : Nat) (h : Packs sq q) (hs : s < 64)
    (hv : v < 16) : Packs (setSq sq (s : Int) v) (fset q s v) := by
  intro t
  rw [fget_fset q s v t hv, sqAt_setSq sq s t v (by omega), h t]
  by_cases e : t = s
  · rw [if_pos e, if_pos (by omega)]
  · rw [if_neg e, if_neg (by omega)]

/-! ## The packed board: attacks -/

theorem natCast_tmod8 (n : Nat) : ((n : Int)).tmod 8 = ((n % 8 : Nat) : Int) := by
  rw [tmod8 (by omega)]
  omega

theorem natCast_tdiv8 (n : Nat) : ((n : Int)).tdiv 8 = ((n / 8 : Nat) : Int) := by
  rw [tdiv8 (by omega)]
  omega

theorem land7 (s : Nat) : Nat.land s 7 = s % 8 := by
  show s &&& 7 = _
  rw [show (7 : Nat) = 2 ^ 3 - 1 from rfl, Nat.and_pow_two_sub_one_eq_mod]

theorem shr3 (s : Nat) : Nat.shiftRight s 3 = s / 8 := by
  show s >>> 3 = _
  rw [Nat.shiftRight_eq_div_pow]

theorem adiff_eq (a b : Nat) : adiff a b = (a - b) + (b - a) := rfl

theorem fadd_eq (s : Nat) (up : Bool) (d : Nat) :
    fadd s up d = if up = true then s + d else if d ≤ s then s - d else 64 := by
  unfold fadd
  rw [bsel_eq, bsel_eq, nble_eq]
  simp only [decide_eq_true_eq]
  rfl

theorem fadd_sq (s : Nat) (up : Bool) (d : Nat) : SqRel (fadd s up d) ((s : Int) + ofs up d) := by
  rw [fadd_eq]
  unfold SqRel ofs
  cases up
  · simp only [Bool.false_eq_true, if_false]
    split_ifs <;> omega
  · simp only [if_true]
    omega

theorem piece_test (pc : Nat) (c : Color) (w : Bool) (hw : w = decide (c = WHITE)) (P : Nat)
    (hP : 1 ≤ P ∧ P ≤ 6) :
    (pc ≠ 0 ∧ pieceColor pc = c ∧ pieceType pc = P) ↔ pc = fpc w P := by
  subst hw
  unfold pieceColor pieceType fpc
  rw [bsel_eq]
  cases c
  · simp only [decide_True, if_true]
    split_ifs <;> simp <;> omega
  · simp only [reduceCtorEq, decide_False, Bool.false_eq_true, if_false]
    show _ ↔ pc = P + 6
    split_ifs <;> simp <;> omega

theorem fkingAt_eq (st : BoardState) (q s : Nat) (c : Color) (w up : Bool) (d : Nat)
    (h : Packs st.squares q) (hw : w = decide (c = WHITE)) :
    kingAttackAt st (s : Int) c (ofs up d) = fkingAt q s (fpc w 6) up d := by
  unfold kingAttackAt fkingAt
  simp only [band_eq, lt64_eq, nbeq_eq, nble_eq, land7, shr3, adiff_eq]
  rcases fadd_sq s up d with ⟨h1, h2⟩ | ⟨h1, h2⟩
  · rw [← h2]
    generalize fadd s up d = t at h1
    rw [if_neg (by omega), natCast_tmod8, natCast_tmod8, natCast_tdiv8, natCast_tdiv8,
      pieceAt_eq, ← h t]
    have e := piece_test (fget q t) c w hw 6 (by omega)
    unfold cabs
    rw [Bool.eq_iff_iff]
    simp only [KING] at e
    split_ifs <;> simp [e, h1] <;> omega
  · rw [if_pos (by omega)]
    have : ¬ (fadd s up d < 64) := by omega
    simp [this]

theorem fknightAt_eq (st : BoardState) (q s : Nat) (c : Color) (w up : Bool) (d : Nat)
    (h : Packs st.squares q) (hw : w = decide (c = WHITE)) :
    knightAttackAt st (s : Int) c (ofs up d) = fknightAt q s (fpc w 2) up d := by
  unfold knightAttackAt fknightAt
  simp only [band_eq, bor_eq, lt64_eq, nbeq_eq, land7, adiff_eq]
  rcases fadd_sq s up d with ⟨h1, h2⟩ | ⟨h1, h2⟩
  · rw [← h2]
    generalize fadd s up d = t at h1
    rw [if_neg (by omega), natCast_tmod8, natCast_tmod8, pieceAt_eq, ← h t]
    have e := piece_test (fget q t) c w hw 2 (by omega)
    unfold cabs
    rw [Bool.eq_iff_iff]
    simp only [KNIGHT] at e
    split_ifs <;> simp [e, h1] <;> omega
  · rw [if_pos (by omega)]
    have : ¬ (fadd s up d < 64) := by omega
    simp [this]

theorem fpawnAt_eq (st : BoardState) (q s : Nat) (c : Color) (t2 : Nat) (t : Int)
    (h : Packs st.squares q) (ht : SqRel t2 t) :
    pawnAttackAt st (s : Int) c t = fpawnAt q s (makePiece c PAWN) t2 := by
  unfold pawnAttackAt fpawnAt
  simp only [band_eq, lt64_eq, nbeq_eq, land7, adiff_eq]
  rcases ht with ⟨h1, h2⟩ | ⟨h1, h2⟩
  · rw [← h2, natCast_tmod8, natCast_tmod8, pieceAt_eq, ← h t2]
    unfold cabs
    rw [Bool.eq_iff_iff]
    split_ifs <;> simp [h1] <;> omega
  · rw [if_neg (by omega)]
    have : ¬ (t2 < 64) := by omega
    simp [this]

theorem slider_test (pc : Nat) (c : Color) (w : Bool) (hw : w = decide (c = WHITE)) (P : Nat)
    (hP : 1 ≤ P ∧ P ≤ 4) (h0 : pc ≠ 0) :
    (pieceColor pc = c ∧ (pieceType pc = P ∨ pieceType pc = QUEEN)) ↔
      (pc = fpc w P ∨ pc = fpc w 5) := by
  have e1 := piece_test pc c w hw P (by omega)
  have e2 := piece_test pc c w hw 5 (by omega)
  simp only [QUEEN] at e2 ⊢
  constructor
  · rintro ⟨a, b | b⟩
    · exact Or.inl (e1.1 ⟨h0, a, b⟩)
    · exact Or.inr (e2.1 ⟨h0, a, b⟩)
  · rintro (a | a)
    · exact ⟨(e1.2 a).2.1, Or.inl (e1.2 a).2.2⟩
    · exact ⟨(e2.2 a).2.1, Or.inr (e2.2 a).2.2⟩

theorem frookRay_succ (q a b : Nat) (up : Bool) (d wr fuel t : Nat) :
    frookRay q a b up d wr (fuel + 1) t =
      band (lt64 t) (band (bnot (Nat.beq (Nat.land t 7) wr))
        (bsel (Nat.beq (fget q t) 0) (frookRay q a b up d wr fuel (fadd t up d))
          (bor (Nat.beq (fget q t) a) (Nat.beq (fget q t) b)))) := rfl

theorem rook_dir (up : Bool) (d wr : Nat)
    (hd : (up = true ∧ d = 1 ∧ wr = 0) ∨ (up = false ∧ d = 1 ∧ wr = 7) ∨ (d = 8 ∧ wr = 8)) :
    (ofs up d = 1 ∧ wr = 0) ∨ (ofs up d = -1 ∧ wr = 7) ∨
      (ofs up d ≠ 1 ∧ ofs up d ≠ -1 ∧ wr = 8) := by
  rcases hd with ⟨a, b, c2⟩ | ⟨a, b, c2⟩ | ⟨b, c2⟩
  · subst a b c2; exact Or.inl ⟨rfl, rfl⟩
  · subst a b c2; exact Or.inr (Or.inl ⟨rfl, rfl⟩)
  · subst b c2; cases up <;> exact Or.inr (Or.inr ⟨by decide, by decide, rfl⟩)

theorem frookRay_eq (st : BoardState) (q : Nat) (c : Color) (w up : Bool) (d wr : Nat)
    (h : Packs st.squares q) (hw : w = decide (c = WHITE))
    (hd : (up = true ∧ d = 1 ∧ wr = 0) ∨ (up = false ∧ d = 1 ∧ wr = 7) ∨ (d = 8 ∧ wr = 8)) :
    ∀ (fuel t2 : Nat) (t : Int), SqRel t2 t →
      rookRayAttack st c (ofs up d) fuel t = frookRay q (fpc w 4) (fpc w 5) up d wr fuel t2 := by
  intro fuel
  induction fuel with
  | zero => intro t2 t _; rfl
  | succ n ih =>
    intro t2 t ht
    rw [frookRay_succ, rookRayAttack]
    simp only [band_eq, bor_eq, bnot_eq, bsel_eq, lt64_eq, nbeq_eq, land7]
    rcases ht with ⟨h1, h2⟩ | ⟨h1, h2⟩
    · rw [← h2, if_pos (by omega), natCast_tmod8, pieceAt_eq, ← h t2,
        ← ih (fadd t2 up d) _ (fadd_sq t2 up d)]
      have hdir := rook_dir up d wr hd
      generalize ofs up d = o at hdir ⊢
      generalize rookRayAttack st c o n (↑t2 + o) = X
      have hm : t2 % 8 < 8 := Nat.mod_lt _ (by decide)
      have e := slider_test (fget q t2) c w hw 4 (by omega)
      simp only [ROOK] at e
      by_cases hG : t2 % 8 = wr
      · have : (o = 1 ∧ ((t2 % 8 : Nat) : Int) = 0) ∨
            (¬ (o = 1 ∧ ((t2 % 8 : Nat) : Int) = 0) ∧ o = -1 ∧ ((t2 % 8 : Nat) : Int) = 7) := by
          omega
        rcases this with a | ⟨a, b⟩
        · rw [if_pos a]; simp [hG]
        · rw [if_neg a, if_pos b]; simp [hG]
      · rw [if_neg (by omega), if_neg (by omega)]
        by_cases h0 : fget q t2 = 0
        · rw [if_neg (by omega)]; simp [h1, hG, h0]
        · rw [if_pos h0, Bool.eq_iff_iff]
          simp [h1, hG, h0, e h0]
    · rw [if_neg (by omega)]
      have : ¬ (t2 < 64) := by omega
      simp [this]

theorem fbishopRay_succ (q a b sf sr : Nat) (up : Bool) (d fuel t : Nat) :
    fbishopRay q a b sf sr up d (fuel + 1) t =
      band (lt64 t)
        (band (Nat.beq (adiff (Nat.land t 7) sf) (adiff (Nat.shiftRight t 3) sr))
          (bsel (Nat.beq (fget q t) 0) (fbishopRay q a b sf sr up d fuel (fadd t up d))
            (bor (Nat.beq (fget q t) a) (Nat.beq (fget q t) b)))) := rfl

theorem fbishopRay_eq (st : BoardState) (q s : Nat) (c : Color) (w up : Bool) (d : Nat)
    (h : Packs st.squares q) (hw : w = decide (c = WHITE)) :
    ∀ (fuel t2 : Nat) (t : Int), SqRel t2 t →
      bishopRayAttack st (s : Int) c (ofs up d) fuel t =
        fbishopRay q (fpc w 3) (fpc w 5) (Nat.land s 7) (Nat.shiftRight s 3) up d fuel t2 := by
  intro fuel
  induction fuel with
  | zero => intro t2 t _; rfl
  | succ n ih =>
    intro t2 t ht
    rw [fbishopRay_succ, bishopRayAttack]
    simp only [band_eq, bor_eq, bsel_eq, lt64_eq, nbeq_eq, land7, shr3, adiff_eq]
    rcases ht with ⟨h1, h2⟩ | ⟨h1, h2⟩
    · have ih2 := ih (fadd t2 up d) _ (fadd_sq t2 up d)
      rw [land7, shr3] at ih2
      rw [← h2, if_pos (by omega), natCast_tmod8, natCast_tmod8, natCast_tdiv8, natCast_tdiv8,
        pieceAt_eq, ← h t2, ← ih2]
      generalize bishopRayAttack st (↑s) c (ofs up d) n (↑t2 + ofs up d) = X
      have e := slider_test (fget q t2) c w hw 3 (by omega)
      simp only [BISHOP] at e
      unfold cabs
      by_cases hG : t2 % 8 - s % 8 + (s % 8 - t2 % 8) = t2 / 8 - s / 8 + (s / 8 - t2 / 8)
      · rw [if_neg (by split_ifs <;> omega)]
        by_cases h0 : fget q t2 = 0
        · rw [if_neg (by omega)]; simp [h1, hG, h0]
        · rw [if_pos h0, Bool.eq_iff_iff]
          simp [h1, hG, h0, e h0]
      · rw [if_pos (by split_ifs <;> omega)]; simp [hG]
    · rw [if_neg (by omega)]
      have : ¬ (t2 < 64) := by omega
      simp [this]

theorem ofs_true (d : Nat) : ofs true d = (d : Int) := rfl

theorem ofs_false (d : Nat) : ofs false d = -(d : Int) := rfl

theorem fkingAtk_eq (st : BoardState) (q s : Nat) (c : Color) (w : Bool)
    (h : Packs st.squares q) (hw : w = decide (c = WHITE)) :
    [-9, -8, -7, -1, 1, 7, 8, 9].any (kingAttackAt st (s : Int) c) = fkingAtk q s (fpc w 6) := by
  unfold fkingAtk
  simp only [bor_eq, ← fkingAt_eq st q s c w _ _ h hw, ofs_true, ofs_false, List.any_cons,
    List.any_nil, Bool.or_false, Nat.cast_ofNat, Nat.cast_one]

theorem fknightAtk_eq (st : BoardState) (q s : Nat) (c : Color) (w : Bool)
    (h : Packs st.squares q) (hw : w = decide (c = WHITE)) :
    [-17, -15, -10, -6, 6, 10, 15, 17].any (knightAttackAt st (s : Int) c) =
      fknightAtk q s (fpc w 2) := by
  unfold fknightAtk
  simp only [bor_eq, ← fknightAt_eq st q s c w _ _ h hw, ofs_true, ofs_false, List.any_cons,
    List.any_nil, Bool.or_false, Nat.cast_ofNat]

theorem fpawnAtk_eq (st : BoardState) (q s : Nat) (c : Color) (w : Bool)
    (h : Packs st.squares q) (hw : w = decide (c = WHITE)) :
    (if c = WHITE then
        pawnAttackAt st s WHITE (s - 7) || pawnAttackAt st s WHITE (s - 9)
      else
        pawnAttackAt st s BLACK (s + 7) || pawnAttackAt st s BLACK (s + 9)) =
      fpawnAtk q s w := by
  unfold fpawnAtk
  have a1 := fpawnAt_eq st q s WHITE _ _ h (fadd_sq s false 7)
  have a2 := fpawnAt_eq st q s WHITE _ _ h (fadd_sq s false 9)
  have a3 := fpawnAt_eq st q s BLACK _ _ h (fadd_sq s true 7)
  have a4 := fpawnAt_eq st q s BLACK _ _ h (fadd_sq s true 9)
  simp only [ofs_true, ofs_false, Nat.cast_ofNat] at a1 a2 a3 a4
  have e1 : makePiece WHITE PAWN = 1 := rfl
  have e2 : makePiece BLACK PAWN = 7 := rfl
  rw [e1] at a1 a2
  rw [e2] at a3 a4
  rw [bsel_eq, bor_eq, bor_eq, ← a1, ← a2, ← a3, ← a4, hw]
  cases c <;> first | (simp; done) | (simp; rfl)

theorem frookAtk_eq (st : BoardState) (q s : Nat) (c : Color) (w : Bool)
    (h : Packs st.squares q) (hw : w = decide (c = WHITE)) :
    [1, -1, 8, -8].any (fun d => rookRayAttack st c d 64 ((s : Int) + d)) =
      frookAtk q s (fpc w 4) (fpc w 5) := by
  unfold frookAtk
  have a1 := frookRay_eq st q c w true 1 0 h hw (by simp) 64 _ _ (fadd_sq s true 1)
  have a2 := frookRay_eq st q c w false 1 7 h hw (by simp) 64 _ _ (fadd_sq s false 1)
  have a3 := frookRay_eq st q c w true 8 8 h hw (by simp) 64 _ _ (fadd_sq s true 8)
  have a4 := frookRay_eq st q c w false 8 8 h hw (by simp) 64 _ _ (fadd_sq s false 8)
  simp only [ofs_true, ofs_false, Nat.cast_ofNat, Nat.cast_one] at a1 a2 a3 a4
  simp only [bor_eq, ← a1, ← a2, ← a3, ← a4, List.any_cons, List.any_nil, Bool.or_false]

theorem fbishopAtk_eq (st : BoardState) (q s : Nat) (c : Color) (w : Bool)
    (h : Packs st.squares q) (hw : w = decide (c = WHITE)) :
    [9, -9, 7, -7].any (fun d => bishopRayAttack st s c d 64 ((s : Int) + d)) =
      fbishopAtk q s (fpc w 3) (fpc w 5) := by
  unfold fbishopAtk
  have a1 := fbishopRay_eq st q s c w true 9 h hw 64 _ _ (fadd_sq s true 9)
  have a2 := fbishopRay_eq st q s c w false 9 h hw 64 _ _ (fadd_sq s false 9)
  have a3 := fbishopRay_eq st q s c w true 7 h hw 64 _ _ (fadd_sq s true 7)
  have a4 := fbishopRay_eq st q s c w false 7 h hw 64 _ _ (fadd_sq s false 7)
  simp only [ofs_true, ofs_false, Nat.cast_ofNat] at a1 a2 a3 a4
  simp only [bor_eq, ← a1, ← a2, ← a3, ← a4, List.any_cons, List.any_nil, Bool.or_false]

/-- The packed `isSquareAttacked` is `isSquareAttacked`. -/
theorem fattacked_eq (st : BoardState) (q s : Nat) (c : Color) (w : Bool)
    (h : Packs st.squares q) (hw : w = decide (c = WHITE)) :
    isSquareAttacked st (s : Int) c = fattacked q s w := by
  unfold isSquareAttacked fattacked
  rw [fkingAtk_eq st q s c w h hw, fknightAtk_eq st q s c w h hw, fpawnAtk_eq st q s c w h hw,
    frookAtk_eq st q s c w h hw, fbishopAtk_eq st q s c w h hw]
  simp only [bor_eq, Bool.or_assoc]

theorem ffind_succ (q k n : Nat) :
    ffind q k (n + 1) =
      bsel (Nat.beq (fget q (Nat.sub 63 n)) k) (Nat.sub 63 n) (ffind q k n) := rfl

theorem ffind_spec (q k : Nat) : ∀ n : Nat, n ≤ 64 →
    (ffind q k n = 64 ∧ ∀ s : Nat, 64 - n ≤ s → s < 64 → fget q s ≠ k) ∨
    (64 - n ≤ ffind q k n ∧ ffind q k n < 64 ∧ fget q (ffind q k n) = k ∧
      ∀ s : Nat, 64 - n ≤ s → s < ffind q k n → fget q s ≠ k) := by
  intro n
  induction n with
  | zero =>
    intro _
    left
    refine ⟨rfl, ?_⟩
    intro s h1 h2
    omega
  | succ n ih =>
    intro hn
    rw [ffind_succ, bsel_eq, nbeq_eq]
    have e : Nat.sub 63 n = 63 - n := rfl
    rw [e]
    simp only [decide_eq_true_eq]
    by_cases hk : fget q (63 - n) = k
    · rw [if_pos hk]
      right
      refine ⟨by omega, by omega, hk, ?_⟩
      intro s h1 h2
      omega
    · rw [if_neg hk]
      rcases ih (by omega) with ⟨a, b⟩ | ⟨a, b, c, d⟩
      · left
        refine ⟨a, ?_⟩
        intro s h1 h2
        by_cases hs : s = 63 - n
        · rw [hs]; exact hk
        · exact b s (by omega) h2
      · right
        refine ⟨by omega, b, c, ?_⟩
        intro s h1 h2
        by_cases hs : s = 63 - n
        · rw [hs]; exact hk
        · exact d s (by omega) h2

/-- The packed king search is `findPiece`. -/
theorem ffind_findPiece (st : BoardState) (q k : Nat) (h : Packs st.squares q) :
    (ffind q k 64 = 64 ∧ findPiece st k = -1) ∨
    (ffind q k 64 < 64 ∧ findPiece st k = ((ffind q k 64 : Nat) : Int)) := by
  have hp : ∀ s : Nat, st.pieceAt (s : Int) = fget q s := fun s => (h s).symm
  rcases ffind_spec q k 64 (le_refl _) with ⟨a, b⟩ | ⟨a, b, c, d⟩
  · left
    refine ⟨a, ?_⟩
    rcases findPiece_spec st k with ⟨x, _⟩ | ⟨x1, x2, x3, _⟩
    · exact x
    · exfalso
      have := hp (findPiece st k).toNat
      rw [Int.toNat_of_nonneg x1, x3] at this
      exact b (findPiece st k).toNat (by omega) (by omega) this.symm
  · right
    refine ⟨b, ?_⟩
    rcases findPiece_spec st k with ⟨_, y⟩ | ⟨x1, x2, x3, x4⟩
    · exfalso
      exact y (ffind q k 64 : Nat) (by omega) (by omega) (by rw [hp, c])
    · by_contra hne
      rcases lt_or_gt_of_ne hne with hl | hl
      · have := hp (findPiece st k).toNat
        rw [Int.toNat_of_nonneg x1, x3] at this
        exact d (findPiece st k).toNat (by omega) (by omega) this.symm
      · exact x4 (ffind q k 64 : Nat) (by omega) hl (by rw [hp, c])

/-- The packed `isInCheck` is `isInCheck`. -/
theorem fcheck_eq (st : BoardState) (q : Nat) (c : Color) (w : Bool)
    (h : Packs st.squares q) (hw : w = decide (c = WHITE)) :
    isInCheck st c = fcheck q w := by
  unfold isInCheck fcheck
  have ek : makePiece c KING = fpc w 6 := by
    subst hw
    cases c <;> rfl
  simp only [ek, bsel_eq, nbeq_eq, decide_eq_true_eq]
  rcases ffind_findPiece st q (fpc w 6) h with ⟨a, b⟩ | ⟨a, b⟩
  · rw [if_pos b, if_pos a]
  · rw [if_neg (show ¬ findPiece st (fpc w 6) = -1 by omega),
      if_neg (show ¬ ffind q (fpc w 6) 64 = 64 by omega), b]
    apply fattacked_eq st q _ _ _ h
    subst hw
    cases c <;> rfl

/-! ## The packed board: `makeMove` -/

theorem fmask_eq (cr fr to_ c k : Nat) :
    fmask cr fr to_ c k =
      if (fr : Int) = (c : Int) ∨ (to_ : Int) = (c : Int) then cr &&& k else cr := by
  unfold fmask
  rw [bsel_eq, bor_eq, nbeq_eq, nbeq_eq]
  simp only [Bool.or_eq_true, decide_eq_true_eq, Nat.cast_inj]
  rfl

theorem mvCastling_castling (Z : ZobristKeys) (st : BoardState) (fr to_ : Nat) :
    (mvCastling Z st (fr : Int) (to_ : Int)).castling = fcastling st.castling fr to_ := by
  unfold mvCastling fcastling
  simp only [fmask_eq, Nat.cast_ofNat, Nat.cast_zero, apply_ite BoardState.castling]

theorem applyMove_castling (Z : ZobristKeys) (st : BoardState) (m : Move) :
    (applyMove Z st m).castling =
      fcastling st.castling (m.data % 64) (m.data / 64 % 64) := by
  unfold applyMove
  simp only [(mvSide_fields _ _).2.1]
  rw [Move.from_of_data, Move.to_of_data, mvCastling_castling]
  simp only [(mvEpSquare_fields _ _ _ _ _).2.1,
    (mvPiece_fields _ _ _ _ _).2.1, (mvSpecial_fields _ _ _ _).2.1, (mvClocks_fields _ _ _).2.1,
    (mvOldKeys_fields _ _).2.1, (mvHeader_fields _ _).2.1]

theorem fapply_eq (p : FPos) (m : Move) :
    fapply p m =
      fapplyAt p (m.data % 64) (m.data / 64 % 64) (m.data / 4096 % 4) (m.data / 16384 % 4) := by
  unfold fapply
  have e1 : Nat.land m.data 63 = m.data % 64 :=
    Nat.and_pow_two_sub_one_eq_mod m.data 6
  have e2 : Nat.land (Nat.shiftRight m.data 6) 63 = m.data / 64 % 64 := by
    show (m.data >>> 6) &&& 63 = _
    rw [show (63 : Nat) = 2 ^ 6 - 1 from rfl, Nat.and_pow_two_sub_one_eq_mod,
      Nat.shiftRight_eq_div_pow]
  have e3 : Nat.land (Nat.shiftRight m.data 12) 3 = m.data / 4096 % 4 := by
    show (m.data >>> 12) &&& 3 = _
    rw [show (3 : Nat) = 2 ^ 2 - 1 from rfl, Nat.and_pow_two_sub_one_eq_mod,
      Nat.shiftRight_eq_div_pow]
  have e4 : Nat.land (Nat.shiftRight m.data 14) 3 = m.data / 16384 % 4 := by
    show (m.data >>> 14) &&& 3 = _
    rw [show (3 : Nat) = 2 ^ 2 - 1 from rfl, Nat.and_pow_two_sub_one_eq_mod,
      Nat.shiftRight_eq_div_pow]
  rw [e1, e2, e3, e4]

theorem rel_castling (Z : ZobristKeys) (st : BoardState) (p : FPos) (m : Move)
    (h : Rel st p) : (fapply p m).cr = (applyMove Z st m).castling := by
  rw [fapply_eq, applyMove_castling]
  unfold fapplyAt
  simp only [h.2.2.1]

theorem rel_side (Z : ZobristKeys) (st : BoardState) (p : FPos) (m : Move)
    (h : Rel st p) : (fapply p m).w = decide ((applyMove Z st m).sideToMove = WHITE) := by
  rw [fapply_eq, applyMove_sideToMove]
  unfold fapplyAt
  simp only [h.2.1, bnot_eq]
  cases st.sideToMove <;> rfl

theorem pawn_test (pc : Nat) : pieceType pc = PAWN ↔ (pc = 1 ∨ pc = 7) := by
  unfold pieceType
  simp only [PAWN]
  split_ifs <;> omega

theorem rel_ep (Z : ZobristKeys) (st : BoardState) (p : FPos) (m : Move)
    (h : Rel st p) : (fapply p m).ep = fep (applyMove Z st m).epSquare := by
  rw [fapply_eq, applyMove_epSquare]
  unfold fapplyAt isDoublePush
  simp only [bsel_eq, band_eq, bor_eq, nbeq_eq, adiff_eq, Move.from_of_data, Move.to_of_data,
    pieceAt_eq, ← h.1 _, pawn_test]
  have hf : m.data % 64 < 64 := Nat.mod_lt _ (by decide)
  have ht : m.data / 64 % 64 < 64 := Nat.mod_lt _ (by decide)
  generalize m.data % 64 = fr at hf ⊢
  generalize m.data / 64 % 64 = to_ at ht ⊢
  have e16 : cabs ((to_ : Int) - (fr : Int)) = 16 ↔ to_ - fr + (fr - to_) = 16 := by
    unfold cabs
    split_ifs <;> omega
  simp only [e16]
  have esh : Nat.shiftRight (Nat.add fr to_) 1 = (fr + to_) / 2 := by
    show (fr + to_) >>> 1 = _
    rw [Nat.shiftRight_eq_div_pow]
  rw [esh]
  by_cases hc : (fget p.q fr = 1 ∨ fget p.q fr = 7) ∧ to_ - fr + (fr - to_) = 16
  · have hb : ((decide (fget p.q fr = 1) || decide (fget p.q fr = 7)) &&
        decide (to_ - fr + (fr - to_) = 16)) = true := by simpa using hc
    rw [if_pos hb, if_pos hc]
    unfold fep
    have : ((fr : Int) + (to_ : Int)).tdiv 2 = (((fr + to_) / 2 : Nat) : Int) := by
      rw [Int.tdiv_eq_ediv (by omega) (by decide)]
      omega
    rw [this, if_pos (by omega)]
    omega
  · have hb : ¬ (((decide (fget p.q fr = 1) || decide (fget p.q fr = 7)) &&
        decide (to_ - fr + (fr - to_) = 16)) = true) := by simpa using hc
    rw [if_neg hb, if_neg hc]
    rfl

theorem fspecial_packs (st : BoardState) (p : FPos) (h : Rel st p) (fl to_ : Nat) :
    Packs
      (if fl = FLAG_EP then setSq st.squares (epCapSq st (to_ : Int)) 0
       else if fl = FLAG_CASTLE then
         setSq (setSq st.squares (castleRookFrom st.sideToMove (to_ : Int)) 0)
           (castleRookTo st.sideToMove (to_ : Int))
           (st.pieceAt (castleRookFrom st.sideToMove (to_ : Int)))
       else st.squares)
      (fspecial p.q p.w fl to_) := by
  obtain ⟨hq, hw, -, -⟩ := h
  unfold fspecial
  simp only [bsel_eq, nbeq_eq, lt64_eq, bor_eq, decide_eq_true_eq, Bool.or_eq_true, FLAG_EP,
    FLAG_CASTLE]
  by_cases h2 : fl = 2
  · rw [if_pos h2, if_pos h2]
    have ec : epCapSq st (to_ : Int) = (to_ : Int) + ofs (bnot p.w) 8 := by
      unfold epCapSq
      rw [hw]
      cases st.sideToMove <;> rfl
    rw [ec]
    rcases fadd_sq to_ (bnot p.w) 8 with ⟨a, b⟩ | ⟨a, b⟩
    · rw [if_pos a, ← b]
      exact packs_setSq _ _ _ _ hq a (by decide)
    · rw [if_neg (by omega), setSq_high _ _ _ (by omega)]
      exact hq
  · rw [if_neg h2, if_neg h2]
    by_cases h1 : fl = 1
    · rw [if_pos h1, if_pos h1]
      unfold castleRookFrom castleRookTo
      rw [pieceAt_eq, hw]
      by_cases h6 : to_ = 6 ∨ to_ = 62
      · have h6i : (to_ : Int) = 6 ∨ (to_ : Int) = 62 := by omega
        rw [if_pos h6, if_pos h6i, if_pos h6i]
        cases st.sideToMove
        · simp only [decide_True, if_true]
          have e7 : sqAt st.squares 7 = fget p.q 7 := (hq 7).symm
          rw [e7]
          have a := packs_setSq _ _ 7 0 hq (by decide) (by decide)
          have b := packs_setSq _ _ 5 (fget p.q 7) a (by decide) (fget_lt _ _)
          simp only [Nat.cast_ofNat, Nat.cast_zero] at b
          exact b
        · simp only [reduceCtorEq, decide_False, Bool.false_eq_true, if_false]
          have e7 : sqAt st.squares 63 = fget p.q 63 := (hq 63).symm
          rw [e7]
          have a := packs_setSq _ _ 63 0 hq (by decide) (by decide)
          have b := packs_setSq _ _ 61 (fget p.q 63) a (by decide) (fget_lt _ _)
          simp only [Nat.cast_ofNat, Nat.cast_zero] at b
          exact b
      · have h6i : ¬ ((to_ : Int) = 6 ∨ (to_ : Int) = 62) := by omega
        rw [if_neg h6, if_neg h6i, if_neg h6i]
        cases st.sideToMove
        · simp only [decide_True, if_true]
          have e7 : sqAt st.squares 0 = fget p.q 0 := (hq 0).symm
          rw [e7]
          have a := packs_setSq _ _ 0 0 hq (by decide) (by decide)
          have b := packs_setSq _ _ 3 (fget p.q 0) a (by decide) (fget_lt _ _)
          simp only [Nat.cast_ofNat, Nat.cast_zero] at b
          exact b
        · simp only [reduceCtorEq, decide_False, Bool.false_eq_true, if_false]
          have e7 : sqAt st.squares 56 = fget p.q 56 := (hq 56).symm
          rw [e7]
          have a := packs_setSq _ _ 56 0 hq (by decide) (by decide)
          have b := packs_setSq _ _ 59 (fget p.q 56) a (by decide) (fget_lt _ _)
          simp only [Nat.cast_ofNat, Nat.cast_zero] at b
          exact b
    · rw [if_neg h1, if_neg h1]
      exact hq

theorem placed_eq (st : BoardState) (p : FPos) (h : Rel st p) (m : Move) :
    placedPiece st m =
      bsel (Nat.beq (m.data / 4096 % 4) 3) (fpc p.w (Nat.add (m.data / 16384 % 4) 2))
        (fget p.q (m.data % 64)) ∧
    placedPiece st m < 16 := by
  obtain ⟨hq, hw, -, -⟩ := h
  unfold placedPiece
  rw [Move.flags_of_data, Move.promo_of_data, Move.from_of_data, bsel_eq, nbeq_eq, pieceAt_eq,
    ← hq, hw]
  simp only [decide_eq_true_eq, FLAG_PROMO]
  have hp : m.data / 16384 % 4 < 4 := Nat.mod_lt _ (by decide)
  generalize m.data / 16384 % 4 = pr at hp
  by_cases h3 : m.data / 4096 % 4 = 3
  · rw [if_pos h3, if_pos h3]
    interval_cases pr <;> cases st.sideToMove <;> exact ⟨rfl, by decide⟩
  · rw [if_neg h3, if_neg h3]
    exact ⟨rfl, fget_lt _ _⟩

theorem rel_squares (Z : ZobristKeys) (st : BoardState) (p : FPos) (m : Move)
    (h : Rel st p) : Packs (applyMove Z st m).squares (fapply p m).q := by
  rw [fapply_eq, applyMove_squares]
  unfold fapplyAt
  simp only []
  have hf : m.data % 64 < 64 := Nat.mod_lt _ (by decide)
  have ht : m.data / 64 % 64 < 64 := Nat.mod_lt _ (by decide)
  have hs := fspecial_packs st p h (m.data / 4096 % 4) (m.data / 64 % 64)
  rw [← Move.flags_of_data, ← Move.to_of_data] at hs
  have a := packs_setSq _ _ (m.data % 64) 0 hs hf (by decide)
  have e := placed_eq st p h m
  have b := packs_setSq _ _ (m.data / 64 % 64) (placedPiece st m) a ht e.2
  rw [← Move.from_of_data, ← Move.to_of_data] at b
  rw [← e.1, ← Move.flags_of_data]
  exact b

/-- The packed `applyMove` is `applyMove`. -/
theorem fapply_rel (Z : ZobristKeys) (st : BoardState) (p : FPos) (m : Move)
    (h : Rel st p) : Rel (applyMove Z st m) (fapply p m) :=
  ⟨rel_squares Z st p m h, rel_side Z st p m h, rel_castling Z st p m h, rel_ep Z st p m h⟩

/-! ## The packed board: `generateMoves` -/

theorem fmk_eq (s t fl p : Nat) (hs : s < 64) (ht : t < 64) (hf : fl ≤ 3) (hp : p ≤ 3) :
    Move.new (s : Int) (t : Int) fl p = fmk s t fl p := by
  have h := Move.new_data (s : Int) (t : Int) fl p (by omega) (by omega) (by omega) (by omega)
    hf hp
  cases hm : Move.new (s : Int) (t : Int) fl p with
  | mk data =>
    rw [hm] at h
    simp only [Int.toNat_ofNat] at h
    unfold fmk
    rw [h]
    congr 1
    show _ = s + (64 * t + (4096 * fl + 16384 * p))
    omega

theorem fpass_succ (f : Nat → List Move → List Move) (rest : List Move) (n : Nat) :
    fpass f rest (n + 1) = f (Nat.sub 63 n) (fpass f rest n) := rfl

theorem fpass_eq (f : Nat → List Move → List Move) (g : Nat → List Move) (rest : List Move)
    (hfg : ∀ s r, s < 64 → f s r = g s ++ r) :
    ∀ n : Nat, n ≤ 64 → fpass f rest n = (List.range' (64 - n) n).flatMap g ++ rest := by
  intro n
  induction n with
  | zero => intro _; rfl
  | succ n ih =>
    intro hn
    rw [fpass_succ, ih (by omega), show Nat.sub 63 n = 63 - n from rfl, hfg _ _ (by omega)]
    have e : 64 - (n + 1) = 63 - n := by omega
    have e2 : 64 - n = (63 - n) + 1 := by omega
    rw [e, e2, List.range'_succ, List.flatMap_cons, List.append_assoc]

/-- A pass of the packed generator is the loop over the squares. -/
theorem fpass_allSquares (f : Nat → List Move → List Move) (F : Int → List Move)
    (rest : List Move) (hfg : ∀ s r, s < 64 → f s r = F (s : Int) ++ r) :
    fpass f rest 64 = allSquares.flatMap F ++ rest := by
  rw [fpass_eq f (fun s => F (s : Int)) rest hfg 64 (le_refl _)]
  unfold allSquares
  rw [List.range_eq_range', List.flatMap_map]
  rfl

theorem own_test (pc : Nat) (c : Color) (w : Bool) (hw : w = decide (c = WHITE)) :
    fown w pc = decide (pieceColor pc = c) := by
  subst hw
  unfold fown pieceColor
  rw [bsel_eq, nble_eq, nble_eq, Bool.eq_iff_iff]
  cases c <;> first | (simp; done) | (simp; omega)

theorem fep_eq (e : Int) (t : Nat) (ht : t < 64) : ((t : Int) = e) ↔ t = fep e := by
  unfold fep
  split_ifs <;> omega

theorem fpromo_eq (s t : Nat) (hs : s < 64) (ht : t < 64) (rest : List Move) :
    promoMoves (s : Int) (t : Int) ++ rest = fpromo s t rest := by
  unfold promoMoves fpromo
  simp only [List.map, FLAG_PROMO]
  rw [fmk_eq s t 3 0 hs ht (by decide) (by decide), fmk_eq s t 3 1 hs ht (by decide) (by decide),
    fmk_eq s t 3 2 hs ht (by decide) (by decide), fmk_eq s t 3 3 hs ht (by decide) (by decide)]
  rfl

theorem promoRank_eq (st : BoardState) (p : FPos) (h : Rel st p) (t : Nat) :
    (((t / 8 : Nat) : Int) = if st.sideToMove = WHITE then 7 else 0) ↔
      t / 8 = if p.w = true then 7 else 0 := by
  rw [h.2.1]
  cases st.sideToMove <;> simp <;> omega

theorem fpawnCap_eq (st : BoardState) (p : FPos) (h : Rel st p) (s : Nat) (hs : s < 64)
    (df : Int) (ok : Bool) (t2 : Nat)
    (hok : ok = true ↔ (0 ≤ ((s % 8 : Nat) : Int) + df ∧ ((s % 8 : Nat) : Int) + df ≤ 7))
    (ht : SqRel t2 ((s : Int) + (if st.sideToMove = WHITE then 8 else -8) + df))
    (rest : List Move) :
    pawnCaptureMoves st st.sideToMove (if st.sideToMove = WHITE then 8 else -8)
      (if st.sideToMove = WHITE then 7 else 0) (s : Int) df ++ rest =
      fpawnCap p s ok t2 rest := by
  unfold pawnCaptureMoves fpawnCap
  simp only [bsel_eq, band_eq, bnot_eq, lt64_eq, nbeq_eq, Bool.and_eq_true, decide_eq_true_eq,
    Bool.not_eq_true', decide_eq_false_iff_not, own_test _ st.sideToMove p.w h.2.1, ne_eq,
    shr3]
  rw [natCast_tmod8]
  by_cases hk : ok = true
  · have hk2 := hok.1 hk
    rw [if_neg (show ¬ (((s % 8 : Nat) : Int) + df < 0 ∨ ((s % 8 : Nat) : Int) + df > 7) by omega)]
    rcases ht with ⟨a, b⟩ | ⟨a, b⟩
    · rw [← b, if_neg (show ¬ ((t2 : Int) < 0 ∨ (t2 : Int) > 63) by omega),
        if_pos (show ok = true ∧ t2 < 64 from ⟨hk, a⟩)]
      have c1 := fep_eq st.epSquare t2 a
      rw [← h.2.2.2] at c1
      have c3 := promoRank_eq st p h t2
      have c4 : st.pieceAt (t2 : Int) = fget p.q t2 := (h.1 t2).symm
      rw [natCast_tdiv8]
      simp only [c4, c1, c3]
      split_ifs <;>
        simp only [FLAG_EP, FLAG_NORMAL, fmk_eq s t2 2 0 hs a (by decide) (by decide),
          fmk_eq s t2 0 0 hs a (by decide) (by decide), fpromo_eq s t2 hs a,
          List.singleton_append, List.nil_append]
    · rw [if_pos (show _ < (0 : Int) ∨ _ > (63 : Int) by omega),
        if_neg (show ¬ (ok = true ∧ t2 < 64) by omega)]
      rfl
  · have hk2 : ¬ (0 ≤ ((s % 8 : Nat) : Int) + df ∧ ((s % 8 : Nat) : Int) + df ≤ 7) :=
      fun x => hk (hok.2 x)
    rw [if_pos (show ((s % 8 : Nat) : Int) + df < 0 ∨ ((s % 8 : Nat) : Int) + df > 7 by omega),
      if_neg (fun x => hk x.1)]
    rfl

theorem dir_eq (st : BoardState) (p : FPos) (h : Rel st p) :
    (if st.sideToMove = WHITE then (8 : Int) else -8) = ofs p.w 8 := by
  rw [h.2.1]
  cases st.sideToMove <;> rfl

theorem startRank_eq (st : BoardState) (p : FPos) (h : Rel st p) (s : Nat) :
    (((s / 8 : Nat) : Int) = if st.sideToMove = WHITE then 1 else 6) ↔
      s / 8 = if p.w = true then 1 else 6 := by
  rw [h.2.1]
  cases st.sideToMove <;> simp <;> omega

theorem dbl_ok (w : Bool) (s t2 : Nat) (hs : s < 64) (b : (t2 : Int) = (s : Int) + ofs w 8)
    (hr : s / 8 = if w = true then 1 else 6) :
    fadd t2 w 8 < 64 ∧ ((fadd t2 w 8 : Nat) : Int) = (t2 : Int) + ofs w 8 := by
  rw [fadd_eq]
  unfold ofs at b ⊢
  cases w
  · simp only [Bool.false_eq_true, if_false] at b hr ⊢
    rw [if_pos (by omega)]
    omega
  · simp only [if_true] at b hr ⊢
    omega

theorem fpawnFwd_eq (st : BoardState) (p : FPos) (h : Rel st p) (s : Nat) (hs : s < 64)
    (rest : List Move) :
    pawnForwardMoves st (if st.sideToMove = WHITE then 8 else -8)
      (if st.sideToMove = WHITE then 1 else 6) (if st.sideToMove = WHITE then 7 else 0)
      (s : Int) ++ rest = fpawnFwd p s rest := by
  unfold pawnForwardMoves fpawnFwd
  simp only [bsel_eq, band_eq, lt64_eq, nbeq_eq, shr3, Bool.and_eq_true, decide_eq_true_eq]
  rw [dir_eq st p h, natCast_tdiv8]
  rcases fadd_sq s p.w 8 with ⟨a, b⟩ | ⟨a, b⟩
  · rw [← b]
    generalize fadd s p.w 8 = t2 at a b ⊢
    rw [if_neg (show ¬ ((t2 : Int) < 0 ∨ (t2 : Int) > 63) by omega), natCast_tdiv8]
    have c3 := promoRank_eq st p h t2
    have c4 : st.pieceAt (t2 : Int) = fget p.q t2 := (h.1 t2).symm
    have c5 := startRank_eq st p h s
    simp only [c4, c3, c5]
    by_cases hr : s / 8 = if p.w = true then 1 else 6
    · have d := dbl_ok p.w s t2 hs b hr
      rw [← d.2]
      have c6 : st.pieceAt ((fadd t2 p.w 8 : Nat) : Int) = fget p.q (fadd t2 p.w 8) :=
        (h.1 _).symm
      have hrT : (s / 8 = if p.w = true then 1 else 6) = True := eq_true hr
      simp only [c6, a, hrT, true_and, if_true]
      split_ifs <;>
        simp only [FLAG_NORMAL, fmk_eq s t2 0 0 hs a (by decide) (by decide),
          fmk_eq s (fadd t2 p.w 8) 0 0 hs d.1 (by decide) (by decide), fpromo_eq s t2 hs a,
          List.singleton_append, List.nil_append, List.cons_append]
    · simp only [hr, if_false, a, true_and, false_and]
      split_ifs <;>
        simp only [FLAG_NORMAL, fmk_eq s t2 0 0 hs a (by decide) (by decide),
          fpromo_eq s t2 hs a, List.singleton_append, List.nil_append, List.cons_append]
  · rw [if_pos (show _ < (0 : Int) ∨ _ > (63 : Int) by omega)]
    have : ¬ (fadd s p.w 8 < 64) := by omega
    simp only [this, false_and, if_false, List.nil_append]

theorem sqRel_add (s d : Nat) (t : Int) (ht : t = (s : Int) + (d : Int)) :
    SqRel (Nat.add s d) t := by
  have := fadd_sq s true d
  rw [fadd_eq, ofs_true] at this
  simp only [if_true] at this
  rw [ht]
  exact this

theorem pawn_target (st : BoardState) (p : FPos) (h : Rel st p) (s : Nat) :
    SqRel (bsel p.w (Nat.add s 7) (fadd s false 9))
      ((s : Int) + (if st.sideToMove = WHITE then 8 else -8) + -1) ∧
    SqRel (bsel p.w (Nat.add s 9) (fadd s false 7))
      ((s : Int) + (if st.sideToMove = WHITE then 8 else -8) + 1) := by
  have hw := h.2.1
  cases hc : st.sideToMove
  · rw [hc] at hw
    simp only [decide_True] at hw
    rw [hw, bsel_eq, bsel_eq]
    simp only [if_true]
    exact ⟨sqRel_add s 7 _ (by omega), sqRel_add s 9 _ (by omega)⟩
  · rw [hc] at hw
    simp only [reduceCtorEq, decide_False] at hw
    rw [hw, bsel_eq, bsel_eq]
    simp only [Bool.false_eq_true, reduceCtorEq, if_false]
    have a := fadd_sq s false 9
    have b := fadd_sq s false 7
    rw [ofs_false] at a b
    constructor
    · have e : (s : Int) + -8 + -1 = (s : Int) + -((9 : Nat) : Int) := by omega
      rw [e]; exact a
    · have e : (s : Int) + -8 + 1 = (s : Int) + -((7 : Nat) : Int) := by omega
      rw [e]; exact b

theorem myPawn_eq (st : BoardState) (p : FPos) (h : Rel st p) (P : Nat) :
    makePiece st.sideToMove P = fpc p.w P := by
  rw [h.2.1]
  cases st.sideToMove <;> rfl

/-- The packed `addPawnMoves` is `addPawnMoves`. -/
theorem fpawns_eq (st : BoardState) (p : FPos) (h : Rel st p) (rest : List Move) :
    addPawnMoves st false ++ rest = fpawns p rest := by
  unfold addPawnMoves fpawns
  simp only []
  refine (fpass_allSquares _ _ rest (fun s r hs => ?_)).symm
  have e1 : (if st.sideToMove = WHITE then makePiece WHITE PAWN else makePiece BLACK PAWN) =
      fpc p.w 1 := by
    rw [← myPawn_eq st p h 1]
    cases st.sideToMove <;> rfl
  rw [e1, pieceAt_eq, ← h.1 s, bsel_eq, nbeq_eq]
  simp only [decide_eq_true_eq, ne_eq, Bool.false_eq_true, if_false, List.flatMap_cons,
    List.flatMap_nil, List.append_nil]
  by_cases hp : fget p.q s = fpc p.w 1
  · rw [if_pos hp, if_neg (not_not.2 hp), List.append_assoc, List.append_assoc,
      fpawnFwd_eq st p h s hs r]
    have t := pawn_target st p h s
    have hm : s % 8 < 8 := Nat.mod_lt _ (by decide)
    rw [fpawnCap_eq st p h s hs 1 (Nat.ble (Nat.land s 7) 6) _
        (by rw [nble_eq, land7, decide_eq_true_eq]; omega) t.2,
      fpawnCap_eq st p h s hs (-1) (Nat.ble 1 (Nat.land s 7)) _
        (by rw [nble_eq, land7, decide_eq_true_eq]; omega) t.1]
  · rw [if_neg hp, if_pos (not_not.2 (not_not.2 hp) |> fun x => by simpa using hp)]
    rfl

theorem fknightMove_eq (st : BoardState) (p : FPos) (h : Rel st p) (s : Nat) (hs : s < 64)
    (up : Bool) (d : Nat) (o : Int) (ho : o = ofs up d) (rest : List Move) :
    knightMoveAt st st.sideToMove false (s : Int) o ++ rest =
      fknightMove p s up d rest := by
  subst ho
  unfold knightMoveAt fknightMove
  simp only [bsel_eq, band_eq, bor_eq, bnot_eq, lt64_eq, nbeq_eq, land7, shr3, adiff_eq,
    Bool.and_eq_true, Bool.or_eq_true, decide_eq_true_eq, Bool.not_eq_true',
    decide_eq_false_iff_not, own_test _ st.sideToMove p.w h.2.1, ne_eq, Bool.false_eq_true,
    false_and, if_false]
  rcases fadd_sq s up d with ⟨a, b⟩ | ⟨a, b⟩
  · rw [← b]
    generalize fadd s up d = t2 at a b ⊢
    rw [if_neg (show ¬ ((t2 : Int) < 0 ∨ (t2 : Int) > 63) by omega), natCast_tmod8,
      natCast_tmod8, natCast_tdiv8, natCast_tdiv8]
    have c4 : st.pieceAt (t2 : Int) = fget p.q t2 := (h.1 t2).symm
    have g : ((cabs (((t2 % 8 : Nat) : Int) - ((s % 8 : Nat) : Int)) = 1 ∧
          cabs (((t2 / 8 : Nat) : Int) - ((s / 8 : Nat) : Int)) = 2) ∨
        (cabs (((t2 % 8 : Nat) : Int) - ((s % 8 : Nat) : Int)) = 2 ∧
          cabs (((t2 / 8 : Nat) : Int) - ((s / 8 : Nat) : Int)) = 1)) ↔
        ((t2 % 8 - s % 8 + (s % 8 - t2 % 8) = 1 ∧ t2 / 8 - s / 8 + (s / 8 - t2 / 8) = 2) ∨
        (t2 % 8 - s % 8 + (s % 8 - t2 % 8) = 2 ∧ t2 / 8 - s / 8 + (s / 8 - t2 / 8) = 1)) := by
      unfold cabs
      split_ifs <;> omega
    simp only [c4, g, a, true_and]
    by_cases hg : ((t2 % 8 - s % 8 + (s % 8 - t2 % 8) = 1 ∧
        t2 / 8 - s / 8 + (s / 8 - t2 / 8) = 2) ∨
        (t2 % 8 - s % 8 + (s % 8 - t2 % 8) = 2 ∧ t2 / 8 - s / 8 + (s / 8 - t2 / 8) = 1)) <;>
      by_cases h0 : fget p.q t2 = 0 <;>
      by_cases hcol : pieceColor (fget p.q t2) = st.sideToMove <;>
      simp only [hg, h0, hcol, not_true_eq_false, not_false_eq_true, true_and, and_true,
        false_and, and_false, true_or, or_true, false_or, or_false, if_true, if_false,
        FLAG_NORMAL, fmk_eq s t2 0 0 hs a (by decide) (by decide), List.singleton_append,
        List.nil_append]
  · rw [if_pos (show _ < (0 : Int) ∨ _ > (63 : Int) by omega)]
    have : ¬ (fadd s up d < 64) := by omega
    simp only [this, false_and, if_false, List.nil_append]

theorem fkingMove_eq (st : BoardState) (p : FPos) (h : Rel st p) (s : Nat) (hs : s < 64)
    (up : Bool) (d : Nat) (o : Int) (ho : o = ofs up d) (rest : List Move) :
    kingMoveAt st st.sideToMove false (s : Int) o ++ rest =
      fkingMove p s up d rest := by
  subst ho
  unfold kingMoveAt fkingMove
  simp only [bsel_eq, band_eq, bor_eq, bnot_eq, lt64_eq, nbeq_eq, nble_eq, land7, shr3,
    adiff_eq, Bool.and_eq_true, Bool.or_eq_true, decide_eq_true_eq, Bool.not_eq_true',
    decide_eq_false_iff_not, own_test _ st.sideToMove p.w h.2.1, ne_eq, Bool.false_eq_true,
    false_and, if_false]
  rcases fadd_sq s up d with ⟨a, b⟩ | ⟨a, b⟩
  · rw [← b]
    generalize fadd s up d = t2 at a b ⊢
    rw [if_neg (show ¬ ((t2 : Int) < 0 ∨ (t2 : Int) > 63) by omega), natCast_tmod8,
      natCast_tmod8, natCast_tdiv8, natCast_tdiv8]
    have c4 : st.pieceAt (t2 : Int) = fget p.q t2 := (h.1 t2).symm
    have g : (cabs (((t2 % 8 : Nat) : Int) - ((s % 8 : Nat) : Int)) > 1 ∨
          cabs (((t2 / 8 : Nat) : Int) - ((s / 8 : Nat) : Int)) > 1) ↔
        ¬ (t2 % 8 - s % 8 + (s % 8 - t2 % 8) ≤ 1 ∧ t2 / 8 - s / 8 + (s / 8 - t2 / 8) ≤ 1) := by
      unfold cabs
      split_ifs <;> omega
    simp only [c4, g, a, true_and]
    by_cases hg1 : t2 % 8 - s % 8 + (s % 8 - t2 % 8) ≤ 1 <;>
      by_cases hg2 : t2 / 8 - s / 8 + (s / 8 - t2 / 8) ≤ 1 <;>
      by_cases h0 : fget p.q t2 = 0 <;>
      by_cases hcol : pieceColor (fget p.q t2) = st.sideToMove <;>
      simp only [hg1, hg2, h0, hcol, not_true_eq_false, not_false_eq_true, true_and, and_true,
        false_and, and_false, true_or, or_true, false_or, or_false, if_true, if_false,
        FLAG_NORMAL, fmk_eq s t2 0 0 hs a (by decide) (by decide), List.singleton_append,
        List.nil_append]
  · rw [if_pos (show _ < (0 : Int) ∨ _ > (63 : Int) by omega)]
    have : ¬ (fadd s up d < 64) := by omega
    simp only [this, false_and, if_false, List.nil_append]

/-- The packed `addKnightMoves` is `addKnightMoves`. -/
theorem fknights_eq (st : BoardState) (p : FPos) (h : Rel st p) (rest : List Move) :
    addKnightMoves st false ++ rest = fknights p rest := by
  unfold addKnightMoves fknights
  simp only []
  refine (fpass_allSquares _ _ rest (fun s r hs => ?_)).symm
  rw [myPawn_eq st p h KNIGHT, pieceAt_eq, ← h.1 s, bsel_eq, nbeq_eq]
  simp only [decide_eq_true_eq, ne_eq, List.flatMap_cons, List.flatMap_nil, List.append_nil,
    List.append_assoc, KNIGHT]
  by_cases hp : fget p.q s = fpc p.w 2
  · rw [if_pos hp, if_neg (not_not.2 hp)]
    simp only [List.append_assoc]
    rw [fknightMove_eq st p h s hs true 17 17 rfl, fknightMove_eq st p h s hs true 15 15 rfl,
      fknightMove_eq st p h s hs true 10 10 rfl, fknightMove_eq st p h s hs true 6 6 rfl,
      fknightMove_eq st p h s hs false 6 (-6) rfl, fknightMove_eq st p h s hs false 10 (-10) rfl,
      fknightMove_eq st p h s hs false 15 (-15) rfl,
      fknightMove_eq st p h s hs false 17 (-17) rfl]
  · rw [if_neg hp, if_pos hp]
    rfl

theorem frookMoves_succ (p : FPos) (s sr : Nat) (up : Bool) (d wr : Nat) (rest : List Move)
    (fuel t : Nat) :
    frookMoves p s sr up d wr rest (fuel + 1) t =
      bsel (band (lt64 (fadd t up d)) (band (bnot (Nat.beq (Nat.land (fadd t up d) 7) wr))
          (bor (bnot (Nat.beq d 1)) (Nat.beq (Nat.shiftRight (fadd t up d) 3) sr))))
        (bsel (Nat.beq (fget p.q (fadd t up d)) 0)
          (fmk s (fadd t up d) 0 0 :: frookMoves p s sr up d wr rest fuel (fadd t up d))
          (bsel (fown p.w (fget p.q (fadd t up d))) rest (fmk s (fadd t up d) 0 0 :: rest)))
        rest := rfl

theorem rook_guard (up : Bool) (d wr nt s : Nat)
    (hd : (up = true ∧ d = 1 ∧ wr = 0) ∨ (up = false ∧ d = 1 ∧ wr = 7) ∨ (d = 8 ∧ wr = 8)) :
    (¬ (nt % 8 = wr) ∧ (¬ d = 1 ∨ nt / 8 = s / 8)) ↔
      (¬ (ofs up d = 1 ∧ ((nt % 8 : Nat) : Int) = 0) ∧
       ¬ (ofs up d = -1 ∧ ((nt % 8 : Nat) : Int) = 7) ∧
       ¬ (cabs (ofs up d) = 1 ∧ ((nt / 8 : Nat) : Int) ≠ ((s / 8 : Nat) : Int))) := by
  have hm : nt % 8 < 8 := Nat.mod_lt _ (by decide)
  have e1 : cabs 1 = 1 := rfl
  have e2 : cabs (-1) = 1 := rfl
  have e3 : cabs 8 = 8 := rfl
  have e4 : cabs (-8) = 8 := rfl
  rcases hd with ⟨a, b, c⟩ | ⟨a, b, c⟩ | ⟨b, c⟩
  · subst a b c
    rw [show ofs true 1 = 1 from rfl, e1]
    omega
  · subst a b c
    rw [show ofs false 1 = -1 from rfl, e2]
    omega
  · subst b c
    cases up
    · rw [show ofs false 8 = -8 from rfl, e4]
      omega
    · rw [show ofs true 8 = 8 from rfl, e3]
      omega

theorem frookMoves_eq (st : BoardState) (p : FPos) (h : Rel st p) (s : Nat) (hs : s < 64)
    (up : Bool) (d wr : Nat) (rest : List Move)
    (hd : (up = true ∧ d = 1 ∧ wr = 0) ∨ (up = false ∧ d = 1 ∧ wr = 7) ∨ (d = 8 ∧ wr = 8)) :
    ∀ (fuel t : Nat), t < 64 →
      rookRayMoves st st.sideToMove false (s : Int) (ofs up d) fuel (t : Int) ++ rest =
        frookMoves p s (Nat.shiftRight s 3) up d wr rest fuel t := by
  intro fuel
  induction fuel with
  | zero => intro t _; rfl
  | succ n ih =>
    intro t ht
    rw [frookMoves_succ, rookRayMoves]
    simp only [bsel_eq, band_eq, bor_eq, bnot_eq, lt64_eq, nbeq_eq, land7, shr3,
      Bool.and_eq_true, Bool.or_eq_true, decide_eq_true_eq, Bool.not_eq_true',
      decide_eq_false_iff_not, own_test _ st.sideToMove p.w h.2.1, ne_eq, true_or, if_true]
    rcases fadd_sq t up d with ⟨a, b⟩ | ⟨a, b⟩
    · rw [← b]
      have ih2 := ih (fadd t up d) a
      rw [shr3] at ih2
      generalize fadd t up d = nt at a b ih2 ⊢
      rw [if_neg (show ¬ ((nt : Int) < 0 ∨ (nt : Int) > 63) by omega), natCast_tmod8,
        natCast_tdiv8, natCast_tdiv8]
      have c4 : st.pieceAt (nt : Int) = fget p.q nt := (h.1 nt).symm
      have g := rook_guard up d wr nt s hd
      simp only [ne_eq] at g
      simp only [c4, g, a, true_and]
      rcases Classical.propComplete (ofs up d = 1 ∧ ((nt % 8 : Nat) : Int) = 0) with c1 | c1 <;>
        rcases Classical.propComplete (ofs up d = -1 ∧ ((nt % 8 : Nat) : Int) = 7)
          with c2 | c2 <;>
        rcases Classical.propComplete
          (cabs (ofs up d) = 1 ∧ ¬ ((nt / 8 : Nat) : Int) = ((s / 8 : Nat) : Int))
          with c3 | c3 <;>
        rcases Classical.propComplete (fget p.q nt = 0) with h0 | h0 <;>
        rcases Classical.propComplete (pieceColor (fget p.q nt) = st.sideToMove)
          with hcol | hcol <;>
        simp only [c1, c2, c3, h0, hcol, not_true_eq_false, not_false_eq_true, true_and,
          and_true, false_and, and_false, true_or, or_true, false_or, or_false, if_true,
          if_false, FLAG_NORMAL, fmk_eq s nt 0 0 hs a (by decide) (by decide),
          List.singleton_append, List.nil_append, List.append_nil, List.append_assoc,
          List.cons_append, ih2]
    · rw [if_pos (show _ < (0 : Int) ∨ _ > (63 : Int) by omega)]
      have : ¬ (fadd t up d < 64) := by omega
      simp only [this, false_and, if_false, List.nil_append]

theorem fbishopMoves_succ (p : FPos) (s : Nat) (up : Bool) (d : Nat) (rest : List Move)
    (fuel t : Nat) :
    fbishopMoves p s up d rest (fuel + 1) t =
      bsel (band (lt64 (fadd t up d))
          (Nat.beq (adiff (Nat.land (fadd t up d) 7) (Nat.land t 7)) 1))
        (bsel (Nat.beq (fget p.q (fadd t up d)) 0)
          (fmk s (fadd t up d) 0 0 :: fbishopMoves p s up d rest fuel (fadd t up d))
          (bsel (fown p.w (fget p.q (fadd t up d))) rest (fmk s (fadd t up d) 0 0 :: rest)))
        rest := rfl

theorem fbishopMoves_eq (st : BoardState) (p : FPos) (h : Rel st p) (s : Nat) (hs : s < 64)
    (up : Bool) (d : Nat) (rest : List Move) :
    ∀ (fuel t : Nat), t < 64 →
      bishopRayMoves st st.sideToMove false (s : Int) (ofs up d) fuel (t : Int) ++ rest =
        fbishopMoves p s up d rest fuel t := by
  intro fuel
  induction fuel with
  | zero => intro t _; rfl
  | succ n ih =>
    intro t ht
    rw [fbishopMoves_succ, bishopRayMoves]
    simp only [bsel_eq, band_eq, bor_eq, bnot_eq, lt64_eq, nbeq_eq, land7, adiff_eq,
      Bool.and_eq_true, Bool.or_eq_true, decide_eq_true_eq, Bool.not_eq_true',
      decide_eq_false_iff_not, own_test _ st.sideToMove p.w h.2.1, ne_eq, true_or, if_true]
    rcases fadd_sq t up d with ⟨a, b⟩ | ⟨a, b⟩
    · rw [← b]
      have ih2 := ih (fadd t up d) a
      generalize fadd t up d = nt at a b ih2 ⊢
      rw [if_neg (show ¬ ((nt : Int) < 0 ∨ (nt : Int) > 63) by omega), natCast_tmod8,
        natCast_tmod8]
      have c4 : st.pieceAt (nt : Int) = fget p.q nt := (h.1 nt).symm
      have g : (cabs (((nt % 8 : Nat) : Int) - ((t % 8 : Nat) : Int)) = 1) ↔
          nt % 8 - t % 8 + (t % 8 - nt % 8) = 1 := by
        unfold cabs
        split_ifs <;> omega
      simp only [c4, g, a, true_and]
      rcases Classical.propComplete (nt % 8 - t % 8 + (t % 8 - nt % 8) = 1) with c1 | c1 <;>
        rcases Classical.propComplete (fget p.q nt = 0) with h0 | h0 <;>
        rcases Classical.propComplete (pieceColor (fget p.q nt) = st.sideToMove)
          with hcol | hcol <;>
        simp only [c1, h0, hcol, not_true_eq_false, not_false_eq_true, true_and,
          and_true, false_and, and_false, true_or, or_true, false_or, or_false, if_true,
          if_false, FLAG_NORMAL, fmk_eq s nt 0 0 hs a (by decide) (by decide),
          List.singleton_append, List.nil_append, List.append_nil, List.append_assoc,
          List.cons_append, ih2]
    · rw [if_pos (show _ < (0 : Int) ∨ _ > (63 : Int) by omega)]
      have : ¬ (fadd t up d < 64) := by omega
      simp only [this, false_and, if_false, List.nil_append]

theorem frookAll_eq (st : BoardState) (p : FPos) (h : Rel st p) (s : Nat) (hs : s < 64)
    (rest : List Move) :
    [1, -1, 8, -8].flatMap (fun d => rookRayMoves st st.sideToMove false (s : Int) d 64 s)
      ++ rest = frookAll p s rest := by
  unfold frookAll
  have a1 := fun r => frookMoves_eq st p h s hs true 1 0 r (by simp) 64 s hs
  have a2 := fun r => frookMoves_eq st p h s hs false 1 7 r (by simp) 64 s hs
  have a3 := fun r => frookMoves_eq st p h s hs true 8 8 r (by simp) 64 s hs
  have a4 := fun r => frookMoves_eq st p h s hs false 8 8 r (by simp) 64 s hs
  simp only [ofs_true, ofs_false, Nat.cast_ofNat, Nat.cast_one] at a1 a2 a3 a4
  simp only [List.flatMap_cons, List.flatMap_nil, List.append_nil, List.append_assoc]
  rw [a4, a3, a2, a1]

theorem fbishopAll_eq (st : BoardState) (p : FPos) (h : Rel st p) (s : Nat) (hs : s < 64)
    (rest : List Move) :
    [9, -9, 7, -7].flatMap (fun d => bishopRayMoves st st.sideToMove false (s : Int) d 64 s)
      ++ rest = fbishopAll p s rest := by
  unfold fbishopAll
  have a1 := fun r => fbishopMoves_eq st p h s hs true 9 r 64 s hs
  have a2 := fun r => fbishopMoves_eq st p h s hs false 9 r 64 s hs
  have a3 := fun r => fbishopMoves_eq st p h s hs true 7 r 64 s hs
  have a4 := fun r => fbishopMoves_eq st p h s hs false 7 r 64 s hs
  simp only [ofs_true, ofs_false, Nat.cast_ofNat] at a1 a2 a3 a4
  simp only [List.flatMap_cons, List.flatMap_nil, List.append_nil, List.append_assoc]
  rw [a4, a3, a2, a1]

theorem type_cases (x : Nat) :
    ((x = 4) = True ∧ (x = 3) = False ∧ (x = 5) = False) ∨
    ((x = 4) = False ∧ (x = 3) = True ∧ (x = 5) = False) ∨
    ((x = 4) = False ∧ (x = 3) = False ∧ (x = 5) = True) ∨
    ((x = 4) = False ∧ (x = 3) = False ∧ (x = 5) = False) := by
  by_cases h4 : x = 4
  · exact Or.inl ⟨eq_true h4, eq_false (by omega), eq_false (by omega)⟩
  · by_cases h3 : x = 3
    · exact Or.inr (Or.inl ⟨eq_false h4, eq_true h3, eq_false (by omega)⟩)
    · by_cases h5 : x = 5
      · exact Or.inr (Or.inr (Or.inl ⟨eq_false h4, eq_false h3, eq_true h5⟩))
      · exact Or.inr (Or.inr (Or.inr ⟨eq_false h4, eq_false h3, eq_false h5⟩))

theorem slider_type (pc : Nat) (c : Color) (w : Bool) (hw : w = decide (c = WHITE)) (P : Nat)
    (hP : 1 ≤ P ∧ P ≤ 6) :
    ((if w = true then pc else Nat.sub pc 6) = P) ↔
      (¬ pc = 0 ∧ pieceColor pc = c ∧ pieceType pc = P) := by
  have e := piece_test pc c w hw P hP
  simp only [ne_eq] at e
  rw [e]
  unfold fpc
  rw [bsel_eq]
  show _ ↔ pc = if w = true then P else P + 6
  have : Nat.sub pc 6 = pc - 6 := rfl
  rw [this]
  cases w
  · simp only [Bool.false_eq_true, if_false]
    omega
  · simp only [if_true]

/-- The body of the square loop of `addSliding` against its packed form, with the moves of
the rook directions and of the bishop directions as given lists. -/
theorem slide_body (pc : Nat) (c : Color) (w : Bool) (hw : w = decide (c = WHITE))
    (R B r : List Move) (RA BA : List Move → List Move)
    (hR : ∀ x, R ++ x = RA x) (hB : ∀ x, B ++ x = BA x) :
    bsel ((bsel w pc (pc.sub 6)).beq 4) (RA r)
      (bsel ((bsel w pc (pc.sub 6)).beq 3) (BA r)
        (bsel ((bsel w pc (pc.sub 6)).beq 5) (RA (BA r)) r)) =
    (if pc = 0 ∨ pieceColor pc ≠ c then []
      else
        if pieceType pc ≠ ROOK ∧ pieceType pc ≠ BISHOP ∧ pieceType pc ≠ QUEEN then []
        else
          (if decide (pieceType pc = ROOK ∨ pieceType pc = QUEEN) = true then R else []) ++
            if decide (pieceType pc = BISHOP ∨ pieceType pc = QUEEN) = true then B else []) ++
      r := by
  simp only [bsel_eq, nbeq_eq, decide_eq_true_eq, slider_type _ c w hw 4 (by omega),
    slider_type _ c w hw 3 (by omega),
    slider_type _ c w hw 5 (by omega), ROOK, BISHOP, QUEEN, ne_eq]
  rcases Classical.propComplete (pc = 0) with h0 | h0 <;>
    rcases Classical.propComplete (pieceColor pc = c) with hc | hc <;>
    rcases type_cases (pieceType pc) with ⟨e4, e3, e5⟩ | ⟨e4, e3, e5⟩ |
      ⟨e4, e3, e5⟩ | ⟨e4, e3, e5⟩ <;>
    simp only [h0, hc, e4, e3, e5, not_true_eq_false, not_false_eq_true, true_and, and_true,
      false_and, and_false, true_or, or_true, false_or, or_false, if_true, if_false, and_self,
      or_self, List.nil_append, List.append_nil, List.append_assoc] <;>
    simp only [hR, hB]

/-- The packed `addSliding` is `addSliding`. -/
theorem fsliding_eq (st : BoardState) (p : FPos) (h : Rel st p) (rest : List Move) :
    addSliding st false ++ rest = fsliding p rest := by
  unfold addSliding fsliding
  simp only []
  refine (fpass_allSquares _ _ rest (fun s r hs => ?_)).symm
  rw [h.1 s, ← pieceAt_eq]
  exact slide_body (st.pieceAt s) st.sideToMove p.w h.2.1 _ _ r (frookAll p s)
    (fbishopAll p s) (frookAll_eq st p h s hs) (fbishopAll_eq st p h s hs)

theorem land_eq (a b : Nat) : Nat.land a b = a &&& b := rfl

theorem fcastles_eq (st : BoardState) (p : FPos) (h : Rel st p) (rest : List Move) :
    castleMoves st st.sideToMove ++ rest = fcastles p rest := by
  have hw := h.2.1
  have A : ∀ a : Nat, isSquareAttacked st (a : Int)
      (if st.sideToMove = WHITE then BLACK else WHITE) = fattacked p.q a (bnot p.w) := by
    intro a
    apply fattacked_eq st p.q a _ _ h.1
    rw [hw]
    cases st.sideToMove <;> rfl
  have P : ∀ a : Nat, st.pieceAt (a : Int) = fget p.q a := fun a => (h.1 a).symm
  have A2 := A 2; have A3 := A 3; have A4 := A 4; have A5 := A 5; have A6 := A 6
  have A58 := A 58; have A59 := A 59; have A60 := A 60; have A61 := A 61; have A62 := A 62
  have P1 := P 1; have P2 := P 2; have P3 := P 3; have P5 := P 5; have P6 := P 6
  have P57 := P 57; have P58 := P 58; have P59 := P 59; have P61 := P 61; have P62 := P 62
  have m1 := fmk_eq 4 6 1 0 (by decide) (by decide) (by decide) (by decide)
  have m2 := fmk_eq 4 2 1 0 (by decide) (by decide) (by decide) (by decide)
  have m3 := fmk_eq 60 62 1 0 (by decide) (by decide) (by decide) (by decide)
  have m4 := fmk_eq 60 58 1 0 (by decide) (by decide) (by decide) (by decide)
  simp only [Nat.cast_ofNat, Nat.cast_one] at A2 A3 A4 A5 A6 A58 A59 A60 A61 A62
  simp only [Nat.cast_ofNat, Nat.cast_one] at P1 P2 P3 P5 P6 P57 P58 P59 P61 P62
  simp only [Nat.cast_ofNat, Nat.cast_one] at m1 m2 m3 m4
  unfold castleMoves fcastles fcastle1
  simp only [A2, A3, A4, A5, A6, A58, A59, A60, A61, A62, P1, P2, P3, P5, P6, P57, P58, P59,
    P61, P62, m1, m2, m3, m4, FLAG_CASTLE, bsel_eq, band_eq, bnot_eq, nbeq_eq, land_eq,
    Bool.and_eq_true, decide_eq_true_eq, Bool.not_eq_true', decide_eq_false_iff_not, ne_eq,
    and_self_left, ← h.2.2.1, hw]
  cases st.sideToMove
  · simp only [decide_True, if_true, List.append_assoc]
    split_ifs <;> simp only [List.singleton_append, List.nil_append]
  · simp only [reduceCtorEq, decide_False, Bool.false_eq_true, if_false, List.append_assoc]
    split_ifs <;> simp only [List.singleton_append, List.nil_append]

theorem fkings_eq (st : BoardState) (p : FPos) (h : Rel st p) (rest : List Move) :
    addKingMoves st false ++ rest = fkings p rest := by
  unfold addKingMoves fkings
  simp only []
  refine (fpass_allSquares _ _ rest (fun s r hs => ?_)).symm
  rw [myPawn_eq st p h KING, pieceAt_eq, ← h.1 s, bsel_eq, nbeq_eq]
  simp only [decide_eq_true_eq, ne_eq, List.flatMap_cons, List.flatMap_nil, List.append_nil,
    List.append_assoc, KING, Bool.false_eq_true, if_false]
  by_cases hp : fget p.q s = fpc p.w 6
  · rw [if_pos hp, if_neg (not_not.2 hp)]
    simp only [List.append_assoc]
    rw [fcastles_eq st p h r,
      fkingMove_eq st p h s hs true 9 9 rfl, fkingMove_eq st p h s hs true 8 8 rfl,
      fkingMove_eq st p h s hs true 7 7 rfl, fkingMove_eq st p h s hs true 1 1 rfl,
      fkingMove_eq st p h s hs false 1 (-1) rfl, fkingMove_eq st p h s hs false 7 (-7) rfl,
      fkingMove_eq st p h s hs false 8 (-8) rfl,
      fkingMove_eq st p h s hs false 9 (-9) rfl]
  · rw [if_neg hp, if_pos hp]
    rfl

/-- The packed `generateMoves` is `generateMoves`. -/
theorem fgen_eq (b : Board) (p : FPos) (h : Rel b.state p) : generateMoves b = fgen p := by
  unfold generateMoves fgen
  rw [← fkings_eq b.state p h [], ← fsliding_eq b.state p h, ← fknights_eq b.state p h,
    ← fpawns_eq b.state p h]
  simp only [List.append_nil, List.append_assoc]

/-! ## The packed board: `perft` -/

theorem fsum_nil (cnt : FPos → Nat) (p : FPos) (acc : Nat) : fsum cnt p [] acc = acc := rfl

theorem fsum_cons (cnt : FPos → Nat) (p : FPos) (m : Move) (l : List Move) (acc : Nat) :
    fsum cnt p (m :: l) acc =
      fsum cnt p l (bsel (fcheck (fapply p m).q p.w) acc
        (Nat.mod (Nat.add acc (cnt (fapply p m))) 18446744073709551616)) := rfl

theorem fperft_zero (p : FPos) : fperft 0 p = 1 := rfl

theorem fperft_succ (d : Nat) (p : FPos) : fperft (d + 1) p = fsum (fperft d) p (fgen p) 0 :=
  rfl

/-- The packed legality test is the one of `makeMove`. -/
theorem fleaves_eq (Z : ZobristKeys) (st : BoardState) (p : FPos) (h : Rel st p) (m : Move) :
    leavesInCheck Z st m = fcheck (fapply p m).q p.w := by
  rw [leavesInCheck_eq]
  exact fcheck_eq _ _ _ _ (fapply_rel Z st p m h).1 h.2.1

theorem unmakeMove_of_cons (b : Board) (top : BoardState) (rest : List BoardState)
    (h : b.stateHistory = top :: rest) :
    (unmakeMove b).state = top ∧ (unmakeMove b).stateHistory = rest := by
  unfold unmakeMove
  rw [h]
  exact ⟨rfl, rfl⟩

theorem perft_succ (Z : ZobristKeys) (b : Board) (d : Nat) :
    perft Z b (d + 1) = (generateMoves b).foldl (perftStep Z d) (0, b) := by
  rw [perft]
  rfl

theorem perft_fold (Z : ZobristKeys) (d : Nat) (st : BoardState) (sh : List BoardState)
    (ih : ∀ b : Board, (perft Z b d).2.state = b.state ∧
      (perft Z b d).2.stateHistory = b.stateHistory ∧
      ∀ p, Rel b.state p → (perft Z b d).1 = fperft d p) :
    ∀ (l : List Move) (acc : Nat × Board), acc.2.state = st → acc.2.stateHistory = sh →
      (l.foldl (perftStep Z d) acc).2.state = st ∧
      (l.foldl (perftStep Z d) acc).2.stateHistory = sh ∧
      ∀ p, Rel st p → (l.foldl (perftStep Z d) acc).1 = fsum (fperft d) p l acc.1 := by
  intro l
  induction l with
  | nil =>
    intro acc h1 h2
    exact ⟨h1, h2, fun p _ => rfl⟩
  | cons m l ihl =>
    intro acc h1 h2
    rw [List.foldl_cons]
    have hs := makeMove_snd Z acc.2 m
    by_cases hr : (makeMove Z acc.2 m).2 = true
    · have hb := makeMove_fst_of_true Z acc.2 m hr
      have e : perftStep Z d acc m =
          ((acc.1 + (perft Z (makeMove Z acc.2 m).1 d).1) % 18446744073709551616,
            unmakeMove (perft Z (makeMove Z acc.2 m).1 d).2) := by
        unfold perftStep
        simp only [hr, if_true]
      obtain ⟨i1, i2, i3⟩ := ih (makeMove Z acc.2 m).1
      have hu := unmakeMove_of_cons (perft Z (makeMove Z acc.2 m).1 d).2 acc.2.state
        acc.2.stateHistory (by rw [i2, hb])
      obtain ⟨j1, j2, j3⟩ := ihl (perftStep Z d acc m) (by rw [e]; exact hu.1.trans h1)
        (by rw [e]; exact hu.2.trans h2)
      refine ⟨j1, j2, ?_⟩
      intro p hp
      rw [j3 p hp, fsum_cons, e]
      have hl : fcheck (fapply p m).q p.w = false := by
        rw [← fleaves_eq Z st p hp m, ← h1]
        rw [hr] at hs
        simpa using hs
      rw [hl, bsel_eq, if_neg (by simp)]
      have hc : (perft Z (makeMove Z acc.2 m).1 d).1 = fperft d (fapply p m) := by
        apply i3
        rw [hb]
        simp only []
        rw [h1]
        exact fapply_rel Z st p m hp
      rw [hc]
      rfl
    · have hr2 : (makeMove Z acc.2 m).2 = false := by simpa using hr
      have hb := makeMove_fst_of_false Z acc.2 m hr2
      have e : perftStep Z d acc m = (acc.1, (makeMove Z acc.2 m).1) := by
        unfold perftStep
        simp only [hr2, Bool.false_eq_true, if_false]
      obtain ⟨j1, j2, j3⟩ := ihl (perftStep Z d acc m) (by rw [e, hb]; exact h1)
        (by rw [e, hb]; exact h2)
      refine ⟨j1, j2, ?_⟩
      intro p hp
      rw [j3 p hp, fsum_cons, e]
      have hl : fcheck (fapply p m).q p.w = true := by
        rw [← fleaves_eq Z st p hp m, ← h1]
        rw [hr2] at hs
        simpa using hs
      rw [hl, bsel_eq, if_pos rfl]

/-- The packed `perft` is `perft`, and `perft` restores the state and the undo stack. -/
theorem perft_spec (Z : ZobristKeys) : ∀ (d : Nat) (b : Board),
    (perft Z b d).2.state = b.state ∧ (perft Z b d).2.stateHistory = b.stateHistory ∧
      ∀ p, Rel b.state p → (perft Z b d).1 = fperft d p := by
  intro d
  induction d with
  | zero =>
    intro b
    rw [perft]
    exact ⟨rfl, rfl, fun p _ => rfl⟩
  | succ d ih =>
    intro b
    rw [perft_succ]
    obtain ⟨a1, a2, a3⟩ := perft_fold Z d b.state b.stateHistory ih (generateMoves b) (0, b)
      rfl rfl
    refine ⟨a1, a2, ?_⟩
    intro p hp
    rw [a3 p hp, fperft_succ, fgen_eq b p hp]

theorem rel_of_check (st : BoardState) (p : FPos) (h : RelCheck st p) : Rel st p :=
  ⟨packs_of_check _ _ h.1 h.2.1, h.2.2.1, h.2.2.2.1, h.2.2.2.2⟩

theorem loadFields_keys (Z Z2 : ZobristKeys) (t : FenFields) :
    (loadFields Z t).map (fun b => (b.state.squares, b.state.sideToMove, b.state.castling,
        b.state.epSquare)) =
      (loadFields Z2 t).map (fun b => (b.state.squares, b.state.sideToMove, b.state.castling,
        b.state.epSquare)) := by
  unfold loadFields
  simp only []
  cases (if t.hm = [] then some (0 : Int) else stoi t.hm) <;>
    cases (if t.fm = [] then some (1 : Int) else stoi t.fm) <;>
    simp only [Option.map, recomputeZobrist_eq]

/-- The position read by `loadFEN` does not depend on the Zobrist keys. -/
theorem boardOfFEN_keys (Z Z2 : ZobristKeys) (fen : String) (p : FPos)
    (h : Rel (boardOfFEN Z2 fen).state p) : Rel (boardOfFEN Z fen).state p := by
  have e := loadFields_keys Z Z2 (readFields fen.toList)
  unfold boardOfFEN loadFEN loadFENChars at h ⊢
  cases h1 : loadFields Z (readFields fen.toList) <;>
    cases h2 : loadFields Z2 (readFields fen.toList) <;>
    rw [h1, h2] at e <;> rw [h2] at h
  · exact h
  · simp [Option.map] at e
  · simp [Option.map] at e
  · simp only [Option.map, Option.some.injEq, Prod.mk.injEq] at e
    simp only [Option.getD] at h ⊢
    unfold Rel at h ⊢
    rw [e.1, e.2.1, e.2.2.1, e.2.2.2]
    exact h

set_option maxRecDepth 1000000 in
theorem startPos_rel : RelCheck (boardOfFEN sampleKeys startFEN).state startPos := by decide!

set_option maxRecDepth 1000000 in
theorem kiwipetePos_rel : RelCheck (boardOfFEN sampleKeys kiwipeteFEN).state kiwipetePos := by
  decide!

set_option maxRecDepth 1000000 in
theorem endgamePos_rel : RelCheck (boardOfFEN sampleKeys endgameFEN).state endgamePos := by
  decide!

/-- The count of `perft` on a position read by `loadFEN` is the packed count. -/
theorem perft_of_fen (Z : ZobristKeys) (fen : String) (p : FPos) (d : Nat)
    (h : RelCheck (boardOfFEN sampleKeys fen).state p) :
    (perft Z (boardOfFEN Z fen) d).1 = fperft d p :=
  (perft_spec Z d (boardOfFEN Z fen)).2.2 p
    (boardOfFEN_keys Z sampleKeys fen p (rel_of_check _ _ h))

set_option maxRecDepth 1000000 in
theorem fperft_depth1 :
    fperft 1 startPos = 20 ∧ fperft 1 kiwipetePos = 48 ∧ fperft 1 endgamePos = 14 := by
  decide!

/-- The loop of `perft` over a list in two parts. -/
theorem fsum_append (cnt : FPos → Nat) (p : FPos) (l1 l2 : List Move) (acc : Nat) :
    fsum cnt p (l1 ++ l2) acc = fsum cnt p l2 (fsum cnt p l1 acc) := by
  induction l1 generalizing acc with
  | nil => rfl
  | cons m l ih => exact ih _

/-- The moves of `fgen` at `startPos`, in groups of 2. -/
theorem start3_gen :
    fgen startPos =
      [⟨1032⟩, ⟨1544⟩] ++ [⟨1097⟩, ⟨1609⟩] ++ [⟨1162⟩, ⟨1674⟩] ++ [⟨1227⟩, ⟨1739⟩] ++ [⟨1292⟩,
      ⟨1804⟩] ++ [⟨1357⟩, ⟨1869⟩] ++ [⟨1422⟩, ⟨1934⟩] ++ [⟨1487⟩, ⟨1999⟩] ++ [⟨1025⟩, ⟨1153⟩] ++
      [⟨1350⟩, ⟨1478⟩] := by
  decide!

set_option maxRecDepth 1000000 in
theorem start3_part1 :
    fsum (fperft 2) startPos
      [⟨1032⟩, ⟨1544⟩] 0 = 800 := by
  decide!

set_option maxRecDepth 1000000 in
theorem start3_part2 :
    fsum (fperft 2) startPos
      [⟨1097⟩, ⟨1609⟩] 800 = 1641 := by
  decide!

set_option maxRecDepth 1000000 in
theorem start3_part3 :
    fsum (fperft 2) startPos
      [⟨1162⟩, ⟨1674⟩] 1641 = 2502 := by
  decide!

set_option maxRecDepth 1000000 in
theorem start3_part4 :
    fsum (fperft 2) startPos
      [⟨1227⟩, ⟨1739⟩] 2502 = 3601 := by
  decide!

set_option maxRecDepth 1000000 in
theorem start3_part5 :
    fsum (fperft 2) startPos
      [⟨1292⟩, ⟨1804⟩] 3601 = 4800 := by
  decide!

set_option maxRecDepth 1000000 in
theorem start3_part6 :
    fsum (fperft 2) startPos
      [⟨1357⟩, ⟨1869⟩] 4800 = 5581 := by
  decide!

set_option maxRecDepth 1000000 in
theorem start3_part7 :
    fsum (fperft 2) startPos
      [⟨1422⟩, ⟨1934⟩] 5581 = 6422 := by
  decide!

set_option maxRecDepth 1000000 in
theorem start3_part8 :
    fsum (fperft 2) startPos
      [⟨1487⟩, ⟨1999⟩] 6422 = 7222 := by
  decide!

set_option maxRecDepth 1000000 in
theorem start3_part9 :
    fsum (fperft 2) startPos
      [⟨1025⟩, ⟨1153⟩] 7222 = 8062 := by
  decide!

set_option maxRecDepth 1000000 in
theorem start3_part10 :
    fsum (fperft 2) startPos
      [⟨1350⟩, ⟨1478⟩] 8062 = 8902 := by
  decide!

theorem start3_total : fperft 3 startPos = 8902 := by
  rw [show fperft 3 startPos = fsum (fperft 2) startPos (fgen startPos) 0 from fperft_succ 2 startPos,
    start3_gen]
  simp only [fsum_append]
  rw [start3_part1, start3_part2, start3_part3, start3_part4, start3_part5, start3_part6,
    start3_part7, start3_part8, start3_part9, start3_part10]

/-- The moves of `fgen` at `kiwipetePos`, in groups of 12. -/
theorem kiwipete2_gen :
    fgen kiwipetePos =
      [⟨1032⟩, ⟨1544⟩, ⟨1097⟩, ⟨1486⟩, ⟨1422⟩, ⟨1934⟩, ⟨2851⟩, ⟨2787⟩, ⟨82⟩, ⟨210⟩, ⟨1554⟩,
      ⟨2130⟩] ++ [⟨1252⟩, ⟨1700⟩, ⟨1956⟩, ⟨2724⟩, ⟨2980⟩, ⟨3300⟩, ⟨3428⟩, ⟨64⟩, ⟨128⟩, ⟨192⟩,
      ⟨391⟩, ⟨327⟩] ++ [⟨1291⟩, ⟨1867⟩, ⟨2443⟩, ⟨3019⟩, ⟨139⟩, ⟨204⟩, ⟨1228⟩, ⟨1676⟩, ⟨2124⟩,
      ⟨2572⟩, ⟨332⟩, ⟨1429⟩] ++ [⟨1493⟩, ⟨1301⟩, ⟨1237⟩, ⟨1877⟩, ⟨2389⟩, ⟨2901⟩, ⟨1941⟩, ⟨2517⟩,
      ⟨196⟩, ⟨324⟩, ⟨4484⟩, ⟨4228⟩] := by
  decide!

set_option maxRecDepth 1000000 in
theorem kiwipete2_part1 :
    fsum (fperft 1) kiwipetePos
      [⟨1032⟩, ⟨1544⟩, ⟨1097⟩, ⟨1486⟩, ⟨1422⟩, ⟨1934⟩, ⟨2851⟩, ⟨2787⟩, ⟨82⟩, ⟨210⟩, ⟨1554⟩,
      ⟨2130⟩] 0 = 509 := by
  decide!

set_option maxRecDepth 1000000 in
theorem kiwipete2_part2 :
    fsum (fperft 1) kiwipetePos
      [⟨1252⟩, ⟨1700⟩, ⟨1956⟩, ⟨2724⟩, ⟨2980⟩, ⟨3300⟩, ⟨3428⟩, ⟨64⟩, ⟨128⟩, ⟨192⟩, ⟨391⟩, ⟨327⟩] 509 = 1025 := by
  decide!

set_option maxRecDepth 1000000 in
theorem kiwipete2_part3 :
    fsum (fperft 1) kiwipetePos
      [⟨1291⟩, ⟨1867⟩, ⟨2443⟩, ⟨3019⟩, ⟨139⟩, ⟨204⟩, ⟨1228⟩, ⟨1676⟩, ⟨2124⟩, ⟨2572⟩, ⟨332⟩,
      ⟨1429⟩] 1025 = 1526 := by
  decide!

set_option maxRecDepth 1000000 in
theorem kiwipete2_part4 :
    fsum (fperft 1) kiwipetePos
      [⟨1493⟩, ⟨1301⟩, ⟨1237⟩, ⟨1877⟩, ⟨2389⟩, ⟨2901⟩, ⟨1941⟩, ⟨2517⟩, ⟨196⟩, ⟨324⟩, ⟨4484⟩,
      ⟨4228⟩] 1526 = 2039 := by
  decide!

theorem kiwipete2_total : fperft 2 kiwipetePos = 2039 := by
  rw [show fperft 2 kiwipetePos = fsum (fperft 1) kiwipetePos (fgen kiwipetePos) 0 from fperft_succ 1 kiwipetePos,
    kiwipete2_gen]
  simp only [fsum_append]
  rw [kiwipete2_part1, kiwipete2_part2, kiwipete2_part3, kiwipete2_part4]

set_option maxRecDepth 1000000 in
theorem start2_total : fperft 2 startPos = 400 := by
  decide!

set_option maxRecDepth 1000000 in
theorem endgame2_total : fperft 2 endgamePos = 191 := by
  decide!

theorem fperft_depth2 :
    fperft 2 startPos = 400 ∧ fperft 2 kiwipetePos = 2039 ∧ fperft 2 endgamePos = 191 :=
  ⟨start2_total, kiwipete2_total, endgame2_total⟩

theorem fperft_depth3 : fperft 3 startPos = 8902 := start3_total

/-- C9: `perft` at depth 1 returns 20 for the standard start position, 48 for
`r3k2r/p1ppqpb1/bn2pnp1/3PN3/1p2P3/2N2Q1p/PPPBBPPP/R3K2R w KQkq - 0 1` and 14 for
`8/2p5/3p4/KP5r/1R3p1k/8/4P1P1/8 w - - 0 1`, whatever the Zobrist keys are. -/
theorem perft_depth1 (Z : ZobristKeys) :
    (perft Z (boardOfFEN Z startFEN) 1).1 = 20 ∧
    (perft Z (boardOfFEN Z kiwipeteFEN) 1).1 = 48 ∧
    (perft Z (boardOfFEN Z endgameFEN) 1).1 = 14 := by
  rw [perft_of_fen Z startFEN startPos 1 startPos_rel,
    perft_of_fen Z kiwipeteFEN kiwipetePos 1 kiwipetePos_rel,
    perft_of_fen Z endgameFEN endgamePos 1 endgamePos_rel]
  exact fperft_depth1

/-- C10: `perft` at depth 2 returns 400 for the standard start position, 2039 for
`r3k2r/p1ppqpb1/bn2pnp1/3PN3/1p2P3/2N2Q1p/PPPBBPPP/R3K2R w KQkq - 0 1` and 191 for
`8/2p5/3p4/KP5r/1R3p1k/8/4P1P1/8 w - - 0 1`, whatever the Zobrist keys are. -/
theorem perft_depth2 (Z : ZobristKeys) :
    (perft Z (boardOfFEN Z startFEN) 2).1 = 400 ∧
    (perft Z (boardOfFEN Z kiwipeteFEN) 2).1 = 2039 ∧
    (perft Z (boardOfFEN Z endgameFEN) 2).1 = 191 := by
  rw [perft_of_fen Z startFEN startPos 2 startPos_rel,
    perft_of_fen Z kiwipeteFEN kiwipetePos 2 kiwipetePos_rel,
    perft_of_fen Z endgameFEN endgamePos 2 endgamePos_rel]
  exact fperft_depth2

/-- C11: `perft` of the standard start position at depth 3 returns 8902, whatever the
Zobrist keys are. -/
theorem perft_start_depth3 (Z : ZobristKeys) :
    (perft Z (boardOfFEN Z startFEN) 3).1 = 8902 := by
  rw [perft_of_fen Z startFEN startPos 3 startPos_rel]
  exact fperft_depth3

/-! ## perft and generateLegalMoves as functions of the position -/

theorem generateMoves_congr (b c : Board) (h : b.state = c.state) :
    generateMoves b = generateMoves c := by
  unfold generateMoves
  rw [h]

/-- The loop of `perft` from two boards with the same state counts the same. -/
theorem perft_fold_congr (Z : ZobristKeys) (d : Nat)
    (ih : ∀ b c : Board, b.state = c.state → (perft Z b d).1 = (perft Z c d).1) :
    ∀ (l : List Move) (acc acc2 : Nat × Board), acc.1 = acc2.1 → acc.2.state = acc2.2.state →
      (l.foldl (perftStep Z d) acc).1 = (l.foldl (perftStep Z d) acc2).1 := by
  intro l
  induction l with
  | nil => intro acc acc2 h1 _; exact h1
  | cons m l ihl =>
    intro acc acc2 h1 h2
    rw [List.foldl_cons, List.foldl_cons]
    have hs := makeMove_snd Z acc.2 m
    have hs2 := makeMove_snd Z acc2.2 m
    rw [h2] at hs
    by_cases hr : (makeMove Z acc.2 m).2 = true
    · have hr2 : (makeMove Z acc2.2 m).2 = true := by rw [hs2, ← hs]; exact hr
      have hb := makeMove_fst_of_true Z acc.2 m hr
      have hb2 := makeMove_fst_of_true Z acc2.2 m hr2
      have e : perftStep Z d acc m =
          ((acc.1 + (perft Z (makeMove Z acc.2 m).1 d).1) % 18446744073709551616,
            unmakeMove (perft Z (makeMove Z acc.2 m).1 d).2) := by
        unfold perftStep
        simp only [hr, if_true]
      have e2 : perftStep Z d acc2 m =
          ((acc2.1 + (perft Z (makeMove Z acc2.2 m).1 d).1) % 18446744073709551616,
            unmakeMove (perft Z (makeMove Z acc2.2 m).1 d).2) := by
        unfold perftStep
        simp only [hr2, if_true]
      obtain ⟨i1, i2, -⟩ := perft_spec Z d (makeMove Z acc.2 m).1
      obtain ⟨k1, k2, -⟩ := perft_spec Z d (makeMove Z acc2.2 m).1
      have hu := unmakeMove_of_cons (perft Z (makeMove Z acc.2 m).1 d).2 acc.2.state
        acc.2.stateHistory (by rw [i2, hb])
      have hu2 := unmakeMove_of_cons (perft Z (makeMove Z acc2.2 m).1 d).2 acc2.2.state
        acc2.2.stateHistory (by rw [k2, hb2])
      have hp : (perft Z (makeMove Z acc.2 m).1 d).1 = (perft Z (makeMove Z acc2.2 m).1 d).1 :=
        ih _ _ (by rw [hb, hb2, h2])
      apply ihl
      · rw [e, e2]
        show (acc.1 + _) % _ = (acc2.1 + _) % _
        rw [h1, hp]
      · rw [e, e2]
        exact hu.1.trans (h2.trans hu2.1.symm)
    · have hr1 : (makeMove Z acc.2 m).2 = false := by simpa using hr
      have hr2 : (makeMove Z acc2.2 m).2 = false := by rw [hs2, ← hs]; exact hr1
      have hb := makeMove_fst_of_false Z acc.2 m hr1
      have hb2 := makeMove_fst_of_false Z acc2.2 m hr2
      have e : perftStep Z d acc m = (acc.1, (makeMove Z acc.2 m).1) := by
        unfold perftStep
        simp only [hr1, Bool.false_eq_true, if_false]
      have e2 : perftStep Z d acc2 m = (acc2.1, (makeMove Z acc2.2 m).1) := by
        unfold perftStep
        simp only [hr2, Bool.false_eq_true, if_false]
      apply ihl
      · rw [e, e2]; exact h1
      · rw [e, e2, hb, hb2]; exact h2

/-- The count of `perft` depends on the state of the board only (not on the move history
or the undo stack). -/
theorem perft_congr (Z : ZobristKeys) : ∀ (d : Nat) (b c : Board), b.state = c.state →
    (perft Z b d).1 = (perft Z c d).1 := by
  intro d
  induction d with
  | zero => intro b c _; rw [perft, perft]
  | succ d ih =>
    intro b c h
    rw [perft_succ, perft_succ, generateMoves_congr b c h]
    exact perft_fold_congr Z d ih _ _ _ rfl h

/-- The loop of `perft` adds, modulo `2^64`, the counts of the moves that can be made. -/
theorem perft_fold_sum (Z : ZobristKeys) (d : Nat) (b : Board) :
    ∀ (l : List Move) (acc : Nat × Board), acc.2.state = b.state →
      (l.foldl (perftStep Z d) acc).1 % 18446744073709551616 =
        (acc.1 + ((l.filter (fun m => (makeMove Z b m).2)).map
          (fun m => (perft Z (makeMove Z b m).1 d).1)).sum) % 18446744073709551616 := by
  intro l
  induction l with
  | nil => intro acc _; simp
  | cons m l ihl =>
    intro acc h2
    rw [List.foldl_cons]
    have hs := makeMove_snd Z acc.2 m
    have hs2 := makeMove_snd Z b m
    rw [h2] at hs
    by_cases hr : (makeMove Z acc.2 m).2 = true
    · have hr2 : (makeMove Z b m).2 = true := by rw [hs2, ← hs]; exact hr
      have hb := makeMove_fst_of_true Z acc.2 m hr
      have hb2 := makeMove_fst_of_true Z b m hr2
      have e : perftStep Z d acc m =
          ((acc.1 + (perft Z (makeMove Z acc.2 m).1 d).1) % 18446744073709551616,
            unmakeMove (perft Z (makeMove Z acc.2 m).1 d).2) := by
        unfold perftStep
        simp only [hr, if_true]
      obtain ⟨i1, i2, -⟩ := perft_spec Z d (makeMove Z acc.2 m).1
      have hu := unmakeMove_of_cons (perft Z (makeMove Z acc.2 m).1 d).2 acc.2.state
        acc.2.stateHistory (by rw [i2, hb])
      have hp : (perft Z (makeMove Z acc.2 m).1 d).1 = (perft Z (makeMove Z b m).1 d).1 :=
        perft_congr Z d _ _ (by rw [hb, hb2, h2])
      rw [ihl (perftStep Z d acc m) (by rw [e]; exact hu.1.trans h2), e]
      rw [List.filter_cons, if_pos hr2, List.map_cons, List.sum_cons, hp]
      show ((acc.1 + _) % 18446744073709551616 + _) % _ = _
      omega
    · have hr1 : (makeMove Z acc.2 m).2 = false := by simpa using hr
      have hr2 : (makeMove Z b m).2 = false := by rw [hs2, ← hs]; exact hr1
      have hb := makeMove_fst_of_false Z acc.2 m hr1
      have e : perftStep Z d acc m = (acc.1, (makeMove Z acc.2 m).1) := by
        unfold perftStep
        simp only [hr1, Bool.false_eq_true, if_false]
      rw [ihl (perftStep Z d acc m) (by rw [e, hb]; exact h2), e]
      rw [List.filter_cons, if_neg (by rw [hr2]; exact Bool.false_ne_true)]

/-- The count of `perft` is below `2^64`. -/
theorem perft_lt (Z : ZobristKeys) (b : Board) (d : Nat) :
    (perft Z b d).1 < 18446744073709551616 := by
  cases d with
  | zero =>
    rw [perft]
    show 1 < 18446744073709551616
    omega
  | succ d =>
    rw [perft_succ]
    have h : ∀ (l : List Move) (acc : Nat × Board), acc.1 < 18446744073709551616 →
        (l.foldl (perftStep Z d) acc).1 < 18446744073709551616 := by
      intro l
      induction l with
      | nil => intro acc h; exact h
      | cons m l ihl =>
        intro acc h
        rw [List.foldl_cons]
        apply ihl
        unfold perftStep
        by_cases hr : (makeMove Z acc.2 m).2 = true
        · simp only [hr, if_true]
          exact Nat.mod_lt _ (by omega)
        · simp only [hr, if_false]
          exact h
    exact h _ _ (show 0 < 18446744073709551616 by omega)

/-- C12: `perft(P, 0)` is 1; for a depth `d + 1`, `perft(P, d + 1)` is the sum, over the
moves `m` of `generateLegalMoves(P)`, of `perft(P', d)` where `P'` is `P` after
`makeMove(m)`. The sum is accumulated in a `uint64_t`: the equality holds modulo `2^64`,
and exactly whenever the sum is below `2^64`. `perft` leaves the state of `P` (and its
undo stack) unchanged. -/
theorem perft_recurrence (Z : ZobristKeys) (b : Board) (d : Nat) :
    (perft Z b 0).1 = 1 ∧
    (perft Z b (d + 1)).1 =
      ((generateLegalMoves Z b).1.map (fun m => (perft Z (makeMove Z b m).1 d).1)).sum
        % 18446744073709551616 ∧
    (((generateLegalMoves Z b).1.map (fun m => (perft Z (makeMove Z b m).1 d).1)).sum
        < 18446744073709551616 →
      (perft Z b (d + 1)).1 =
        ((generateLegalMoves Z b).1.map (fun m => (perft Z (makeMove Z b m).1 d).1)).sum) ∧
    (perft Z b d).2.state = b.state ∧ (perft Z b d).2.stateHistory = b.stateHistory := by
  have h0 : (perft Z b 0).1 = 1 := by rw [perft]
  have h1 : (perft Z b (d + 1)).1 =
      ((generateLegalMoves Z b).1.map (fun m => (perft Z (makeMove Z b m).1 d).1)).sum
        % 18446744073709551616 := by
    have hl := perft_lt Z b (d + 1)
    have hs := perft_fold_sum Z d b (generateMoves b) (0, b) rfl
    rw [← perft_succ, Nat.mod_eq_of_lt hl] at hs
    rw [hs, generateLegalMoves_eq_filter]
    simp only [Nat.zero_add]
  refine ⟨h0, h1, ?_, (perft_spec Z d b).1, (perft_spec Z d b).2.1⟩
  intro hlt
  rw [h1, Nat.mod_eq_of_lt hlt]

/-- C13: `generateLegalMoves(P)` returns exactly the moves `m` of `generateMoves(P)`, in
the same order, for which `makeMove(m)` returns true (so its length is the number of such
moves), and after it returns the state of `P` (squares, side to move, castling mask, ep
square, clocks, zobrist key) and its undo stack are unchanged. -/
theorem generateLegalMoves_spec (Z : ZobristKeys) (b : Board) :
    (generateLegalMoves Z b).1 = (generateMoves b).filter (fun m => (makeMove Z b m).2) ∧
    (generateLegalMoves Z b).1.length =
      (generateMoves b).countP (fun m => (makeMove Z b m).2) ∧
    (generateLegalMoves Z b).2.state = b.state ∧
    (generateLegalMoves Z b).2.stateHistory = b.stateHistory := by
  have h := generateLegalMoves_eq_filter Z b
  have f := legalFold_frame Z (generateMoves b) ([], b)
  refine ⟨h, ?_, ?_, ?_⟩
  · rw [h, List.countP_eq_length_filter]
  · unfold generateLegalMoves
    exact f.1
  · unfold generateLegalMoves
    exact f.2.1

/-! ## Draw detection and the halfmove clock -/

/-- C18: `isDraw()` is true if and only if `halfmove >= 100`, or the repetition count of
the current zobrist key is at least 3, or the board has no pawns, rooks or queens and the
minor pieces are none at all, or exactly one bishop or exactly one knight for one side and
none for the other. In particular, when neither the clock nor the repetition rule applies,
a board with two or more minor pieces is not a draw. -/
theorem isDraw_iff (b : Board) :
    (isDraw b = true ↔
      b.state.halfmove ≥ 100 ∨ repetitionCount b ≥ 3 ∨
      (NoHeavyOrPawn b.state ∧
        (NoMinor b.state ∨ LoneMinor b.state WHITE BLACK ∨ LoneMinor b.state BLACK WHITE))) ∧
    (b.state.halfmove < 100 → repetitionCount b < 3 →
      countPiece b.state WHITE KNIGHT + countPiece b.state WHITE BISHOP +
        countPiece b.state BLACK KNIGHT + countPiece b.state BLACK BISHOP ≥ 2 →
      isDraw b = false) := by
  unfold isDraw NoHeavyOrPawn NoMinor LoneMinor
  simp only []
  by_cases h1 : b.state.halfmove ≥ 100
  · simp only [h1, if_true, true_or, true_and]
    intro h
    omega
  by_cases h2 : repetitionCount b ≥ 3
  · simp only [h2, if_true, true_or, or_true, ite_self, true_and]
    intro _ h
    omega
  simp only [h1, h2, if_false, false_or]
  constructor
  · split_ifs <;> simp only [Bool.false_eq_true, false_iff, true_iff] <;> omega
  · intro _ _ h
    split_ifs <;> first | rfl | omega

theorem mvSide_halfmove (Z : ZobristKeys) (st : BoardState) :
    (mvSide Z st).halfmove = st.halfmove := by
  unfold mvSide
  cases h : st.sideToMove <;> simp

theorem mvCastling_halfmove (Z : ZobristKeys) (st : BoardState) (from_ to_ : Int) :
    (mvCastling Z st from_ to_).halfmove = st.halfmove := by
  unfold mvCastling
  simp only [apply_ite BoardState.halfmove, ite_self]

theorem mvEpSquare_halfmove (Z : ZobristKeys) (st : BoardState) (pc : Nat) (from_ to_ : Int) :
    (mvEpSquare Z st pc from_ to_).halfmove = st.halfmove := by
  unfold mvEpSquare
  by_cases h : pieceType pc = PAWN ∧ cabs (to_ - from_) = 16 <;> simp [h]

theorem mvPiece_halfmove (Z : ZobristKeys) (st : BoardState) (m : Move) (pc cap : Nat) :
    (mvPiece Z st m pc cap).halfmove = st.halfmove := by
  unfold mvPiece
  by_cases h : m.flags = FLAG_PROMO <;> simp [h]

theorem mvSpecial_halfmove (Z : ZobristKeys) (st : BoardState) (fl : Nat) (to_ : Int) :
    (if fl = FLAG_EP then mvEnPassant Z st to_
      else if fl = FLAG_CASTLE then mvCastleRook Z st to_ else st).halfmove = st.halfmove := by
  by_cases h1 : fl = FLAG_EP
  · simp only [h1, if_true]; rfl
  · by_cases h2 : fl = FLAG_CASTLE
    · simp only [h1, h2, if_true, if_false]; rfl
    · simp only [h1, h2, if_false]

theorem mvClocks_halfmove (st : BoardState) (pc cap : Nat) :
    (mvClocks st pc cap).halfmove =
      if cap ≠ 0 ∨ pieceType pc = PAWN then 0 else st.halfmove + 1 := by
  unfold mvClocks
  by_cases h : cap ≠ 0 ∨ pieceType pc = PAWN <;> simp [h]

/-- The halfmove clock after the update of `makeMove`. -/
theorem applyMove_halfmove (Z : ZobristKeys) (st : BoardState) (m : Move) :
    (applyMove Z st m).halfmove =
      if st.pieceAt m.to_ ≠ 0 ∨ pieceType (st.pieceAt m.from_) = PAWN then 0
      else st.halfmove + 1 := by
  unfold applyMove
  simp only [mvSide_halfmove, mvCastling_halfmove, mvEpSquare_halfmove, mvPiece_halfmove,
    mvSpecial_halfmove, mvClocks_halfmove]
  have e : ∀ s, (mvOldKeys Z (mvHeader st m)).pieceAt s = st.pieceAt s := by
    intro s
    rw [pieceAt_eq, pieceAt_eq, (mvOldKeys_fields _ _).1, (mvHeader_fields _ _).1]
  have e2 : (mvOldKeys Z (mvHeader st m)).halfmove = st.halfmove := by
    unfold mvOldKeys mvHeader
    by_cases h : st.epSquare ≠ NO_SQ <;> simp [h]
  rw [e, e, e2]

theorem quietRun_halfmove (Z : ZobristKeys) : ∀ (ms : List Move) (b c : Board),
    quietRun Z b ms = some c → c.state.halfmove = b.state.halfmove + ms.length := by
  intro ms
  induction ms with
  | nil =>
    intro b c h
    simp only [quietRun, Option.some.injEq] at h
    subst h
    simp
  | cons m ms ih =>
    intro b c h
    rw [quietRun] at h
    split_ifs at h with hc
    have h2 := ih _ _ h
    rw [h2, makeMove_fst_of_true Z b m hc.1]
    simp only [applyMove_halfmove]
    rw [if_neg (by simp only [not_or, not_not]; exact ⟨hc.2.1, hc.2.2.2⟩)]
    simp only [List.length_cons]
    push_cast
    omega

theorem isDraw_of_halfmove (b : Board) (h : b.state.halfmove ≥ 100) : isDraw b = true := by
  unfold isDraw
  rw [if_pos h]

/-- C20: a successful `makeMove` that neither captures a piece nor moves a pawn increases
`halfmove` by exactly 1; one that captures or moves a pawn (an en passant capture is a pawn
move) sets `halfmove` to 0. Hence a run of `n` successful non-capturing non-pawn moves adds
`n` to `halfmove`, and from a position whose `halfmove` is 0 a run of 100 such moves ends
with `halfmove = 100` and `isDraw()` true. -/
theorem halfmove_clock (Z : ZobristKeys) :
    (∀ (b : Board) (m : Move), (makeMove Z b m).2 = true → b.state.pieceAt m.to_ = 0 →
      pieceType (b.state.pieceAt m.from_) ≠ PAWN →
      (makeMove Z b m).1.state.halfmove = b.state.halfmove + 1) ∧
    (∀ (b : Board) (m : Move), (makeMove Z b m).2 = true →
      (b.state.pieceAt m.to_ ≠ 0 ∨ pieceType (b.state.pieceAt m.from_) = PAWN) →
      (makeMove Z b m).1.state.halfmove = 0) ∧
    (∀ (b : Board) (m : Move), (makeMove Z b m).2 = true → m ∈ generateMoves b →
      m.flags = FLAG_EP → (makeMove Z b m).1.state.halfmove = 0) ∧
    (∀ (b : Board) (ms : List Move) (c : Board), quietRun Z b ms = some c →
      c.state.halfmove = b.state.halfmove + ms.length ∧
      (b.state.halfmove + ms.length ≥ 100 → isDraw c = true)) ∧
    (∀ (b : Board) (ms : List Move) (c : Board), b.state.halfmove = 0 → ms.length = 100 →
      quietRun Z b ms = some c → c.state.halfmove = 100 ∧ isDraw c = true) := by
  have hcap : ∀ (b : Board) (m : Move), (makeMove Z b m).2 = true →
      (b.state.pieceAt m.to_ ≠ 0 ∨ pieceType (b.state.pieceAt m.from_) = PAWN) →
      (makeMove Z b m).1.state.halfmove = 0 := by
    intro b m h hc
    rw [makeMove_fst_of_true Z b m h]
    simp only [applyMove_halfmove]
    rw [if_pos hc]
  have hrun : ∀ (b : Board) (ms : List Move) (c : Board), quietRun Z b ms = some c →
      c.state.halfmove = b.state.halfmove + ms.length ∧
      (b.state.halfmove + ms.length ≥ 100 → isDraw c = true) := by
    intro b ms c h
    have e := quietRun_halfmove Z ms b c h
    exact ⟨e, fun hge => isDraw_of_halfmove c (by rw [e]; exact hge)⟩
  refine ⟨?_, hcap, ?_, hrun, ?_⟩
  · intro b m h h1 h2
    rw [makeMove_fst_of_true Z b m h]
    simp only [applyMove_halfmove]
    rw [if_neg (by simp only [not_or, not_not]; exact ⟨h1, h2⟩)]
  · intro b m h hm hf
    apply hcap b m h
    right
    obtain ⟨s, t, fl, p, rfl, hs0, hs, ht0, ht, hst, hcase⟩ := generateMoves_facts b m hm
    have hfl : fl ≤ 3 := by
      rcases hcase with h | h | h | h <;> rw [h.1] <;> decide
    have hp : p ≤ 3 := by
      rcases hcase with h | h | h | h <;> omega
    obtain ⟨e1, -, e3, -⟩ := Move.new_fields s t fl p hs0 hs ht0 ht hfl hp
    rw [e3] at hf
    rw [e1]
    rcases hcase with h | h | h | h
    · rw [h.1] at hf; exact absurd hf (by decide)
    · rw [h.1] at hf; exact absurd hf (by decide)
    · rw [h.2.2.1]
      cases b.state.sideToMove <;> decide
    · rw [h.1] at hf; exact absurd hf (by decide)
  · intro b ms c h0 hl h
    obtain ⟨e, hd⟩ := hrun b ms c h
    rw [h0, hl] at e hd
    exact ⟨by rw [e]; rfl, hd (by decide)⟩

set_option maxRecDepth 1000000 in
theorem halfmove_clock_witness :
    (makeMove sampleKeys (boardOfFEN sampleKeys startFEN) (Move.new 6 21 0 0)).1.state.halfmove =
      (boardOfFEN sampleKeys startFEN).state.halfmove + 1 ∧
    (makeMove sampleKeys (boardOfFEN sampleKeys startFEN) (Move.new 12 28 0 0)).1.state.halfmove
      = 0 ∧
    (makeMove sampleKeys (boardOfFEN sampleKeys "4k3/8/8/3pP3/8/8/8/4K3 w - d6 7 1")
      (Move.new 36 43 2 0)).1.state.halfmove = 0 ∧
    (∃ c, quietRun sampleKeys
        (boardOfFEN sampleKeys "rnbqkbnr/pppppppp/8/8/8/8/PPPPPPPP/RNBQKBNR w KQkq - 99 1")
        [Move.new 6 21 0 0] = some c ∧ c.state.halfmove = 99 + 1 ∧ isDraw c = true) :=
  ⟨(halfmove_clock sampleKeys).1 (boardOfFEN sampleKeys startFEN) (Move.new 6 21 0 0)
      (by decide!) (by decide!) (by decide!),
    (halfmove_clock sampleKeys).2.1 (boardOfFEN sampleKeys startFEN) (Move.new 12 28 0 0)
      (by decide!) (by decide!),
    (halfmove_clock sampleKeys).2.2.1
      (boardOfFEN sampleKeys "4k3/8/8/3pP3/8/8/8/4K3 w - d6 7 1") (Move.new 36 43 2 0)
      (by decide!) (by decide!) (by decide!),
    match h : quietRun sampleKeys
        (boardOfFEN sampleKeys "rnbqkbnr/pppppppp/8/8/8/8/PPPPPPPP/RNBQKBNR w KQkq - 99 1")
        [Move.new 6 21 0 0] with
    | some c =>
      have hw := (halfmove_clock sampleKeys).2.2.2.1 _ _ c h
      have h99 : (boardOfFEN sampleKeys
          "rnbqkbnr/pppppppp/8/8/8/8/PPPPPPPP/RNBQKBNR w KQkq - 99 1").state.halfmove = 99 := by
        decide!
      ⟨c, rfl, by rw [hw.1, h99]; rfl, hw.2 (by rw [h99]; decide)⟩
    | none =>
      have hs : (quietRun sampleKeys
          (boardOfFEN sampleKeys "rnbqkbnr/pppppppp/8/8/8/8/PPPPPPPP/RNBQKBNR w KQkq - 99 1")
          [Move.new 6 21 0 0]).isSome = true := by decide!
      absurd hs (by rw [h]; decide)⟩

/-! ## Threefold repetition -/

theorem loadFields_clock (Z Z2 : ZobristKeys) (t : FenFields) :
    (loadFields Z t).map (fun b => (b.state.halfmove, b.state.epSquare, b.stateHistory)) =
      (loadFields Z2 t).map (fun b => (b.state.halfmove, b.state.epSquare, b.stateHistory)) := by
  unfold loadFields
  simp only []
  cases (if t.hm = [] then some (0 : Int) else stoi t.hm) <;>
    cases (if t.fm = [] then some (1 : Int) else stoi t.fm) <;>
    simp only [Option.map, recomputeZobrist_eq]

/-- The clock, the ep square and the undo stack after `loadFEN` do not depend on the keys. -/
theorem boardOfFEN_clock (Z Z2 : ZobristKeys) (fen : String) :
    (boardOfFEN Z fen).state.halfmove = (boardOfFEN Z2 fen).state.halfmove ∧
    (boardOfFEN Z fen).state.epSquare = (boardOfFEN Z2 fen).state.epSquare ∧
    (boardOfFEN Z fen).stateHistory = (boardOfFEN Z2 fen).stateHistory := by
  have e := loadFields_clock Z Z2 (readFields fen.toList)
  unfold boardOfFEN loadFEN loadFENChars
  cases h1 : loadFields Z (readFields fen.toList) <;>
    cases h2 : loadFields Z2 (readFields fen.toList) <;>
    rw [h1, h2] at e
  · exact ⟨rfl, rfl, rfl⟩
  · simp [Option.map] at e
  · simp [Option.map] at e
  · simp only [Option.map, Option.some.injEq, Prod.mk.injEq] at e
    simp only [Option.getD]
    exact e

/-- The key stored by a successful `loadFEN` is the recomputed one. -/
theorem boardOfFEN_zobristOK (Z Z2 : ZobristKeys) (fen : String)
    (h : (loadFEN Z2 fen).isSome = true) : ZobristOK Z (boardOfFEN Z fen).state := by
  have h2 : (loadFEN Z fen).isSome = true := by
    unfold loadFEN loadFENChars at h ⊢
    rw [loadFields_isSome] at h ⊢
    exact h
  have h3 := loadFEN_eq_boardOfFEN Z fen h2
  unfold loadFEN loadFENChars loadFields at h3
  simp only [] at h3
  split at h3
  · simp only [Option.some.injEq] at h3
    rw [← h3]
    unfold ZobristOK
    simp only [recomputeZobrist_eq]
    rfl
  · cases h3

theorem packs_unique (sq sq2 : Fin 64 → Nat) (q : Nat) (h : Packs sq q) (h2 : Packs sq2 q) :
    sq = sq2 := by
  funext i
  have a := h i.val
  have b := h2 i.val
  rw [a] at b
  unfold sqAt at b
  have hi : 0 ≤ (i.val : Int) ∧ (i.val : Int) < 64 := by omega
  rw [dif_pos hi, dif_pos hi] at b
  simpa using b

/-- Two states with the same packed position and no ep square have the same key. -/
theorem zobrist_of_rel (Z : ZobristKeys) (s t : BoardState) (p : FPos) (hs : Rel s p)
    (ht : Rel t p) (es : s.epSquare = NO_SQ) (et : t.epSquare = NO_SQ)
    (zs : ZobristOK Z s) (zt : ZobristOK Z t) : s.zobrist = t.zobrist := by
  unfold ZobristOK at zs zt
  rw [recomputeZobrist_eq] at zs zt
  rw [zs, zt]
  show hashOf Z s = hashOf Z t
  rw [hashOf_eq, hashOf_eq, es, et, packs_unique s.squares t.squares p.q hs.1 ht.1]
  have e1 : s.sideToMove = t.sideToMove := by
    have a := hs.2.1
    have b := ht.2.1
    rw [a] at b
    cases h1 : s.sideToMove <;> cases h2 : t.sideToMove <;> simp [h1, h2] at b <;> rfl
  have e2 : s.castling = t.castling := by rw [← hs.2.2.1, ← ht.2.2.1]
  rw [e1, e2]

/-- A quiet move of the packed position, made on the board. -/
theorem quiet_step (Z : ZobristKeys) (b : Board) (p : FPos) (m : Move) (hr : Rel b.state p)
    (hz : ZobristOK Z b.state) (hq : fquiet p m) :
    (makeMove Z b m).1.stateHistory = b.state :: b.stateHistory ∧
    Rel (makeMove Z b m).1.state (fapply p m) ∧ ZobristOK Z (makeMove Z b m).1.state ∧
    (makeMove Z b m).1.state.halfmove = b.state.halfmove + 1 ∧
    (makeMove Z b m).1.state.epSquare = NO_SQ := by
  obtain ⟨hm, hl, ht, hf⟩ := hq
  rw [← fgen_eq b p hr] at hm
  have hok : (makeMove Z b m).2 = true := by
    rw [makeMove_snd, fleaves_eq Z b.state p hr m, hl]
    rfl
  have e := makeMove_fst_of_true Z b m hok
  have hto : b.state.pieceAt m.to_ = 0 := by
    rw [Move.to_of_data, pieceAt_eq, ← hr.1, ht]
  have hfrom : pieceType (b.state.pieceAt m.from_) ≠ PAWN := by
    rw [Move.from_of_data, pieceAt_eq, ← hr.1]
    exact hf
  rw [e]
  refine ⟨rfl, fapply_rel Z b.state p m hr, ?_, ?_, ?_⟩
  · unfold ZobristOK at hz ⊢
    rw [recomputeZobrist_eq] at hz ⊢
    exact applyMove_zobristOK Z b.state m hz (generateMoves_facts b m hm)
  · show (applyMove Z b.state m).halfmove = _
    rw [applyMove_halfmove, if_neg (by simp only [not_or, not_not]; exact ⟨hto, hfrom⟩)]
  · show (applyMove Z b.state m).epSquare = _
    rw [applyMove_epSquare, if_neg (fun hd => hfrom hd.1)]

theorem repetitionLoop_cons (z : Nat) (s : BoardState) (rest : List BoardState)
    (first : Bool) (cnt : Int) :
    repetitionLoop z (s :: rest) first cnt =
      if s.halfmove = 0 ∧ first = false then (if s.zobrist = z then cnt + 1 else cnt)
      else repetitionLoop z rest false (if s.zobrist = z then cnt + 1 else cnt) := rfl

theorem repetitionLoop_nil (z : Nat) (first : Bool) (cnt : Int) :
    repetitionLoop z [] first cnt = cnt := rfl

theorem boardOfFEN_stateHistory (Z Z2 : ZobristKeys) (fen : String)
    (h : (loadFEN Z2 fen).isSome = true) : (boardOfFEN Z fen).stateHistory = [] := by
  have h2 : (loadFEN Z fen).isSome = true := by
    unfold loadFEN loadFENChars at h ⊢
    rw [loadFields_isSome] at h ⊢
    exact h
  have h3 := loadFEN_eq_boardOfFEN Z fen h2
  unfold loadFEN loadFENChars at h3
  exact (loadFields_state Z _ _ h3).2.2.2.2

set_option maxRecDepth 1000000 in
/-- The knight shuffle on the packed start position: the four moves are quiet and the
position comes back. -/
theorem shuffle_packed :
    fquiet startPos (Move.new 6 21 0 0) ∧
    fquiet (fapply startPos (Move.new 6 21 0 0)) (Move.new 62 45 0 0) ∧
    fquiet (fapply (fapply startPos (Move.new 6 21 0 0)) (Move.new 62 45 0 0))
      (Move.new 21 6 0 0) ∧
    fquiet (fapply (fapply (fapply startPos (Move.new 6 21 0 0)) (Move.new 62 45 0 0))
      (Move.new 21 6 0 0)) (Move.new 45 62 0 0) ∧
    (fapply (fapply (fapply (fapply startPos (Move.new 6 21 0 0)) (Move.new 62 45 0 0))
      (Move.new 21 6 0 0)) (Move.new 45 62 0 0)).q = startPos.q ∧
    (fapply (fapply (fapply (fapply startPos (Move.new 6 21 0 0)) (Move.new 62 45 0 0))
      (Move.new 21 6 0 0)) (Move.new 45 62 0 0)).w = startPos.w ∧
    (fapply (fapply (fapply (fapply startPos (Move.new 6 21 0 0)) (Move.new 62 45 0 0))
      (Move.new 21 6 0 0)) (Move.new 45 62 0 0)).cr = startPos.cr ∧
    (fapply (fapply (fapply (fapply startPos (Move.new 6 21 0 0)) (Move.new 62 45 0 0))
      (Move.new 21 6 0 0)) (Move.new 45 62 0 0)).ep = startPos.ep := by
  decide!

set_option maxRecDepth 1000000 in
theorem start_facts :
    (loadFEN sampleKeys startFEN).isSome = true ∧
    (boardOfFEN sampleKeys startFEN).state.halfmove = 0 ∧
    (boardOfFEN sampleKeys startFEN).state.epSquare = NO_SQ ∧
    countPiece (boardOfFEN sampleKeys startFEN).state WHITE PAWN = 8 := by
  decide!

theorem fpos_ext (p r : FPos) (h1 : p.q = r.q) (h2 : p.w = r.w) (h3 : p.cr = r.cr)
    (h4 : p.ep = r.ep) : p = r := by
  cases p; cases r
  simp only at h1 h2 h3 h4
  subst h1 h2 h3 h4
  rfl

theorem shuffleBoard_eq (Z : ZobristKeys) :
    shuffleBoard Z 0 = boardOfFEN Z startFEN ∧
    shuffleBoard Z 1 = (makeMove Z (shuffleBoard Z 0) (Move.new 6 21 0 0)).1 ∧
    shuffleBoard Z 2 = (makeMove Z (shuffleBoard Z 1) (Move.new 62 45 0 0)).1 ∧
    shuffleBoard Z 3 = (makeMove Z (shuffleBoard Z 2) (Move.new 21 6 0 0)).1 ∧
    shuffleBoard Z 4 = (makeMove Z (shuffleBoard Z 3) (Move.new 45 62 0 0)).1 ∧
    shuffleBoard Z 5 = (makeMove Z (shuffleBoard Z 4) (Move.new 6 21 0 0)).1 ∧
    shuffleBoard Z 6 = (makeMove Z (shuffleBoard Z 5) (Move.new 62 45 0 0)).1 ∧
    shuffleBoard Z 7 = (makeMove Z (shuffleBoard Z 6) (Move.new 21 6 0 0)).1 ∧
    shuffleBoard Z 8 = (makeMove Z (shuffleBoard Z 7) (Move.new 45 62 0 0)).1 :=
  ⟨rfl, rfl, rfl, rfl, rfl, rfl, rfl, rfl, rfl⟩

/-- C19: from the standard position the knights go out and back (Nf3 Nf6 Ng1 Ng8,
repeated). When the keys of the positions after 1, 2 and 3 plies differ from the key of
the start position, the repetition count is 2 after 4 plies, where `isDraw()` is false,
and 3 after 8 plies, where `isDraw()` is true; the current position counts as
occurrence 1. -/
theorem knight_shuffle_repetition (Z : ZobristKeys)
    (h1 : (shuffleBoard Z 1).state.zobrist ≠ (shuffleBoard Z 0).state.zobrist)
    (h2 : (shuffleBoard Z 2).state.zobrist ≠ (shuffleBoard Z 0).state.zobrist)
    (h3 : (shuffleBoard Z 3).state.zobrist ≠ (shuffleBoard Z 0).state.zobrist) :
    repetitionCount (shuffleBoard Z 4) = 2 ∧ isDraw (shuffleBoard Z 4) = false ∧
    repetitionCount (shuffleBoard Z 8) = 3 ∧ isDraw (shuffleBoard Z 8) = true := by
  obtain ⟨e0, e1, e2, e3, e4, e5, e6, e7, e8⟩ := shuffleBoard_eq Z
  obtain ⟨q1, q2, q3, q4, b1, b2, b3, b4⟩ := shuffle_packed
  have back := fpos_ext _ _ b1 b2 b3 b4
  obtain ⟨f1, f2, f3, f4⟩ := start_facts
  obtain ⟨c1, c2, -⟩ := boardOfFEN_clock Z sampleKeys startFEN
  rw [f2] at c1
  rw [f3] at c2
  have hh := boardOfFEN_stateHistory Z sampleKeys startFEN f1
  have r0 : Rel (shuffleBoard Z 0).state startPos := by
    rw [e0]
    exact boardOfFEN_keys Z sampleKeys startFEN startPos (rel_of_check _ _ startPos_rel)
  have z0 : ZobristOK Z (shuffleBoard Z 0).state := by
    rw [e0]
    exact boardOfFEN_zobristOK Z sampleKeys startFEN f1
  rw [← e0] at c1 c2 hh
  obtain ⟨t1, r1, z1, m1, p1⟩ := quiet_step Z _ _ _ r0 z0 q1
  rw [← e1] at t1 r1 z1 m1 p1
  obtain ⟨t2, r2, z2, m2, p2⟩ := quiet_step Z _ _ _ r1 z1 q2
  rw [← e2] at t2 r2 z2 m2 p2
  obtain ⟨t3, r3, z3, m3, p3⟩ := quiet_step Z _ _ _ r2 z2 q3
  rw [← e3] at t3 r3 z3 m3 p3
  obtain ⟨t4, r4, z4, m4, p4⟩ := quiet_step Z _ _ _ r3 z3 q4
  rw [← e4] at t4 r4 z4 m4 p4
  rw [back] at r4
  obtain ⟨t5, r5, z5, m5, p5⟩ := quiet_step Z _ _ _ r4 z4 q1
  rw [← e5] at t5 r5 z5 m5 p5
  obtain ⟨t6, r6, z6, m6, p6⟩ := quiet_step Z _ _ _ r5 z5 q2
  rw [← e6] at t6 r6 z6 m6 p6
  obtain ⟨t7, r7, z7, m7, p7⟩ := quiet_step Z _ _ _ r6 z6 q3
  rw [← e7] at t7 r7 z7 m7 p7
  obtain ⟨t8, r8, z8, m8, p8⟩ := quiet_step Z _ _ _ r7 z7 q4
  rw [← e8] at t8 r8 z8 m8 p8
  rw [back] at r8
  have k4 := zobrist_of_rel Z _ _ _ r4 r0 p4 c2 z4 z0
  have k8 := zobrist_of_rel Z _ _ _ r8 r0 p8 c2 z8 z0
  have k5 := zobrist_of_rel Z _ _ _ r5 r1 p5 p1 z5 z1
  have k6 := zobrist_of_rel Z _ _ _ r6 r2 p6 p2 z6 z2
  have k7 := zobrist_of_rel Z _ _ _ r7 r3 p7 p3 z7 z3
  have n1 : (shuffleBoard Z 1).state.halfmove = 1 := by omega
  have n2 : (shuffleBoard Z 2).state.halfmove = 2 := by omega
  have n3 : (shuffleBoard Z 3).state.halfmove = 3 := by omega
  have n4 : (shuffleBoard Z 4).state.halfmove = 4 := by omega
  have n5 : (shuffleBoard Z 5).state.halfmove = 5 := by omega
  have n6 : (shuffleBoard Z 6).state.halfmove = 6 := by omega
  have n7 : (shuffleBoard Z 7).state.halfmove = 7 := by omega
  have n8 : (shuffleBoard Z 8).state.halfmove = 8 := by omega
  have rep4 : repetitionCount (shuffleBoard Z 4) = 2 := by
    unfold repetitionCount
    rw [t4, t3, t2, t1, hh, k4]
    simp only [repetitionLoop_cons, repetitionLoop_nil, n1, n2, n3, c1, h1, h2, h3]
    simp
  have rep8 : repetitionCount (shuffleBoard Z 8) = 3 := by
    unfold repetitionCount
    rw [t8, t7, t6, t5, t4, t3, t2, t1, hh, k8]
    simp only [repetitionLoop_cons, repetitionLoop_nil, n1, n2, n3, n4, n5, n6, n7, c1,
      k4, k5, k6, k7, h1, h2, h3]
    simp
  have sq4 : (shuffleBoard Z 4).state.squares = (boardOfFEN sampleKeys startFEN).state.squares :=
    packs_unique _ _ _ r4.1 (rel_of_check _ _ startPos_rel).1
  have sq8 : (shuffleBoard Z 8).state.squares = (boardOfFEN sampleKeys startFEN).state.squares :=
    packs_unique _ _ _ r8.1 (rel_of_check _ _ startPos_rel).1
  have wp4 : countPiece (shuffleBoard Z 4).state WHITE PAWN = 8 := by
    rw [countPiece_eq, sq4, ← countPiece_eq, f4]
  refine ⟨rep4, ?_, rep8, ?_⟩
  · unfold isDraw
    rw [if_neg (by omega), if_neg (by omega)]
    simp only [wp4]
    simp
  · unfold isDraw
    rw [if_neg (by omega), if_pos (by omega)]

set_option maxRecDepth 1000000 in
theorem knight_shuffle_repetition_witness :
    (shuffleBoard mixedKeys 1).state.zobrist ≠ (shuffleBoard mixedKeys 0).state.zobrist ∧
    (shuffleBoard mixedKeys 2).state.zobrist ≠ (shuffleBoard mixedKeys 0).state.zobrist ∧
    (shuffleBoard mixedKeys 3).state.zobrist ≠ (shuffleBoard mixedKeys 0).state.zobrist ∧
    repetitionCount (shuffleBoard mixedKeys 4) = 2 ∧
    isDraw (shuffleBoard mixedKeys 4) = false ∧
    repetitionCount (shuffleBoard mixedKeys 8) = 3 ∧
    isDraw (shuffleBoard mixedKeys 8) = true :=
  have h1 : (shuffleBoard mixedKeys 1).state.zobrist ≠
      (shuffleBoard mixedKeys 0).state.zobrist := by decide!
  have h2 : (shuffleBoard mixedKeys 2).state.zobrist ≠
      (shuffleBoard mixedKeys 0).state.zobrist := by decide!
  have h3 : (shuffleBoard mixedKeys 3).state.zobrist ≠
      (shuffleBoard mixedKeys 0).state.zobrist := by decide!
  ⟨h1, h2, h3, knight_shuffle_repetition mixedKeys h1 h2 h3⟩

/-! ## Search: what the search leaves unchanged -/

/-- The legal moves, computed on the packed position. -/
theorem legal_of_rel (Z : ZobristKeys) (b : Board) (p : FPos) (h : Rel b.state p) :
    (generateLegalMoves Z b).1 =
      (fgen p).filter (fun m => !(fcheck (fapply p m).q p.w)) := by
  rw [generateLegalMoves_eq_filter, fgen_eq b p h]
  apply List.filter_congr
  intro m _
  rw [makeMove_snd, fleaves_eq Z b.state p h m]

set_option maxRecDepth 1000000 in
theorem stalematePos_rel :
    RelCheck (boardOfFEN sampleKeys stalemateFEN).state stalematePos := by decide!

set_option maxRecDepth 1000000 in
theorem stalematePos_moves :
    (fgen stalematePos).filter (fun m => !(fcheck (fapply stalematePos m).q stalematePos.w)) = []
      ∧ fcheck stalematePos.q true = false ∧ (fgen stalematePos).length = 5 := by
  decide!

/-- In the position of the example White has five pseudo-legal king moves, none of them
legal, and is not in check: a stalemate, for every key table. -/
theorem stalemate_no_legal_move (Z : ZobristKeys) :
    (generateLegalMoves Z (boardOfFEN Z stalemateFEN)).1 = [] ∧
    isInCheck (boardOfFEN Z stalemateFEN).state WHITE = false := by
  have h := boardOfFEN_keys Z sampleKeys stalemateFEN stalematePos
    (rel_of_check _ _ stalematePos_rel)
  refine ⟨?_, ?_⟩
  · rw [legal_of_rel Z _ _ h]
    exact stalematePos_moves.1
  · rw [fcheck_eq _ stalematePos.q WHITE true h.1 (by decide)]
    exact stalematePos_moves.2.1

theorem findBestMove_of_nil (E : SearchEnv) (fuel : Nat) (S : Search) (b : Board)
    (maxDepth : Int) (h : (generateLegalMoves E.Z b).1 = []) :
    findBestMove E fuel S b maxDepth =
      some (⟨0⟩, clearHeuristics { S with nodesSearched := 0, depthReached := 0 },
        (generateLegalMoves E.Z b).2) := by
  unfold findBestMove
  simp only [h]

theorem findBestMove_of_single (E : SearchEnv) (fuel : Nat) (S : Search) (b : Board)
    (maxDepth : Int) (m : Move) (h : (generateLegalMoves E.Z b).1 = [m]) :
    findBestMove E fuel S b maxDepth =
      some (m, clearHeuristics { S with nodesSearched := 0, depthReached := 0 },
        (generateLegalMoves E.Z b).2) := by
  unfold findBestMove
  simp only [h]

theorem bframe_refl (b : Board) : BFrame b b := ⟨rfl, rfl⟩

theorem bframe_trans {a b c : Board} (h1 : BFrame a b) (h2 : BFrame b c) : BFrame a c :=
  ⟨h2.1.trans h1.1, h2.2.trans h1.2⟩

theorem sframe_refl (S : Search) : SFrame S S := ⟨rfl, rfl, Nat.le_refl _⟩

theorem sframe_trans {A B C : Search} (h1 : SFrame A B) (h2 : SFrame B C) : SFrame A C :=
  ⟨h2.1.trans h1.1, h2.2.1.trans h1.2.1, Nat.le_trans h1.2.2 h2.2.2⟩

theorem makeMove_false_frame (Z : ZobristKeys) (b : Board) (m : Move)
    (h : (makeMove Z b m).2 = false) : BFrame b (makeMove Z b m).1 := by
  rw [makeMove_fst_of_false Z b m h]
  exact ⟨rfl, rfl⟩

/-- After a successful `makeMove`, a search that keeps the board, and `unmakeMove`, the
board is back. -/
theorem unmake_frame (Z : ZobristKeys) (b c : Board) (m : Move)
    (h : (makeMove Z b m).2 = true) (hc : BFrame (makeMove Z b m).1 c) :
    BFrame b (unmakeMove c) := by
  have e := makeMove_fst_of_true Z b m h
  have hs : c.stateHistory = b.state :: b.stateHistory := by rw [hc.2, e]
  exact unmakeMove_of_cons c b.state b.stateHistory hs

theorem makeMove_congr (Z : ZobristKeys) (b c : Board) (m : Move) (h : c.state = b.state) :
    (makeMove Z c m).2 = (makeMove Z b m).2 := by
  rw [makeMove_snd, makeMove_snd, h]

theorem timeUp_frame (E : SearchEnv) (S : Search) : SFrame S (timeUp E S).2 :=
  ⟨rfl, rfl, Nat.le_succ _⟩

theorem quiesceLoop_frame (Z : ZobristKeys)
    (rec : Search → Board → Int → Int → Option (Int × Search × Board)) (beta : Int)
    (hrec : ∀ S b a c r, rec S b a c = some r → SFrame S r.2.1 ∧ BFrame b r.2.2) :
    ∀ (ms : List Move) (S : Search) (b : Board) (alpha : Int) (r : Int × Search × Board),
      quiesceLoop Z rec beta ms S b alpha = some r → SFrame S r.2.1 ∧ BFrame b r.2.2 := by
  intro ms
  induction ms with
  | nil =>
    intro S b alpha r h
    simp only [quiesceLoop, Option.some.injEq] at h
    subst h
    exact ⟨sframe_refl S, bframe_refl b⟩
  | cons m ms ih =>
    intro S b alpha r h
    rw [quiesceLoop] at h
    simp only [] at h
    by_cases hr : (makeMove Z b m).2 = false
    · rw [if_pos hr] at h
      obtain ⟨h1, h2⟩ := ih _ _ _ _ h
      exact ⟨h1, bframe_trans (makeMove_false_frame Z b m hr) h2⟩
    · rw [if_neg hr] at h
      have hr1 : (makeMove Z b m).2 = true := by simpa using hr
      cases hq : rec S (makeMove Z b m).1 (-beta) (-alpha) with
      | none => rw [hq] at h; cases h
      | some v =>
        rw [hq] at h
        simp only [] at h
        obtain ⟨f1, f2⟩ := hrec _ _ _ _ _ hq
        have fb := unmake_frame Z b v.2.2 m hr1 f2
        by_cases hc : -v.1 ≥ beta
        · rw [if_pos hc] at h
          simp only [Option.some.injEq] at h
          subst h
          exact ⟨f1, fb⟩
        · rw [if_neg hc] at h
          obtain ⟨h1, h2⟩ := ih _ _ _ _ h
          exact ⟨sframe_trans f1 h1, bframe_trans fb h2⟩

theorem quiesce_frame (E : SearchEnv) : ∀ (fuel : Nat) (S : Search) (b : Board)
    (alpha beta ply : Int) (r : Int × Search × Board),
    quiesce E fuel S b alpha beta ply = some r → SFrame S r.2.1 ∧ BFrame b r.2.2 := by
  intro fuel
  induction fuel with
  | zero =>
    intro S b alpha beta ply r h
    simp only [quiesce] at h
    cases h
  | succ fuel ih =>
    intro S b alpha beta ply r h
    rw [quiesce] at h
    simp only [] at h
    have ft : SFrame S (timeUp E { S with nodesSearched := S.nodesSearched + 1 }).2 :=
      ⟨rfl, rfl, Nat.le_succ _⟩
    split_ifs at h
    all_goals first
      | (simp only [Option.some.injEq] at h
         subst h
         exact ⟨ft, bframe_refl b⟩)
      | (obtain ⟨g1, g2⟩ := quiesceLoop_frame E.Z _ beta
           (fun S b a c r hq => ih S b a c (ply + 1) r hq) _ _ _ _ _ h
         exact ⟨sframe_trans ft g1, g2⟩)

theorem rootInv_of_frame {P : Move → Prop} {ply : Int} {S T : Search} (h : SFrame S T) :
    RootInv P ply S T :=
  ⟨h.2.2, fun _ => ⟨h.1, h.2.1⟩, Or.inl h.1⟩

theorem rootInv_trans {P : Move → Prop} {ply : Int} {A B C : Search}
    (h1 : RootInv P ply A B) (h2 : RootInv P ply B C) : RootInv P ply A C := by
  refine ⟨Nat.le_trans h1.1 h2.1, fun hp => ?_, ?_⟩
  · exact ⟨(h2.2.1 hp).1.trans (h1.2.1 hp).1, (h2.2.1 hp).2.trans (h1.2.1 hp).2⟩
  · rcases h2.2.2 with e | e
    · rcases h1.2.2 with e1 | e1
      · exact Or.inl (e.trans e1)
      · right
        rw [e]
        exact e1
    · exact Or.inr e

theorem rootInv_mono {P Q : Move → Prop} {ply : Int} {S T : Search}
    (h : RootInv P ply S T) (hpq : ∀ x, P x → Q x) : RootInv Q ply S T :=
  ⟨h.1, h.2.1, h.2.2.imp id (hpq _)⟩

theorem rootInv_frame {P : Move → Prop} {ply : Int} {S T : Search}
    (h : RootInv P ply S T) (hp : ply ≠ 0) : SFrame S T :=
  ⟨(h.2.1 hp).1, (h.2.1 hp).2, h.1⟩

theorem searchMove_frame
    (rec : Int → Int → Int → Search → Board → Option (Int × Search × Board))
    (hrec : ∀ d a c S b r, rec d a c S b = some r → SFrame S r.2.1 ∧ BFrame b r.2.2)
    (depth alpha beta : Int) (inCheck : Bool) (moveCount : Int) (m : Move) (S : Search)
    (b : Board) (r : Int × Search × Board)
    (h : searchMove rec depth alpha beta inCheck moveCount m S b = some r) :
    SFrame S r.2.1 ∧ BFrame b r.2.2 := by
  have two : ∀ (d1 a1 c1 d2 a2 c2 : Int) (P : Int → Prop) [DecidablePred P],
      (match rec d1 a1 c1 S b with
        | none => none
        | some (v, S, b) =>
          if P v then
            match rec d2 a2 c2 S b with
            | none => none
            | some (v, S, b) => some (-v, S, b)
          else some (-v, S, b)) = some r → SFrame S r.2.1 ∧ BFrame b r.2.2 := by
    intro d1 a1 c1 d2 a2 c2 P _ h
    cases h1 : rec d1 a1 c1 S b with
    | none => rw [h1] at h; cases h
    | some v =>
      rw [h1] at h
      simp only [] at h
      obtain ⟨f1, f2⟩ := hrec _ _ _ _ _ _ h1
      by_cases hp : P v.1
      · rw [if_pos hp] at h
        cases h2 : rec d2 a2 c2 v.2.1 v.2.2 with
        | none => rw [h2] at h; cases h
        | some w =>
          rw [h2] at h
          simp only [Option.some.injEq] at h
          obtain ⟨g1, g2⟩ := hrec _ _ _ _ _ _ h2
          subst h
          exact ⟨sframe_trans f1 g1, bframe_trans f2 g2⟩
      · rw [if_neg hp] at h
        simp only [Option.some.injEq] at h
        subst h
        exact ⟨f1, f2⟩
  unfold searchMove at h
  simp only [] at h
  have one : (match rec (depth - 1) (-beta) (-alpha) S b with
        | none => none
        | some (v, S, b) => some (-v, S, b)) = some r → SFrame S r.2.1 ∧ BFrame b r.2.2 := by
    intro h
    cases h1 : rec (depth - 1) (-beta) (-alpha) S b with
    | none => rw [h1] at h; cases h
    | some v =>
      rw [h1] at h
      simp only [Option.some.injEq] at h
      obtain ⟨g1, g2⟩ := hrec _ _ _ _ _ _ h1
      subst h
      exact ⟨g1, g2⟩
  split_ifs at h
  all_goals first
    | exact two _ _ _ _ _ _ (fun v => -v > alpha) h
    | exact two _ _ _ _ _ _ (fun v => -v > alpha ∧ -v < beta) h
    | exact one h

theorem raiseAlpha_inv (S : Search) (ply alpha score : Int) (m best : Move) :
    RootInv (fun x => x = m) ply S (raiseAlpha S ply alpha score m best).1 := by
  unfold raiseAlpha
  by_cases h1 : score > alpha
  · rw [if_pos h1]
    by_cases h2 : ply = 0
    · simp only [h2, if_true]
      exact ⟨Nat.le_refl _, fun h => absurd rfl h, Or.inr rfl⟩
    · simp only [h2, if_false]
      exact rootInv_of_frame (sframe_refl S)
  · rw [if_neg h1]
    exact rootInv_of_frame (sframe_refl S)

theorem cutoffUpdate_frame (S : Search) (b : Board) (depth ply : Int) (m : Move) :
    SFrame S (cutoffUpdate S b depth ply m) := by
  unfold cutoffUpdate
  simp only []
  split_ifs <;> exact ⟨rfl, rfl, Nat.le_refl _⟩

theorem storeTT_frame (S : Search) (key : Nat) (depth score : Int) (best : Move) (flag : Int) :
    SFrame S (storeTT S key depth score best flag) := by
  unfold storeTT
  simp only []
  split_ifs <;> exact ⟨rfl, rfl, Nat.le_refl _⟩

theorem abStore_frame (E : SearchEnv) (S : Search) (key : Nat)
    (depth alpha origAlpha beta : Int) (best : Move) :
    SFrame S (abStore E S key depth alpha origAlpha beta best) := by
  unfold abStore
  simp only []
  split_ifs
  all_goals first
    | exact sframe_trans (timeUp_frame E S) (storeTT_frame _ _ _ _ _ _)
    | exact timeUp_frame E S

theorem abLoop_frame (E : SearchEnv)
    (rec : Int → Int → Int → Search → Board → Option (Int × Search × Board))
    (hrec : ∀ d a c S b r, rec d a c S b = some r → SFrame S r.2.1 ∧ BFrame b r.2.2)
    (depth beta ply : Int) (inCheck : Bool) :
    ∀ (ms : List Move) (S : Search) (b : Board) (alpha : Int) (best : Move) (mc : Int)
      (r : Search × Board × Int × Move),
      abLoop E rec depth beta ply inCheck ms S b alpha best mc = some r →
      RootInv (fun x => x ∈ ms ∧ (makeMove E.Z b x).2 = true) ply S r.1 ∧ BFrame b r.2.1 := by
  intro ms
  induction ms with
  | nil =>
    intro S b alpha best mc r h
    simp only [abLoop, Option.some.injEq] at h
    subst h
    exact ⟨rootInv_of_frame (sframe_refl S), bframe_refl b⟩
  | cons m ms ih =>
    intro S b alpha best mc r h
    rw [abLoop] at h
    simp only [] at h
    by_cases hr : (makeMove E.Z b m).2 = false
    · rw [if_pos hr] at h
      obtain ⟨h1, h2⟩ := ih _ _ _ _ _ _ h
      have fb := makeMove_false_frame E.Z b m hr
      refine ⟨rootInv_mono h1 ?_, bframe_trans fb h2⟩
      intro x hx
      exact ⟨List.mem_cons_of_mem _ hx.1, by rw [← makeMove_congr E.Z b _ x fb.1]; exact hx.2⟩
    · rw [if_neg hr] at h
      have hr1 : (makeMove E.Z b m).2 = true := by simpa using hr
      cases hq : searchMove rec depth alpha beta inCheck (mc + 1) m S (makeMove E.Z b m).1 with
      | none => rw [hq] at h; cases h
      | some v =>
        rw [hq] at h
        simp only [] at h
        obtain ⟨f1, f2⟩ := searchMove_frame rec hrec _ _ _ _ _ _ _ _ _ hq
        have fb := unmake_frame E.Z b v.2.2 m hr1 f2
        have ft := timeUp_frame E v.2.1
        by_cases ht : (timeUp E v.2.1).1 = true
        · rw [if_pos ht] at h
          simp only [Option.some.injEq] at h
          subst h
          exact ⟨rootInv_of_frame (sframe_trans f1 ft), fb⟩
        · rw [if_neg ht] at h
          have hu := raiseAlpha_inv (timeUp E v.2.1).2 ply alpha v.1 m best
          have hu2 : RootInv (fun x => x ∈ m :: ms ∧ (makeMove E.Z b x).2 = true) ply S
              (raiseAlpha (timeUp E v.2.1).2 ply alpha v.1 m best).1 := by
            apply rootInv_trans (rootInv_of_frame (sframe_trans f1 ft))
            apply rootInv_mono hu
            intro x hx
            rw [hx]
            exact ⟨List.mem_cons_self _ _, hr1⟩
          by_cases hc : (raiseAlpha (timeUp E v.2.1).2 ply alpha v.1 m best).2.1 ≥ beta
          · rw [if_pos hc] at h
            simp only [Option.some.injEq] at h
            subst h
            exact ⟨rootInv_trans hu2 (rootInv_of_frame (cutoffUpdate_frame _ _ _ _ _)), fb⟩
          · rw [if_neg hc] at h
            obtain ⟨h1, h2⟩ := ih _ _ _ _ _ _ h
            refine ⟨rootInv_trans hu2 (rootInv_mono h1 ?_), bframe_trans fb h2⟩
            intro x hx
            exact ⟨List.mem_cons_of_mem _ hx.1,
              by rw [← makeMove_congr E.Z b _ x fb.1]; exact hx.2⟩

theorem nullMoveBlock_eq (b : Board) (nullMoveAllowed inCheck : Bool) (depth : Int) :
    nullMoveBlock b nullMoveAllowed inCheck depth = b := by
  unfold nullMoveBlock
  simp only []
  split_ifs <;> rfl

/-- What `alphaBeta` leaves behind: the board as it was, a clock not behind, below the root
`bestMoveFound` and `lastScore` untouched, and at the root `bestMoveFound` either untouched
or a move of `generateMoves` that `makeMove` accepts. -/
theorem alphaBeta_frame (E : SearchEnv) (hs : SortOK E) : ∀ (fuel : Nat) (S : Search)
    (b : Board) (depth alpha beta ply : Int) (nma : Bool) (r : Int × Search × Board),
    0 ≤ ply → alphaBeta E fuel S b depth alpha beta ply nma = some r →
    RootInv (fun x => x ∈ generateMoves b ∧ (makeMove E.Z b x).2 = true) ply S r.2.1 ∧
      BFrame b r.2.2 := by
  intro fuel
  induction fuel with
  | zero =>
    intro S b depth alpha beta ply nma r _ h
    simp only [alphaBeta] at h
    cases h
  | succ fuel ih =>
    intro S b depth alpha beta ply nma r hply h
    rw [alphaBeta] at h
    simp only [] at h
    have ft := timeUp_frame E S
    by_cases t1 : (timeUp E S).1 = true
    · rw [if_pos t1] at h
      simp only [Option.some.injEq] at h
      subst h
      exact ⟨rootInv_of_frame ft, bframe_refl b⟩
    rw [if_neg t1] at h
    have fn : SFrame S { (timeUp E S).2 with nodesSearched := (timeUp E S).2.nodesSearched + 1 } :=
      ⟨rfl, rfl, Nat.le_succ _⟩
    by_cases t2 : isDraw b = true
    · rw [if_pos t2] at h
      simp only [Option.some.injEq] at h
      subst h
      exact ⟨rootInv_of_frame fn, bframe_refl b⟩
    rw [if_neg t2] at h
    generalize hS1 : ({ (timeUp E S).2 with
      nodesSearched := (timeUp E S).2.nodesSearched + 1 } : Search) = S1 at h fn
    generalize hc : ttCut (probeTT S1 b.state.zobrist) depth alpha beta = c at h
    cases hc1 : c.1 with
    | some v =>
      simp only [hc1, Option.some.injEq] at h
      subst h
      exact ⟨rootInv_of_frame fn, bframe_refl b⟩
    | none =>
      simp only [hc1] at h
      by_cases t3 : depth ≤ 0
      · rw [if_pos t3] at h
        obtain ⟨q1, q2⟩ := quiesce_frame E _ _ _ _ _ _ _ h
        exact ⟨rootInv_of_frame (sframe_trans fn q1), q2⟩
      rw [if_neg t3] at h
      rw [nullMoveBlock_eq] at h
      by_cases t4 : orderMoves E S1 b (generateMoves b) c.2.2.2 ply = []
      · rw [if_pos t4] at h
        simp only [Option.some.injEq] at h
        subst h
        exact ⟨rootInv_of_frame fn, bframe_refl b⟩
      rw [if_neg t4] at h
      have hrec : ∀ d a c S b r,
          (fun d a c S b => alphaBeta E fuel S b d a c (ply + 1) true) d a c S b = some r →
          SFrame S r.2.1 ∧ BFrame b r.2.2 := by
        intro d a c S b r hr
        obtain ⟨i1, i2⟩ := ih S b d a c (ply + 1) true r (by omega) hr
        exact ⟨rootInv_frame i1 (by omega), i2⟩
      cases hl : abLoop E (fun d a c S b => alphaBeta E fuel S b d a c (ply + 1) true)
          depth c.2.2.1 ply (isInCheck b.state b.state.sideToMove)
          (orderMoves E S1 b (generateMoves b) c.2.2.2 ply) S1 b c.2.1 ⟨0⟩ 0 with
      | none => rw [hl] at h; cases h
      | some w =>
        rw [hl] at h
        simp only [Option.some.injEq] at h
        obtain ⟨l1, l2⟩ := abLoop_frame E _ hrec _ _ _ _ _ _ _ _ _ _ _ hl
        subst h
        refine ⟨?_, l2⟩
        apply rootInv_trans (rootInv_of_frame fn)
        apply rootInv_trans _ (rootInv_of_frame (abStore_frame _ _ _ _ _ _ _ _))
        apply rootInv_mono l1
        intro x hx
        exact ⟨((hs _ _).mem_iff).1 hx.1, hx.2⟩

/-! ## Search: the moves of `generateCaptures` and the termination of `quiesce` -/

theorem capFacts_new (st : BoardState) (s t : Int) (fl p : Nat) (hs0 : 0 ≤ s) (hs : s < 64)
    (ht0 : 0 ≤ t) (ht : t < 64) (hf : fl ≤ 3) (hp : p ≤ 3)
    (h1 : fl = FLAG_EP → cabs (t - s) ≠ 16) (h2 : fl ≠ FLAG_EP → st.pieceAt t ≠ 0) :
    CapFacts st (Move.new s t fl p) := by
  obtain ⟨e1, e2, e3, -⟩ := Move.new_fields s t fl p hs0 hs ht0 ht hf hp
  unfold CapFacts
  rw [e1, e2, e3]
  exact ⟨h1, h2⟩

theorem pawnCaptureMoves_caps (st : BoardState) (side : Color) (promoRank s df dir : Int)
    (m : Move) (hs0 : 0 ≤ s) (hs : s < 64) (hdf : df = -1 ∨ df = 1)
    (hdir : dir = 8 ∨ dir = -8)
    (hm : m ∈ pawnCaptureMoves st side dir promoRank s df) : CapFacts st m := by
  unfold pawnCaptureMoves at hm
  simp only [] at hm
  by_cases h1 : s.tmod 8 + df < 0 ∨ s.tmod 8 + df > 7
  · rw [if_pos h1] at hm; cases hm
  rw [if_neg h1] at hm
  by_cases h2 : s + dir + df < 0 ∨ s + dir + df > 63
  · rw [if_pos h2] at hm; cases hm
  rw [if_neg h2] at hm
  by_cases h3 : s + dir + df = st.epSquare
  · rw [if_pos h3] at hm
    simp only [List.mem_singleton] at hm
    rw [hm]
    refine capFacts_new st s _ _ _ hs0 hs (by omega) (by omega) (by decide) (by decide) ?_
      (fun h => absurd rfl h)
    intro _
    rw [cabs_eq]
    split_ifs <;> omega
  rw [if_neg h3] at hm
  by_cases h4 : st.pieceAt (s + dir + df) ≠ 0 ∧ pieceColor (st.pieceAt (s + dir + df)) ≠ side
  · rw [if_pos h4] at hm
    by_cases h5 : (s + dir + df).tdiv 8 = promoRank
    · rw [if_pos h5] at hm
      obtain ⟨p, hp3, rfl⟩ := mem_promoMoves hm
      exact capFacts_new st s _ _ _ hs0 hs (by omega) (by omega) (by decide) hp3
        (fun h => absurd h (by decide)) (fun _ => h4.1)
    · rw [if_neg h5] at hm
      simp only [List.mem_singleton] at hm
      rw [hm]
      exact capFacts_new st s _ _ _ hs0 hs (by omega) (by omega) (by decide) (by decide)
        (fun h => absurd h (by decide)) (fun _ => h4.1)
  · rw [if_neg h4] at hm; cases hm

theorem addPawnMoves_caps (st : BoardState) (m : Move) (hm : m ∈ addPawnMoves st true) :
    CapFacts st m := by
  unfold addPawnMoves at hm
  simp only [List.mem_flatMap] at hm
  obtain ⟨s, hs, hm⟩ := hm
  rw [mem_allSquares] at hs
  by_cases hp : st.pieceAt s ≠
      (if st.sideToMove = WHITE then makePiece WHITE PAWN else makePiece BLACK PAWN)
  · rw [if_pos hp] at hm; cases hm
  rw [if_neg hp] at hm
  simp only [if_true, List.append_nil, List.mem_flatMap] at hm
  obtain ⟨df, hdf, hm⟩ := hm
  simp only [List.mem_cons, List.mem_singleton, List.not_mem_nil, or_false] at hdf
  refine pawnCaptureMoves_caps st _ _ s df _ m hs.1 hs.2 hdf ?_ hm
  cases st.sideToMove <;> simp

theorem knightMoveAt_caps (st : BoardState) (side : Color) (s o : Int) (m : Move)
    (hs0 : 0 ≤ s) (hs : s < 64) (hm : m ∈ knightMoveAt st side true s o) : CapFacts st m := by
  unfold knightMoveAt at hm
  simp only [] at hm
  split_ifs at hm
  all_goals first
    | exact absurd hm (List.not_mem_nil _)
    | (simp only [List.mem_singleton] at hm
       rw [hm]
       exact capFacts_new st s _ _ _ hs0 hs (by omega) (by omega) (by decide) (by decide)
         (fun h => absurd h (by decide)) (fun _ => by tauto))

theorem kingMoveAt_caps (st : BoardState) (side : Color) (s o : Int) (m : Move)
    (hs0 : 0 ≤ s) (hs : s < 64) (hm : m ∈ kingMoveAt st side true s o) : CapFacts st m := by
  unfold kingMoveAt at hm
  simp only [] at hm
  split_ifs at hm
  all_goals first
    | exact absurd hm (List.not_mem_nil _)
    | (simp only [List.mem_singleton] at hm
       rw [hm]
       exact capFacts_new st s _ _ _ hs0 hs (by omega) (by omega) (by decide) (by decide)
         (fun h => absurd h (by decide)) (fun _ => by tauto))

theorem addKnightMoves_caps (st : BoardState) (m : Move) (hm : m ∈ addKnightMoves st true) :
    CapFacts st m := by
  unfold addKnightMoves at hm
  simp only [List.mem_flatMap] at hm
  obtain ⟨s, hs, hm⟩ := hm
  rw [mem_allSquares] at hs
  split_ifs at hm
  · exact absurd hm (List.not_mem_nil _)
  · simp only [List.mem_flatMap] at hm
    obtain ⟨o, -, hm⟩ := hm
    exact knightMoveAt_caps st _ s o m hs.1 hs.2 hm

theorem addKingMoves_caps (st : BoardState) (m : Move) (hm : m ∈ addKingMoves st true) :
    CapFacts st m := by
  unfold addKingMoves at hm
  simp only [List.mem_flatMap] at hm
  obtain ⟨s, hs, hm⟩ := hm
  rw [mem_allSquares] at hs
  split_ifs at hm
  · exact absurd hm (List.not_mem_nil _)
  · simp only [if_true, List.append_nil, List.mem_flatMap] at hm
    obtain ⟨o, -, hm⟩ := hm
    exact kingMoveAt_caps st _ s o m hs.1 hs.2 hm

theorem rookRayMoves_caps (st : BoardState) (side : Color) (s d : Int) (hs0 : 0 ≤ s)
    (hs : s < 64) (m : Move) : ∀ (fuel : Nat) (t : Int),
    m ∈ rookRayMoves st side true s d fuel t → CapFacts st m := by
  intro fuel
  induction fuel with
  | zero => intro t hm; simp only [rookRayMoves] at hm; cases hm
  | succ fuel ih =>
    intro t hm
    rw [rookRayMoves] at hm
    simp only [] at hm
    split_ifs at hm
    all_goals first
      | exact absurd hm (List.not_mem_nil _)
      | (simp only [List.mem_append, List.mem_singleton, List.not_mem_nil, or_false,
           false_or] at hm
         first
           | exact ih _ hm
           | (rw [hm]
              exact capFacts_new st s _ _ _ hs0 hs (by omega) (by omega) (by decide)
                (by decide) (fun h => absurd h (by decide)) (fun _ => by tauto))
           | (rcases hm with hm | hm
              · rw [hm]
                exact capFacts_new st s _ _ _ hs0 hs (by omega) (by omega) (by decide)
                  (by decide) (fun h => absurd h (by decide)) (fun _ => by tauto)
              · exact ih _ hm))

theorem bishopRayMoves_caps (st : BoardState) (side : Color) (s d : Int) (hs0 : 0 ≤ s)
    (hs : s < 64) (m : Move) : ∀ (fuel : Nat) (t : Int),
    m ∈ bishopRayMoves st side true s d fuel t → CapFacts st m := by
  intro fuel
  induction fuel with
  | zero => intro t hm; simp only [bishopRayMoves] at hm; cases hm
  | succ fuel ih =>
    intro t hm
    rw [bishopRayMoves] at hm
    simp only [] at hm
    split_ifs at hm
    all_goals first
      | exact absurd hm (List.not_mem_nil _)
      | (simp only [List.mem_append, List.mem_singleton, List.not_mem_nil, or_false,
           false_or] at hm
         first
           | exact ih _ hm
           | (rw [hm]
              exact capFacts_new st s _ _ _ hs0 hs (by omega) (by omega) (by decide)
                (by decide) (fun h => absurd h (by decide)) (fun _ => by tauto))
           | (rcases hm with hm | hm
              · rw [hm]
                exact capFacts_new st s _ _ _ hs0 hs (by omega) (by omega) (by decide)
                  (by decide) (fun h => absurd h (by decide)) (fun _ => by tauto)
              · exact ih _ hm))

theorem addSliding_caps (st : BoardState) (m : Move) (hm : m ∈ addSliding st true) :
    CapFacts st m := by
  unfold addSliding at hm
  simp only [List.mem_flatMap] at hm
  obtain ⟨s, hs, hm⟩ := hm
  rw [mem_allSquares] at hs
  split_ifs at hm
  all_goals first
    | exact absurd hm (List.not_mem_nil _)
    | (simp only [List.mem_append, List.mem_flatMap, List.not_mem_nil, or_false, false_or]
         at hm
       first
         | (rcases hm with ⟨d, -, hm⟩ | ⟨d, -, hm⟩
            · exact rookRayMoves_caps st _ s d hs.1 hs.2 m _ _ hm
            · exact bishopRayMoves_caps st _ s d hs.1 hs.2 m _ _ hm)
         | (obtain ⟨d, -, hm⟩ := hm
            first
              | exact rookRayMoves_caps st _ s d hs.1 hs.2 m _ _ hm
              | exact bishopRayMoves_caps st _ s d hs.1 hs.2 m _ _ hm))

/-- Every move of `generateCaptures` has the properties `GenFacts` and `CapFacts`. -/
theorem generateCaptures_facts (b : Board) (m : Move) (hm : m ∈ generateCaptures b) :
    GenFacts b.state m ∧ CapFacts b.state m := by
  unfold generateCaptures at hm
  simp only [List.mem_append] at hm
  rcases hm with ((hm | hm) | hm) | hm
  · exact ⟨addPawnMoves_facts _ _ _ hm, addPawnMoves_caps _ _ hm⟩
  · exact ⟨addKnightMoves_facts _ _ _ hm, addKnightMoves_caps _ _ hm⟩
  · exact ⟨addSliding_facts _ _ _ hm, addSliding_caps _ _ hm⟩
  · exact ⟨addKingMoves_facts _ _ _ hm, addKingMoves_caps _ _ hm⟩

theorem foldl_count_le (P : Int → Prop) [DecidablePred P] (l : List Int) :
    l.foldl (fun cnt s => if P s then cnt + 1 else cnt) 0 ≤ l.length := by
  induction l with
  | nil => simp
  | cons x l ih =>
    simp only [List.foldl_cons, List.length_cons]
    rw [foldl_count_acc]
    split_ifs <;> omega

theorem countSq_le (k : Nat) (q : Fin 64 → Nat) : countSq k q ≤ 64 := by
  unfold countSq
  have h := foldl_count_le (fun s => sqAt q s = k) allSquares
  have hl : allSquares.length = 64 := by simp [allSquares]
  rw [hl] at h
  exact h

theorem captureMeasure_le (st : BoardState) : captureMeasure st ≤ 193 := by
  unfold captureMeasure occupied
  split_ifs <;> omega

/-- The empty squares after a piece goes from `s` to `t`. -/
theorem countSq_zero_move (q : Fin 64 → Nat) (s t : Int) (v : Nat)
    (hs0 : 0 ≤ s) (hs : s < 64) (ht0 : 0 ≤ t) (ht : t < 64) (hne : s ≠ t) :
    countSq 0 (setSq (setSq q s 0) t v) + (if sqAt q s = 0 then 1 else 0)
        + (if sqAt q t = 0 then 1 else 0) =
      countSq 0 q + 1 + (if v = 0 then 1 else 0) := by
  have c1 := countSq_setSq 0 q s 0 hs0 hs
  have c2 := countSq_setSq 0 (setSq q s 0) t v ht0 ht
  rw [sqAt_setSq_ne q s t 0 (Ne.symm hne)] at c2
  simp only [if_true] at c1
  omega

theorem promoPiece_ne_zero (c : Color) (p : Nat) (hp : p ≤ 3) :
    makePiece c ([KNIGHT, BISHOP, ROOK, QUEEN].getD p 0) ≠ 0 := by
  have h : p = 0 ∨ p = 1 ∨ p = 2 ∨ p = 3 := by omega
  rcases h with rfl | rfl | rfl | rfl <;> cases c <;> decide

/-- Every move of `generateCaptures` decreases `captureMeasure`. -/
theorem capture_decreases (Z : ZobristKeys) (st : BoardState) (m : Move)
    (hg : GenFacts st m) (hc : CapFacts st m) :
    captureMeasure (applyMove Z st m) < captureMeasure st := by
  obtain ⟨s, t, fl, p, rfl, hs0, hs, ht0, ht, hst, hcase⟩ := hg
  have hfl : fl ≤ 3 := by
    rcases hcase with h | h | h | h <;> rw [h.1] <;> decide
  have hp : p ≤ 3 := by
    rcases hcase with h | h | h | h <;> omega
  obtain ⟨e1, e2, e3, e4⟩ := Move.new_fields s t fl p hs0 hs ht0 ht hfl hp
  unfold CapFacts at hc
  rw [e1, e2, e3] at hc
  have hle := countSq_le 0 (applyMove Z st (Move.new s t fl p)).squares
  have hsq := applyMove_squares Z st (Move.new s t fl p)
  have hep := applyMove_epSquare Z st (Move.new s t fl p)
  rw [e1, e2, e3] at hsq
  unfold captureMeasure occupied
  rcases hcase with h | h | h | h
  · obtain ⟨rfl, -, hps, -, -⟩ := h
    have hpt := hc.2 (by decide)
    have hv : placedPiece st (Move.new s t FLAG_NORMAL p) = st.pieceAt s := by
      unfold placedPiece
      rw [e3, e1, if_neg (by decide)]
    rw [if_neg (by decide), if_neg (by decide), hv] at hsq
    have c := countSq_zero_move st.squares s t (st.pieceAt s) hs0 hs ht0 ht hst
    rw [← hsq] at c
    rw [← pieceAt_eq, ← pieceAt_eq, if_neg hps, if_neg hpt] at c
    split_ifs <;> omega
  · obtain ⟨rfl, hp3, hps, -⟩ := h
    have hpt := hc.2 (by decide)
    have hps0 : st.pieceAt s ≠ 0 := by
      rw [hps]; exact (makePiece_facts _ PAWN (by decide)).1
    have hv : placedPiece st (Move.new s t FLAG_PROMO p) =
        makePiece st.sideToMove ([KNIGHT, BISHOP, ROOK, QUEEN].getD p 0) := by
      unfold placedPiece
      rw [e3, e4, if_pos rfl]
    rw [if_neg (by decide), if_neg (by decide), hv] at hsq
    have c := countSq_zero_move st.squares s t
      (makePiece st.sideToMove ([KNIGHT, BISHOP, ROOK, QUEEN].getD p 0)) hs0 hs ht0 ht hst
    rw [← hsq] at c
    rw [← pieceAt_eq, ← pieceAt_eq, if_neg hps0, if_neg hpt,
      if_neg (promoPiece_ne_zero _ p hp3)] at c
    split_ifs <;> omega
  · obtain ⟨rfl, -, hps, hte, hc0, hc1, hcs, hct⟩ := h
    have hps0 : st.pieceAt s ≠ 0 := by
      rw [hps]; exact (makePiece_facts _ PAWN (by decide)).1
    have hv : placedPiece st (Move.new s t FLAG_EP p) = st.pieceAt s := by
      unfold placedPiece
      rw [e3, e1, if_neg (by decide)]
    rw [if_pos rfl, hv] at hsq
    have c0 := countSq_setSq 0 st.squares (epCapSq st t) 0 hc0 hc1
    have c := countSq_zero_move (setSq st.squares (epCapSq st t) 0) s t (st.pieceAt s)
      hs0 hs ht0 ht hst
    rw [← hsq] at c
    rw [sqAt_setSq_ne _ _ s 0 (Ne.symm hcs), ← pieceAt_eq, if_neg hps0] at c
    simp only [if_true] at c0
    have hd : ¬ isDoublePush st (Move.new s t FLAG_EP p) := by
      unfold isDoublePush
      rw [e1, e2]
      exact fun h => hc.1 rfl h.2
    rw [if_neg hd] at hep
    rw [hep, if_neg (by decide), if_pos (by rw [← hte]; unfold NO_SQ; omega)]
    have hq := countSq_le 0 st.squares
    split_ifs at c c0 <;> omega
  · obtain ⟨rfl, -, hco⟩ := h
    have hpt := hc.2 (by decide)
    exfalso
    unfold CastleOK at hco
    rcases hco with ⟨-, -, hh | hh⟩ | ⟨-, -, hh | hh⟩
    · rw [hh.1] at hpt; exact hpt hh.2.2.2.1
    · rw [hh.1] at hpt; exact hpt hh.2.2.2.1
    · rw [hh.1] at hpt; exact hpt hh.2.2.2.1
    · rw [hh.1] at hpt; exact hpt hh.2.2.2.1

theorem quiesceLoop_total (Z : ZobristKeys)
    (rec : Search → Board → Int → Int → Option (Int × Search × Board)) (beta : Int)
    (st : BoardState)
    (htot : ∀ S b a c, captureMeasure b.state < captureMeasure st → (rec S b a c).isSome = true)
    (hrec : ∀ S b a c r, rec S b a c = some r → SFrame S r.2.1 ∧ BFrame b r.2.2) :
    ∀ (ms : List Move) (S : Search) (b : Board) (alpha : Int), b.state = st →
      (∀ m ∈ ms, GenFacts st m ∧ CapFacts st m) →
      (quiesceLoop Z rec beta ms S b alpha).isSome = true := by
  intro ms
  induction ms with
  | nil =>
    intro S b alpha _ _
    simp only [quiesceLoop, Option.isSome_some]
  | cons m ms ih =>
    intro S b alpha hb hms
    rw [quiesceLoop]
    simp only []
    have hms2 : ∀ x ∈ ms, GenFacts st x ∧ CapFacts st x :=
      fun x hx => hms x (List.mem_cons_of_mem _ hx)
    by_cases hr : (makeMove Z b m).2 = false
    · rw [if_pos hr]
      exact ih _ _ _ ((makeMove_false_frame Z b m hr).1.trans hb) hms2
    · rw [if_neg hr]
      have hr1 : (makeMove Z b m).2 = true := by simpa using hr
      have e := makeMove_fst_of_true Z b m hr1
      have hm := hms m (List.mem_cons_self _ _)
      have hdec : captureMeasure (makeMove Z b m).1.state < captureMeasure st := by
        rw [e]
        show captureMeasure (applyMove Z b.state m) < _
        rw [hb]
        exact capture_decreases Z st m hm.1 hm.2
      have hsome := htot S (makeMove Z b m).1 (-beta) (-alpha) hdec
      cases hq : rec S (makeMove Z b m).1 (-beta) (-alpha) with
      | none => rw [hq] at hsome; cases hsome
      | some v =>
        simp only []
        obtain ⟨-, f2⟩ := hrec _ _ _ _ _ hq
        have fb := unmake_frame Z b v.2.2 m hr1 f2
        by_cases hc : -v.1 ≥ beta
        · rw [if_pos hc]
          rfl
        · rw [if_neg hc]
          exact ih _ _ _ (fb.1.trans hb) hms2

/-- `quiesce` returns: a recursion depth above the capture measure of the position is
enough. -/
theorem quiesce_total (E : SearchEnv) (hs : SortOK E) : ∀ (fuel : Nat) (S : Search)
    (b : Board) (alpha beta ply : Int), captureMeasure b.state < fuel →
    (quiesce E fuel S b alpha beta ply).isSome = true := by
  intro fuel
  induction fuel with
  | zero => intro S b alpha beta ply h; omega
  | succ fuel ih =>
    intro S b alpha beta ply h
    rw [quiesce]
    simp only []
    split_ifs
    all_goals first
      | rfl
      | (apply quiesceLoop_total E.Z _ beta b.state
         · intro S2 b2 a c hlt
           exact ih S2 b2 a c (ply + 1) (by omega)
         · intro S2 b2 a c r hq
           exact quiesce_frame E fuel S2 b2 a c (ply + 1) r hq
         · rfl
         · intro m hm
           exact generateCaptures_facts b m (((hs _ _).mem_iff).1 hm))

theorem searchMove_total
    (rec : Int → Int → Int → Search → Board → Option (Int × Search × Board))
    (depth alpha beta : Int)
    (htot : ∀ d a c S b, d < depth → (rec d a c S b).isSome = true)
    (inCheck : Bool) (moveCount : Int) (m : Move) (S : Search) (b : Board) :
    (searchMove rec depth alpha beta inCheck moveCount m S b).isSome = true := by
  have two : ∀ (d1 a1 c1 d2 a2 c2 : Int) (P : Int → Prop) [DecidablePred P],
      d1 < depth → d2 < depth →
      (match rec d1 a1 c1 S b with
        | none => none
        | some (v, S, b) =>
          if P v then
            match rec d2 a2 c2 S b with
            | none => none
            | some (v, S, b) => some (-v, S, b)
          else some (-v, S, b)).isSome = true := by
    intro d1 a1 c1 d2 a2 c2 P _ hd1 hd2
    have h1 := htot d1 a1 c1 S b hd1
    cases hq : rec d1 a1 c1 S b with
    | none => rw [hq] at h1; cases h1
    | some v =>
      simp only []
      by_cases hp : P v.1
      · rw [if_pos hp]
        have h2 := htot d2 a2 c2 v.2.1 v.2.2 hd2
        cases hq2 : rec d2 a2 c2 v.2.1 v.2.2 with
        | none => rw [hq2] at h2; cases h2
        | some w => rfl
      · rw [if_neg hp]
        rfl
  have one : (match rec (depth - 1) (-beta) (-alpha) S b with
        | none => none
        | some (v, S, b) => some (-v, S, b)).isSome = true := by
    have h1 := htot (depth - 1) (-beta) (-alpha) S b (by omega)
    cases hq : rec (depth - 1) (-beta) (-alpha) S b with
    | none => rw [hq] at h1; cases h1
    | some v => rfl
  unfold searchMove
  simp only []
  split_ifs
  all_goals first
    | exact two _ _ _ _ _ _ (fun v => -v > alpha) (by omega) (by omega)
    | exact two _ _ _ _ _ _ (fun v => -v > alpha ∧ -v < beta) (by omega) (by omega)
    | exact one

theorem abLoop_total (E : SearchEnv)
    (rec : Int → Int → Int → Search → Board → Option (Int × Search × Board))
    (depth beta ply : Int) (inCheck : Bool)
    (htot : ∀ d a c S b, d < depth → (rec d a c S b).isSome = true) :
    ∀ (ms : List Move) (S : Search) (b : Board) (alpha : Int) (best : Move) (mc : Int),
      (abLoop E rec depth beta ply inCheck ms S b alpha best mc).isSome = true := by
  intro ms
  induction ms with
  | nil =>
    intro S b alpha best mc
    simp only [abLoop, Option.isSome_some]
  | cons m ms ih =>
    intro S b alpha best mc
    rw [abLoop]
    simp only []
    by_cases hr : (makeMove E.Z b m).2 = false
    · rw [if_pos hr]
      exact ih _ _ _ _ _
    · rw [if_neg hr]
      have h1 := searchMove_total rec depth alpha beta htot inCheck (mc + 1) m S
        (makeMove E.Z b m).1
      cases hq : searchMove rec depth alpha beta inCheck (mc + 1) m S (makeMove E.Z b m).1 with
      | none => rw [hq] at h1; cases h1
      | some v =>
        simp only []
        split_ifs
        · rfl
        · rfl
        · exact ih _ _ _ _ _

/-- `alphaBeta` returns: a recursion depth of `depth + 195` is enough. -/
theorem alphaBeta_total (E : SearchEnv) (hs : SortOK E) : ∀ (fuel : Nat) (S : Search)
    (b : Board) (depth alpha beta ply : Int) (nma : Bool), depth.toNat + 195 ≤ fuel →
    (alphaBeta E fuel S b depth alpha beta ply nma).isSome = true := by
  intro fuel
  induction fuel with
  | zero => intro S b depth alpha beta ply nma h; omega
  | succ fuel ih =>
    intro S b depth alpha beta ply nma h
    rw [alphaBeta]
    simp only []
    by_cases t1 : (timeUp E S).1 = true
    · rw [if_pos t1]; rfl
    rw [if_neg t1]
    by_cases t2 : isDraw b = true
    · rw [if_pos t2]; rfl
    rw [if_neg t2]
    generalize ({ (timeUp E S).2 with
      nodesSearched := (timeUp E S).2.nodesSearched + 1 } : Search) = S1
    generalize ttCut (probeTT S1 b.state.zobrist) depth alpha beta = c
    cases hc1 : c.1 with
    | some v => rfl
    | none =>
      simp only []
      by_cases t3 : depth ≤ 0
      · rw [if_pos t3]
        have hm := captureMeasure_le b.state
        exact quiesce_total E hs fuel _ _ _ _ _ (by omega)
      rw [if_neg t3]
      rw [nullMoveBlock_eq]
      by_cases t4 : orderMoves E S1 b (generateMoves b) c.2.2.2 ply = []
      · rw [if_pos t4]; rfl
      rw [if_neg t4]
      have hl := abLoop_total E (fun d a c S b => alphaBeta E fuel S b d a c (ply + 1) true)
        depth c.2.2.1 ply (isInCheck b.state b.state.sideToMove)
        (fun d a c S b hd => ih S b d a c (ply + 1) true (by omega))
        (orderMoves E S1 b (generateMoves b) c.2.2.2 ply) S1 b c.2.1 ⟨0⟩ 0
      cases hq : abLoop E (fun d a c S b => alphaBeta E fuel S b d a c (ply + 1) true)
          depth c.2.2.1 ply (isInCheck b.state b.state.sideToMove)
          (orderMoves E S1 b (generateMoves b) c.2.2.2 ply) S1 b c.2.1 ⟨0⟩ 0 with
      | none => rw [hq] at hl; cases hl
      | some w => rfl

/-! ## Search: `findBestMove` -/

theorem deepen_frame (E : SearchEnv) (hs : SortOK E) (fuel : Nat) : ∀ (n : Nat) (depth : Int)
    (S : Search) (b : Board) (r : Search × Board), deepen E fuel n depth S b = some r →
    RootInv (fun x => x ∈ generateMoves b ∧ (makeMove E.Z b x).2 = true) 0 S r.1 ∧
      BFrame b r.2 := by
  intro n
  induction n with
  | zero =>
    intro depth S b r h
    simp only [deepen, Option.some.injEq] at h
    subst h
    exact ⟨rootInv_of_frame (sframe_refl S), bframe_refl b⟩
  | succ n ih =>
    intro depth S b r h
    rw [deepen] at h
    simp only [] at h
    cases ha : alphaBeta E fuel S b depth (-CHECKMATE) CHECKMATE 0 true with
    | none => rw [ha] at h; cases h
    | some v =>
      rw [ha] at h
      simp only [] at h
      obtain ⟨a1, a2⟩ := alphaBeta_frame E hs _ _ _ _ _ _ _ _ _ (le_refl (0 : Int)) ha
      by_cases t1 : (timeUp E v.2.1).1 = true
      · rw [if_pos t1] at h
        simp only [Option.some.injEq] at h
        subst h
        exact ⟨⟨Nat.le_trans a1.1 (Nat.le_succ _), fun h0 => absurd rfl h0, Or.inl rfl⟩, a2⟩
      · rw [if_neg t1] at h
        have f2 : SFrame v.2.1 { (timeUp E v.2.1).2 with depthReached := depth } :=
          ⟨rfl, rfl, Nat.le_succ _⟩
        have a3 := rootInv_trans a1 (rootInv_of_frame f2)
        by_cases t2 : v.1 ≥ CHECKMATE - 200
        · rw [if_pos t2] at h
          simp only [Option.some.injEq] at h
          subst h
          exact ⟨a3, a2⟩
        · rw [if_neg t2] at h
          obtain ⟨i1, i2⟩ := ih _ _ _ _ h
          refine ⟨rootInv_trans a3 (rootInv_mono i1 ?_), bframe_trans a2 i2⟩
          intro x hx
          exact ⟨by rw [generateMoves_congr b v.2.2 a2.1.symm]; exact hx.1,
            by rw [← makeMove_congr E.Z b _ x a2.1]; exact hx.2⟩

theorem deepen_total (E : SearchEnv) (hs : SortOK E) (fuel : Nat) : ∀ (n : Nat) (depth : Int)
    (S : Search) (b : Board), 0 ≤ depth → depth.toNat + n + 194 ≤ fuel →
    (deepen E fuel n depth S b).isSome = true := by
  intro n
  induction n with
  | zero =>
    intro depth S b _ _
    simp only [deepen, Option.isSome_some]
  | succ n ih =>
    intro depth S b h0 h
    rw [deepen]
    simp only []
    have ht := alphaBeta_total E hs fuel S b depth (-CHECKMATE) CHECKMATE 0 true (by omega)
    cases ha : alphaBeta E fuel S b depth (-CHECKMATE) CHECKMATE 0 true with
    | none => rw [ha] at ht; cases ht
    | some v =>
      simp only []
      split_ifs
      · rfl
      · rfl
      · exact ih _ _ _ (by omega) (by omega)

/-- No move of `generateMoves` is the all-zero move. -/
theorem generated_not_null (b : Board) (m : Move) (hm : m ∈ generateMoves b) :
    m.isNull = false := by
  obtain ⟨s, t, fl, p, rfl, hs0, hs, ht0, ht, hst, hcase⟩ := generateMoves_facts b m hm
  have hfl : fl ≤ 3 := by
    rcases hcase with h | h | h | h <;> rw [h.1] <;> decide
  have hp : p ≤ 3 := by
    rcases hcase with h | h | h | h <;> omega
  have hd := Move.new_data s t fl p hs0 hs ht0 ht hfl hp
  unfold Move.isNull
  rw [hd]
  simp only [beq_eq_false_iff_ne, ne_eq]
  omega

theorem legal_mem (Z : ZobristKeys) (b : Board) (m : Move) :
    m ∈ (generateLegalMoves Z b).1 ↔ m ∈ generateMoves b ∧ (makeMove Z b m).2 = true := by
  rw [generateLegalMoves_eq_filter, List.mem_filter]

theorem generateLegalMoves_frame (Z : ZobristKeys) (b : Board) :
    BFrame b (generateLegalMoves Z b).2 := by
  have f := legalFold_frame Z (generateMoves b) ([], b)
  unfold generateLegalMoves
  exact ⟨f.1, f.2.1⟩

theorem findBestMove_of_many (E : SearchEnv) (fuel : Nat) (S : Search) (b : Board)
    (maxDepth : Int) (m m2 : Move) (rest : List Move)
    (h : (generateLegalMoves E.Z b).1 = m :: m2 :: rest) :
    findBestMove E fuel S b maxDepth =
      (deepen E fuel maxDepth.toNat 1
        { clearHeuristics { S with nodesSearched := 0, depthReached := 0 } with
          bestMoveFound := m, lastScore := 0 }
        (generateLegalMoves E.Z b).2).map (fun r => (r.1.bestMoveFound, r.1, r.2)) := by
  unfold findBestMove
  simp only [h]
  cases deepen E fuel maxDepth.toNat 1
    { clearHeuristics { S with nodesSearched := 0, depthReached := 0 } with
      bestMoveFound := m, lastScore := 0 } (generateLegalMoves E.Z b).2 <;> rfl

/-- `findBestMove` returns when the recursion depth allowed is `maxDepth + 195`. -/
theorem findBestMove_total (E : SearchEnv) (hs : SortOK E) (fuel : Nat) (S : Search)
    (b : Board) (maxDepth : Int) (h : maxDepth.toNat + 195 ≤ fuel) :
    (findBestMove E fuel S b maxDepth).isSome = true := by
  cases hl : (generateLegalMoves E.Z b).1 with
  | nil => rw [findBestMove_of_nil E fuel S b maxDepth hl]; rfl
  | cons m l =>
    cases l with
    | nil => rw [findBestMove_of_single E fuel S b maxDepth m hl]; rfl
    | cons m2 rest =>
      rw [findBestMove_of_many E fuel S b maxDepth m m2 rest hl]
      have hd := deepen_total E hs fuel maxDepth.toNat 1
        { clearHeuristics { S with nodesSearched := 0, depthReached := 0 } with
          bestMoveFound := m, lastScore := 0 } (generateLegalMoves E.Z b).2 (by decide)
        (by simp only [Int.toNat_one]; omega)
      cases hq : deepen E fuel maxDepth.toNat 1
          { clearHeuristics { S with nodesSearched := 0, depthReached := 0 } with
            bestMoveFound := m, lastScore := 0 } (generateLegalMoves E.Z b).2 with
      | none => rw [hq] at hd; cases hd
      | some w => rfl

/-- With a legal move on the board, the move `findBestMove` returns is a legal move. -/
theorem findBestMove_legal (E : SearchEnv) (hs : SortOK E) (fuel : Nat) (S : Search)
    (b : Board) (maxDepth : Int) (r : Move × Search × Board)
    (hne : (generateLegalMoves E.Z b).1 ≠ [])
    (h : findBestMove E fuel S b maxDepth = some r) :
    r.1 ∈ (generateLegalMoves E.Z b).1 := by
  cases hl : (generateLegalMoves E.Z b).1 with
  | nil => exact absurd hl hne
  | cons m l =>
    cases l with
    | nil =>
      rw [findBestMove_of_single E fuel S b maxDepth m hl, Option.some.injEq] at h
      rw [← h]
      exact List.mem_cons_self _ _
    | cons m2 rest =>
      rw [findBestMove_of_many E fuel S b maxDepth m m2 rest hl] at h
      cases hd : deepen E fuel maxDepth.toNat 1
          { clearHeuristics { S with nodesSearched := 0, depthReached := 0 } with
            bestMoveFound := m, lastScore := 0 } (generateLegalMoves E.Z b).2 with
      | none => rw [hd] at h; cases h
      | some w =>
        rw [hd] at h
        simp only [Option.map, Option.some.injEq] at h
        obtain ⟨d1, -⟩ := deepen_frame E hs fuel _ _ _ _ _ hd
        have fb := generateLegalMoves_frame E.Z b
        rw [← h, ← hl]
        rcases d1.2.2 with e | e
        · rw [e]
          show m ∈ (generateLegalMoves E.Z b).1
          rw [hl]
          exact List.mem_cons_self _ _
        · rw [legal_mem]
          exact ⟨by rw [generateMoves_congr b _ fb.1.symm]; exact e.1,
            by rw [← makeMove_congr E.Z b _ _ fb.1]; exact e.2⟩

theorem sampleEnv_sortOK (limit : Nat) : SortOK (sampleEnv limit) := by
  intro f l
  exact List.perm_insertionSort _ l

theorem timeUp_mono (E : SearchEnv)
    (hmono : ∀ k, E.timeUpAt k = true → E.timeUpAt (k + 1) = true) :
    ∀ (j k : Nat), k ≤ j → E.timeUpAt k = true → E.timeUpAt j = true := by
  intro j
  induction j with
  | zero =>
    intro k hk h
    have : k = 0 := by omega
    rw [← this]
    exact h
  | succ j ih =>
    intro k hk h
    by_cases e : k = j + 1
    · rw [← e]; exact h
    · exact hmono j (ih k (by omega) h)

/-- C14: `findBestMove` returns (with any clock and any `maxDepth`, once the recursion depth
allowed is `maxDepth + 195`), and the move it returns is the null move if and only if the
position has no legal move; no move of `generateMoves` is the all-zero move. -/
theorem findBestMove_null_iff (E : SearchEnv) (hs : SortOK E) (S : Search) (b : Board)
    (maxDepth : Int) :
    (∀ fuel, maxDepth.toNat + 195 ≤ fuel →
      (findBestMove E fuel S b maxDepth).isSome = true) ∧
    (∀ fuel r, findBestMove E fuel S b maxDepth = some r →
      (r.1.isNull = true ↔ (generateLegalMoves E.Z b).1 = [])) ∧
    (∀ m ∈ generateMoves b, m.isNull = false) := by
  refine ⟨fun fuel h => findBestMove_total E hs fuel S b maxDepth h, ?_,
    fun m hm => generated_not_null b m hm⟩
  intro fuel r h
  constructor
  · intro hn
    by_contra hne
    have hm := findBestMove_legal E hs fuel S b maxDepth r hne h
    have hg := generated_not_null b r.1 ((legal_mem E.Z b r.1).1 hm).1
    rw [hn] at hg
    cases hg
  · intro hl
    rw [findBestMove_of_nil E fuel S b maxDepth hl, Option.some.injEq] at h
    rw [← h]
    rfl

theorem findBestMove_null_iff_witness :
    SortOK (sampleEnv 3) ∧
    (∀ fuel, (4 : Int).toNat + 195 ≤ fuel →
      (findBestMove (sampleEnv 3) fuel Search.init (boardOfFEN sampleKeys startFEN) 4).isSome
        = true) ∧
    (∀ fuel r,
      findBestMove (sampleEnv 3) fuel Search.init (boardOfFEN sampleKeys startFEN) 4 = some r →
      (r.1.isNull = true ↔
        (generateLegalMoves (sampleEnv 3).Z (boardOfFEN sampleKeys startFEN)).1 = [])) ∧
    (∀ m ∈ generateMoves (boardOfFEN sampleKeys startFEN), m.isNull = false) :=
  ⟨sampleEnv_sortOK 3,
    findBestMove_null_iff (sampleEnv 3) (sampleEnv_sortOK 3) Search.init
      (boardOfFEN sampleKeys startFEN) 4⟩

/-- C16: in a position with exactly one legal move `findBestMove` returns that move, with
`nodesSearched` 0 and the board as it was; no recursion depth is needed. -/
theorem findBestMove_single_move (E : SearchEnv) (fuel : Nat) (S : Search) (b : Board)
    (maxDepth : Int) (m : Move) (h : (generateLegalMoves E.Z b).1 = [m]) :
    ∃ T c, findBestMove E fuel S b maxDepth = some (m, T, c) ∧ T.nodesSearched = 0 ∧
      BFrame b c :=
  ⟨_, _, findBestMove_of_single E fuel S b maxDepth m h, rfl, generateLegalMoves_frame E.Z b⟩

set_option maxRecDepth 1000000 in
theorem findBestMove_single_move_witness :
    (generateLegalMoves (sampleEnv 3).Z (boardOfFEN sampleKeys onlyMoveFEN)).1 =
      [Move.new 0 1 0 0] ∧
    ∃ T c, findBestMove (sampleEnv 3) 0 Search.init (boardOfFEN sampleKeys onlyMoveFEN) 64 =
        some (Move.new 0 1 0 0, T, c) ∧ T.nodesSearched = 0 ∧
      BFrame (boardOfFEN sampleKeys onlyMoveFEN) c :=
  have h : (generateLegalMoves (sampleEnv 3).Z (boardOfFEN sampleKeys onlyMoveFEN)).1 =
      [Move.new 0 1 0 0] := by decide!
  ⟨h, findBestMove_single_move (sampleEnv 3) 0 Search.init
    (boardOfFEN sampleKeys onlyMoveFEN) 64 (Move.new 0 1 0 0) h⟩

/-- Against C17: the position of the mate-in-1 example is a stalemate; a fresh search with a
clock that never fires returns the null move, which is not a legal move, and `lastScore` stays 0,
below `CHECKMATE - 200`. -/
theorem mate_example_returns_null :
    ∃ T c, findBestMove (sampleEnv 1000000000) 1000 Search.init
        (boardOfFEN sampleKeys stalemateFEN) 64 = some (⟨0⟩, T, c) ∧
      T.lastScore < CHECKMATE - 200 ∧
      (generateLegalMoves sampleKeys (boardOfFEN sampleKeys stalemateFEN)).1 = [] :=
  ⟨_, _, findBestMove_of_nil (sampleEnv 1000000000) 1000 Search.init
      (boardOfFEN sampleKeys stalemateFEN) 64 (stalemate_no_legal_move sampleKeys).1,
    by decide, (stalemate_no_legal_move sampleKeys).1⟩

/-- C17 (amended): in the position `8/8/8/8/8/3k4/3p4/3K4 w - - 0 1` White has no legal
move and is not in check, and `findBestMove`, with any clock and any `maxDepth`, returns
the null move without searching: `nodesSearched` is 0 and `lastScore` keeps its value. -/
theorem stalemate_returns_null (E : SearchEnv) (fuel : Nat) (S : Search) (maxDepth : Int) :
    (generateLegalMoves E.Z (boardOfFEN E.Z stalemateFEN)).1 = [] ∧
    isInCheck (boardOfFEN E.Z stalemateFEN).state WHITE = false ∧
    ∃ T c, findBestMove E fuel S (boardOfFEN E.Z stalemateFEN) maxDepth = some (⟨0⟩, T, c) ∧
      T.nodesSearched = 0 ∧ T.lastScore = S.lastScore :=
  ⟨(stalemate_no_legal_move E.Z).1, (stalemate_no_legal_move E.Z).2,
    _, _, findBestMove_of_nil E fuel S _ maxDepth (stalemate_no_legal_move E.Z).1, rfl, rfl⟩

/-- C15: with a clock that stays up once it is up. (1) With two or more legal moves
`findBestMove` returns `bestMoveFound` as the iterative-deepening loop leaves it, the loop
starting from the first legal move and `lastScore` 0. (2) If a time check fires during an
iteration (one of the calls of `timeUp()` numbered from the start of the iteration to the
check after it answers true), the loop ends with `bestMoveFound`, `lastScore` and
`depthReached` as they were when the iteration started, that is, as the previous iteration
left them. (3) If the check after an iteration does not fire, no check fired during it, and
the loop goes on (or ends on a mate score) from the results of that iteration. -/
theorem time_up_keeps_previous (E : SearchEnv)
    (hmono : ∀ k, E.timeUpAt k = true → E.timeUpAt (k + 1) = true) (fuel : Nat) :
    (∀ (S : Search) (b : Board) (maxDepth : Int) (m m2 : Move) (rest : List Move),
      (generateLegalMoves E.Z b).1 = m :: m2 :: rest →
      findBestMove E fuel S b maxDepth =
        (deepen E fuel maxDepth.toNat 1
          { clearHeuristics { S with nodesSearched := 0, depthReached := 0 } with
            bestMoveFound := m, lastScore := 0 }
          (generateLegalMoves E.Z b).2).map (fun r => (r.1.bestMoveFound, r.1, r.2))) ∧
    (∀ (n : Nat) (depth : Int) (S : Search) (b : Board) (score : Int) (S1 : Search)
      (b1 : Board),
      alphaBeta E fuel S b depth (-CHECKMATE) CHECKMATE 0 true = some (score, S1, b1) →
      (∃ k, S.clock ≤ k ∧ k ≤ S1.clock ∧ E.timeUpAt k = true) →
      ∃ T, deepen E fuel (n + 1) depth S b = some (T, b1) ∧
        T.bestMoveFound = S.bestMoveFound ∧ T.lastScore = S.lastScore ∧
        T.depthReached = S1.depthReached) ∧
    (∀ (n : Nat) (depth : Int) (S : Search) (b : Board) (score : Int) (S1 : Search)
      (b1 : Board),
      alphaBeta E fuel S b depth (-CHECKMATE) CHECKMATE 0 true = some (score, S1, b1) →
      E.timeUpAt S1.clock = false →
      (∀ k, k ≤ S1.clock → E.timeUpAt k = false) ∧
      deepen E fuel (n + 1) depth S b =
        (if score ≥ CHECKMATE - 200 then
          some ({ (timeUp E S1).2 with depthReached := depth }, b1)
        else deepen E fuel n (depth + 1) { (timeUp E S1).2 with depthReached := depth } b1)) := by
  refine ⟨fun S b maxDepth m m2 rest h => findBestMove_of_many E fuel S b maxDepth m m2 rest h,
    ?_, ?_⟩
  · intro n depth S b score S1 b1 ha hk
    obtain ⟨k, -, hk2, hk3⟩ := hk
    have hup : (timeUp E S1).1 = true := timeUp_mono E hmono S1.clock k hk2 hk3
    have e : ∃ T, deepen E fuel (n + 1) depth S b = some (T, b1) ∧
        T.bestMoveFound = S.bestMoveFound ∧ T.lastScore = S.lastScore ∧
        T.depthReached = S1.depthReached := by
      rw [deepen]
      simp only [ha]
      rw [if_pos hup]
      exact ⟨_, rfl, rfl, rfl, rfl⟩
    exact e
  · intro n depth S b score S1 b1 ha hk
    refine ⟨?_, ?_⟩
    · intro k hle
      cases hv : E.timeUpAt k with
      | false => rfl
      | true =>
        have := timeUp_mono E hmono S1.clock k hle hv
        rw [hk] at this
        cases this
    · rw [deepen]
      simp only [ha]
      have hup : ¬ (timeUp E S1).1 = true := by
        show ¬ E.timeUpAt S1.clock = true
        rw [hk]
        exact Bool.false_ne_true
      rw [if_neg hup]

theorem sampleEnv_mono (limit : Nat) :
    ∀ k, (sampleEnv limit).timeUpAt k = true → (sampleEnv limit).timeUpAt (k + 1) = true := by
  intro k h
  simp only [sampleEnv, decide_eq_true_eq] at h ⊢
  omega

set_option maxRecDepth 1000000 in
theorem sample_iteration :
    (alphaBeta (sampleEnv 2) 300 Search.init (boardOfFEN sampleKeys startFEN) 1
      (-CHECKMATE) CHECKMATE 0 true).map (fun r => (r.1, r.2.1.clock)) = some (-100000, 5) := by
  decide!

theorem time_up_keeps_previous_witness :
    (∀ k, (sampleEnv 2).timeUpAt k = true → (sampleEnv 2).timeUpAt (k + 1) = true) ∧
    ∃ score S1 b1,
      alphaBeta (sampleEnv 2) 300 Search.init (boardOfFEN sampleKeys startFEN) 1
        (-CHECKMATE) CHECKMATE 0 true = some (score, S1, b1) ∧
      (∃ k, Search.init.clock ≤ k ∧ k ≤ S1.clock ∧ (sampleEnv 2).timeUpAt k = true) ∧
      ∃ T, deepen (sampleEnv 2) 300 (3 + 1) 1 Search.init (boardOfFEN sampleKeys startFEN) =
          some (T, b1) ∧
        T.bestMoveFound = Search.init.bestMoveFound ∧ T.lastScore = Search.init.lastScore ∧
        T.depthReached = S1.depthReached := by
  refine ⟨sampleEnv_mono 2, ?_⟩
  have hs := sample_iteration
  cases hv : alphaBeta (sampleEnv 2) 300 Search.init (boardOfFEN sampleKeys startFEN) 1
      (-CHECKMATE) CHECKMATE 0 true with
  | none => rw [hv] at hs; cases hs
  | some v =>
    rw [hv] at hs
    simp only [Option.map, Option.some.injEq, Prod.mk.injEq] at hs
    have hk : ∃ k, Search.init.clock ≤ k ∧ k ≤ v.2.1.clock ∧ (sampleEnv 2).timeUpAt k = true :=
      ⟨2, Nat.zero_le _, by rw [hs.2]; decide, by decide⟩
    exact ⟨v.1, v.2.1, v.2.2, rfl, hk,
      (time_up_keeps_previous (sampleEnv 2) (sampleEnv_mono 2) 300).2.1 3 1 Search.init
        (boardOfFEN sampleKeys startFEN) v.1 v.2.1 v.2.2 hv hk⟩

/-- C28: for `from`, `to` in 0..63 and `flags`, `promo` in 0..3 the packed
`Move(from, to, flags, promo)` fits in 16 bits and its accessors return `from`, `to`,
`flags` and `promo`; two such moves are equal (`operator==` compares `data`) exactly
when the four fields are equal; and `isNull` holds exactly when the four fields are 0. -/
theorem move_packing (s t : Int) (fl p : Nat) (hs0 : 0 ≤ s) (hs : s < 64) (ht0 : 0 ≤ t)
    (ht : t < 64) (hf : fl ≤ 3) (hp : p ≤ 3) :
    (Move.new s t fl p).data < 65536 ∧
    (Move.new s t fl p).from_ = s ∧ (Move.new s t fl p).to_ = t ∧
    (Move.new s t fl p).flags = fl ∧ (Move.new s t fl p).promo = p ∧
    (∀ (s2 t2 : Int) (fl2 p2 : Nat), 0 ≤ s2 → s2 < 64 → 0 ≤ t2 → t2 < 64 → fl2 ≤ 3 →
      p2 ≤ 3 →
      (Move.new s t fl p = Move.new s2 t2 fl2 p2 ↔ s = s2 ∧ t = t2 ∧ fl = fl2 ∧ p = p2)) ∧
    ((Move.new s t fl p).isNull = true ↔ s = 0 ∧ t = 0 ∧ fl = 0 ∧ p = 0) := by
  have hd := Move.new_data s t fl p hs0 hs ht0 ht hf hp
  obtain ⟨e1, e2, e3, e4⟩ := Move.new_fields s t fl p hs0 hs ht0 ht hf hp
  refine ⟨by rw [hd]; omega, e1, e2, e3, e4, ?_, ?_⟩
  · intro s2 t2 fl2 p2 a1 a2 a3 a4 a5 a6
    obtain ⟨g1, g2, g3, g4⟩ := Move.new_fields s2 t2 fl2 p2 a1 a2 a3 a4 a5 a6
    constructor
    · intro h
      rw [h] at e1 e2 e3 e4
      exact ⟨e1.symm.trans g1, e2.symm.trans g2, e3.symm.trans g3, e4.symm.trans g4⟩
    · rintro ⟨rfl, rfl, rfl, rfl⟩
      rfl
  · unfold Move.isNull
    rw [hd]
    simp only [beq_iff_eq]
    omega

theorem move_packing_witness :
    (Move.new 12 28 3 2).data < 65536 ∧
    (Move.new 12 28 3 2).from_ = 12 ∧ (Move.new 12 28 3 2).to_ = 28 ∧
    (Move.new 12 28 3 2).flags = 3 ∧ (Move.new 12 28 3 2).promo = 2 ∧
    (∀ (s2 t2 : Int) (fl2 p2 : Nat), 0 ≤ s2 → s2 < 64 → 0 ≤ t2 → t2 < 64 → fl2 ≤ 3 →
      p2 ≤ 3 →
      (Move.new 12 28 3 2 = Move.new s2 t2 fl2 p2 ↔
        (12 : Int) = s2 ∧ (28 : Int) = t2 ∧ 3 = fl2 ∧ 2 = p2)) ∧
    ((Move.new 12 28 3 2).isNull = true ↔
      (12 : Int) = 0 ∧ (28 : Int) = 0 ∧ 3 = 0 ∧ 2 = 0) :=
  move_packing 12 28 3 2 (by decide) (by decide) (by decide) (by decide) (by decide)
    (by decide)

/-- C30: `storeTT(key, depth, score, best, flag)` changes no member but `tt` and no slot
but the one at index `key mod 2^20`; it leaves that slot as it is when the slot holds the
same key with a strictly greater depth, and otherwise writes the five new values. In both
cases `probeTT(key)` then returns an entry with that key and a depth not below `depth`. -/
theorem storeTT_spec (S : Search) (key : Nat) (depth score : Int) (best : Move) (flag : Int) :
    (∀ i, i ≠ key % 1048576 → (storeTT S key depth score best flag).tt i = S.tt i) ∧
    ((S.tt (key % 1048576)).key = key ∧ (S.tt (key % 1048576)).depth > depth →
      storeTT S key depth score best flag = S) ∧
    (¬ ((S.tt (key % 1048576)).key = key ∧ (S.tt (key % 1048576)).depth > depth) →
      (storeTT S key depth score best flag).tt (key % 1048576) =
        ⟨key, depth, score, best, flag⟩) ∧
    (storeTT S key depth score best flag).nodesSearched = S.nodesSearched ∧
    (storeTT S key depth score best flag).bestMoveFound = S.bestMoveFound ∧
    (storeTT S key depth score best flag).lastScore = S.lastScore ∧
    (storeTT S key depth score best flag).killers = S.killers ∧
    (storeTT S key depth score best flag).history = S.history ∧
    (∃ e, probeTT (storeTT S key depth score best flag) key = some e ∧ e.key = key ∧
      e.depth ≥ depth) := by
  unfold storeTT probeTT
  simp only [TT_SIZE]
  by_cases h : (S.tt (key % 1048576)).key = key ∧ (S.tt (key % 1048576)).depth > depth
  · simp only [h, and_self, if_true, implies_true, not_true_eq_false, false_implies, true_and]
    exact ⟨_, rfl, h.1, by omega⟩
  · simp only [h, if_false, false_implies, not_false_eq_true, true_implies, if_true, true_and,
      and_true]
    refine ⟨fun i hi => by rw [if_neg hi], ?_⟩
    exact ⟨_, rfl, rfl, le_refl _⟩

theorem mask_step (x k : Nat) (c : Prop) [Decidable c] (i : Nat) :
    (if c then x &&& k else x).testBit i = (x.testBit i && (!decide c || k.testBit i)) := by
  by_cases h : c
  · simp [h, Nat.testBit_and]
  · simp [h]

theorem testBit_32 (k : Nat) (hk : k < 4294967296) (i : Nat) (hi : 32 ≤ i) :
    k.testBit i = false := by
  apply Nat.testBit_lt_two_pow
  calc k < 2 ^ 32 := hk
    _ ≤ 2 ^ i := Nat.pow_le_pow_right (by decide) hi

theorem mask_bits (i : Nat) (hi : i < 32) :
    Nat.testBit 4294967292 i = decide (i ≠ 0 ∧ i ≠ 1) ∧
    Nat.testBit 4294967283 i = decide (i ≠ 2 ∧ i ≠ 3) ∧
    Nat.testBit 4294967293 i = decide (i ≠ 1) ∧
    Nat.testBit 4294967294 i = decide (i ≠ 0) ∧
    Nat.testBit 4294967287 i = decide (i ≠ 3) ∧
    Nat.testBit 4294967291 i = decide (i ≠ 2) := by
  interval_cases i <;> decide

/-- The castling mask after the update of `makeMove`, bit by bit. -/
theorem applyMove_castling_bits (Z : ZobristKeys) (st : BoardState) (m : Move)
    (hc : st.castling < 4294967296) (i : Nat) :
    (applyMove Z st m).castling.testBit i =
      (st.castling.testBit i && decide (¬ clearsBit m.from_ m.to_ i)) := by
  rw [applyMove_castling, Move.from_of_data, Move.to_of_data]
  unfold fcastling
  simp only [fmask_eq, Nat.cast_ofNat, Nat.cast_zero, mask_step]
  generalize ((m.data % 64 : Nat) : Int) = fr
  generalize ((m.data / 64 % 64 : Nat) : Int) = to_
  by_cases hi : i < 32
  · obtain ⟨b1, b2, b3, b4, b5, b6⟩ := mask_bits i hi
    rw [b1, b2, b3, b4, b5, b6]
    unfold clearsBit
    cases st.castling.testBit i
    · simp
    · by_cases h0 : i = 0
      · subst h0; simp
      by_cases h1 : i = 1
      · subst h1; simp
      by_cases h2 : i = 2
      · subst h2; simp
      by_cases h3 : i = 3
      · subst h3; simp
      simp [h0, h1, h2, h3]
  · rw [testBit_32 st.castling hc i (by omega)]
    simp

theorem land_subset_of_bits (a b : Nat) (h : ∀ i, a.testBit i = true → b.testBit i = true) :
    a &&& b = a := by
  apply Nat.eq_of_testBit_eq
  intro i
  rw [Nat.testBit_and]
  cases ha : a.testBit i
  · rfl
  · rw [h i ha]
    rfl

/-- C24 (amended): a `makeMove` that returns true leaves the castling mask equal to the
previous mask with exactly these bits cleared: bits 0 and 1 if `from` or `to` is 4, bits 2
and 3 if it is 60, bit 1 for 0, bit 0 for 7, bit 3 for 56, bit 2 for 63. A `makeMove` that
returns false leaves the mask as it was. In both cases no bit is set: the new mask is a
bitwise subset of the old one. -/
theorem castling_mask_after_make (Z : ZobristKeys) (b : Board) (m : Move)
    (hc : b.state.castling < 4294967296) :
    ((makeMove Z b m).2 = true → ∀ i : Nat,
      (makeMove Z b m).1.state.castling.testBit i =
        (b.state.castling.testBit i && decide (¬ clearsBit m.from_ m.to_ i))) ∧
    ((makeMove Z b m).2 = false → (makeMove Z b m).1.state.castling = b.state.castling) ∧
    (makeMove Z b m).1.state.castling &&& b.state.castling =
      (makeMove Z b m).1.state.castling := by
  by_cases h : (makeMove Z b m).2 = true
  · have e := makeMove_fst_of_true Z b m h
    have hb : ∀ i : Nat, (makeMove Z b m).1.state.castling.testBit i =
        (b.state.castling.testBit i && decide (¬ clearsBit m.from_ m.to_ i)) := by
      intro i
      rw [e]
      exact applyMove_castling_bits Z b.state m hc i
    refine ⟨fun _ => hb, fun h2 => ?_, ?_⟩
    · rw [h] at h2
      cases h2
    · apply land_subset_of_bits
      intro i hi
      rw [hb i] at hi
      simp only [Bool.and_eq_true] at hi
      exact hi.1
  · have hf : (makeMove Z b m).2 = false := by simpa using h
    have e := makeMove_fst_of_false Z b m hf
    refine ⟨fun h2 => absurd h2 h, fun _ => ?_, ?_⟩
    · rw [e]
    · rw [e]
      exact Nat.and_self _

set_option maxRecDepth 1000000 in
/-- Against C24: the king move e1-d2 into the attack of the rook on e2 is generated,
`makeMove` returns false, and the castling mask is 1 before and after, although `from`
is square 4. -/
theorem failed_make_keeps_castling :
    Move.new 4 11 0 0 ∈ generateMoves (boardOfFEN sampleKeys checkedKingFEN) ∧
    (Move.new 4 11 0 0).from_ = 4 ∧
    (boardOfFEN sampleKeys checkedKingFEN).state.castling = 1 ∧
    (makeMove sampleKeys (boardOfFEN sampleKeys checkedKingFEN) (Move.new 4 11 0 0)).2 = false ∧
    (makeMove sampleKeys (boardOfFEN sampleKeys checkedKingFEN)
      (Move.new 4 11 0 0)).1.state.castling = 1 := by
  decide!

set_option maxRecDepth 1000000 in
theorem castling_mask_after_make_witness :
    (boardOfFEN sampleKeys startFEN).state.castling < 4294967296 ∧
    (makeMove sampleKeys (boardOfFEN sampleKeys startFEN) (Move.new 6 21 0 0)).2 = true ∧
    ((makeMove sampleKeys (boardOfFEN sampleKeys startFEN) (Move.new 6 21 0 0)).2 = true →
      ∀ i : Nat,
      (makeMove sampleKeys (boardOfFEN sampleKeys startFEN)
        (Move.new 6 21 0 0)).1.state.castling.testBit i =
        ((boardOfFEN sampleKeys startFEN).state.castling.testBit i &&
          decide (¬ clearsBit (Move.new 6 21 0 0).from_ (Move.new 6 21 0 0).to_ i))) :=
  ⟨by decide!, by decide!,
    (castling_mask_after_make sampleKeys (boardOfFEN sampleKeys startFEN) (Move.new 6 21 0 0)
      (by decide!)).1⟩

/-- The from-square, the to-square and the flag of a constructed move that is in a list of
constructed moves. -/
theorem new_shape (s t : Int) (fl p : Nat) (hs0 : 0 ≤ s) (hs : s < 64) (ht0 : 0 ≤ t)
    (ht : t < 64) (hf : fl ≤ 3) (hp : p ≤ 3) (P : Int → Int → Nat → Prop) (h : P s t fl) :
    P (Move.new s t fl p).from_ (Move.new s t fl p).to_ (Move.new s t fl p).flags := by
  obtain ⟨e1, e2, e3, -⟩ := Move.new_fields s t fl p hs0 hs ht0 ht hf hp
  rw [e1, e2, e3]
  exact h

theorem pawnCaptureMoves_shape (st : BoardState) (side : Color) (promoRank s df dir : Int)
    (startRank : Int) (m : Move) (hs0 : 0 ≤ s) (hs : s < 64) (hdf : df = -1 ∨ df = 1)
    (hm : m ∈ pawnCaptureMoves st side dir promoRank s df) :
    PawnShape st dir startRank s m.from_ m.to_ m.flags := by
  unfold pawnCaptureMoves at hm
  simp only [] at hm
  have hsh : ∀ t, t = s + dir + df → PawnShape st dir startRank s s t FLAG_EP ∧
      PawnShape st dir startRank s s t FLAG_NORMAL ∧
      PawnShape st dir startRank s s t FLAG_PROMO := by
    intro t ht
    have : t = s + dir - 1 ∨ t = s + dir + 1 := by omega
    exact ⟨⟨rfl, Or.inl this⟩, ⟨rfl, Or.inl this⟩, ⟨rfl, Or.inl this⟩⟩
  split_ifs at hm with h1 h2 h3 h4 h5
  all_goals first
    | exact absurd hm (List.not_mem_nil _)
    | (simp only [List.mem_singleton] at hm
       rw [hm]
       first
         | exact new_shape s _ _ _ hs0 hs (by omega) (by omega) (by decide) (by decide)
             (PawnShape st dir startRank s) (hsh _ rfl).1
         | exact new_shape s _ _ _ hs0 hs (by omega) (by omega) (by decide) (by decide)
             (PawnShape st dir startRank s) (hsh _ rfl).2.1)
    | (obtain ⟨p, hp3, rfl⟩ := mem_promoMoves hm
       exact new_shape s _ _ _ hs0 hs (by omega) (by omega) (by decide) hp3
         (PawnShape st dir startRank s) (hsh _ rfl).2.2)

theorem pawnForwardMoves_shape (st : BoardState) (startRank promoRank s dir : Int) (m : Move)
    (hs0 : 0 ≤ s) (hs : s < 64) (hd : dir = 8 ∨ dir = -8)
    (hr : (dir = 8 ∧ startRank = 1) ∨ (dir = -8 ∧ startRank = 6))
    (hm : m ∈ pawnForwardMoves st dir startRank promoRank s) :
    PawnShape st dir startRank s m.from_ m.to_ m.flags := by
  unfold pawnForwardMoves at hm
  simp only [] at hm
  by_cases h1 : s + dir < 0 ∨ s + dir > 63
  · rw [if_pos h1] at hm; exact absurd hm (List.not_mem_nil _)
  rw [if_neg h1] at hm
  by_cases h2 : st.pieceAt (s + dir) = 0
  · rw [if_pos h2] at hm
    by_cases h3 : (s + dir).tdiv 8 = promoRank
    · rw [if_pos h3] at hm
      obtain ⟨p, hp3, rfl⟩ := mem_promoMoves hm
      exact new_shape s _ _ _ hs0 hs (by omega) (by omega) (by decide) hp3
        (PawnShape st dir startRank s) ⟨rfl, Or.inr (Or.inl ⟨rfl, h2, by decide⟩)⟩
    · rw [if_neg h3] at hm
      rcases List.mem_cons.mp hm with hm | hm
      · rw [hm]
        exact new_shape s _ _ _ hs0 hs (by omega) (by omega) (by decide) (by decide)
          (PawnShape st dir startRank s) ⟨rfl, Or.inr (Or.inl ⟨rfl, h2, by decide⟩)⟩
      · by_cases h4 : s.tdiv 8 = startRank
        · rw [if_pos h4] at hm
          by_cases h5 : st.pieceAt (s + dir + dir) = 0
          · rw [if_pos h5] at hm
            simp only [List.mem_singleton] at hm
            rw [hm]
            have hrange : 0 ≤ s + dir + dir ∧ s + dir + dir < 64 := by
              rw [tdiv8 hs0] at h4
              rcases hr with ⟨rfl, rfl⟩ | ⟨rfl, rfl⟩ <;> omega
            exact new_shape s _ _ _ hs0 hs hrange.1 hrange.2 (by decide) (by decide)
              (PawnShape st dir startRank s) ⟨rfl, Or.inr (Or.inr ⟨rfl, h4, rfl, h5⟩)⟩
          · rw [if_neg h5] at hm; exact absurd hm (List.not_mem_nil _)
        · rw [if_neg h4] at hm; exact absurd hm (List.not_mem_nil _)
  · rw [if_neg h2] at hm; exact absurd hm (List.not_mem_nil _)

/-- Every move of `addPawnMoves` starts on a pawn of the side to move and has the shape of
a pawn move. -/
theorem addPawnMoves_shape (st : BoardState) (co : Bool) (m : Move)
    (hm : m ∈ addPawnMoves st co) :
    st.pieceAt m.from_ = makePiece st.sideToMove PAWN ∧
    PawnShape st (if st.sideToMove = WHITE then 8 else -8)
      (if st.sideToMove = WHITE then 1 else 6) m.from_ m.from_ m.to_ m.flags := by
  unfold addPawnMoves at hm
  simp only [List.mem_flatMap] at hm
  obtain ⟨s, hs, hm⟩ := hm
  rw [mem_allSquares] at hs
  by_cases hp : st.pieceAt s ≠
      (if st.sideToMove = WHITE then makePiece WHITE PAWN else makePiece BLACK PAWN)
  · rw [if_pos hp] at hm; exact absurd hm (List.not_mem_nil _)
  rw [if_neg hp] at hm
  have hp2 : st.pieceAt s = makePiece st.sideToMove PAWN := by
    have := not_not.mp hp
    rw [this]
    cases st.sideToMove <;> rfl
  have key : PawnShape st (if st.sideToMove = WHITE then 8 else -8)
      (if st.sideToMove = WHITE then 1 else 6) s m.from_ m.to_ m.flags := by
    rcases List.mem_append.mp hm with hm | hm
    · simp only [List.mem_flatMap] at hm
      obtain ⟨df, hdf, hm⟩ := hm
      simp only [List.mem_cons, List.mem_singleton, List.not_mem_nil, or_false] at hdf
      exact pawnCaptureMoves_shape st _ _ s df _ _ m hs.1 hs.2 hdf hm
    · cases co
      · simp only [Bool.false_eq_true, if_false] at hm
        refine pawnForwardMoves_shape st _ _ s _ m hs.1 hs.2 ?_ ?_ hm
        · cases st.sideToMove <;> simp
        · cases st.sideToMove <;> simp
      · simp at hm
  have hf : m.from_ = s := key.1
  refine ⟨by rw [hf]; exact hp2, ?_⟩
  rw [hf] at key ⊢
  exact key

theorem knightMoveAt_from (st : BoardState) (side : Color) (co : Bool) (s o : Int) (m : Move)
    (hs0 : 0 ≤ s) (hs : s < 64) (hm : m ∈ knightMoveAt st side co s o) :
    m.from_ = s ∧ m.to_ = s + o ∧ m.flags = FLAG_NORMAL := by
  unfold knightMoveAt at hm
  simp only [] at hm
  split_ifs at hm
  all_goals first
    | exact absurd hm (List.not_mem_nil _)
    | (simp only [List.mem_singleton] at hm
       rw [hm]
       exact new_shape s _ _ _ hs0 hs (by omega) (by omega) (by decide) (by decide)
         (fun a b c => a = s ∧ b = s + o ∧ c = FLAG_NORMAL) ⟨rfl, rfl, rfl⟩)

theorem kingMoveAt_from (st : BoardState) (side : Color) (co : Bool) (s o : Int) (m : Move)
    (hs0 : 0 ≤ s) (hs : s < 64) (hm : m ∈ kingMoveAt st side co s o) :
    m.from_ = s ∧ m.to_ = s + o ∧ m.flags = FLAG_NORMAL := by
  unfold kingMoveAt at hm
  simp only [] at hm
  split_ifs at hm
  all_goals first
    | exact absurd hm (List.not_mem_nil _)
    | (simp only [List.mem_singleton] at hm
       rw [hm]
       exact new_shape s _ _ _ hs0 hs (by omega) (by omega) (by decide) (by decide)
         (fun a b c => a = s ∧ b = s + o ∧ c = FLAG_NORMAL) ⟨rfl, rfl, rfl⟩)

theorem castleMoves_shape (st : BoardState) (side : Color) (m : Move)
    (hm : m ∈ castleMoves st side) :
    m.flags = FLAG_CASTLE ∧ (m.to_ = m.from_ + 2 ∨ m.to_ = m.from_ - 2) := by
  unfold castleMoves at hm
  simp only [] at hm
  have h46 := new_shape 4 6 FLAG_CASTLE 0 (by decide) (by decide) (by decide) (by decide)
    (by decide) (by decide) (fun a b c => c = FLAG_CASTLE ∧ (b = a + 2 ∨ b = a - 2))
    ⟨rfl, Or.inl rfl⟩
  have h42 := new_shape 4 2 FLAG_CASTLE 0 (by decide) (by decide) (by decide) (by decide)
    (by decide) (by decide) (fun a b c => c = FLAG_CASTLE ∧ (b = a + 2 ∨ b = a - 2))
    ⟨rfl, Or.inr rfl⟩
  have h62 := new_shape 60 62 FLAG_CASTLE 0 (by decide) (by decide) (by decide) (by decide)
    (by decide) (by decide) (fun a b c => c = FLAG_CASTLE ∧ (b = a + 2 ∨ b = a - 2))
    ⟨rfl, Or.inl rfl⟩
  have h58 := new_shape 60 58 FLAG_CASTLE 0 (by decide) (by decide) (by decide) (by decide)
    (by decide) (by decide) (fun a b c => c = FLAG_CASTLE ∧ (b = a + 2 ∨ b = a - 2))
    ⟨rfl, Or.inr rfl⟩
  split_ifs at hm
  all_goals
    simp only [List.mem_append, List.mem_singleton, List.not_mem_nil, or_false, false_or] at hm
  all_goals first
    | (rcases hm with hm | hm <;> rw [hm] <;> assumption)
    | (rw [hm]; assumption)

theorem addKnightMoves_mover (st : BoardState) (co : Bool) (m : Move)
    (hm : m ∈ addKnightMoves st co) :
    st.pieceAt m.from_ = makePiece st.sideToMove KNIGHT ∧ m.flags = FLAG_NORMAL := by
  unfold addKnightMoves at hm
  simp only [List.mem_flatMap] at hm
  obtain ⟨s, hs, hm⟩ := hm
  rw [mem_allSquares] at hs
  by_cases hp : st.pieceAt s ≠ makePiece st.sideToMove KNIGHT
  · rw [if_pos hp] at hm; exact absurd hm (List.not_mem_nil _)
  rw [if_neg hp] at hm
  simp only [List.mem_flatMap] at hm
  obtain ⟨o, -, hm⟩ := hm
  obtain ⟨e1, -, e3⟩ := knightMoveAt_from st _ co s o m hs.1 hs.2 hm
  rw [e1]
  exact ⟨not_not.mp hp, e3⟩

theorem addKingMoves_mover (st : BoardState) (co : Bool) (m : Move)
    (hm : m ∈ addKingMoves st co) :
    (st.pieceAt m.from_ = makePiece st.sideToMove KING ∧ m.flags = FLAG_NORMAL) ∨
    (m.flags = FLAG_CASTLE ∧ (m.to_ = m.from_ + 2 ∨ m.to_ = m.from_ - 2)) := by
  unfold addKingMoves at hm
  simp only [List.mem_flatMap] at hm
  obtain ⟨s, hs, hm⟩ := hm
  rw [mem_allSquares] at hs
  by_cases hp : st.pieceAt s ≠ makePiece st.sideToMove KING
  · rw [if_pos hp] at hm; exact absurd hm (List.not_mem_nil _)
  rw [if_neg hp] at hm
  rcases List.mem_append.mp hm with hm | hm
  · simp only [List.mem_flatMap] at hm
    obtain ⟨o, -, hm⟩ := hm
    obtain ⟨e1, -, e3⟩ := kingMoveAt_from st _ co s o m hs.1 hs.2 hm
    left
    rw [e1]
    exact ⟨not_not.mp hp, e3⟩
  · right
    cases co
    · simp only [Bool.false_eq_true, if_false] at hm
      exact castleMoves_shape st _ m hm
    · simp at hm

theorem addSliding_mover (st : BoardState) (co : Bool) (m : Move)
    (hm : m ∈ addSliding st co) :
    (pieceType (st.pieceAt m.from_) = ROOK ∨ pieceType (st.pieceAt m.from_) = BISHOP ∨
      pieceType (st.pieceAt m.from_) = QUEEN) ∧ m.flags = FLAG_NORMAL := by
  unfold addSliding at hm
  simp only [List.mem_flatMap] at hm
  obtain ⟨s, hs, hm⟩ := hm
  rw [mem_allSquares] at hs
  by_cases hp : st.pieceAt s = 0 ∨ pieceColor (st.pieceAt s) ≠ st.sideToMove
  · rw [if_pos hp] at hm; exact absurd hm (List.not_mem_nil _)
  rw [if_neg hp] at hm
  by_cases hq : pieceType (st.pieceAt s) ≠ ROOK ∧ pieceType (st.pieceAt s) ≠ BISHOP ∧
      pieceType (st.pieceAt s) ≠ QUEEN
  · rw [if_pos hq] at hm; exact absurd hm (List.not_mem_nil _)
  rw [if_neg hq] at hm
  have hkind : pieceType (st.pieceAt s) = ROOK ∨ pieceType (st.pieceAt s) = BISHOP ∨
      pieceType (st.pieceAt s) = QUEEN := by
    by_contra hc
    simp only [not_or] at hc
    exact hq hc
  have key : m.from_ = s ∧ m.flags = FLAG_NORMAL := by
    rcases List.mem_append.mp hm with hm | hm
    · split_ifs at hm
      · simp only [List.mem_flatMap] at hm
        obtain ⟨d, hd, hm⟩ := hm
        simp only [List.mem_cons, List.mem_singleton, List.not_mem_nil, or_false] at hd
        obtain ⟨k, hk1, hk2, -, -⟩ := rookRayMoves_mem st _ co s d 64 s m hm
        have hT := (hk2 k (le_refl _)).arith hs.1
        rw [hk1]
        exact new_shape s _ _ _ hs.1 hs.2 hT.1 (by omega) (by decide) (by decide)
          (fun a _ c => a = s ∧ c = FLAG_NORMAL) ⟨rfl, rfl⟩
      · exact absurd hm (List.not_mem_nil _)
    · split_ifs at hm
      · simp only [List.mem_flatMap] at hm
        obtain ⟨d, hd, hm⟩ := hm
        simp only [List.mem_cons, List.mem_singleton, List.not_mem_nil, or_false] at hd
        obtain ⟨k, hk1, hk2, -, -⟩ := bishopRayMoves_mem st _ co s d 64 s m hm
        have hT := bishop_path_coords s d k hs.1 hs.2 hd hk2 (k + 1) (le_refl _)
        have hTe : s + ((k + 1 : Nat) : Int) * d = s + ((k : Int) + 1) * d := by
          push_cast; ring
        rw [hTe] at hT
        rw [hk1]
        exact new_shape s _ _ _ hs.1 hs.2 hT.1 hT.2.1 (by decide) (by decide)
          (fun a _ c => a = s ∧ c = FLAG_NORMAL) ⟨rfl, rfl⟩
      · exact absurd hm (List.not_mem_nil _)
  rw [key.1]
  exact ⟨hkind, key.2⟩

/-- A generated move that advances a pawn two squares is a double push from the start
rank onto an empty square. -/
theorem generated_double_push (b : Board) (m : Move) (hm : m ∈ generateMoves b)
    (hd : isDoublePush b.state m) :
    (b.state.sideToMove = WHITE ∧ m.from_.tdiv 8 = 1 ∧ m.to_ = m.from_ + 16) ∨
    (b.state.sideToMove = BLACK ∧ m.from_.tdiv 8 = 6 ∧ m.to_ = m.from_ - 16) := by
  obtain ⟨hpawn, h16⟩ := hd
  unfold generateMoves at hm
  simp only [List.mem_append] at hm
  rcases hm with ((hm | hm) | hm) | hm
  · obtain ⟨-, -, hsh⟩ := addPawnMoves_shape _ _ _ hm
    rw [cabs_eq] at h16
    cases hc : b.state.sideToMove
    · left
      simp only [hc, if_true] at hsh
      refine ⟨rfl, ?_⟩
      rcases hsh with h | h | h
      · split_ifs at h16 <;> omega
      · split_ifs at h16 <;> omega
      · exact ⟨h.2.1, by omega⟩
    · right
      simp only [hc, reduceCtorEq, if_false] at hsh
      refine ⟨rfl, ?_⟩
      rcases hsh with h | h | h
      · split_ifs at h16 <;> omega
      · split_ifs at h16 <;> omega
      · exact ⟨h.2.1, by omega⟩
  · exfalso
    rw [(addKnightMoves_mover _ _ _ hm).1,
      (makePiece_facts _ KNIGHT (by decide)).2.2] at hpawn
    exact absurd hpawn (by decide)
  · exfalso
    rcases (addSliding_mover _ _ _ hm).1 with h | h | h <;> rw [h] at hpawn <;>
      exact absurd hpawn (by decide)
  · exfalso
    rcases addKingMoves_mover _ _ _ hm with h | h
    · rw [h.1, (makePiece_facts _ KING (by decide)).2.2] at hpawn
      exact absurd hpawn (by decide)
    · rw [cabs_eq] at h16
      rcases h.2 with e | e <;> split_ifs at h16 <;> omega

/-- C25: after a successful `makeMove` of a move `m` of `generateMoves`, the ep square is
set if and only if `m` advanced a pawn two squares; it is then the square between `from`
and `to`, on rank 3 (index 2) after a White push from rank 2 and on rank 6 (index 5) after
a Black push from rank 7; after every other move it is cleared, whatever it was before. -/
theorem ep_square_after_make (Z : ZobristKeys) (b : Board) (m : Move)
    (hm : m ∈ generateMoves b) (hok : (makeMove Z b m).2 = true) :
    ((makeMove Z b m).1.state.epSquare ≠ NO_SQ ↔ isDoublePush b.state m) ∧
    (isDoublePush b.state m →
      2 * (makeMove Z b m).1.state.epSquare = m.from_ + m.to_ ∧
      ((b.state.sideToMove = WHITE ∧ m.from_.tdiv 8 = 1 ∧ m.to_ = m.from_ + 16 ∧
          (makeMove Z b m).1.state.epSquare = m.from_ + 8 ∧
          (makeMove Z b m).1.state.epSquare.tdiv 8 = 2) ∨
       (b.state.sideToMove = BLACK ∧ m.from_.tdiv 8 = 6 ∧ m.to_ = m.from_ - 16 ∧
          (makeMove Z b m).1.state.epSquare = m.from_ - 8 ∧
          (makeMove Z b m).1.state.epSquare.tdiv 8 = 5))) ∧
    (¬ isDoublePush b.state m → (makeMove Z b m).1.state.epSquare = NO_SQ) := by
  have e := makeMove_fst_of_true Z b m hok
  have hep : (makeMove Z b m).1.state.epSquare =
      if isDoublePush b.state m then (m.from_ + m.to_).tdiv 2 else NO_SQ := by
    rw [e]
    exact applyMove_epSquare Z b.state m
  have hr := m.from_range
  have hdp : isDoublePush b.state m →
      2 * (makeMove Z b m).1.state.epSquare = m.from_ + m.to_ ∧
      ((b.state.sideToMove = WHITE ∧ m.from_.tdiv 8 = 1 ∧ m.to_ = m.from_ + 16 ∧
          (makeMove Z b m).1.state.epSquare = m.from_ + 8 ∧
          (makeMove Z b m).1.state.epSquare.tdiv 8 = 2) ∨
       (b.state.sideToMove = BLACK ∧ m.from_.tdiv 8 = 6 ∧ m.to_ = m.from_ - 16 ∧
          (makeMove Z b m).1.state.epSquare = m.from_ - 8 ∧
          (makeMove Z b m).1.state.epSquare.tdiv 8 = 5)) := by
    intro hd
    rw [hep, if_pos hd]
    rcases generated_double_push b m hm hd with ⟨hc, h1, h2⟩ | ⟨hc, h1, h2⟩
    · rw [tdiv8 hr.1] at h1
      have e2 : (m.from_ + m.to_).tdiv 2 = m.from_ + 8 := by
        rw [h2, Int.tdiv_eq_ediv (by omega) (by decide)]
        omega
      rw [e2]
      refine ⟨by omega, Or.inl ⟨hc, by rw [tdiv8 hr.1]; exact h1, h2, rfl, ?_⟩⟩
      rw [tdiv8 (by omega)]
      omega
    · rw [tdiv8 hr.1] at h1
      have e2 : (m.from_ + m.to_).tdiv 2 = m.from_ - 8 := by
        rw [h2, Int.tdiv_eq_ediv (by omega) (by decide)]
        omega
      rw [e2]
      refine ⟨by omega, Or.inr ⟨hc, by rw [tdiv8 hr.1]; exact h1, h2, rfl, ?_⟩⟩
      rw [tdiv8 (by omega)]
      omega
  refine ⟨?_, hdp, ?_⟩
  · constructor
    · intro hne
      by_contra hd
      rw [hep, if_neg hd] at hne
      exact hne rfl
    · intro hd
      obtain ⟨h2, h3⟩ := hdp hd
      show (makeMove Z b m).1.state.epSquare ≠ (-1 : Int)
      rcases h3 with ⟨-, -, -, h, -⟩ | ⟨-, h6, -, h, -⟩
      · omega
      · rw [tdiv8 hr.1] at h6
        omega
  · intro hd
    rw [hep, if_neg hd]

set_option maxRecDepth 1000000 in
theorem ep_square_after_make_witness :
    Move.new 12 28 0 0 ∈ generateMoves (boardOfFEN sampleKeys startFEN) ∧
    (makeMove sampleKeys (boardOfFEN sampleKeys startFEN) (Move.new 12 28 0 0)).2 = true ∧
    isDoublePush (boardOfFEN sampleKeys startFEN).state (Move.new 12 28 0 0) ∧
    (makeMove sampleKeys (boardOfFEN sampleKeys startFEN)
      (Move.new 12 28 0 0)).1.state.epSquare ≠ NO_SQ :=
  have h1 : Move.new 12 28 0 0 ∈ generateMoves (boardOfFEN sampleKeys startFEN) := by decide!
  have h2 : (makeMove sampleKeys (boardOfFEN sampleKeys startFEN)
      (Move.new 12 28 0 0)).2 = true := by decide!
  have h3 : isDoublePush (boardOfFEN sampleKeys startFEN).state (Move.new 12 28 0 0) := by
    decide!
  ⟨h1, h2, h3,
    (ep_square_after_make sampleKeys (boardOfFEN sampleKeys startFEN) (Move.new 12 28 0 0)
      h1 h2).1.2 h3⟩

theorem castleMoves_subset (b : Board) (m : Move)
    (hk : ∃ s, 0 ≤ s ∧ s < 64 ∧ b.state.pieceAt s = makePiece b.state.sideToMove KING)
    (hm : m ∈ castleMoves b.state b.state.sideToMove) : m ∈ generateMoves b := by
  obtain ⟨s, hs0, hs, hp⟩ := hk
  unfold generateMoves
  apply List.mem_append_right
  unfold addKingMoves
  simp only [List.mem_flatMap]
  refine ⟨s, mem_allSquares.2 ⟨hs0, hs⟩, ?_⟩
  rw [if_neg (not_not.mpr hp)]
  apply List.mem_append_right
  simp only [Bool.false_eq_true, if_false]
  exact hm

/-- A generated move with the Castle flag is `Move(s, t, Castle)` with the conditions of
`CastleOK`. -/
theorem castle_flag_facts (b : Board) (m : Move) (hm : m ∈ generateMoves b)
    (hf : m.flags = FLAG_CASTLE) :
    ∃ s t, m = Move.new s t FLAG_CASTLE 0 ∧ CastleOK b.state s t := by
  obtain ⟨s, t, fl, p, rfl, hs0, hs, ht0, ht, hst, hcase⟩ := generateMoves_facts b m hm
  have hfl : fl ≤ 3 := by
    rcases hcase with h | h | h | h <;> rw [h.1] <;> decide
  have hp : p ≤ 3 := by
    rcases hcase with h | h | h | h <;> omega
  obtain ⟨-, -, e3, -⟩ := Move.new_fields s t fl p hs0 hs ht0 ht hfl hp
  rw [e3] at hf
  rcases hcase with h | h | h | h
  · rw [h.1] at hf; exact absurd hf (by decide)
  · rw [h.1] at hf; exact absurd hf (by decide)
  · rw [h.1] at hf; exact absurd hf (by decide)
  · obtain ⟨rfl, rfl, hco⟩ := h
    exact ⟨s, t, rfl, hco⟩

theorem castle_new_inj (s t : Int) (a c : Int) (h : Move.new a c FLAG_CASTLE 0 =
    Move.new s t FLAG_CASTLE 0) (ha0 : 0 ≤ a) (ha : a < 64) (hc0 : 0 ≤ c) (hc : c < 64)
    (hs0 : 0 ≤ s) (hs : s < 64) (ht0 : 0 ≤ t) (ht : t < 64) : a = s ∧ c = t := by
  obtain ⟨e1, e2, -, -⟩ := Move.new_fields a c FLAG_CASTLE 0 ha0 ha hc0 hc (by decide)
    (by decide)
  obtain ⟨g1, g2, -, -⟩ := Move.new_fields s t FLAG_CASTLE 0 hs0 hs ht0 ht (by decide)
    (by decide)
  rw [h] at e1 e2
  exact ⟨e1.symm.trans g1, e2.symm.trans g2⟩

theorem castleOK_range (st : BoardState) (s t : Int) (h : CastleOK st s t) :
    0 ≤ s ∧ s < 64 ∧ 0 ≤ t ∧ t < 64 := by
  unfold CastleOK at h
  rcases h with ⟨-, rfl, hh | hh⟩ | ⟨-, rfl, hh | hh⟩ <;> rw [hh.1] <;> decide

/-- C23: with the king of the side to move on the board, `generateMoves` contains the
castle move 4->6 if and only if White is to move, castling bit 0 is set, squares 5 and 6
are empty and none of 4, 5, 6 is attacked by Black; 4->2 if and only if White is to move,
bit 1 is set, squares 3, 2, 1 are empty and none of 4, 3, 2 is attacked by Black; 60->62
and 60->58 likewise for Black with bits 2 and 3; and no other generated move carries the
Castle flag. -/
theorem castle_moves_iff (b : Board)
    (hk : ∃ s, 0 ≤ s ∧ s < 64 ∧ b.state.pieceAt s = makePiece b.state.sideToMove KING) :
    (Move.new 4 6 FLAG_CASTLE 0 ∈ generateMoves b ↔
      b.state.sideToMove = WHITE ∧ b.state.castling &&& 1 ≠ 0 ∧
      b.state.pieceAt 5 = 0 ∧ b.state.pieceAt 6 = 0 ∧
      isSquareAttacked b.state 4 BLACK = false ∧ isSquareAttacked b.state 5 BLACK = false ∧
      isSquareAttacked b.state 6 BLACK = false) ∧
    (Move.new 4 2 FLAG_CASTLE 0 ∈ generateMoves b ↔
      b.state.sideToMove = WHITE ∧ b.state.castling &&& 2 ≠ 0 ∧
      b.state.pieceAt 3 = 0 ∧ b.state.pieceAt 2 = 0 ∧ b.state.pieceAt 1 = 0 ∧
      isSquareAttacked b.state 4 BLACK = false ∧ isSquareAttacked b.state 3 BLACK = false ∧
      isSquareAttacked b.state 2 BLACK = false) ∧
    (Move.new 60 62 FLAG_CASTLE 0 ∈ generateMoves b ↔
      b.state.sideToMove = BLACK ∧ b.state.castling &&& 4 ≠ 0 ∧
      b.state.pieceAt 61 = 0 ∧ b.state.pieceAt 62 = 0 ∧
      isSquareAttacked b.state 60 WHITE = false ∧ isSquareAttacked b.state 61 WHITE = false ∧
      isSquareAttacked b.state 62 WHITE = false) ∧
    (Move.new 60 58 FLAG_CASTLE 0 ∈ generateMoves b ↔
      b.state.sideToMove = BLACK ∧ b.state.castling &&& 8 ≠ 0 ∧
      b.state.pieceAt 59 = 0 ∧ b.state.pieceAt 58 = 0 ∧ b.state.pieceAt 57 = 0 ∧
      isSquareAttacked b.state 60 WHITE = false ∧ isSquareAttacked b.state 59 WHITE = false ∧
      isSquareAttacked b.state 58 WHITE = false) ∧
    (∀ m ∈ generateMoves b, m.flags = FLAG_CASTLE →
      m = Move.new 4 6 FLAG_CASTLE 0 ∨ m = Move.new 4 2 FLAG_CASTLE 0 ∨
      m = Move.new 60 62 FLAG_CASTLE 0 ∨ m = Move.new 60 58 FLAG_CASTLE 0) := by
  have fwd : ∀ a c : Int, 0 ≤ a → a < 64 → 0 ≤ c → c < 64 →
      Move.new a c FLAG_CASTLE 0 ∈ generateMoves b → CastleOK b.state a c := by
    intro a c ha0 ha hc0 hc hm
    have hf : (Move.new a c FLAG_CASTLE 0).flags = FLAG_CASTLE :=
      (Move.new_fields a c FLAG_CASTLE 0 ha0 ha hc0 hc (by decide) (by decide)).2.2.1
    obtain ⟨s, t, e, hco⟩ := castle_flag_facts b _ hm hf
    obtain ⟨r1, r2, r3, r4⟩ := castleOK_range _ _ _ hco
    obtain ⟨rfl, rfl⟩ := castle_new_inj s t a c e ha0 ha hc0 hc r1 r2 r3 r4
    exact hco
  have bwd : ∀ m, m ∈ castleMoves b.state b.state.sideToMove → m ∈ generateMoves b :=
    fun m hm => castleMoves_subset b m hk hm
  refine ⟨?_, ?_, ?_, ?_, ?_⟩
  · constructor
    · intro hm
      have h := fwd 4 6 (by decide) (by decide) (by decide) (by decide) hm
      unfold CastleOK at h
      rcases h with ⟨hw, -, hh | hh⟩ | ⟨-, h60, -⟩
      · exact ⟨hw, hh.2⟩
      · exact absurd hh.1 (by decide)
      · exact absurd h60 (by decide)
    · rintro ⟨hw, hc⟩
      apply bwd
      unfold castleMoves
      simp only [hw, if_true]
      apply List.mem_append_left
      rw [if_pos hc]
      exact List.mem_singleton_self _
  · constructor
    · intro hm
      have h := fwd 4 2 (by decide) (by decide) (by decide) (by decide) hm
      unfold CastleOK at h
      rcases h with ⟨hw, -, hh | hh⟩ | ⟨-, h60, -⟩
      · exact absurd hh.1 (by decide)
      · exact ⟨hw, hh.2⟩
      · exact absurd h60 (by decide)
    · rintro ⟨hw, hc⟩
      apply bwd
      unfold castleMoves
      simp only [hw, if_true]
      apply List.mem_append_right
      rw [if_pos hc]
      exact List.mem_singleton_self _
  · constructor
    · intro hm
      have h := fwd 60 62 (by decide) (by decide) (by decide) (by decide) hm
      unfold CastleOK at h
      rcases h with ⟨-, h4, -⟩ | ⟨hw, -, hh | hh⟩
      · exact absurd h4 (by decide)
      · exact ⟨hw, hh.2⟩
      · exact absurd hh.1 (by decide)
    · rintro ⟨hw, hc⟩
      apply bwd
      unfold castleMoves
      simp only [hw, reduceCtorEq, if_false]
      apply List.mem_append_left
      rw [if_pos hc]
      exact List.mem_singleton_self _
  · constructor
    · intro hm
      have h := fwd 60 58 (by decide) (by decide) (by decide) (by decide) hm
      unfold CastleOK at h
      rcases h with ⟨-, h4, -⟩ | ⟨hw, -, hh | hh⟩
      · exact absurd h4 (by decide)
      · exact absurd hh.1 (by decide)
      · exact ⟨hw, hh.2⟩
    · rintro ⟨hw, hc⟩
      apply bwd
      unfold castleMoves
      simp only [hw, reduceCtorEq, if_false]
      apply List.mem_append_right
      rw [if_pos hc]
      exact List.mem_singleton_self _
  · intro m hm hf
    obtain ⟨s, t, e, hco⟩ := castle_flag_facts b m hm hf
    unfold CastleOK at hco
    rcases hco with ⟨-, rfl, hh | hh⟩ | ⟨-, rfl, hh | hh⟩
    · rw [hh.1] at e; exact Or.inl e
    · rw [hh.1] at e; exact Or.inr (Or.inl e)
    · rw [hh.1] at e; exact Or.inr (Or.inr (Or.inl e))
    · rw [hh.1] at e; exact Or.inr (Or.inr (Or.inr e))

theorem castle_moves_iff_witness :
    (∃ s, 0 ≤ s ∧ s < 64 ∧ (boardOfFEN sampleKeys castleFEN).state.pieceAt s =
      makePiece (boardOfFEN sampleKeys castleFEN).state.sideToMove KING) ∧
    Move.new 4 6 FLAG_CASTLE 0 ∈ generateMoves (boardOfFEN sampleKeys castleFEN) ∧
    Move.new 4 2 FLAG_CASTLE 0 ∈ generateMoves (boardOfFEN sampleKeys castleFEN) ∧
    Move.new 60 62 FLAG_CASTLE 0 ∉ generateMoves (boardOfFEN sampleKeys castleFEN) :=
  have hk : ∃ s, 0 ≤ s ∧ s < 64 ∧ (boardOfFEN sampleKeys castleFEN).state.pieceAt s =
      makePiece (boardOfFEN sampleKeys castleFEN).state.sideToMove KING :=
    ⟨4, by decide, by decide, by decide!⟩
  ⟨hk, (castle_moves_iff (boardOfFEN sampleKeys castleFEN) hk).1.2 (by decide!),
    (castle_moves_iff (boardOfFEN sampleKeys castleFEN) hk).2.1.2 (by decide!),
    fun h => absurd ((castle_moves_iff (boardOfFEN sampleKeys castleFEN) hk).2.2.1.1 h).1
      (by decide!)⟩

theorem abLoop_all_fail (E : SearchEnv)
    (rec : Int → Int → Int → Search → Board → Option (Int × Search × Board))
    (depth beta ply : Int) (inCheck : Bool) (S : Search) (alpha : Int) (best : Move)
    (mc : Int) : ∀ (moves : List Move) (b : Board),
    (∀ m ∈ moves, leavesInCheck E.Z b.state m = true) →
    ∃ c, abLoop E rec depth beta ply inCheck moves S b alpha best mc = some (S, c, alpha, best)
      ∧ c.state = b.state ∧ c.stateHistory = b.stateHistory := by
  intro moves
  induction moves with
  | nil => intro b _; exact ⟨b, rfl, rfl, rfl⟩
  | cons m ms ih =>
    intro b h
    have hm : (makeMove E.Z b m).2 = false := by
      rw [makeMove_snd, h m (List.mem_cons_self _ _)]
      rfl
    unfold abLoop
    simp only [hm, if_true]
    have e := makeMove_fst_of_false E.Z b m hm
    obtain ⟨c, h1, h2, h3⟩ := ih (makeMove E.Z b m).1 (by
      intro x hx
      rw [e]
      exact h x (List.mem_cons_of_mem _ hx))
    refine ⟨c, h1, ?_, ?_⟩
    · rw [h2, e]
    · rw [h3, e]

/-- The loop of `alphaBeta` when `generateMoves` is not empty and `makeMove` refuses every
move: no move is searched, `bestMove` stays null, and the function returns `alpha` as it
was after the table probe, whether the side to move is in check or not. -/
theorem alphaBeta_all_fail (E : SearchEnv) (hs : SortOK E) (fuel : Nat) (S : Search)
    (b : Board) (depth alpha beta ply : Int) (nma : Bool)
    (ht : E.timeUpAt S.clock = false) (hd : isDraw b = false)
    (hp : probeTT S b.state.zobrist = none) (hdep : 1 ≤ depth)
    (hne : generateMoves b ≠ [])
    (hall : ∀ m ∈ generateMoves b, (makeMove E.Z b m).2 = false) :
    ∃ T c, alphaBeta E (fuel + 1) S b depth alpha beta ply nma = some (alpha, T, c) := by
  unfold alphaBeta
  have hp2 : probeTT { (timeUp E S).2 with nodesSearched := (timeUp E S).2.nodesSearched + 1 }
      b.state.zobrist = none := hp
  have ht2 : (timeUp E S).1 = false := ht
  simp only [ht2, Bool.false_eq_true, if_false, hd, hp2, ttCut]
  rw [if_neg (by omega)]
  rw [nullMoveBlock_eq]
  have hne2 : orderMoves E
      { (timeUp E S).2 with nodesSearched := (timeUp E S).2.nodesSearched + 1 } b
      (generateMoves b) ⟨0⟩ ply ≠ [] := by
    intro h0
    unfold orderMoves at h0
    have h5 := hs (fun m => moveScore
      { (timeUp E S).2 with nodesSearched := (timeUp E S).2.nodesSearched + 1 } b m ⟨0⟩ ply)
      (generateMoves b)
    rw [h0] at h5
    exact hne (List.length_eq_zero.mp h5.length_eq.symm)
  rw [if_neg hne2]
  obtain ⟨c, h1, -, -⟩ := abLoop_all_fail E
    (fun d a c S b => alphaBeta E fuel S b d a c (ply + 1) true) depth beta ply
    (isInCheck b.state b.state.sideToMove)
    { (timeUp E S).2 with nodesSearched := (timeUp E S).2.nodesSearched + 1 } alpha ⟨0⟩ 0
    (orderMoves E
      { (timeUp E S).2 with nodesSearched := (timeUp E S).2.nodesSearched + 1 } b
      (generateMoves b) ⟨0⟩ ply) b (by
      intro m hm
      have hm2 : m ∈ generateMoves b := (hs _ (generateMoves b)).mem_iff.mp hm
      have := hall m hm2
      rw [makeMove_snd] at this
      revert this
      cases leavesInCheck E.Z b.state m <;> simp)
  rw [h1]
  exact ⟨_, _, rfl⟩

theorem all_fail_of_no_legal (Z : ZobristKeys) (b : Board)
    (h : (generateLegalMoves Z b).1 = []) :
    ∀ m ∈ generateMoves b, (makeMove Z b m).2 = false := by
  intro m hm
  rw [generateLegalMoves_eq_filter] at h
  have := List.filter_eq_nil_iff.mp h m hm
  revert this
  cases (makeMove Z b m).2 <;> simp

set_option maxRecDepth 1000000 in
theorem stalemate_search_facts :
    isDraw (boardOfFEN sampleKeys stalemateFEN) = false ∧
    probeTT Search.init (boardOfFEN sampleKeys stalemateFEN).state.zobrist = none ∧
    generateMoves (boardOfFEN sampleKeys stalemateFEN) ≠ [] := by
  have h : isDraw (boardOfFEN sampleKeys stalemateFEN) = false ∧
      (probeTT Search.init (boardOfFEN sampleKeys stalemateFEN).state.zobrist).isNone = true ∧
      (generateMoves (boardOfFEN sampleKeys stalemateFEN)).isEmpty = false := by decide!
  refine ⟨h.1, Option.isNone_iff_eq_none.mp h.2.1, ?_⟩
  intro h0
  have h2 := h.2.2
  rw [h0] at h2
  exact absurd h2 (by decide)

set_option maxRecDepth 1000000 in
theorem backRankMate_facts :
    isDraw (boardOfFEN sampleKeys backRankMateFEN) = false ∧
    probeTT Search.init (boardOfFEN sampleKeys backRankMateFEN).state.zobrist = none ∧
    generateMoves (boardOfFEN sampleKeys backRankMateFEN) ≠ [] ∧
    (generateLegalMoves sampleKeys (boardOfFEN sampleKeys backRankMateFEN)).1 = [] ∧
    isInCheck (boardOfFEN sampleKeys backRankMateFEN).state BLACK = true ∧
    (boardOfFEN sampleKeys backRankMateFEN).state.sideToMove = BLACK := by
  have h : isDraw (boardOfFEN sampleKeys backRankMateFEN) = false ∧
      (probeTT Search.init
        (boardOfFEN sampleKeys backRankMateFEN).state.zobrist).isNone = true ∧
      (generateMoves (boardOfFEN sampleKeys backRankMateFEN)).isEmpty = false ∧
      (generateLegalMoves sampleKeys (boardOfFEN sampleKeys backRankMateFEN)).1 = [] ∧
      isInCheck (boardOfFEN sampleKeys backRankMateFEN).state BLACK = true ∧
      (boardOfFEN sampleKeys backRankMateFEN).state.sideToMove = BLACK := by decide!
  refine ⟨h.1, Option.isNone_iff_eq_none.mp h.2.1, ?_, h.2.2.2⟩
  intro h0
  have h2 := h.2.2.1
  rw [h0] at h2
  exact absurd h2 (by decide)

/-- C29: two positions where the side to move has pseudo-legal moves and no legal one.
In `8/8/8/8/8/3k4/3p4/3K4 w - - 0 1` (White stalemated) `alphaBeta` with depth 1,
alpha = -50, beta = 50, ply 1 returns -50, not DRAW = 0; in
`R5k1/5ppp/8/8/8/8/8/4K3 b - - 0 1` (Black mated) it returns -50, not -(CHECKMATE - 1).
Neither position is a draw, the clock is not up, the table is empty. -/
theorem alphaBeta_no_legal_move_returns_alpha :
    ((generateLegalMoves sampleKeys (boardOfFEN sampleKeys stalemateFEN)).1 = [] ∧
      isInCheck (boardOfFEN sampleKeys stalemateFEN).state WHITE = false ∧
      isDraw (boardOfFEN sampleKeys stalemateFEN) = false ∧
      probeTT Search.init (boardOfFEN sampleKeys stalemateFEN).state.zobrist = none ∧
      (∃ T c, alphaBeta (sampleEnv 1000) 1 Search.init (boardOfFEN sampleKeys stalemateFEN)
        1 (-50) 50 1 true = some (-50, T, c)) ∧ (-50 : Int) ≠ DRAW) ∧
    ((generateLegalMoves sampleKeys (boardOfFEN sampleKeys backRankMateFEN)).1 = [] ∧
      isInCheck (boardOfFEN sampleKeys backRankMateFEN).state BLACK = true ∧
      (boardOfFEN sampleKeys backRankMateFEN).state.sideToMove = BLACK ∧
      isDraw (boardOfFEN sampleKeys backRankMateFEN) = false ∧
      probeTT Search.init (boardOfFEN sampleKeys backRankMateFEN).state.zobrist = none ∧
      (∃ T c, alphaBeta (sampleEnv 1000) 1 Search.init
        (boardOfFEN sampleKeys backRankMateFEN) 1 (-50) 50 1 true = some (-50, T, c)) ∧
      (-50 : Int) ≠ -(CHECKMATE - 1)) :=
  ⟨⟨(stalemate_no_legal_move sampleKeys).1, (stalemate_no_legal_move sampleKeys).2,
      stalemate_search_facts.1, stalemate_search_facts.2.1,
      alphaBeta_all_fail (sampleEnv 1000) (sampleEnv_sortOK 1000) 0 Search.init _ 1 (-50) 50 1
        true (by decide) stalemate_search_facts.1 stalemate_search_facts.2.1 (by decide)
        stalemate_search_facts.2.2
        (all_fail_of_no_legal sampleKeys _ (stalemate_no_legal_move sampleKeys).1),
      by decide⟩,
    ⟨backRankMate_facts.2.2.2.1, backRankMate_facts.2.2.2.2.1, backRankMate_facts.2.2.2.2.2,
      backRankMate_facts.1, backRankMate_facts.2.1,
      alphaBeta_all_fail (sampleEnv 1000) (sampleEnv_sortOK 1000) 0 Search.init _ 1 (-50) 50 1
        true (by decide) backRankMate_facts.1 backRankMate_facts.2.1 (by decide)
        backRankMate_facts.2.2.1
        (all_fail_of_no_legal sampleKeys _ backRankMate_facts.2.2.2.1),
      by decide⟩⟩

theorem capturesEnemy_new (st : BoardState) (s t : Int) (fl p : Nat) (hs0 : 0 ≤ s)
    (hs : s < 64) (ht0 : 0 ≤ t) (ht : t < 64) (hf : fl ≤ 3) (hp : p ≤ 3) :
    capturesEnemy st (Move.new s t fl p) =
      (decide (fl = FLAG_EP) ||
        (decide (st.pieceAt t ≠ 0) && decide (pieceColor (st.pieceAt t) ≠ st.sideToMove))) := by
  obtain ⟨-, e2, e3, -⟩ := Move.new_fields s t fl p hs0 hs ht0 ht hf hp
  unfold capturesEnemy
  rw [e2, e3]

theorem capturesEnemy_empty (st : BoardState) (s t : Int) (fl p : Nat) (hs0 : 0 ≤ s)
    (hs : s < 64) (ht0 : 0 ≤ t) (ht : t < 64) (hf : fl ≤ 3) (hp : p ≤ 3)
    (hfl : fl ≠ FLAG_EP) (he : st.pieceAt t = 0) :
    capturesEnemy st (Move.new s t fl p) = false := by
  rw [capturesEnemy_new st s t fl p hs0 hs ht0 ht hf hp]
  simp [hfl, he]

theorem capturesEnemy_enemy (st : BoardState) (s t : Int) (fl p : Nat) (hs0 : 0 ≤ s)
    (hs : s < 64) (ht0 : 0 ≤ t) (ht : t < 64) (hf : fl ≤ 3) (hp : p ≤ 3)
    (he : st.pieceAt t ≠ 0) (hc : pieceColor (st.pieceAt t) ≠ st.sideToMove) :
    capturesEnemy st (Move.new s t fl p) = true := by
  rw [capturesEnemy_new st s t fl p hs0 hs ht0 ht hf hp]
  simp [he, hc]

theorem flatMap_filter_congr {α β : Type} (p : β → Bool) (f g : α → List β) (l : List α)
    (h : ∀ x ∈ l, f x = (g x).filter p) : l.flatMap f = (l.flatMap g).filter p := by
  induction l with
  | nil => rfl
  | cons a l ih =>
    rw [List.flatMap_cons, List.flatMap_cons, List.filter_append,
      h a (List.mem_cons_self _ _), ih (fun x hx => h x (List.mem_cons_of_mem _ hx))]

theorem knightMoveAt_captures (st : BoardState) (s o : Int) (hs0 : 0 ≤ s) (hs : s < 64) :
    knightMoveAt st st.sideToMove true s o =
      (knightMoveAt st st.sideToMove false s o).filter (capturesEnemy st) := by
  unfold knightMoveAt
  simp only []
  by_cases h1 : s + o < 0 ∨ s + o > 63
  · rw [if_pos h1, if_pos h1]; rfl
  rw [if_neg h1, if_neg h1]
  have ht0 : 0 ≤ s + o := by omega
  have ht : s + o < 64 := by omega
  split_ifs with h2 h3 h4 h5 h6
  all_goals first
    | rfl
    | (rw [List.filter_cons, capturesEnemy_empty st s (s + o) FLAG_NORMAL 0 hs0 hs ht0 ht
        (by decide) (by decide) (by decide) (by tauto)]; rfl)
    | (rw [List.filter_cons, capturesEnemy_enemy st s (s + o) FLAG_NORMAL 0 hs0 hs ht0 ht
        (by decide) (by decide) (by tauto) (by tauto)]; rfl)
    | (exfalso; tauto)

theorem kingMoveAt_captures (st : BoardState) (s o : Int) (hs0 : 0 ≤ s) (hs : s < 64) :
    kingMoveAt st st.sideToMove true s o =
      (kingMoveAt st st.sideToMove false s o).filter (capturesEnemy st) := by
  unfold kingMoveAt
  simp only []
  by_cases h1 : s + o < 0 ∨ s + o > 63
  · rw [if_pos h1, if_pos h1]; rfl
  rw [if_neg h1, if_neg h1]
  have ht0 : 0 ≤ s + o := by omega
  have ht : s + o < 64 := by omega
  split_ifs with h2 h3 h4 h5 h6
  all_goals first
    | rfl
    | (rw [List.filter_cons, capturesEnemy_empty st s (s + o) FLAG_NORMAL 0 hs0 hs ht0 ht
        (by decide) (by decide) (by decide) (by tauto)]; rfl)
    | (rw [List.filter_cons, capturesEnemy_enemy st s (s + o) FLAG_NORMAL 0 hs0 hs ht0 ht
        (by decide) (by decide) (by tauto) (by tauto)]; rfl)
    | (exfalso; tauto)

theorem rookRayMoves_captures (st : BoardState) (s d : Int) (hs0 : 0 ≤ s) (hs : s < 64) :
    ∀ (fuel : Nat) (t : Int), rookRayMoves st st.sideToMove true s d fuel t =
      (rookRayMoves st st.sideToMove false s d fuel t).filter (capturesEnemy st) := by
  intro fuel
  induction fuel with
  | zero => intro t; rfl
  | succ n ih =>
    intro t
    unfold rookRayMoves
    simp only []
    by_cases h1 : t + d < 0 ∨ t + d > 63
    · rw [if_pos h1, if_pos h1]; rfl
    rw [if_neg h1, if_neg h1]
    have ht0 : 0 ≤ t + d := by omega
    have ht : t + d < 64 := by omega
    by_cases h2 : d = 1 ∧ (t + d).tmod 8 = 0
    · rw [if_pos h2, if_pos h2]; rfl
    rw [if_neg h2, if_neg h2]
    by_cases h3 : d = -1 ∧ (t + d).tmod 8 = 7
    · rw [if_pos h3, if_pos h3]; rfl
    rw [if_neg h3, if_neg h3]
    by_cases h4 : cabs d = 1 ∧ (t + d).tdiv 8 ≠ s.tdiv 8
    · rw [if_pos h4, if_pos h4]; rfl
    rw [if_neg h4, if_neg h4]
    by_cases h5 : st.pieceAt (t + d) ≠ 0 ∧ pieceColor (st.pieceAt (t + d)) = st.sideToMove
    · rw [if_pos h5, if_pos h5]; rfl
    rw [if_neg h5, if_neg h5, List.filter_append]
    by_cases h6 : st.pieceAt (t + d) = 0
    · have e := capturesEnemy_empty st s (t + d) FLAG_NORMAL 0 hs0 hs ht0 ht
        (by decide) (by decide) (by decide) h6
      simp only [h6, ne_eq, not_true_eq_false, or_false, Bool.true_eq_false, if_false,
        or_true, if_true, List.filter_cons, e, List.filter_nil, List.nil_append,
        Bool.false_eq_true]
      exact ih (t + d)
    · have e := capturesEnemy_enemy st s (t + d) FLAG_NORMAL 0 hs0 hs ht0 ht
        (by decide) (by decide) h6 (by tauto)
      simp only [h6, ne_eq, not_false_eq_true, or_true, if_true, List.filter_cons, e,
        List.filter_nil]

theorem bishopRayMoves_captures (st : BoardState) (s d : Int) (hs0 : 0 ≤ s) (hs : s < 64) :
    ∀ (fuel : Nat) (t : Int), bishopRayMoves st st.sideToMove true s d fuel t =
      (bishopRayMoves st st.sideToMove false s d fuel t).filter (capturesEnemy st) := by
  intro fuel
  induction fuel with
  | zero => intro t; rfl
  | succ n ih =>
    intro t
    unfold bishopRayMoves
    simp only []
    by_cases h1 : t + d < 0 ∨ t + d > 63
    · rw [if_pos h1, if_pos h1]; rfl
    rw [if_neg h1, if_neg h1]
    have ht0 : 0 ≤ t + d := by omega
    have ht : t + d < 64 := by omega
    by_cases h2 : cabs ((t + d).tmod 8 - t.tmod 8) ≠ 1
    · rw [if_pos h2, if_pos h2]; rfl
    rw [if_neg h2, if_neg h2]
    by_cases h5 : st.pieceAt (t + d) ≠ 0 ∧ pieceColor (st.pieceAt (t + d)) = st.sideToMove
    · rw [if_pos h5, if_pos h5]; rfl
    rw [if_neg h5, if_neg h5, List.filter_append]
    by_cases h6 : st.pieceAt (t + d) = 0
    · have e := capturesEnemy_empty st s (t + d) FLAG_NORMAL 0 hs0 hs ht0 ht
        (by decide) (by decide) (by decide) h6
      simp only [h6, ne_eq, not_true_eq_false, or_false, Bool.true_eq_false, if_false,
        or_true, if_true, List.filter_cons, e, List.filter_nil, List.nil_append,
        Bool.false_eq_true]
      exact ih (t + d)
    · have e := capturesEnemy_enemy st s (t + d) FLAG_NORMAL 0 hs0 hs ht0 ht
        (by decide) (by decide) h6 (by tauto)
      simp only [h6, ne_eq, not_false_eq_true, or_true, if_true, List.filter_cons, e,
        List.filter_nil]

theorem pawnCaptureMoves_captures (st : BoardState) (dir promoRank s df : Int)
    (hs0 : 0 ≤ s) (hs : s < 64) :
    ∀ m ∈ pawnCaptureMoves st st.sideToMove dir promoRank s df, capturesEnemy st m = true := by
  intro m hm
  unfold pawnCaptureMoves at hm
  simp only [] at hm
  split_ifs at hm with h1 h2 h3 h4 h5
  all_goals first
    | exact absurd hm (List.not_mem_nil _)
    | (rw [List.mem_singleton] at hm
       rw [hm, capturesEnemy_new st s _ FLAG_EP 0 hs0 hs (by omega) (by omega) (by decide)
        (by decide)]
       rfl)
    | (obtain ⟨p, hp, rfl⟩ := mem_promoMoves hm
       exact capturesEnemy_enemy st s _ FLAG_PROMO p hs0 hs (by omega) (by omega) (by decide)
        hp h4.1 h4.2)
    | (rw [List.mem_singleton] at hm
       rw [hm]
       exact capturesEnemy_enemy st s _ FLAG_NORMAL 0 hs0 hs (by omega) (by omega)
        (by decide) (by decide) h4.1 h4.2)

theorem pawnForwardMoves_captures (st : BoardState) (dir startRank promoRank s : Int)
    (hs0 : 0 ≤ s) (hs : s < 64)
    (hr : (dir = 8 ∧ startRank = 1) ∨ (dir = -8 ∧ startRank = 6)) :
    ∀ m ∈ pawnForwardMoves st dir startRank promoRank s, capturesEnemy st m = false := by
  intro m hm
  unfold pawnForwardMoves at hm
  simp only [] at hm
  by_cases h1 : s + dir < 0 ∨ s + dir > 63
  · rw [if_pos h1] at hm; exact absurd hm (List.not_mem_nil _)
  rw [if_neg h1] at hm
  by_cases h2 : st.pieceAt (s + dir) = 0
  · rw [if_pos h2] at hm
    by_cases h3 : (s + dir).tdiv 8 = promoRank
    · rw [if_pos h3] at hm
      obtain ⟨p, hp, rfl⟩ := mem_promoMoves hm
      exact capturesEnemy_empty st s _ FLAG_PROMO p hs0 hs (by omega) (by omega) (by decide)
        hp (by decide) h2
    · rw [if_neg h3] at hm
      rcases List.mem_cons.mp hm with rfl | hm
      · exact capturesEnemy_empty st s _ FLAG_NORMAL 0 hs0 hs (by omega) (by omega)
          (by decide) (by decide) (by decide) h2
      · by_cases h4 : s.tdiv 8 = startRank
        · rw [if_pos h4] at hm
          by_cases h5 : st.pieceAt (s + dir + dir) = 0
          · rw [if_pos h5, List.mem_singleton] at hm
            rw [tdiv8 hs0] at h4
            rw [hm]
            exact capturesEnemy_empty st s _ FLAG_NORMAL 0 hs0 hs (by omega) (by omega)
              (by decide) (by decide) (by decide) h5
          · rw [if_neg h5] at hm; exact absurd hm (List.not_mem_nil _)
        · rw [if_neg h4] at hm; exact absurd hm (List.not_mem_nil _)
  · rw [if_neg h2] at hm; exact absurd hm (List.not_mem_nil _)

theorem mem_ite_singleton {c : Prop} [Decidable c] {a m : Move}
    (h : m ∈ (if c then [a] else [])) : c ∧ m = a := by
  by_cases hc : c
  · rw [if_pos hc, List.mem_singleton] at h; exact ⟨hc, h⟩
  · rw [if_neg hc] at h; exact absurd h (List.not_mem_nil _)

theorem castleMoves_captures (st : BoardState) (side : Color) :
    ∀ m ∈ castleMoves st side, capturesEnemy st m = false := by
  intro m hm
  unfold castleMoves at hm
  simp only [] at hm
  by_cases hw : side = WHITE
  · rw [if_pos hw] at hm
    rcases List.mem_append.mp hm with h | h
    · obtain ⟨hc, rfl⟩ := mem_ite_singleton h
      exact capturesEnemy_empty st 4 6 FLAG_CASTLE 0 (by decide) (by decide) (by decide)
        (by decide) (by decide) (by decide) (by decide) hc.2.2.1
    · obtain ⟨hc, rfl⟩ := mem_ite_singleton h
      exact capturesEnemy_empty st 4 2 FLAG_CASTLE 0 (by decide) (by decide) (by decide)
        (by decide) (by decide) (by decide) (by decide) hc.2.2.1
  · rw [if_neg hw] at hm
    rcases List.mem_append.mp hm with h | h
    · obtain ⟨hc, rfl⟩ := mem_ite_singleton h
      exact capturesEnemy_empty st 60 62 FLAG_CASTLE 0 (by decide) (by decide) (by decide)
        (by decide) (by decide) (by decide) (by decide) hc.2.2.1
    · obtain ⟨hc, rfl⟩ := mem_ite_singleton h
      exact capturesEnemy_empty st 60 58 FLAG_CASTLE 0 (by decide) (by decide) (by decide)
        (by decide) (by decide) (by decide) (by decide) hc.2.2.1

theorem append_nil_eq_filter {p : Move → Bool} {a b c : List Move} (h1 : a = b.filter p)
    (h2 : ∀ m ∈ c, p m = false) : a ++ [] = (b ++ c).filter p := by
  have e : c.filter p = [] := by
    apply List.filter_eq_nil_iff.mpr
    intro m hm
    rw [h2 m hm]
    exact Bool.false_ne_true
  rw [List.filter_append, e, h1]

theorem addPawnMoves_captures (st : BoardState) :
    addPawnMoves st true = (addPawnMoves st false).filter (capturesEnemy st) := by
  unfold addPawnMoves
  simp only []
  apply flatMap_filter_congr
  intro s hs
  obtain ⟨hs0, hs1⟩ := mem_allSquares.mp hs
  by_cases h1 : st.pieceAt s ≠
      (if st.sideToMove = WHITE then makePiece WHITE PAWN else makePiece BLACK PAWN)
  · rw [if_pos h1, if_pos h1]; rfl
  · rw [if_neg h1, if_neg h1]
    simp only [Bool.false_eq_true, if_false, if_true]
    apply append_nil_eq_filter
    · symm
      apply List.filter_eq_self.mpr
      intro m hm
      obtain ⟨df, -, hm⟩ := List.mem_flatMap.mp hm
      exact pawnCaptureMoves_captures st _ _ s df hs0 hs1 m hm
    · exact pawnForwardMoves_captures st _ _ _ s hs0 hs1 (by
        cases st.sideToMove <;> simp)

theorem addKnightMoves_captures (st : BoardState) :
    addKnightMoves st true = (addKnightMoves st false).filter (capturesEnemy st) := by
  unfold addKnightMoves
  simp only []
  apply flatMap_filter_congr
  intro s hs
  obtain ⟨hs0, hs1⟩ := mem_allSquares.mp hs
  split_ifs with h1
  · rfl
  · exact flatMap_filter_congr _ _ _ _ (fun o _ => knightMoveAt_captures st s o hs0 hs1)

theorem ite_filter_congr {c : Prop} [Decidable c] {p : Move → Bool} {a b : List Move}
    (h : a = b.filter p) : (if c then a else []) = (if c then b else []).filter p := by
  by_cases hc : c
  · rw [if_pos hc, if_pos hc]; exact h
  · rw [if_neg hc, if_neg hc]; exact (List.filter_nil p).symm

theorem addSliding_captures (st : BoardState) :
    addSliding st true = (addSliding st false).filter (capturesEnemy st) := by
  unfold addSliding
  simp only []
  apply flatMap_filter_congr
  intro s hs
  obtain ⟨hs0, hs1⟩ := mem_allSquares.mp hs
  by_cases h1 : st.pieceAt s = 0 ∨ pieceColor (st.pieceAt s) ≠ st.sideToMove
  · rw [if_pos h1, if_pos h1]; exact (List.filter_nil _).symm
  rw [if_neg h1, if_neg h1]
  by_cases h2 : pieceType (st.pieceAt s) ≠ ROOK ∧ pieceType (st.pieceAt s) ≠ BISHOP ∧
      pieceType (st.pieceAt s) ≠ QUEEN
  · rw [if_pos h2, if_pos h2]; exact (List.filter_nil _).symm
  rw [if_neg h2, if_neg h2, List.filter_append]
  rw [← ite_filter_congr (flatMap_filter_congr (capturesEnemy st) _ _ [1, -1, 8, -8]
      (fun d _ => rookRayMoves_captures st s d hs0 hs1 64 s)),
    ← ite_filter_congr (flatMap_filter_congr (capturesEnemy st) _ _ [9, -9, 7, -7]
      (fun d _ => bishopRayMoves_captures st s d hs0 hs1 64 s))]

theorem addKingMoves_captures (st : BoardState) :
    addKingMoves st true = (addKingMoves st false).filter (capturesEnemy st) := by
  unfold addKingMoves
  simp only []
  apply flatMap_filter_congr
  intro s hs
  obtain ⟨hs0, hs1⟩ := mem_allSquares.mp hs
  by_cases h1 : st.pieceAt s ≠ makePiece st.sideToMove KING
  · rw [if_pos h1, if_pos h1]; rfl
  · rw [if_neg h1, if_neg h1]
    simp only [Bool.false_eq_true, if_false, if_true]
    exact append_nil_eq_filter
      (flatMap_filter_congr _ _ _ _ (fun o _ => kingMoveAt_captures st s o hs0 hs1))
      (castleMoves_captures st _)

/-- The list of `generateCaptures` is the list of `generateMoves` with the moves dropped
that are not flagged en passant and do not land on a piece of the other side. -/
theorem generateCaptures_eq_filter (b : Board) :
    generateCaptures b = (generateMoves b).filter (capturesEnemy b.state) := by
  unfold generateCaptures generateMoves
  rw [List.filter_append, List.filter_append, List.filter_append,
    ← addPawnMoves_captures, ← addKnightMoves_captures, ← addSliding_captures,
    ← addKingMoves_captures]

/-- C27 (counterexample): in `4k3/P7/8/8/8/8/8/4K3 w - - 0 1` the under-promotion
a7-a8=N is a move of `generateMoves` flagged Promotion, and it is not a move of
`generateCaptures`, which returns no move at all. -/
theorem push_promotions_not_in_captures :
    Move.new 48 56 FLAG_PROMO 0 ∈ generateMoves (boardOfFEN sampleKeys pushPromoFEN) ∧
    (Move.new 48 56 FLAG_PROMO 0).flags = FLAG_PROMO ∧
    (Move.new 48 56 FLAG_PROMO 0).promo = 0 ∧
    generateCaptures (boardOfFEN sampleKeys pushPromoFEN) = [] ∧
    Move.new 48 56 FLAG_PROMO 0 ∉ generateCaptures (boardOfFEN sampleKeys pushPromoFEN) :=
  have h1 : Move.new 48 56 FLAG_PROMO 0 ∈
      generateMoves (boardOfFEN sampleKeys pushPromoFEN) := by decide!
  have h2 : generateCaptures (boardOfFEN sampleKeys pushPromoFEN) = [] := by decide!
  ⟨h1, by decide, by decide, h2, by rw [h2]; exact List.not_mem_nil _⟩

/-- C27 (amended): `generateCaptures` returns exactly the moves of `generateMoves` whose
to-square holds a piece of the other side (promotions by capture among them, in all four
kinds) and the en passant captures, in the order of `generateMoves`, and no other move; a
promotion move onto an empty square is not returned. -/
theorem generateCaptures_spec (b : Board) :
    generateCaptures b = (generateMoves b).filter (fun m =>
      decide (m.flags = FLAG_EP) ||
        (decide (b.state.pieceAt m.to_ ≠ 0) &&
          decide (pieceColor (b.state.pieceAt m.to_) ≠ b.state.sideToMove))) ∧
    (∀ m, m ∈ generateCaptures b ↔ m ∈ generateMoves b ∧
      (m.flags = FLAG_EP ∨ (b.state.pieceAt m.to_ ≠ 0 ∧
        pieceColor (b.state.pieceAt m.to_) ≠ b.state.sideToMove))) ∧
    (∀ m ∈ generateMoves b, m.flags = FLAG_PROMO → b.state.pieceAt m.to_ = 0 →
      m ∉ generateCaptures b) := by
  have h := generateCaptures_eq_filter b
  have hmem : ∀ m, m ∈ generateCaptures b ↔ m ∈ generateMoves b ∧
      (m.flags = FLAG_EP ∨ (b.state.pieceAt m.to_ ≠ 0 ∧
        pieceColor (b.state.pieceAt m.to_) ≠ b.state.sideToMove)) := by
    intro m
    rw [h, List.mem_filter]
    unfold capturesEnemy
    simp only [Bool.or_eq_true, Bool.and_eq_true, decide_eq_true_eq]
  refine ⟨h, hmem, ?_⟩
  intro m _ hf he hc
  rcases ((hmem m).mp hc).2 with h1 | h1
  · rw [hf] at h1; exact absurd h1 (by decide)
  · exact h1.1 he

theorem pawnCaptureMoves_el (st : BoardState) (side : Color) (dir pr s df : Int) (m : Move)
    (hs0 : 0 ≤ s) (hs : s < 64) (hm : m ∈ pawnCaptureMoves st side dir pr s df) :
    m.from_ = s ∧ m.to_ = s + dir + df ∧ (m.flags = FLAG_NORMAL → m.to_.tdiv 8 ≠ pr) := by
  unfold pawnCaptureMoves at hm
  simp only [] at hm
  by_cases h1 : s.tmod 8 + df < 0 ∨ s.tmod 8 + df > 7
  · rw [if_pos h1] at hm; exact absurd hm (List.not_mem_nil _)
  rw [if_neg h1] at hm
  by_cases h2 : s + dir + df < 0 ∨ s + dir + df > 63
  · rw [if_pos h2] at hm; exact absurd hm (List.not_mem_nil _)
  rw [if_neg h2] at hm
  have ht0 : 0 ≤ s + dir + df := by omega
  have ht : s + dir + df < 64 := by omega
  by_cases h3 : s + dir + df = st.epSquare
  · rw [if_pos h3, List.mem_singleton] at hm
    rw [hm]
    exact new_shape s _ FLAG_EP 0 hs0 hs ht0 ht (by decide) (by decide)
      (fun a b c => a = s ∧ b = s + dir + df ∧ (c = FLAG_NORMAL → b.tdiv 8 ≠ pr))
      ⟨rfl, rfl, fun h => absurd h (by decide)⟩
  rw [if_neg h3] at hm
  by_cases h4 : st.pieceAt (s + dir + df) ≠ 0 ∧ pieceColor (st.pieceAt (s + dir + df)) ≠ side
  · rw [if_pos h4] at hm
    by_cases h5 : (s + dir + df).tdiv 8 = pr
    · rw [if_pos h5] at hm
      obtain ⟨p, hp, rfl⟩ := mem_promoMoves hm
      exact new_shape s _ FLAG_PROMO p hs0 hs ht0 ht (by decide) hp
        (fun a b c => a = s ∧ b = s + dir + df ∧ (c = FLAG_NORMAL → b.tdiv 8 ≠ pr))
        ⟨rfl, rfl, fun h => absurd h (by decide)⟩
    · rw [if_neg h5, List.mem_singleton] at hm
      rw [hm]
      exact new_shape s _ FLAG_NORMAL 0 hs0 hs ht0 ht (by decide) (by decide)
        (fun a b c => a = s ∧ b = s + dir + df ∧ (c = FLAG_NORMAL → b.tdiv 8 ≠ pr))
        ⟨rfl, rfl, fun _ => h5⟩
  · rw [if_neg h4] at hm; exact absurd hm (List.not_mem_nil _)

theorem pawnForwardMoves_el (st : BoardState) (dir sr pr s : Int) (m : Move)
    (hs0 : 0 ≤ s) (hs : s < 64)
    (hr : (dir = 8 ∧ sr = 1 ∧ pr = 7) ∨ (dir = -8 ∧ sr = 6 ∧ pr = 0))
    (hm : m ∈ pawnForwardMoves st dir sr pr s) :
    m.from_ = s ∧ (m.to_ = s + dir ∨ m.to_ = s + dir + dir) ∧
      (m.flags = FLAG_NORMAL → m.to_.tdiv 8 ≠ pr) := by
  unfold pawnForwardMoves at hm
  simp only [] at hm
  by_cases h1 : s + dir < 0 ∨ s + dir > 63
  · rw [if_pos h1] at hm; exact absurd hm (List.not_mem_nil _)
  rw [if_neg h1] at hm
  have ht0 : 0 ≤ s + dir := by omega
  have ht : s + dir < 64 := by omega
  by_cases h2 : st.pieceAt (s + dir) = 0
  · rw [if_pos h2] at hm
    by_cases h3 : (s + dir).tdiv 8 = pr
    · rw [if_pos h3] at hm
      obtain ⟨p, hp3, rfl⟩ := mem_promoMoves hm
      exact new_shape s _ FLAG_PROMO p hs0 hs ht0 ht (by decide) hp3
        (fun a b c => a = s ∧ (b = s + dir ∨ b = s + dir + dir) ∧
          (c = FLAG_NORMAL → b.tdiv 8 ≠ pr))
        ⟨rfl, Or.inl rfl, fun h => absurd h (by decide)⟩
    · rw [if_neg h3] at hm
      rcases List.mem_cons.mp hm with hm | hm
      · rw [hm]
        exact new_shape s _ FLAG_NORMAL 0 hs0 hs ht0 ht (by decide) (by decide)
          (fun a b c => a = s ∧ (b = s + dir ∨ b = s + dir + dir) ∧
            (c = FLAG_NORMAL → b.tdiv 8 ≠ pr))
          ⟨rfl, Or.inl rfl, fun _ => h3⟩
      · by_cases h4 : s.tdiv 8 = sr
        · rw [if_pos h4] at hm
          by_cases h5 : st.pieceAt (s + dir + dir) = 0
          · rw [if_pos h5] at hm
            simp only [List.mem_singleton] at hm
            rw [hm]
            rw [tdiv8 hs0] at h4
            have hrange : 0 ≤ s + dir + dir ∧ s + dir + dir < 64 ∧
                (s + dir + dir).tdiv 8 ≠ pr := by
              rcases hr with ⟨rfl, rfl, rfl⟩ | ⟨rfl, rfl, rfl⟩
              · refine ⟨by omega, by omega, ?_⟩
                rw [tdiv8 (by omega)]; omega
              · refine ⟨by omega, by omega, ?_⟩
                rw [tdiv8 (by omega)]; omega
            exact new_shape s _ FLAG_NORMAL 0 hs0 hs hrange.1 hrange.2.1 (by decide)
              (by decide)
              (fun a b c => a = s ∧ (b = s + dir ∨ b = s + dir + dir) ∧
                (c = FLAG_NORMAL → b.tdiv 8 ≠ pr))
              ⟨rfl, Or.inr rfl, fun _ => hrange.2.2⟩
          · rw [if_neg h5] at hm; exact absurd hm (List.not_mem_nil _)
        · rw [if_neg h4] at hm; exact absurd hm (List.not_mem_nil _)
  · rw [if_neg h2] at hm; exact absurd hm (List.not_mem_nil _)

/-- The moves that `addPawnMoves` appends for the square `s`. -/
theorem addPawnMoves_eq (st : BoardState) :
    addPawnMoves st false = allSquares.flatMap (fun s =>
      if st.pieceAt s ≠ makePiece st.sideToMove PAWN then []
      else
        (pawnCaptureMoves st st.sideToMove (if st.sideToMove = WHITE then 8 else -8)
            (if st.sideToMove = WHITE then 7 else 0) s (-1) ++
          pawnCaptureMoves st st.sideToMove (if st.sideToMove = WHITE then 8 else -8)
            (if st.sideToMove = WHITE then 7 else 0) s 1) ++
        pawnForwardMoves st (if st.sideToMove = WHITE then 8 else -8)
          (if st.sideToMove = WHITE then 1 else 6)
          (if st.sideToMove = WHITE then 7 else 0) s) := by
  unfold addPawnMoves
  have e : (if st.sideToMove = WHITE then makePiece WHITE PAWN else makePiece BLACK PAWN) =
      makePiece st.sideToMove PAWN := by
    cases st.sideToMove <;> rfl
  simp only [e, Bool.false_eq_true, if_false, List.flatMap_cons, List.flatMap_nil,
    List.append_nil]

theorem pawnSquare_el (st : BoardState) (s : Int) (m : Move) (hs0 : 0 ≤ s) (hs : s < 64)
    (hm : m ∈ (if st.pieceAt s ≠ makePiece st.sideToMove PAWN then []
      else
        (pawnCaptureMoves st st.sideToMove (if st.sideToMove = WHITE then 8 else -8)
            (if st.sideToMove = WHITE then 7 else 0) s (-1) ++
          pawnCaptureMoves st st.sideToMove (if st.sideToMove = WHITE then 8 else -8)
            (if st.sideToMove = WHITE then 7 else 0) s 1) ++
        pawnForwardMoves st (if st.sideToMove = WHITE then 8 else -8)
          (if st.sideToMove = WHITE then 1 else 6)
          (if st.sideToMove = WHITE then 7 else 0) s)) :
    m.from_ = s ∧
      (m.flags = FLAG_NORMAL → m.to_.tdiv 8 ≠ (if st.sideToMove = WHITE then 7 else 0)) := by
  by_cases hp : st.pieceAt s ≠ makePiece st.sideToMove PAWN
  · rw [if_pos hp] at hm; exact absurd hm (List.not_mem_nil _)
  rw [if_neg hp] at hm
  rcases List.mem_append.mp hm with hm | hm
  · rcases List.mem_append.mp hm with hm | hm
    · have := pawnCaptureMoves_el st _ _ _ s _ m hs0 hs hm
      exact ⟨this.1, this.2.2⟩
    · have := pawnCaptureMoves_el st _ _ _ s _ m hs0 hs hm
      exact ⟨this.1, this.2.2⟩
  · have := pawnForwardMoves_el st _ _ _ s m hs0 hs (by cases st.sideToMove <;> simp) hm
    exact ⟨this.1, this.2.2⟩

/-- A move of `generateMoves` that is not a move of `addPawnMoves` does not start on a
pawn, or is a castle move. -/
theorem non_pawn_mover (st : BoardState) (m : Move)
    (hm : m ∈ addKnightMoves st false ∨ m ∈ addSliding st false ∨ m ∈ addKingMoves st false) :
    pieceType (st.pieceAt m.from_) ≠ PAWN ∨
      (m.flags = FLAG_CASTLE ∧ (m.to_ = m.from_ + 2 ∨ m.to_ = m.from_ - 2)) := by
  rcases hm with h | h | h
  · left
    rw [(addKnightMoves_mover st false m h).1, (makePiece_facts _ KNIGHT (by decide)).2.2]
    decide
  · left
    rcases (addSliding_mover st false m h).1 with e | e | e <;> rw [e] <;> decide
  · rcases addKingMoves_mover st false m h with e | e
    · left
      rw [e.1, (makePiece_facts _ KING (by decide)).2.2]
      decide
    · exact Or.inr e

theorem pawnCapture_promo (st : BoardState) (s t df : Int) (hs0 : 0 ≤ s)
    (ht0 : 0 ≤ t) (ht : t < 64)
    (hd : t = s + (if st.sideToMove = WHITE then 8 else -8) + df)
    (hf : t % 8 = s % 8 + df)
    (hrank : t / 8 = (if st.sideToMove = WHITE then 7 else 0))
    (hc : st.pieceAt t ≠ 0) (hcol : pieceColor (st.pieceAt t) ≠ st.sideToMove)
    (hep : st.pieceAt st.epSquare = 0) :
    pawnCaptureMoves st st.sideToMove (if st.sideToMove = WHITE then 8 else -8)
      (if st.sideToMove = WHITE then 7 else 0) s df = promoMoves s t := by
  unfold pawnCaptureMoves
  simp only []
  rw [← hd, tmod8 hs0, tdiv8 ht0]
  have h1 : ¬ (s % 8 + df < 0 ∨ s % 8 + df > 7) := by omega
  have h2 : ¬ (t < 0 ∨ t > 63) := by omega
  have h3 : ¬ t = st.epSquare := by
    intro h
    rw [← h] at hep
    exact hc hep
  rw [if_neg h1, if_neg h2, if_neg h3, if_pos ⟨hc, hcol⟩, if_pos hrank]

theorem pawnForward_promo (st : BoardState) (s t sr : Int)
    (ht0 : 0 ≤ t) (ht : t < 64)
    (hd : t = s + (if st.sideToMove = WHITE then 8 else -8))
    (hrank : t / 8 = (if st.sideToMove = WHITE then 7 else 0))
    (hc : st.pieceAt t = 0) :
    pawnForwardMoves st (if st.sideToMove = WHITE then 8 else -8) sr
      (if st.sideToMove = WHITE then 7 else 0) s = promoMoves s t := by
  unfold pawnForwardMoves
  simp only []
  rw [← hd, tdiv8 ht0]
  have h2 : ¬ (t < 0 ∨ t > 63) := by omega
  rw [if_neg h2, if_pos hc, if_pos hrank]

/-- The moves that `addPawnMoves` appends for a pawn that reaches the last rank on `t`
contain the four promotion moves to `t` as one block, and no other move to `t`. -/
theorem pawnSquare_block (st : BoardState) (s t : Int) (hr : PromoReach st s t)
    (hep : st.pieceAt st.epSquare = 0) :
    ∃ a c, (pawnCaptureMoves st st.sideToMove (if st.sideToMove = WHITE then 8 else -8)
            (if st.sideToMove = WHITE then 7 else 0) s (-1) ++
          pawnCaptureMoves st st.sideToMove (if st.sideToMove = WHITE then 8 else -8)
            (if st.sideToMove = WHITE then 7 else 0) s 1) ++
        pawnForwardMoves st (if st.sideToMove = WHITE then 8 else -8)
          (if st.sideToMove = WHITE then 1 else 6)
          (if st.sideToMove = WHITE then 7 else 0) s = a ++ promoMoves s t ++ c ∧
      ∀ m ∈ a ++ c, m.to_ ≠ t := by
  obtain ⟨hs0, hs, ht0, ht, -, hrank, hreach⟩ := hr
  have hdir : (if st.sideToMove = WHITE then (8 : Int) else -8) = 8 ∨
      (if st.sideToMove = WHITE then (8 : Int) else -8) = -8 := by
    cases st.sideToMove <;> simp
  have capTo : ∀ df m, m ∈ pawnCaptureMoves st st.sideToMove
      (if st.sideToMove = WHITE then 8 else -8) (if st.sideToMove = WHITE then 7 else 0) s df →
      m.to_ = s + (if st.sideToMove = WHITE then 8 else -8) + df :=
    fun df m hm => (pawnCaptureMoves_el st _ _ _ s df m hs0 hs hm).2.1
  have fwdTo : ∀ m, m ∈ pawnForwardMoves st (if st.sideToMove = WHITE then 8 else -8)
      (if st.sideToMove = WHITE then 1 else 6) (if st.sideToMove = WHITE then 7 else 0) s →
      m.to_ = s + (if st.sideToMove = WHITE then 8 else -8) ∨
      m.to_ = s + (if st.sideToMove = WHITE then 8 else -8) +
        (if st.sideToMove = WHITE then 8 else -8) :=
    fun m hm => (pawnForwardMoves_el st _ _ _ s m hs0 hs
      (by cases st.sideToMove <;> simp) hm).2.1
  rcases hreach with ⟨hd, hc⟩ | ⟨hrk, hfile, hc, hcol⟩
  · refine ⟨(pawnCaptureMoves st st.sideToMove (if st.sideToMove = WHITE then 8 else -8)
        (if st.sideToMove = WHITE then 7 else 0) s (-1)) ++
      (pawnCaptureMoves st st.sideToMove (if st.sideToMove = WHITE then 8 else -8)
        (if st.sideToMove = WHITE then 7 else 0) s 1), [], ?_, ?_⟩
    · rw [pawnForward_promo st s t _ ht0 ht hd hrank hc, List.append_nil]
    · intro m hm
      rw [List.append_nil] at hm
      rcases List.mem_append.mp hm with h | h
      · have := capTo _ m h; omega
      · have := capTo _ m h; omega
  · have hd : t = s + (if st.sideToMove = WHITE then 8 else -8) + 1 ∨
        t = s + (if st.sideToMove = WHITE then 8 else -8) + -1 := by
      by_cases hw : st.sideToMove = WHITE
      · simp only [hw, if_true] at hrk hrank ⊢; omega
      · simp only [hw, if_false] at hrk hrank ⊢; omega
    rcases hd with hd | hd
    · have hf : t % 8 = s % 8 + 1 := by
        by_cases hw : st.sideToMove = WHITE
        · simp only [hw, if_true] at hrk hrank hd; omega
        · simp only [hw, if_false] at hrk hrank hd; omega
      refine ⟨(pawnCaptureMoves st st.sideToMove (if st.sideToMove = WHITE then 8 else -8)
        (if st.sideToMove = WHITE then 7 else 0) s (-1)),
        (pawnForwardMoves st (if st.sideToMove = WHITE then 8 else -8)
        (if st.sideToMove = WHITE then 1 else 6) (if st.sideToMove = WHITE then 7 else 0) s), ?_, ?_⟩
      · rw [pawnCapture_promo st s t 1 hs0 ht0 ht hd hf hrank hc hcol hep,
          List.append_assoc]
      · intro m hm
        rcases List.mem_append.mp hm with h | h
        · have := capTo _ m h; omega
        · rcases fwdTo m h with e | e <;> omega
    · have hf : t % 8 = s % 8 + -1 := by
        by_cases hw : st.sideToMove = WHITE
        · simp only [hw, if_true] at hrk hrank hd; omega
        · simp only [hw, if_false] at hrk hrank hd; omega
      refine ⟨[], (pawnCaptureMoves st st.sideToMove (if st.sideToMove = WHITE then 8 else -8)
        (if st.sideToMove = WHITE then 7 else 0) s 1) ++
        (pawnForwardMoves st (if st.sideToMove = WHITE then 8 else -8)
        (if st.sideToMove = WHITE then 1 else 6) (if st.sideToMove = WHITE then 7 else 0) s), ?_, ?_⟩
      · rw [pawnCapture_promo st s t (-1) hs0 ht0 ht hd hf hrank hc hcol hep,
          List.nil_append, List.append_assoc]
      · intro m hm
        rw [List.nil_append] at hm
        rcases List.mem_append.mp hm with h | h
        · have := capTo _ m h; omega
        · rcases fwdTo m h with e | e <;> omega

theorem promo_block (b : Board) (s t : Int) (hr : PromoReach b.state s t)
    (hep : b.state.pieceAt b.state.epSquare = 0) :
    ∃ pre post, generateMoves b = pre ++ promoMoves s t ++ post ∧
      ∀ m ∈ pre ++ post, ¬ (m.from_ = s ∧ m.to_ = t) := by
  obtain ⟨a, c, hF, hex⟩ := pawnSquare_block b.state s t hr hep
  obtain ⟨hs0, hs, ht0, ht, hp, hrank, hreach⟩ := hr
  obtain ⟨l1, l2, hl⟩ := List.append_of_mem (mem_allSquares.mpr ⟨hs0, hs⟩)
  have hnd := allSquares_nodup
  rw [hl] at hnd
  have hnot : s ∉ l1 ∧ s ∉ l2 := by
    have h1 := (List.nodup_middle.mp hnd)
    have h2 := (List.nodup_cons.mp h1).1
    exact ⟨fun h => h2 (List.mem_append_left _ h), fun h => h2 (List.mem_append_right _ h)⟩
  have hmem : ∀ x, x ∈ l1 ∨ x ∈ l2 → 0 ≤ x ∧ x < 64 := by
    intro x hx
    apply mem_allSquares.mp
    rw [hl]
    rcases hx with h | h
    · exact List.mem_append_left _ h
    · exact List.mem_append_right _ (List.mem_cons_of_mem _ h)
  have hother : ∀ (l : List Int), (∀ x ∈ l, 0 ≤ x ∧ x < 64) → s ∉ l → ∀ m,
      m ∈ l.flatMap (fun s =>
        if b.state.pieceAt s ≠ makePiece b.state.sideToMove PAWN then []
        else
          (pawnCaptureMoves b.state b.state.sideToMove
              (if b.state.sideToMove = WHITE then 8 else -8)
              (if b.state.sideToMove = WHITE then 7 else 0) s (-1) ++
            pawnCaptureMoves b.state b.state.sideToMove
              (if b.state.sideToMove = WHITE then 8 else -8)
              (if b.state.sideToMove = WHITE then 7 else 0) s 1) ++
          pawnForwardMoves b.state (if b.state.sideToMove = WHITE then 8 else -8)
            (if b.state.sideToMove = WHITE then 1 else 6)
            (if b.state.sideToMove = WHITE then 7 else 0) s) → m.from_ ≠ s := by
    intro l hl2 hs2 m hm
    obtain ⟨x, hx, hm⟩ := List.mem_flatMap.mp hm
    rw [(pawnSquare_el b.state x m (hl2 x hx).1 (hl2 x hx).2 hm).1]
    intro e
    exact hs2 (e ▸ hx)
  have hrest : ∀ m, (m ∈ addKnightMoves b.state false ∨ m ∈ addSliding b.state false ∨
      m ∈ addKingMoves b.state false) → ¬ (m.from_ = s ∧ m.to_ = t) := by
    intro m hm ⟨e1, e2⟩
    rcases non_pawn_mover b.state m hm with h | h
    · rw [e1, hp, (makePiece_facts _ PAWN (by decide)).2.2] at h
      exact h rfl
    · rw [e1, e2] at h
      obtain ⟨-, h2⟩ := h
      have hd : (if b.state.sideToMove = WHITE then (8 : Int) else -8) = 8 ∨
          (if b.state.sideToMove = WHITE then (8 : Int) else -8) = -8 := by
        by_cases hw : b.state.sideToMove = WHITE
        · left; rw [if_pos hw]
        · right; rw [if_neg hw]
      have hk : (if b.state.sideToMove = WHITE then (1 : Int) else -1) = 1 ∨
          (if b.state.sideToMove = WHITE then (1 : Int) else -1) = -1 := by
        by_cases hw : b.state.sideToMove = WHITE
        · left; rw [if_pos hw]
        · right; rw [if_neg hw]
      rcases hreach with ⟨h1, -⟩ | ⟨h1, hfile, -, -⟩
      · rcases hd with hd | hd <;> rw [hd] at h1 <;> omega
      · rcases hk with hk | hk <;> rw [hk] at h1 <;> omega
  refine ⟨l1.flatMap (fun s =>
        if b.state.pieceAt s ≠ makePiece b.state.sideToMove PAWN then []
        else
          (pawnCaptureMoves b.state b.state.sideToMove
              (if b.state.sideToMove = WHITE then 8 else -8)
              (if b.state.sideToMove = WHITE then 7 else 0) s (-1) ++
            pawnCaptureMoves b.state b.state.sideToMove
              (if b.state.sideToMove = WHITE then 8 else -8)
              (if b.state.sideToMove = WHITE then 7 else 0) s 1) ++
          pawnForwardMoves b.state (if b.state.sideToMove = WHITE then 8 else -8)
            (if b.state.sideToMove = WHITE then 1 else 6)
            (if b.state.sideToMove = WHITE then 7 else 0) s) ++ a,
    c ++ l2.flatMap (fun s =>
        if b.state.pieceAt s ≠ makePiece b.state.sideToMove PAWN then []
        else
          (pawnCaptureMoves b.state b.state.sideToMove
              (if b.state.sideToMove = WHITE then 8 else -8)
              (if b.state.sideToMove = WHITE then 7 else 0) s (-1) ++
            pawnCaptureMoves b.state b.state.sideToMove
              (if b.state.sideToMove = WHITE then 8 else -8)
              (if b.state.sideToMove = WHITE then 7 else 0) s 1) ++
          pawnForwardMoves b.state (if b.state.sideToMove = WHITE then 8 else -8)
            (if b.state.sideToMove = WHITE then 1 else 6)
            (if b.state.sideToMove = WHITE then 7 else 0) s) ++
      (addKnightMoves b.state false ++ addSliding b.state false ++
        addKingMoves b.state false), ?_, ?_⟩
  · unfold generateMoves
    rw [addPawnMoves_eq, hl, List.flatMap_append, List.flatMap_cons,
      if_neg (not_not.mpr hp), hF]
    simp only [List.append_assoc]
  · intro m hm
    simp only [List.mem_append, or_assoc] at hm
    have hex2 : ∀ m, m ∈ a ∨ m ∈ c → m.to_ ≠ t :=
      fun m h => hex m (List.mem_append.mpr h)
    rcases hm with h | h | h | h | h | h | h
    · exact fun e => hother l1 (fun x hx => hmem x (Or.inl hx)) hnot.1 m h e.1
    · exact fun e => hex2 m (Or.inl h) e.2
    · exact fun e => hex2 m (Or.inr h) e.2
    · exact fun e => hother l2 (fun x hx => hmem x (Or.inr hx)) hnot.2 m h e.1
    · exact hrest m (Or.inl h)
    · exact hrest m (Or.inr (Or.inl h))
    · exact hrest m (Or.inr (Or.inr h))

theorem no_normal_promotion (b : Board) (m : Move) (hm : m ∈ generateMoves b)
    (hf : m.flags = FLAG_NORMAL) (hp : pieceType (b.state.pieceAt m.from_) = PAWN) :
    m.to_ / 8 ≠ (if b.state.sideToMove = WHITE then 7 else 0) := by
  have hto : 0 ≤ m.to_ := by
    unfold Move.to_
    exact Int.ofNat_nonneg _
  rw [← tdiv8 hto]
  unfold generateMoves at hm
  simp only [List.mem_append, or_assoc] at hm
  rcases hm with h | h | h | h
  · rw [addPawnMoves_eq] at h
    obtain ⟨x, hx, h⟩ := List.mem_flatMap.mp h
    obtain ⟨hx0, hx1⟩ := mem_allSquares.mp hx
    exact (pawnSquare_el b.state x m hx0 hx1 h).2 hf
  · rcases non_pawn_mover b.state m (Or.inl h) with e | e
    · exact absurd hp e
    · rw [hf] at e; exact absurd e.1 (by decide)
  · rcases non_pawn_mover b.state m (Or.inr (Or.inl h)) with e | e
    · exact absurd hp e
    · rw [hf] at e; exact absurd e.1 (by decide)
  · rcases non_pawn_mover b.state m (Or.inr (Or.inr h)) with e | e
    · exact absurd hp e
    · rw [hf] at e; exact absurd e.1 (by decide)

theorem promo_placed (Z : ZobristKeys) (b : Board) (s t : Int) (p : Nat)
    (hs0 : 0 ≤ s) (hs : s < 64) (ht0 : 0 ≤ t) (ht : t < 64) (hp : p ≤ 3)
    (hok : (makeMove Z b (Move.new s t FLAG_PROMO p)).2 = true) :
    (makeMove Z b (Move.new s t FLAG_PROMO p)).1.state.pieceAt t =
      makePiece b.state.sideToMove (p + 2) := by
  rw [makeMove_fst_of_true Z b _ hok]
  obtain ⟨-, e2, e3, e4⟩ := Move.new_fields s t FLAG_PROMO p hs0 hs ht0 ht (by decide) hp
  show sqAt (applyMove Z b.state (Move.new s t FLAG_PROMO p)).squares t = _
  rw [applyMove_squares, e2, sqAt_setSq_same _ t _ ht0 ht]
  unfold placedPiece
  rw [e3, if_pos rfl, e4]
  have : [KNIGHT, BISHOP, ROOK, QUEEN].getD p 0 = p + 2 := by
    interval_cases p <;> rfl
  rw [this]

theorem piece_iff (pc : Nat) (c : Color) (k : Nat) (hk : 1 ≤ k ∧ k ≤ 6) :
    (pc ≠ 0 ∧ pieceColor pc = c ∧ pieceType pc = k) ↔ pc = makePiece c k := by
  unfold pieceColor pieceType makePiece
  cases c
  · simp only [reduceCtorEq, if_false, add_zero]
    constructor
    · rintro ⟨h1, h2, h3⟩
      split_ifs at h2 h3 <;> omega
    · rintro rfl
      refine ⟨by omega, ?_, ?_⟩
      · rw [if_neg (by omega)]
      · rw [if_neg (by omega)]
  · simp only [if_true]
    constructor
    · rintro ⟨h1, h2, h3⟩
      split_ifs at h2 h3 <;> omega
    · rintro rfl
      refine ⟨by omega, ?_, ?_⟩
      · rw [if_pos (by omega)]
      · rw [if_pos (by omega)]; omega

theorem cabs_le_iff (x k : Int) : cabs x ≤ k ↔ -k ≤ x ∧ x ≤ k := by
  unfold cabs; split_ifs <;> omega

theorem cabs_eq_iff (x k : Int) (hk : 0 ≤ k) : cabs x = k ↔ x = k ∨ x = -k := by
  unfold cabs; split_ifs <;> omega

theorem cabs_eq_one (x : Int) : cabs x = 1 ↔ x = 1 ∨ x = -1 := cabs_eq_iff x 1 (by decide)

theorem cabs_eq_two (x : Int) : cabs x = 2 ↔ x = 2 ∨ x = -2 := cabs_eq_iff x 2 (by decide)

theorem cabs_eq_cabs (x y : Int) : cabs x = cabs y ↔ x = y ∨ x = -y := by
  unfold cabs; split_ifs <;> omega

/-- The king loop of `isSquareAttacked` finds a king exactly when one stands at file and
rank distance at most 1. -/
theorem king_loop_iff (st : BoardState) (s : Int) (c : Color) (hs0 : 0 ≤ s) :
    ([-9, -8, -7, -1, 1, 7, 8, 9].any (kingAttackAt st s c) = true) ↔
      ∃ t ∈ allSquares, st.pieceAt t = makePiece c KING ∧ kingAttacksFrom t s := by
  rw [List.any_eq_true]
  constructor
  · rintro ⟨o, ho, h⟩
    unfold kingAttackAt at h
    simp only [] at h
    by_cases h1 : s + o < 0 ∨ s + o > 63
    · rw [if_pos h1] at h; exact absurd h Bool.false_ne_true
    rw [if_neg h1] at h
    have ht0 : 0 ≤ s + o := by omega
    rw [tmod8 ht0, tmod8 hs0, tdiv8 ht0, tdiv8 hs0] at h
    by_cases h2 : cabs ((s + o) % 8 - s % 8) > 1
    · rw [if_pos h2] at h; exact absurd h Bool.false_ne_true
    rw [if_neg h2] at h
    by_cases h3 : cabs ((s + o) / 8 - s / 8) > 1
    · rw [if_pos h3] at h; exact absurd h Bool.false_ne_true
    rw [if_neg h3, decide_eq_true_eq, piece_iff _ _ KING (by decide)] at h
    refine ⟨s + o, mem_allSquares.mpr ⟨ht0, by omega⟩, h, ?_⟩
    unfold kingAttacksFrom fileOf rankOf
    refine ⟨by omega, by omega, ?_⟩
    simp only [List.mem_cons, List.mem_singleton, List.not_mem_nil, or_false] at ho
    omega
  · rintro ⟨t, ht, hp, hg⟩
    obtain ⟨ht0, ht1⟩ := mem_allSquares.mp ht
    unfold kingAttacksFrom fileOf rankOf at hg
    obtain ⟨g1, g2, g3⟩ := hg
    have g1b := (cabs_le_iff _ _).mp g1
    have g2b := (cabs_le_iff _ _).mp g2
    refine ⟨t - s, ?_, ?_⟩
    · simp only [List.mem_cons, List.mem_singleton, List.not_mem_nil, or_false]
      omega
    · unfold kingAttackAt
      simp only []
      have e : s + (t - s) = t := by omega
      rw [e, tmod8 ht0, tmod8 hs0, tdiv8 ht0, tdiv8 hs0]
      rw [if_neg (by omega), if_neg (by omega), if_neg (by omega), decide_eq_true_eq,
        piece_iff _ _ KING (by decide)]
      exact hp

/-- The knight loop of `isSquareAttacked` finds a knight exactly when one stands a
knight's move away. -/
theorem knight_loop_iff (st : BoardState) (s : Int) (c : Color) (hs0 : 0 ≤ s) :
    ([-17, -15, -10, -6, 6, 10, 15, 17].any (knightAttackAt st s c) = true) ↔
      ∃ t ∈ allSquares, st.pieceAt t = makePiece c KNIGHT ∧ knightAttacksFrom t s := by
  rw [List.any_eq_true]
  constructor
  · rintro ⟨o, ho, h⟩
    unfold knightAttackAt at h
    simp only [] at h
    by_cases h1 : s + o < 0 ∨ s + o > 63
    · rw [if_pos h1] at h; exact absurd h Bool.false_ne_true
    rw [if_neg h1] at h
    have ht0 : 0 ≤ s + o := by omega
    rw [tmod8 ht0, tmod8 hs0] at h
    by_cases h2 : cabs ((s + o) % 8 - s % 8) ≠ 1 ∧ cabs ((s + o) % 8 - s % 8) ≠ 2
    · rw [if_pos h2] at h; exact absurd h Bool.false_ne_true
    rw [if_neg h2, decide_eq_true_eq, piece_iff _ _ KNIGHT (by decide)] at h
    refine ⟨s + o, mem_allSquares.mpr ⟨ht0, by omega⟩, h, ?_⟩
    unfold knightAttacksFrom fileOf rankOf
    have h2b : cabs ((s + o) % 8 - s % 8) = 1 ∨ cabs ((s + o) % 8 - s % 8) = 2 := by
      by_contra hc
      exact h2 ⟨fun a => hc (Or.inl a), fun a => hc (Or.inr a)⟩
    rw [cabs_eq_one, cabs_eq_two] at h2b
    simp only [cabs_eq_one, cabs_eq_two]
    simp only [List.mem_cons, List.mem_singleton, List.not_mem_nil, or_false] at ho
    omega
  · rintro ⟨t, ht, hp, hg⟩
    obtain ⟨ht0, ht1⟩ := mem_allSquares.mp ht
    unfold knightAttacksFrom fileOf rankOf at hg
    simp only [cabs_eq_one, cabs_eq_two] at hg
    refine ⟨t - s, ?_, ?_⟩
    · simp only [List.mem_cons, List.mem_singleton, List.not_mem_nil, or_false]
      omega
    · unfold knightAttackAt
      simp only []
      have e : s + (t - s) = t := by omega
      rw [e, tmod8 ht0, tmod8 hs0]
      have hdf : cabs (t % 8 - s % 8) = 1 ∨ cabs (t % 8 - s % 8) = 2 := by
        rw [cabs_eq_one, cabs_eq_two]
        omega
      have h2 : ¬ (cabs (t % 8 - s % 8) ≠ 1 ∧ cabs (t % 8 - s % 8) ≠ 2) :=
        fun h => hdf.elim h.1 h.2
      rw [if_neg (by omega), if_neg h2, decide_eq_true_eq, piece_iff _ _ KNIGHT (by decide)]
      exact hp

theorem pawnAttackAt_iff (st : BoardState) (s : Int) (c : Color) (t : Int) (hs0 : 0 ≤ s) :
    pawnAttackAt st s c t = true ↔
      (0 ≤ t ∧ t < 64 ∧ (t % 8 - s % 8 = 1 ∨ t % 8 - s % 8 = -1)) ∧
        st.pieceAt t = makePiece c PAWN := by
  unfold pawnAttackAt
  by_cases h : t ≥ 0 ∧ t < 64 ∧ cabs (t.tmod 8 - s.tmod 8) = 1
  · rw [if_pos h, decide_eq_true_eq]
    obtain ⟨h1, h2, h3⟩ := h
    rw [tmod8 h1, tmod8 hs0, cabs_eq_one] at h3
    constructor
    · intro hp; exact ⟨⟨h1, h2, h3⟩, hp⟩
    · intro hp; exact hp.2
  · rw [if_neg h]
    constructor
    · intro hp; exact absurd hp Bool.false_ne_true
    · rintro ⟨⟨h1, h2, h3⟩, -⟩
      exfalso
      apply h
      refine ⟨h1, h2, ?_⟩
      rw [tmod8 h1, tmod8 hs0, cabs_eq_one]
      exact h3

/-- The pawn tests of `isSquareAttacked` find a pawn exactly when one stands diagonally
adjacent on the side it captures from. -/
theorem pawn_test_iff (st : BoardState) (s : Int) (c : Color) (hs0 : 0 ≤ s) :
    ((if c = WHITE then
        pawnAttackAt st s WHITE (s - 7) || pawnAttackAt st s WHITE (s - 9)
      else
        pawnAttackAt st s BLACK (s + 7) || pawnAttackAt st s BLACK (s + 9)) = true) ↔
      ∃ t ∈ allSquares, st.pieceAt t = makePiece c PAWN ∧ pawnAttacksFrom c t s := by
  unfold pawnAttacksFrom fileOf rankOf
  cases c
  · simp only [if_true, Bool.or_eq_true, pawnAttackAt_iff st s _ _ hs0]
    constructor
    · rintro (⟨⟨h1, h2, h3⟩, hp⟩ | ⟨⟨h1, h2, h3⟩, hp⟩)
      · refine ⟨s - 7, mem_allSquares.mpr ⟨h1, h2⟩, hp, ?_, ?_⟩
        · rw [cabs_eq_one]; exact h3
        · omega
      · refine ⟨s - 9, mem_allSquares.mpr ⟨h1, h2⟩, hp, ?_, ?_⟩
        · rw [cabs_eq_one]; exact h3
        · omega
    · rintro ⟨t, ht, hp, g1, g2⟩
      obtain ⟨ht0, ht1⟩ := mem_allSquares.mp ht
      rw [cabs_eq_one] at g1
      have : t = s - 7 ∨ t = s - 9 := by omega
      rcases this with rfl | rfl
      · exact Or.inl ⟨⟨ht0, ht1, g1⟩, hp⟩
      · exact Or.inr ⟨⟨ht0, ht1, g1⟩, hp⟩
  · simp only [reduceCtorEq, if_false, Bool.or_eq_true, pawnAttackAt_iff st s _ _ hs0]
    constructor
    · rintro (⟨⟨h1, h2, h3⟩, hp⟩ | ⟨⟨h1, h2, h3⟩, hp⟩)
      · refine ⟨s + 7, mem_allSquares.mpr ⟨h1, h2⟩, hp, ?_, ?_⟩
        · rw [cabs_eq_one]; exact h3
        · omega
      · refine ⟨s + 9, mem_allSquares.mpr ⟨h1, h2⟩, hp, ?_, ?_⟩
        · rw [cabs_eq_one]; exact h3
        · omega
    · rintro ⟨t, ht, hp, g1, g2⟩
      obtain ⟨ht0, ht1⟩ := mem_allSquares.mp ht
      rw [cabs_eq_one] at g1
      have : t = s + 7 ∨ t = s + 9 := by omega
      rcases this with rfl | rfl
      · exact Or.inl ⟨⟨ht0, ht1, g1⟩, hp⟩
      · exact Or.inr ⟨⟨ht0, ht1, g1⟩, hp⟩

theorem rookRayAttack_elim (st : BoardState) (c : Color) (e : Int) :
    ∀ (fuel : Nat) (x : Int), rookRayAttack st c e fuel x = true →
      ∃ n : Nat, n < fuel ∧
        (∀ j : Nat, j ≤ n → (0 ≤ x + (j : Int) * e ∧ x + (j : Int) * e < 64) ∧
          ¬ (e = 1 ∧ (x + (j : Int) * e).tmod 8 = 0) ∧
          ¬ (e = -1 ∧ (x + (j : Int) * e).tmod 8 = 7)) ∧
        (∀ j : Nat, j < n → st.pieceAt (x + (j : Int) * e) = 0) ∧
        st.pieceAt (x + (n : Int) * e) ≠ 0 ∧
        pieceColor (st.pieceAt (x + (n : Int) * e)) = c ∧
        (pieceType (st.pieceAt (x + (n : Int) * e)) = ROOK ∨
          pieceType (st.pieceAt (x + (n : Int) * e)) = QUEEN) := by
  intro fuel
  induction fuel with
  | zero => intro x h; exact absurd h (by unfold rookRayAttack; exact Bool.false_ne_true)
  | succ f ih =>
    intro x h
    unfold rookRayAttack at h
    by_cases h1 : x ≥ 0 ∧ x < 64
    · rw [if_pos h1] at h
      by_cases h2 : e = 1 ∧ x.tmod 8 = 0
      · rw [if_pos h2] at h; exact absurd h Bool.false_ne_true
      rw [if_neg h2] at h
      by_cases h3 : e = -1 ∧ x.tmod 8 = 7
      · rw [if_pos h3] at h; exact absurd h Bool.false_ne_true
      rw [if_neg h3] at h
      simp only [] at h
      by_cases h4 : st.pieceAt x ≠ 0
      · rw [if_pos h4, decide_eq_true_eq] at h
        refine ⟨0, by omega, ?_, ?_, ?_⟩
        · intro j hj
          have : j = 0 := by omega
          subst this
          rw [ray_zero]
          exact ⟨⟨h1.1, h1.2⟩, h2, h3⟩
        · intro j hj; omega
        · rw [ray_zero]
          exact ⟨h4, h.1, h.2⟩
      · rw [if_neg h4] at h
        obtain ⟨n, hn, hA, hB, hC⟩ := ih (x + e) h
        have sh := ray_succ x e
        refine ⟨n + 1, by omega, ?_, ?_, ?_⟩
        · intro j hj
          cases j with
          | zero =>
            rw [ray_zero]
            exact ⟨⟨h1.1, h1.2⟩, h2, h3⟩
          | succ j => rw [← sh]; exact hA j (by omega)
        · intro j hj
          cases j with
          | zero =>
            rw [ray_zero]
            exact not_not.mp h4
          | succ j => rw [← sh]; exact hB j (by omega)
        · rw [← sh]; exact hC
    · rw [if_neg h1] at h; exact absurd h Bool.false_ne_true

theorem bishopRayAttack_elim (st : BoardState) (S : Int) (c : Color) (e : Int) :
    ∀ (fuel : Nat) (x : Int), bishopRayAttack st S c e fuel x = true →
      ∃ n : Nat, n < fuel ∧
        (∀ j : Nat, j ≤ n → (0 ≤ x + (j : Int) * e ∧ x + (j : Int) * e < 64) ∧
          ¬ (cabs ((x + (j : Int) * e).tmod 8 - S.tmod 8) ≠
            cabs ((x + (j : Int) * e).tdiv 8 - S.tdiv 8))) ∧
        (∀ j : Nat, j < n → st.pieceAt (x + (j : Int) * e) = 0) ∧
        st.pieceAt (x + (n : Int) * e) ≠ 0 ∧
        pieceColor (st.pieceAt (x + (n : Int) * e)) = c ∧
        (pieceType (st.pieceAt (x + (n : Int) * e)) = BISHOP ∨
          pieceType (st.pieceAt (x + (n : Int) * e)) = QUEEN) := by
  intro fuel
  induction fuel with
  | zero => intro x h; exact absurd h (by unfold bishopRayAttack; exact Bool.false_ne_true)
  | succ f ih =>
    intro x h
    unfold bishopRayAttack at h
    by_cases h1 : x ≥ 0 ∧ x < 64
    · rw [if_pos h1] at h
      simp only [] at h
      by_cases h2 : cabs (x.tmod 8 - S.tmod 8) ≠ cabs (x.tdiv 8 - S.tdiv 8)
      · rw [if_pos h2] at h; exact absurd h Bool.false_ne_true
      rw [if_neg h2] at h
      by_cases h4 : st.pieceAt x ≠ 0
      · rw [if_pos h4, decide_eq_true_eq] at h
        refine ⟨0, by omega, ?_, ?_, ?_⟩
        · intro j hj
          have : j = 0 := by omega
          subst this
          rw [ray_zero]
          exact ⟨⟨h1.1, h1.2⟩, h2⟩
        · intro j hj; omega
        · rw [ray_zero]
          exact ⟨h4, h.1, h.2⟩
      · rw [if_neg h4] at h
        obtain ⟨n, hn, hA, hB, hC⟩ := ih (x + e) h
        have sh := ray_succ x e
        refine ⟨n + 1, by omega, ?_, ?_, ?_⟩
        · intro j hj
          cases j with
          | zero =>
            rw [ray_zero]
            exact ⟨⟨h1.1, h1.2⟩, h2⟩
          | succ j => rw [← sh]; exact hA j (by omega)
        · intro j hj
          cases j with
          | zero =>
            rw [ray_zero]
            exact not_not.mp h4
          | succ j => rw [← sh]; exact hB j (by omega)
        · rw [← sh]; exact hC
    · rw [if_neg h1] at h; exact absurd h Bool.false_ne_true

/-- A ray loop from `s` in the direction `d` against the geometry of the line: a loop
that walks `s + d, s + 2d, ...` while the squares pass the test `cond` and are empty
reaches a square passing `ok` exactly when a square `t` of the line through `s` (same
`inv`), on the side of `d` (in the coordinate `ord`, by the sign `σ`), passes `ok` with
every square strictly between empty. -/
theorem ray_geom (st : BoardState) (cond : Int → Prop) (ok : Nat → Prop) (d : Int)
    (inv ord : Int → Int) (σ : Int) (s : Int) (hσ : σ = 1 ∨ σ = -1)
    (hL1 : ∀ k : Nat,
      (∀ j : Nat, j ≤ k → (0 ≤ s + d + (j : Int) * d ∧ s + d + (j : Int) * d < 64) ∧
        cond (s + d + (j : Int) * d)) ↔
      (0 ≤ s + ((k : Int) + 1) * d ∧ s + ((k : Int) + 1) * d < 64 ∧
        inv (s + ((k : Int) + 1) * d) = inv s ∧
        ord (s + ((k : Int) + 1) * d) = ord s + σ * ((k : Int) + 1)))
    (hL2 : ∀ x j : Int, 0 ≤ x → x < 64 → inv x = inv s → ord x = ord s + σ * j →
      x = s + j * d)
    (hL3 : ∀ k j : Int, 0 ≤ j → j ≤ k → 0 ≤ s + k * d → s + k * d < 64 →
      inv (s + k * d) = inv s → ord (s + k * d) = ord s + σ * k →
      (0 ≤ s + j * d ∧ s + j * d < 64 ∧ inv (s + j * d) = inv s ∧
        ord (s + j * d) = ord s + σ * j)) :
    (∃ n : Nat,
      (∀ j : Nat, j ≤ n → (0 ≤ s + d + (j : Int) * d ∧ s + d + (j : Int) * d < 64) ∧
        cond (s + d + (j : Int) * d)) ∧
      (∀ j : Nat, j < n → st.pieceAt (s + d + (j : Int) * d) = 0) ∧
      ok (st.pieceAt (s + d + (n : Int) * d))) ↔
    ∃ t ∈ allSquares, ok (st.pieceAt t) ∧ inv t = inv s ∧ 0 < σ * (ord t - ord s) ∧
      clearBetween st inv ord s t := by
  have sh : ∀ j : Int, s + d + j * d = s + (j + 1) * d := by intro j; ring
  constructor
  · rintro ⟨n, hA, hB, hC⟩
    obtain ⟨r0, r1, ri, ro⟩ := (hL1 n).mp hA
    refine ⟨s + ((n : Int) + 1) * d, mem_allSquares.mpr ⟨r0, r1⟩, ?_, ri, ?_, ?_⟩
    · rw [← sh]; exact hC
    · rw [ro]
      rcases hσ with rfl | rfl <;> omega
    · intro x hx hinv hb
      obtain ⟨hx0, hx1⟩ := mem_allSquares.mp hx
      rw [ro] at hb
      unfold strictlyBetween at hb
      have hj : 1 ≤ σ * (ord x - ord s) ∧ σ * (ord x - ord s) ≤ (n : Int) ∧
          ord x = ord s + σ * (σ * (ord x - ord s)) := by
        rcases hσ with rfl | rfl <;> omega
      have hx2 := hL2 x (σ * (ord x - ord s)) hx0 hx1 hinv hj.2.2
      have hz := hB (σ * (ord x - ord s) - 1).toNat (by omega)
      rw [Int.toNat_of_nonneg (by omega), sh] at hz
      rw [hx2]
      have e : σ * (ord x - ord s) - 1 + 1 = σ * (ord x - ord s) := by ring
      rw [e] at hz
      exact hz
  · rintro ⟨t, ht, hok, hinv, hpos, hclear⟩
    obtain ⟨ht0, ht1⟩ := mem_allSquares.mp ht
    have hord : ord t = ord s + σ * (σ * (ord t - ord s)) := by
      rcases hσ with rfl | rfl <;> omega
    have ht2 := hL2 t (σ * (ord t - ord s)) ht0 ht1 hinv hord
    have hn : (((σ * (ord t - ord s) - 1).toNat : Nat) : Int) + 1 = σ * (ord t - ord s) := by
      rw [Int.toNat_of_nonneg (by omega)]; ring
    have e : s + ((((σ * (ord t - ord s) - 1).toNat : Nat) : Int) + 1) * d = t := by
      rw [hn, ← ht2]
    refine ⟨(σ * (ord t - ord s) - 1).toNat, ?_, ?_, ?_⟩
    · apply (hL1 _).mpr
      rw [e, hn]
      exact ⟨ht0, ht1, hinv, hord⟩
    · intro j hj
      rw [sh]
      obtain ⟨a0, a1, ai, ao⟩ := hL3 (σ * (ord t - ord s)) ((j : Int) + 1) (by omega)
        (by omega) (by rw [← ht2]; exact ht0) (by rw [← ht2]; exact ht1)
        (by rw [← ht2]; exact hinv) (by rw [← ht2]; exact hord)
      apply hclear _ (mem_allSquares.mpr ⟨a0, a1⟩) ai
      unfold strictlyBetween
      rw [ao]
      have hj2 : (j : Int) + 1 < σ * (ord t - ord s) := by omega
      rcases hσ with rfl | rfl <;> omega
    · rw [sh, e]; exact hok

theorem rookRayAttack_iff_path (st : BoardState) (c : Color) (d s : Int) (hs0 : 0 ≤ s)
    (hs : s < 64) (hd : d = 1 ∨ d = -1 ∨ d = 8 ∨ d = -8) :
    rookRayAttack st c d 64 (s + d) = true ↔
      ∃ n : Nat,
        (∀ j : Nat, j ≤ n → (0 ≤ s + d + (j : Int) * d ∧ s + d + (j : Int) * d < 64) ∧
          (¬ (d = 1 ∧ (s + d + (j : Int) * d).tmod 8 = 0) ∧
            ¬ (d = -1 ∧ (s + d + (j : Int) * d).tmod 8 = 7))) ∧
        (∀ j : Nat, j < n → st.pieceAt (s + d + (j : Int) * d) = 0) ∧
        (st.pieceAt (s + d + (n : Int) * d) = makePiece c ROOK ∨
          st.pieceAt (s + d + (n : Int) * d) = makePiece c QUEEN) := by
  have hok : ∀ pc : Nat, (pc = makePiece c ROOK ∨ pc = makePiece c QUEEN) ↔
      (pc ≠ 0 ∧ pieceColor pc = c ∧ (pieceType pc = ROOK ∨ pieceType pc = QUEEN)) := by
    intro pc
    rw [← piece_iff pc c ROOK (by decide), ← piece_iff pc c QUEEN (by decide)]
    tauto
  constructor
  · intro h
    obtain ⟨n, -, hA, hB, hC⟩ := rookRayAttack_elim st c d 64 (s + d) h
    exact ⟨n, hA, hB, (hok _).mpr hC⟩
  · rintro ⟨n, hA, hB, hC⟩
    have hC2 := (hok _).mp hC
    have hn : n < 64 := by
      obtain ⟨⟨a0, a1⟩, -⟩ := hA n (le_refl _)
      rcases hd with rfl | rfl | rfl | rfl <;> omega
    exact rookRayAttack_hit st c d n 64 (s + d) hn hA hB hC2.1 hC2.2.1 hC2.2.2

/-- The rook loop of `isSquareAttacked` in the direction `d`. -/
theorem rook_dir_iff (st : BoardState) (c : Color) (s : Int) (hs0 : 0 ≤ s) (hs : s < 64)
    (d : Int) (inv ord : Int → Int) (σ : Int)
    (hd : (d = 1 ∧ inv = rankOf ∧ ord = fileOf ∧ σ = 1) ∨
      (d = -1 ∧ inv = rankOf ∧ ord = fileOf ∧ σ = -1) ∨
      (d = 8 ∧ inv = fileOf ∧ ord = rankOf ∧ σ = 1) ∨
      (d = -8 ∧ inv = fileOf ∧ ord = rankOf ∧ σ = -1)) :
    rookRayAttack st c d 64 (s + d) = true ↔
      ∃ t ∈ allSquares,
        (st.pieceAt t = makePiece c ROOK ∨ st.pieceAt t = makePiece c QUEEN) ∧
        inv t = inv s ∧ 0 < σ * (ord t - ord s) ∧ clearBetween st inv ord s t := by
  rw [rookRayAttack_iff_path st c d s hs0 hs (by
    rcases hd with h | h | h | h <;> omega)]
  rcases hd with ⟨rfl, rfl, rfl, rfl⟩ | ⟨rfl, rfl, rfl, rfl⟩ | ⟨rfl, rfl, rfl, rfl⟩ |
    ⟨rfl, rfl, rfl, rfl⟩
  · refine ray_geom st
      (fun y => ¬ ((1 : Int) = 1 ∧ y.tmod 8 = 0) ∧ ¬ ((1 : Int) = -1 ∧ y.tmod 8 = 7))
      (fun pc => pc = makePiece c ROOK ∨ pc = makePiece c QUEEN) (1) rankOf fileOf (1) s (Or.inl rfl) ?_ ?_ ?_
    · intro k
      beta_reduce
      constructor
      · intro h
        obtain ⟨⟨a0, a1⟩, -, -⟩ := h k (le_refl _)
        have hw : s % 8 + (k : Int) + 1 ≤ 7 := by
          by_contra hc
          obtain ⟨⟨b0, b1⟩, c1, c2⟩ := h (7 - s % 8).toNat (by omega)
          rw [tmod8 b0] at c1 c2
          apply c1
          refine ⟨rfl, ?_⟩
          omega
        simp only [rankOf, fileOf]
        omega
      · rintro ⟨r0, r1, ri, ro⟩ j hj
        simp only [rankOf, fileOf] at ri ro
        have y0 : 0 ≤ s + 1 + (j : Int) * 1 := by omega
        refine ⟨⟨y0, by omega⟩, ?_, ?_⟩
        · rintro ⟨h1, h0⟩
          rw [tmod8 y0] at h0
          omega
        · rintro ⟨h1, h0⟩
          rw [tmod8 y0] at h0
          omega
    · intro x j hx0 hx1 hi ho
      simp only [rankOf, fileOf] at hi ho
      omega
    · intro k j hj0 hjk h0 h1 hi ho
      simp only [rankOf, fileOf] at hi ho ⊢
      omega
  · refine ray_geom st
      (fun y => ¬ ((-1 : Int) = 1 ∧ y.tmod 8 = 0) ∧ ¬ ((-1 : Int) = -1 ∧ y.tmod 8 = 7))
      (fun pc => pc = makePiece c ROOK ∨ pc = makePiece c QUEEN) (-1) rankOf fileOf (-1) s (Or.inr rfl) ?_ ?_ ?_
    · intro k
      beta_reduce
      constructor
      · intro h
        obtain ⟨⟨a0, a1⟩, -, -⟩ := h k (le_refl _)
        have hw : 0 ≤ s % 8 - ((k : Int) + 1) := by
          by_contra hc
          obtain ⟨⟨b0, b1⟩, c1, c2⟩ := h (s % 8).toNat (by omega)
          rw [tmod8 b0] at c1 c2
          apply c2
          refine ⟨rfl, ?_⟩
          omega
        simp only [rankOf, fileOf]
        omega
      · rintro ⟨r0, r1, ri, ro⟩ j hj
        simp only [rankOf, fileOf] at ri ro
        have y0 : 0 ≤ s + -1 + (j : Int) * -1 := by omega
        refine ⟨⟨y0, by omega⟩, ?_, ?_⟩
        · rintro ⟨h1, h0⟩
          rw [tmod8 y0] at h0
          omega
        · rintro ⟨h1, h0⟩
          rw [tmod8 y0] at h0
          omega
    · intro x j hx0 hx1 hi ho
      simp only [rankOf, fileOf] at hi ho
      omega
    · intro k j hj0 hjk h0 h1 hi ho
      simp only [rankOf, fileOf] at hi ho ⊢
      omega
  · refine ray_geom st
      (fun y => ¬ ((8 : Int) = 1 ∧ y.tmod 8 = 0) ∧ ¬ ((8 : Int) = -1 ∧ y.tmod 8 = 7))
      (fun pc => pc = makePiece c ROOK ∨ pc = makePiece c QUEEN) (8) fileOf rankOf (1) s (Or.inl rfl) ?_ ?_ ?_
    · intro k
      beta_reduce
      constructor
      · intro h
        obtain ⟨⟨a0, a1⟩, -, -⟩ := h k (le_refl _)
        simp only [rankOf, fileOf]
        omega
      · rintro ⟨r0, r1, ri, ro⟩ j hj
        simp only [rankOf, fileOf] at ri ro
        have y0 : 0 ≤ s + 8 + (j : Int) * 8 := by omega
        refine ⟨⟨y0, by omega⟩, ?_, ?_⟩
        · rintro ⟨h1, h0⟩
          rw [tmod8 y0] at h0
          omega
        · rintro ⟨h1, h0⟩
          rw [tmod8 y0] at h0
          omega
    · intro x j hx0 hx1 hi ho
      simp only [rankOf, fileOf] at hi ho
      omega
    · intro k j hj0 hjk h0 h1 hi ho
      simp only [rankOf, fileOf] at hi ho ⊢
      omega
  · refine ray_geom st
      (fun y => ¬ ((-8 : Int) = 1 ∧ y.tmod 8 = 0) ∧ ¬ ((-8 : Int) = -1 ∧ y.tmod 8 = 7))
      (fun pc => pc = makePiece c ROOK ∨ pc = makePiece c QUEEN) (-8) fileOf rankOf (-1) s (Or.inr rfl) ?_ ?_ ?_
    · intro k
      beta_reduce
      constructor
      · intro h
        obtain ⟨⟨a0, a1⟩, -, -⟩ := h k (le_refl _)
        simp only [rankOf, fileOf]
        omega
      · rintro ⟨r0, r1, ri, ro⟩ j hj
        simp only [rankOf, fileOf] at ri ro
        have y0 : 0 ≤ s + -8 + (j : Int) * -8 := by omega
        refine ⟨⟨y0, by omega⟩, ?_, ?_⟩
        · rintro ⟨h1, h0⟩
          rw [tmod8 y0] at h0
          omega
        · rintro ⟨h1, h0⟩
          rw [tmod8 y0] at h0
          omega
    · intro x j hx0 hx1 hi ho
      simp only [rankOf, fileOf] at hi ho
      omega
    · intro k j hj0 hjk h0 h1 hi ho
      simp only [rankOf, fileOf] at hi ho ⊢
      omega

theorem bishopRayAttack_iff_path (st : BoardState) (c : Color) (d s : Int) (hs0 : 0 ≤ s)
    (hs : s < 64) (hd : d = 9 ∨ d = -9 ∨ d = 7 ∨ d = -7) :
    bishopRayAttack st s c d 64 (s + d) = true ↔
      ∃ n : Nat,
        (∀ j : Nat, j ≤ n → (0 ≤ s + d + (j : Int) * d ∧ s + d + (j : Int) * d < 64) ∧
          ¬ (cabs ((s + d + (j : Int) * d).tmod 8 - s.tmod 8) ≠
            cabs ((s + d + (j : Int) * d).tdiv 8 - s.tdiv 8))) ∧
        (∀ j : Nat, j < n → st.pieceAt (s + d + (j : Int) * d) = 0) ∧
        (st.pieceAt (s + d + (n : Int) * d) = makePiece c BISHOP ∨
          st.pieceAt (s + d + (n : Int) * d) = makePiece c QUEEN) := by
  have hok : ∀ pc : Nat, (pc = makePiece c BISHOP ∨ pc = makePiece c QUEEN) ↔
      (pc ≠ 0 ∧ pieceColor pc = c ∧ (pieceType pc = BISHOP ∨ pieceType pc = QUEEN)) := by
    intro pc
    rw [← piece_iff pc c BISHOP (by decide), ← piece_iff pc c QUEEN (by decide)]
    tauto
  constructor
  · intro h
    obtain ⟨n, -, hA, hB, hC⟩ := bishopRayAttack_elim st s c d 64 (s + d) h
    exact ⟨n, hA, hB, (hok _).mpr hC⟩
  · rintro ⟨n, hA, hB, hC⟩
    have hC2 := (hok _).mp hC
    have hn : n < 64 := by
      obtain ⟨⟨a0, a1⟩, -⟩ := hA n (le_refl _)
      rcases hd with rfl | rfl | rfl | rfl <;> omega
    exact bishopRayAttack_hit st s c d n 64 (s + d) hn hA hB hC2.1 hC2.2.1 hC2.2.2

/-- The bishop loop of `isSquareAttacked` in the direction `d`. -/
theorem bishop_dir_iff (st : BoardState) (c : Color) (s : Int) (hs0 : 0 ≤ s) (hs : s < 64)
    (d : Int) (inv : Int → Int) (σ : Int)
    (hd : (d = 9 ∧ inv = diagOf ∧ σ = 1) ∨ (d = -9 ∧ inv = diagOf ∧ σ = -1) ∨
      (d = 7 ∧ inv = antiOf ∧ σ = 1) ∨ (d = -7 ∧ inv = antiOf ∧ σ = -1)) :
    bishopRayAttack st s c d 64 (s + d) = true ↔
      ∃ t ∈ allSquares,
        (st.pieceAt t = makePiece c BISHOP ∨ st.pieceAt t = makePiece c QUEEN) ∧
        inv t = inv s ∧ 0 < σ * (rankOf t - rankOf s) ∧ clearBetween st inv rankOf s t := by
  rw [bishopRayAttack_iff_path st c d s hs0 hs (by
    rcases hd with h | h | h | h <;> omega)]
  rcases hd with ⟨rfl, rfl, rfl⟩ | ⟨rfl, rfl, rfl⟩ | ⟨rfl, rfl, rfl⟩ | ⟨rfl, rfl, rfl⟩
  · refine ray_geom st
      (fun y => ¬ (cabs (y.tmod 8 - s.tmod 8) ≠ cabs (y.tdiv 8 - s.tdiv 8)))
      (fun pc => pc = makePiece c BISHOP ∨ pc = makePiece c QUEEN) (9) diagOf rankOf (1) s
      (Or.inl rfl) ?_ ?_ ?_
    · intro k
      beta_reduce
      constructor
      · intro h
        obtain ⟨⟨a0, a1⟩, c1⟩ := h k (le_refl _)
        rw [tmod8 a0, tmod8 hs0, tdiv8 a0, tdiv8 hs0] at c1
        have c2 := (cabs_eq_cabs _ _).mp (not_not.mp c1)
        simp only [rankOf, diagOf]
        omega
      · rintro ⟨r0, r1, ri, ro⟩ j hj
        simp only [rankOf, diagOf] at ri ro
        have y0 : 0 ≤ s + 9 + (j : Int) * 9 := by omega
        refine ⟨⟨y0, by omega⟩, ?_⟩
        intro hne
        apply hne
        rw [tmod8 y0, tmod8 hs0, tdiv8 y0, tdiv8 hs0, cabs_eq_cabs]
        omega
    · intro x j hx0 hx1 hi ho
      simp only [rankOf, diagOf] at hi ho
      omega
    · intro k j hj0 hjk h0 h1 hi ho
      simp only [rankOf, diagOf] at hi ho ⊢
      omega
  · refine ray_geom st
      (fun y => ¬ (cabs (y.tmod 8 - s.tmod 8) ≠ cabs (y.tdiv 8 - s.tdiv 8)))
      (fun pc => pc = makePiece c BISHOP ∨ pc = makePiece c QUEEN) (-9) diagOf rankOf (-1) s
      (Or.inr rfl) ?_ ?_ ?_
    · intro k
      beta_reduce
      constructor
      · intro h
        obtain ⟨⟨a0, a1⟩, c1⟩ := h k (le_refl _)
        rw [tmod8 a0, tmod8 hs0, tdiv8 a0, tdiv8 hs0] at c1
        have c2 := (cabs_eq_cabs _ _).mp (not_not.mp c1)
        simp only [rankOf, diagOf]
        omega
      · rintro ⟨r0, r1, ri, ro⟩ j hj
        simp only [rankOf, diagOf] at ri ro
        have y0 : 0 ≤ s + -9 + (j : Int) * -9 := by omega
        refine ⟨⟨y0, by omega⟩, ?_⟩
        intro hne
        apply hne
        rw [tmod8 y0, tmod8 hs0, tdiv8 y0, tdiv8 hs0, cabs_eq_cabs]
        omega
    · intro x j hx0 hx1 hi ho
      simp only [rankOf, diagOf] at hi ho
      omega
    · intro k j hj0 hjk h0 h1 hi ho
      simp only [rankOf, diagOf] at hi ho ⊢
      omega
  · refine ray_geom st
      (fun y => ¬ (cabs (y.tmod 8 - s.tmod 8) ≠ cabs (y.tdiv 8 - s.tdiv 8)))
      (fun pc => pc = makePiece c BISHOP ∨ pc = makePiece c QUEEN) (7) antiOf rankOf (1) s
      (Or.inl rfl) ?_ ?_ ?_
    · intro k
      beta_reduce
      constructor
      · intro h
        obtain ⟨⟨a0, a1⟩, c1⟩ := h k (le_refl _)
        rw [tmod8 a0, tmod8 hs0, tdiv8 a0, tdiv8 hs0] at c1
        have c2 := (cabs_eq_cabs _ _).mp (not_not.mp c1)
        obtain ⟨⟨b0, b1⟩, d1⟩ := h 0 (Nat.zero_le _)
        rw [tmod8 b0, tmod8 hs0, tdiv8 b0, tdiv8 hs0] at d1
        have d2 := (cabs_eq_cabs _ _).mp (not_not.mp d1)
        simp only [rankOf, antiOf]
        omega
      · rintro ⟨r0, r1, ri, ro⟩ j hj
        simp only [rankOf, antiOf] at ri ro
        have y0 : 0 ≤ s + 7 + (j : Int) * 7 := by omega
        refine ⟨⟨y0, by omega⟩, ?_⟩
        intro hne
        apply hne
        rw [tmod8 y0, tmod8 hs0, tdiv8 y0, tdiv8 hs0, cabs_eq_cabs]
        omega
    · intro x j hx0 hx1 hi ho
      simp only [rankOf, antiOf] at hi ho
      omega
    · intro k j hj0 hjk h0 h1 hi ho
      simp only [rankOf, antiOf] at hi ho ⊢
      omega
  · refine ray_geom st
      (fun y => ¬ (cabs (y.tmod 8 - s.tmod 8) ≠ cabs (y.tdiv 8 - s.tdiv 8)))
      (fun pc => pc = makePiece c BISHOP ∨ pc = makePiece c QUEEN) (-7) antiOf rankOf (-1) s
      (Or.inr rfl) ?_ ?_ ?_
    · intro k
      beta_reduce
      constructor
      · intro h
        obtain ⟨⟨a0, a1⟩, c1⟩ := h k (le_refl _)
        rw [tmod8 a0, tmod8 hs0, tdiv8 a0, tdiv8 hs0] at c1
        have c2 := (cabs_eq_cabs _ _).mp (not_not.mp c1)
        obtain ⟨⟨b0, b1⟩, d1⟩ := h 0 (Nat.zero_le _)
        rw [tmod8 b0, tmod8 hs0, tdiv8 b0, tdiv8 hs0] at d1
        have d2 := (cabs_eq_cabs _ _).mp (not_not.mp d1)
        simp only [rankOf, antiOf]
        omega
      · rintro ⟨r0, r1, ri, ro⟩ j hj
        simp only [rankOf, antiOf] at ri ro
        have y0 : 0 ≤ s + -7 + (j : Int) * -7 := by omega
        refine ⟨⟨y0, by omega⟩, ?_⟩
        intro hne
        apply hne
        rw [tmod8 y0, tmod8 hs0, tdiv8 y0, tdiv8 hs0, cabs_eq_cabs]
        omega
    · intro x j hx0 hx1 hi ho
      simp only [rankOf, antiOf] at hi ho
      omega
    · intro k j hj0 hjk h0 h1 hi ho
      simp only [rankOf, antiOf] at hi ho ⊢
      omega

/-- The four rook loops of `isSquareAttacked` against the rook geometry. -/
theorem rook_loops_iff (st : BoardState) (s : Int) (c : Color) (hs0 : 0 ≤ s) (hs : s < 64) :
    ([1, -1, 8, -8].any (fun d => rookRayAttack st c d 64 (s + d)) = true) ↔
      ∃ t ∈ allSquares,
        (st.pieceAt t = makePiece c ROOK ∨ st.pieceAt t = makePiece c QUEEN) ∧
        rookAttacksFrom st t s := by
  simp only [List.any_cons, List.any_nil, Bool.or_false, Bool.or_eq_true]
  rw [rook_dir_iff st c s hs0 hs 1 rankOf fileOf 1 (Or.inl ⟨rfl, rfl, rfl, rfl⟩),
    rook_dir_iff st c s hs0 hs (-1) rankOf fileOf (-1) (Or.inr (Or.inl ⟨rfl, rfl, rfl, rfl⟩)),
    rook_dir_iff st c s hs0 hs 8 fileOf rankOf 1
      (Or.inr (Or.inr (Or.inl ⟨rfl, rfl, rfl, rfl⟩))),
    rook_dir_iff st c s hs0 hs (-8) fileOf rankOf (-1)
      (Or.inr (Or.inr (Or.inr ⟨rfl, rfl, rfl, rfl⟩)))]
  unfold rookAttacksFrom
  constructor
  · rintro (⟨t, ht, hp, hi, hpos, hcl⟩ | ⟨t, ht, hp, hi, hpos, hcl⟩ |
      ⟨t, ht, hp, hi, hpos, hcl⟩ | ⟨t, ht, hp, hi, hpos, hcl⟩)
    · exact ⟨t, ht, hp, fun e => by rw [e] at hpos; omega, Or.inl ⟨hi, hcl⟩⟩
    · exact ⟨t, ht, hp, fun e => by rw [e] at hpos; omega, Or.inl ⟨hi, hcl⟩⟩
    · exact ⟨t, ht, hp, fun e => by rw [e] at hpos; omega, Or.inr ⟨hi, hcl⟩⟩
    · exact ⟨t, ht, hp, fun e => by rw [e] at hpos; omega, Or.inr ⟨hi, hcl⟩⟩
  · rintro ⟨t, ht, hp, hne, ⟨hi, hcl⟩ | ⟨hi, hcl⟩⟩
    · have hdiff : fileOf t ≠ fileOf s := by
        simp only [rankOf, fileOf] at hi ⊢
        omega
      by_cases hlt : fileOf s < fileOf t
      · exact Or.inl ⟨t, ht, hp, hi, by omega, hcl⟩
      · exact Or.inr (Or.inl ⟨t, ht, hp, hi, by omega, hcl⟩)
    · have hdiff : rankOf t ≠ rankOf s := by
        simp only [rankOf, fileOf] at hi ⊢
        omega
      by_cases hlt : rankOf s < rankOf t
      · exact Or.inr (Or.inr (Or.inl ⟨t, ht, hp, hi, by omega, hcl⟩))
      · exact Or.inr (Or.inr (Or.inr ⟨t, ht, hp, hi, by omega, hcl⟩))

/-- The four bishop loops of `isSquareAttacked` against the bishop geometry. -/
theorem bishop_loops_iff (st : BoardState) (s : Int) (c : Color) (hs0 : 0 ≤ s)
    (hs : s < 64) :
    ([9, -9, 7, -7].any (fun d => bishopRayAttack st s c d 64 (s + d)) = true) ↔
      ∃ t ∈ allSquares,
        (st.pieceAt t = makePiece c BISHOP ∨ st.pieceAt t = makePiece c QUEEN) ∧
        bishopAttacksFrom st t s := by
  simp only [List.any_cons, List.any_nil, Bool.or_false, Bool.or_eq_true]
  rw [bishop_dir_iff st c s hs0 hs 9 diagOf 1 (Or.inl ⟨rfl, rfl, rfl⟩),
    bishop_dir_iff st c s hs0 hs (-9) diagOf (-1) (Or.inr (Or.inl ⟨rfl, rfl, rfl⟩)),
    bishop_dir_iff st c s hs0 hs 7 antiOf 1 (Or.inr (Or.inr (Or.inl ⟨rfl, rfl, rfl⟩))),
    bishop_dir_iff st c s hs0 hs (-7) antiOf (-1) (Or.inr (Or.inr (Or.inr ⟨rfl, rfl, rfl⟩)))]
  unfold bishopAttacksFrom
  constructor
  · rintro (⟨t, ht, hp, hi, hpos, hcl⟩ | ⟨t, ht, hp, hi, hpos, hcl⟩ |
      ⟨t, ht, hp, hi, hpos, hcl⟩ | ⟨t, ht, hp, hi, hpos, hcl⟩)
    · exact ⟨t, ht, hp, fun e => by rw [e] at hpos; omega, Or.inl ⟨hi, hcl⟩⟩
    · exact ⟨t, ht, hp, fun e => by rw [e] at hpos; omega, Or.inl ⟨hi, hcl⟩⟩
    · exact ⟨t, ht, hp, fun e => by rw [e] at hpos; omega, Or.inr ⟨hi, hcl⟩⟩
    · exact ⟨t, ht, hp, fun e => by rw [e] at hpos; omega, Or.inr ⟨hi, hcl⟩⟩
  · rintro ⟨t, ht, hp, hne, ⟨hi, hcl⟩ | ⟨hi, hcl⟩⟩
    · have hdiff : rankOf t ≠ rankOf s := by
        simp only [rankOf, diagOf] at hi ⊢
        omega
      by_cases hlt : rankOf s < rankOf t
      · exact Or.inl ⟨t, ht, hp, hi, by omega, hcl⟩
      · exact Or.inr (Or.inl ⟨t, ht, hp, hi, by omega, hcl⟩)
    · have hdiff : rankOf t ≠ rankOf s := by
        simp only [rankOf, antiOf] at hi ⊢
        omega
      by_cases hlt : rankOf s < rankOf t
      · exact Or.inr (Or.inr (Or.inl ⟨t, ht, hp, hi, by omega, hcl⟩))
      · exact Or.inr (Or.inr (Or.inr ⟨t, ht, hp, hi, by omega, hcl⟩))

/-- C22: for a square `s` of the board, `isSquareAttacked(s, c)` is true if and only if
some piece of colour `c` attacks `s` geometrically: a pawn of `c` diagonally adjacent on
the rank below `s` (White) or above `s` (Black); a knight of `c` at (file distance, rank
distance) (1,2) or (2,1); a king of `c` at file and rank distance at most 1, not on `s`;
a rook or queen of `c` on the rank or file of `s` with every square strictly between
empty; a bishop or queen of `c` on a diagonal of `s` with every square strictly between
empty. Distances are taken in board coordinates, so no attack wraps around an edge. -/
theorem isSquareAttacked_iff_geometric (st : BoardState) (s : Int) (c : Color)
    (hs0 : 0 ≤ s) (hs : s < 64) :
    isSquareAttacked st s c = true ↔ attackedGeometrically st s c := by
  unfold isSquareAttacked attackedGeometrically
  simp only [Bool.or_eq_true]
  rw [king_loop_iff st s c hs0, knight_loop_iff st s c hs0, pawn_test_iff st s c hs0,
    rook_loops_iff st s c hs0 hs, bishop_loops_iff st s c hs0 hs]
  constructor
  · rintro ((((⟨t, ht, h⟩ | ⟨t, ht, h⟩) | ⟨t, ht, h⟩) | ⟨t, ht, h⟩) | ⟨t, ht, h⟩)
    · exact ⟨t, ht, Or.inr (Or.inr (Or.inl h))⟩
    · exact ⟨t, ht, Or.inr (Or.inl h)⟩
    · exact ⟨t, ht, Or.inl h⟩
    · exact ⟨t, ht, Or.inr (Or.inr (Or.inr (Or.inl h)))⟩
    · exact ⟨t, ht, Or.inr (Or.inr (Or.inr (Or.inr h)))⟩
  · rintro ⟨t, ht, h | h | h | h | h⟩
    · exact Or.inl (Or.inl (Or.inr ⟨t, ht, h⟩))
    · exact Or.inl (Or.inl (Or.inl (Or.inr ⟨t, ht, h⟩)))
    · exact Or.inl (Or.inl (Or.inl (Or.inl ⟨t, ht, h⟩)))
    · exact Or.inl (Or.inr ⟨t, ht, h⟩)
    · exact Or.inr ⟨t, ht, h⟩

set_option maxRecDepth 1000000 in
theorem isSquareAttacked_iff_geometric_witness :
    isSquareAttacked (boardOfFEN sampleKeys checkedKingFEN).state 4 BLACK = true ∧
    attackedGeometrically (boardOfFEN sampleKeys checkedKingFEN).state 4 BLACK ∧
    isSquareAttacked (boardOfFEN sampleKeys checkedKingFEN).state 7 BLACK = false ∧
    ¬ attackedGeometrically (boardOfFEN sampleKeys checkedKingFEN).state 7 BLACK :=
  have h1 : isSquareAttacked (boardOfFEN sampleKeys checkedKingFEN).state 4 BLACK = true := by
    decide!
  have h2 : isSquareAttacked (boardOfFEN sampleKeys checkedKingFEN).state 7 BLACK = false := by
    decide!
  ⟨h1,
    (isSquareAttacked_iff_geometric (boardOfFEN sampleKeys checkedKingFEN).state 4 BLACK
      (by decide) (by decide)).mp h1,
    h2,
    fun h => absurd ((isSquareAttacked_iff_geometric
      (boardOfFEN sampleKeys checkedKingFEN).state 7 BLACK (by decide) (by decide)).mpr h)
      (by rw [h2]; exact Bool.false_ne_true)⟩

theorem ftrunc_intCast (n : Int) : ftrunc (n : ℚ) = n := by
  unfold ftrunc
  rw [Rat.num_intCast, Rat.den_intCast]
  simp

theorem getD_bound (P : Int → Prop) (h0 : P 0) : ∀ (T : List Int) (i : Nat),
    (∀ x ∈ T, P x) → P (T.getD i 0) := by
  intro T
  induction T with
  | nil => intro i _; exact h0
  | cons x xs ih =>
    intro i h
    cases i with
    | zero => exact h x (List.mem_cons_self _ _)
    | succ i => exact ih i (fun y hy => h y (List.mem_cons_of_mem _ hy))

/-- Every entry of the piece-square tables lies between -100 and 100. -/
theorem getPST_bound (pt : Nat) (c : Color) (sq : Int) (e : Bool) :
    -100 ≤ getPST pt c sq e ∧ getPST pt c sq e ≤ 100 := by
  have hb : ∀ T : List Int, (∀ x ∈ T, -100 ≤ x ∧ x ≤ 100) → ∀ s,
      -100 ≤ pstAt T s ∧ pstAt T s ≤ 100 :=
    fun T hT s => getD_bound (fun x => -100 ≤ x ∧ x ≤ 100) (by decide) T s.toNat hT
  unfold getPST
  simp only []
  split_ifs
  all_goals first
    | exact hb _ (by decide) _
    | decide

/-- With `eg` = 0 the blend of the two piece-square values is the middlegame value. -/
theorem pstBlend_zero (rnd : ℚ → ℚ)
    (hr : ∀ n : Int, -16777216 ≤ n → n ≤ 16777216 → rnd (n : ℚ) = (n : ℚ))
    (mg egv : Int) (h1 : -16777216 ≤ mg) (h2 : mg ≤ 16777216) :
    pstBlend rnd 0 mg egv = mg := by
  unfold pstBlend
  have r0 : rnd 0 = 0 := hr 0 (by decide) (by decide)
  have r1 : rnd 1 = 1 := hr 1 (by decide) (by decide)
  rw [show (1 : ℚ) - 0 = 1 from by decide!, r1, Rat.mul_one, Rat.mul_zero, r0, Rat.add_zero,
    hr mg h1 h2, hr mg h1 h2, hr mg h1 h2, ftrunc_intCast]

/-- With `phase` = 24 the weighted king-safety term is the raw term. -/
theorem kingBlend_full (rnd : ℚ → ℚ)
    (hr : ∀ n : Int, -16777216 ≤ n → n ≤ 16777216 → rnd (n : ℚ) = (n : ℚ))
    (ks : Int) (h1 : -600000 ≤ ks) (h2 : ks ≤ 600000) :
    kingBlend rnd 24 ks = ks := by
  unfold kingBlend
  have r24 : rnd ((24 : Int) : ℚ) = ((24 : Int) : ℚ) := hr 24 (by decide) (by decide)
  have e1 : ((ks : ℚ)) * ((24 : Int) : ℚ) = ((ks * 24 : Int) : ℚ) := (Rat.intCast_mul ks 24).symm
  have e2 : ((ks * 24 : Int) : ℚ) / 24 = (ks : ℚ) := by
    have h := Rat.intCast_div (ks * 24) 24 (Int.dvd_mul_left ks 24)
    rw [Int.mul_ediv_cancel ks (by decide)] at h
    exact h.symm
  rw [r24, hr ks (by omega) (by omega), e1, hr (ks * 24) (by omega) (by omega), e2,
    hr ks (by omega) (by omega), ftrunc_intCast]

/-- With `phase` = 24 the weight `eg` is 0. -/
theorem eg_full (rnd : ℚ → ℚ)
    (hr : ∀ n : Int, -16777216 ≤ n → n ≤ 16777216 → rnd (n : ℚ) = (n : ℚ)) :
    rnd (1 - rnd (rnd ((24 : Int) : ℚ) / 24)) = 0 := by
  have r0 : rnd 0 = 0 := hr 0 (by decide) (by decide)
  have r1 : rnd 1 = 1 := hr 1 (by decide) (by decide)
  have r24 : rnd ((24 : Int) : ℚ) = ((24 : Int) : ℚ) := hr 24 (by decide) (by decide)
  rw [r24, show ((24 : Int) : ℚ) / 24 = 1 from by decide!, r1, show (1 : ℚ) - 1 = 0 from by decide!,
    r0]

/-- At phase 24, with king-safety terms of moderate size, `evaluate` does not depend on
the rounding: it is the integer expression `evaluateExact`. -/
theorem evaluate_full_phase (rnd : ℚ → ℚ)
    (hr : ∀ n : Int, -16777216 ≤ n → n ≤ 16777216 → rnd (n : ℚ) = (n : ℚ))
    (b : Board) (h24 : gamePhase b.state = 24)
    (hw : -600000 ≤ evaluateKingSafety b.state WHITE 24 ∧
      evaluateKingSafety b.state WHITE 24 ≤ 600000)
    (hb : -600000 ≤ evaluateKingSafety b.state BLACK 24 ∧
      evaluateKingSafety b.state BLACK 24 ≤ 600000) :
    evaluate rnd b = evaluateExact b := by
  unfold evaluate evaluateExact
  simp only [h24, eg_full rnd hr, kingBlend_full rnd hr _ hw.1 hw.2,
    kingBlend_full rnd hr _ hb.1 hb.2]
  have hp : ∀ pt c s, pstBlend rnd 0 (getPST pt c s false) (getPST pt c s true) =
      getPST pt c s false := fun pt c s =>
    pstBlend_zero rnd hr _ _ (by have := getPST_bound pt c s false; omega)
      (by have := getPST_bound pt c s false; omega)
  simp only [hp]

theorem boardOfFEN_squares (Z Z2 : ZobristKeys) (fen : String) :
    (boardOfFEN Z fen).state.squares = (boardOfFEN Z2 fen).state.squares := by
  have e := loadFields_keys Z Z2 (readFields fen.toList)
  unfold boardOfFEN loadFEN loadFENChars
  cases h1 : loadFields Z (readFields fen.toList) <;>
    cases h2 : loadFields Z2 (readFields fen.toList) <;>
    rw [h1, h2] at e
  all_goals first
    | rfl
    | (simp only [Option.map, Option.some.injEq, Prod.mk.injEq] at e
       simp only [Option.getD]
       exact e.1)
    | simp [Option.map] at e

theorem gamePhase_congr (st1 st2 : BoardState) (hq : ∀ s, st1.pieceAt s = st2.pieceAt s) :
    gamePhase st1 = gamePhase st2 := by
  unfold gamePhase
  simp only [hq]

theorem pawnsOnFile_congr (st1 st2 : BoardState) (hq : ∀ s, st1.pieceAt s = st2.pieceAt s) :
    ∀ (pc : Nat) (f : Int), pawnsOnFile st1 pc f = pawnsOnFile st2 pc f := by
  intros
  unfold pawnsOnFile
  simp only [hq]

theorem pawnAhead_congr (st1 st2 : BoardState) (hq : ∀ s, st1.pieceAt s = st2.pieceAt s) :
    ∀ (o : Nat) (f rr : Int), pawnAhead st1 o f rr = pawnAhead st2 o f rr := by
  intros
  unfold pawnAhead
  simp only [hq]

theorem pawnPassed_congr (st1 st2 : BoardState) (hq : ∀ s, st1.pieceAt s = st2.pieceAt s) :
    ∀ (c : Color) (o : Nat) (f r : Int), pawnPassed st1 c o f r = pawnPassed st2 c o f r := by
  intros
  unfold pawnPassed
  simp only [hq, pawnAhead_congr st1 st2 hq]

theorem stopAttacked_congr (st1 st2 : BoardState) (hq : ∀ s, st1.pieceAt s = st2.pieceAt s) :
    ∀ (c : Color) (o : Nat) (f q : Int), stopAttacked st1 c o f q = stopAttacked st2 c o f q := by
  intros
  unfold stopAttacked
  simp only [hq]

theorem pawnTerms_congr (st1 st2 : BoardState) (hq : ∀ s, st1.pieceAt s = st2.pieceAt s) :
    ∀ (c : Color) (score s : Int), pawnTerms st1 c score s = pawnTerms st2 c score s := by
  intros
  unfold pawnTerms
  simp only [hq, pawnsOnFile_congr st1 st2 hq, pawnPassed_congr st1 st2 hq, stopAttacked_congr st1 st2 hq]

theorem evaluatePawnStructure_congr (st1 st2 : BoardState) (hq : ∀ s, st1.pieceAt s = st2.pieceAt s) :
    ∀ (c : Color), evaluatePawnStructure st1 c = evaluatePawnStructure st2 c := by
  intros
  unfold evaluatePawnStructure
  simp only [hq, pawnTerms_congr st1 st2 hq]

theorem pawnOnFile_congr (st1 st2 : BoardState) (hq : ∀ s, st1.pieceAt s = st2.pieceAt s) :
    ∀ (pc : Nat) (f : Int), pawnOnFile st1 pc f = pawnOnFile st2 pc f := by
  intros
  unfold pawnOnFile
  simp only [hq]

theorem evaluateRooks_congr (st1 st2 : BoardState) (hq : ∀ s, st1.pieceAt s = st2.pieceAt s) :
    ∀ (c : Color), evaluateRooks st1 c = evaluateRooks st2 c := by
  intros
  unfold evaluateRooks
  simp only [hq, pawnOnFile_congr st1 st2 hq]

theorem findPiece_congr (st1 st2 : BoardState) (hq : ∀ s, st1.pieceAt s = st2.pieceAt s) :
    ∀ (k : Nat), findPiece st1 k = findPiece st2 k := by
  intros
  unfold findPiece
  simp only [hq]

theorem evaluateKingSafety_congr (st1 st2 : BoardState) (hq : ∀ s, st1.pieceAt s = st2.pieceAt s) :
    ∀ (c : Color) (phase : Int), evaluateKingSafety st1 c phase = evaluateKingSafety st2 c phase := by
  intros
  unfold evaluateKingSafety
  simp only [hq, findPiece_congr st1 st2 hq]

theorem countPiece_congr (st1 st2 : BoardState) (hq : ∀ s, st1.pieceAt s = st2.pieceAt s) :
    ∀ (c : Color) (p : Nat), countPiece st1 c p = countPiece st2 c p := by
  intros
  unfold countPiece
  simp only [hq]

theorem mobKnight_congr (st1 st2 : BoardState) (hq : ∀ s, st1.pieceAt s = st2.pieceAt s) :
    ∀ (c : Color) (s : Int), mobKnight st1 c s = mobKnight st2 c s := by
  intros
  unfold mobKnight
  simp only [hq]

theorem mobDiagRay_congr (st1 st2 : BoardState) (hq : ∀ s, st1.pieceAt s = st2.pieceAt s) (c : Color) (d : Int) :
    ∀ (fuel : Nat) (t : Int), mobDiagRay st1 c d fuel t = mobDiagRay st2 c d fuel t := by
  intro fuel
  induction fuel with
  | zero => intro t; rfl
  | succ n ih =>
    intro t
    unfold mobDiagRay
    simp only [hq, ih]

theorem mobLineRay_congr (st1 st2 : BoardState) (hq : ∀ s, st1.pieceAt s = st2.pieceAt s) (c : Color) (s d : Int) :
    ∀ (fuel : Nat) (t : Int), mobLineRay st1 c s d fuel t = mobLineRay st2 c s d fuel t := by
  intro fuel
  induction fuel with
  | zero => intro t; rfl
  | succ n ih =>
    intro t
    unfold mobLineRay
    simp only [hq, ih]

theorem mobilityAt_congr (st1 st2 : BoardState) (hq : ∀ s, st1.pieceAt s = st2.pieceAt s) :
    ∀ (c : Color) (score s : Int), mobilityAt st1 c score s = mobilityAt st2 c score s := by
  intros
  unfold mobilityAt
  simp only [hq, mobKnight_congr st1 st2 hq, mobDiagRay_congr st1 st2 hq,
    mobLineRay_congr st1 st2 hq]

theorem mobility_congr (st1 st2 : BoardState) (hq : ∀ s, st1.pieceAt s = st2.pieceAt s) :
    ∀ (c : Color), mobility st1 c = mobility st2 c := by
  intro c
  unfold mobility
  have : mobilityAt st1 c = mobilityAt st2 c := by
    funext score s
    exact mobilityAt_congr st1 st2 hq c score s
  rw [this]

/-- The value of `evaluateExact` depends on the squares only. -/
theorem evaluateExact_congr (b1 b2 : Board) (h : b1.state.squares = b2.state.squares) :
    evaluateExact b1 = evaluateExact b2 := by
  have hq : ∀ s, b1.state.pieceAt s = b2.state.pieceAt s := by
    intro s
    unfold BoardState.pieceAt
    rw [h]
  unfold evaluateExact
  simp only [hq, gamePhase_congr b1.state b2.state hq,
    evaluatePawnStructure_congr b1.state b2.state hq,
    evaluateRooks_congr b1.state b2.state hq, countPiece_congr b1.state b2.state hq,
    mobility_congr b1.state b2.state hq, evaluateKingSafety_congr b1.state b2.state hq]

set_option maxRecDepth 1000000 in
theorem start_eval_facts :
    gamePhase (boardOfFEN sampleKeys startFEN).state = 24 ∧
    evaluateExact (boardOfFEN sampleKeys startFEN) = some 0 ∧
    evaluateKingSafety (boardOfFEN sampleKeys startFEN).state WHITE 24 = 10 ∧
    evaluateKingSafety (boardOfFEN sampleKeys startFEN).state BLACK 24 = 10 ∧
    evaluatePawnStructure (boardOfFEN sampleKeys startFEN).state WHITE =
      evaluatePawnStructure (boardOfFEN sampleKeys startFEN).state BLACK ∧
    evaluateRooks (boardOfFEN sampleKeys startFEN).state WHITE =
      evaluateRooks (boardOfFEN sampleKeys startFEN).state BLACK ∧
    mobility (boardOfFEN sampleKeys startFEN).state WHITE = some 8 ∧
    mobility (boardOfFEN sampleKeys startFEN).state BLACK = some 8 := by
  decide!

/-- C21: `evaluate` returns exactly 0 for the standard starting position, for every
rounding `rnd` of the float format that leaves the integers up to 2^24 in magnitude as
they are (the IEEE formats do): the game phase is 24, so the weight `eg` is exactly 0 and
`1 - eg` exactly 1, and the pawn-structure, rook, mobility and king-safety terms of White
equal those of Black. -/
theorem evaluate_start_position (Z : ZobristKeys) (rnd : ℚ → ℚ)
    (hr : ∀ n : Int, -16777216 ≤ n → n ≤ 16777216 → rnd (n : ℚ) = (n : ℚ)) :
    evaluate rnd (boardOfFEN Z startFEN) = some 0 ∧
    gamePhase (boardOfFEN Z startFEN).state = 24 ∧
    rnd (1 - rnd (rnd ((gamePhase (boardOfFEN Z startFEN).state : Int) : ℚ) / 24)) = 0 ∧
    evaluatePawnStructure (boardOfFEN Z startFEN).state WHITE =
      evaluatePawnStructure (boardOfFEN Z startFEN).state BLACK ∧
    evaluateRooks (boardOfFEN Z startFEN).state WHITE =
      evaluateRooks (boardOfFEN Z startFEN).state BLACK ∧
    mobility (boardOfFEN Z startFEN).state WHITE =
      mobility (boardOfFEN Z startFEN).state BLACK ∧
    evaluateKingSafety (boardOfFEN Z startFEN).state WHITE 24 =
      evaluateKingSafety (boardOfFEN Z startFEN).state BLACK 24 := by
  have hsq := boardOfFEN_squares Z sampleKeys startFEN
  have hq : ∀ s, (boardOfFEN Z startFEN).state.pieceAt s =
      (boardOfFEN sampleKeys startFEN).state.pieceAt s := by
    intro s
    unfold BoardState.pieceAt
    rw [hsq]
  obtain ⟨f1, f2, f3, f4, f5, f6, f7, f8⟩ := start_eval_facts
  have h24 : gamePhase (boardOfFEN Z startFEN).state = 24 := by
    rw [gamePhase_congr _ _ hq]; exact f1
  have hw : evaluateKingSafety (boardOfFEN Z startFEN).state WHITE 24 = 10 := by
    rw [evaluateKingSafety_congr _ _ hq]; exact f3
  have hb : evaluateKingSafety (boardOfFEN Z startFEN).state BLACK 24 = 10 := by
    rw [evaluateKingSafety_congr _ _ hq]; exact f4
  refine ⟨?_, h24, ?_, ?_, ?_, ?_, ?_⟩
  · rw [evaluate_full_phase rnd hr _ h24 (by rw [hw]; decide) (by rw [hb]; decide),
      evaluateExact_congr _ _ hsq]
    exact f2
  · rw [h24]; exact eg_full rnd hr
  · rw [evaluatePawnStructure_congr _ _ hq, evaluatePawnStructure_congr _ _ hq]; exact f5
  · rw [evaluateRooks_congr _ _ hq, evaluateRooks_congr _ _ hq]; exact f6
  · rw [mobility_congr _ _ hq, mobility_congr _ _ hq, f7, f8]
  · rw [hw, hb]

theorem evaluate_start_position_witness :
    (∀ n : Int, -16777216 ≤ n → n ≤ 16777216 → (fun q : ℚ => q) (n : ℚ) = (n : ℚ)) ∧
    evaluate (fun q => q) (boardOfFEN sampleKeys startFEN) = some 0 :=
  ⟨fun _ _ _ => rfl,
    (evaluate_start_position sampleKeys (fun q => q) (fun _ _ _ => rfl)).1⟩

/-- C39 (counterexample): on the default-constructed table `probeTT(0)` is a
hit, and what it returns is the empty slot 0. -/
theorem probeTT_zero_hits_empty_slot :
    (probeTT Search.init 0).isSome = true ∧
    (probeTT Search.init 0).map (fun e => (e.key, e.depth, e.score, e.best, e.flag)) =
      some (0, 0, 0, ⟨0⟩, 0) := by
  constructor <;> rfl

/-- C39 (amended): on the default-constructed table `probeTT(key)` is a miss for every key other
than 0, and for the key 0 it returns the empty slot 0. -/
theorem probeTT_fresh (key : Nat) :
    (probeTT Search.init key).isSome = decide (key = 0) ∧
    ∀ e, probeTT Search.init key = some e →
      e.key = 0 ∧ e.depth = 0 ∧ e.score = 0 ∧ e.best = ⟨0⟩ ∧ e.flag = 0 := by
  unfold probeTT
  by_cases h : key = 0
  · subst h
    refine ⟨rfl, ?_⟩
    intro e he
    simp only [Search.init, TTEntry.init, if_true, Option.some.injEq] at he
    subst he
    exact ⟨rfl, rfl, rfl, rfl, rfl⟩
  · have h2 : ¬ ((Search.init.tt (key % TT_SIZE)).key = key) := by
      intro e
      exact h e.symm
    rw [if_neg h2]
    refine ⟨by simp [h], ?_⟩
    intro e he
    cases he

/-- C37: with a legal move on the board, a sort that permutes and a recursion depth
allowance of `maxDepth + 195`, `findBestMove` returns, whatever the clock answers, and the
move it returns is one of `generateLegalMoves` of the position given. -/
theorem findBestMove_returns_legal_move (E : SearchEnv) (hs : SortOK E) (fuel : Nat)
    (S : Search) (b : Board) (maxDepth : Int) (hf : maxDepth.toNat + 195 ≤ fuel)
    (hne : (generateLegalMoves E.Z b).1 ≠ []) :
    ∃ r, findBestMove E fuel S b maxDepth = some r ∧ r.1 ∈ (generateLegalMoves E.Z b).1 := by
  have ht := findBestMove_total E hs fuel S b maxDepth hf
  cases hr : findBestMove E fuel S b maxDepth with
  | none => rw [hr] at ht; cases ht
  | some r => exact ⟨r, rfl, findBestMove_legal E hs fuel S b maxDepth r hne hr⟩

set_option maxRecDepth 1000000 in
theorem kingCapture_has_legal :
    (generateLegalMoves (sampleEnv 3).Z (boardOfFEN sampleKeys kingCaptureFEN)).1 ≠ [] := by
  decide!

theorem findBestMove_returns_legal_move_witness :
    SortOK (sampleEnv 3) ∧ (2 : Int).toNat + 195 ≤ 197 ∧
    (generateLegalMoves (sampleEnv 3).Z (boardOfFEN sampleKeys kingCaptureFEN)).1 ≠ [] ∧
    ∃ r, findBestMove (sampleEnv 3) 197 Search.init (boardOfFEN sampleKeys kingCaptureFEN) 2
        = some r ∧
      r.1 ∈ (generateLegalMoves (sampleEnv 3).Z (boardOfFEN sampleKeys kingCaptureFEN)).1 :=
  ⟨sampleEnv_sortOK 3, by decide, kingCapture_has_legal,
    findBestMove_returns_legal_move (sampleEnv 3) (sampleEnv_sortOK 3) 197 Search.init
      (boardOfFEN sampleKeys kingCaptureFEN) 2 (by decide) kingCapture_has_legal⟩

theorem searchMove_reduced
    (rec : Int → Int → Int → Search → Board → Option (Int × Search × Board))
    (depth alpha beta moveCount : Int) (m : Move) (S : Search) (b : Board) (Z : ZobristKeys)
    (hm : (makeMove Z b m).2 = true) (hc : b.state.capturedPiece = 0)
    (h1 : moveCount > 4) (h2 : depth ≥ 3) (h3 : m.flags ≠ FLAG_PROMO) :
    searchMove rec depth alpha beta false moveCount m S (makeMove Z b m).1 =
      match rec (depth - 1 - (1 + (if moveCount > 8 then 1 else 0) + (if depth > 6 then 1 else 0)))
          (-alpha - 1) (-alpha) S (makeMove Z b m).1 with
      | none => none
      | some (v, S, b) =>
        if -v > alpha then
          match rec (depth - 1) (-beta) (-alpha) S b with
          | none => none
          | some (v, S, b) => some (-v, S, b)
        else some (-v, S, b) := by
  rw [makeMove_fst_of_true Z b m hm]
  unfold searchMove
  simp only [hc, ne_eq, not_true_eq_false, decide_False, h1, h2, h3, not_false_eq_true,
    and_self, if_true]

set_option maxRecDepth 1000000 in
theorem queenPawns_facts :
    (boardOfFEN sampleKeys queenPawnsFEN).state.capturedPiece = 0 ∧
    (boardOfFEN sampleKeys queenPawnsFEN).state.pieceAt 43 = makePiece BLACK PAWN ∧
    isInCheck (boardOfFEN sampleKeys queenPawnsFEN).state WHITE = false ∧
    (makeMove sampleKeys (boardOfFEN sampleKeys queenPawnsFEN)
      (Move.new 35 43 FLAG_NORMAL 0)).2 = true ∧
    (makeMove sampleKeys (boardOfFEN sampleKeys queenPawnsFEN)
      (Move.new 35 43 FLAG_NORMAL 0)).1.state.capturedPiece = makePiece BLACK PAWN ∧
    occupied (makeMove sampleKeys (boardOfFEN sampleKeys queenPawnsFEN)
      (Move.new 35 43 FLAG_NORMAL 0)).1.state + 1 =
      occupied (boardOfFEN sampleKeys queenPawnsFEN).state ∧
    (Move.new 35 43 FLAG_NORMAL 0).flags ≠ FLAG_PROMO := by
  decide!

/-- C31 (the code breaks it): in `queenPawnsFEN` (White not in check) the move Qxd6 takes a black
pawn, and the board has one piece less after it; searched at depth 3 as the fifth move made,
it is searched by the late-move-reduction branch: the first recursive call has the depth
`3 - 1 - 1 = 1` and the null window, whatever the recursive call does. The capture test
reads the state pushed on the undo stack, which is the state before the move. -/
theorem lmr_reduces_capturing_move
    (rec : Int → Int → Int → Search → Board → Option (Int × Search × Board))
    (alpha beta : Int) (S : Search) :
    (boardOfFEN sampleKeys queenPawnsFEN).state.pieceAt 43 = makePiece BLACK PAWN ∧
    isInCheck (boardOfFEN sampleKeys queenPawnsFEN).state WHITE = false ∧
    (makeMove sampleKeys (boardOfFEN sampleKeys queenPawnsFEN)
      (Move.new 35 43 FLAG_NORMAL 0)).2 = true ∧
    (makeMove sampleKeys (boardOfFEN sampleKeys queenPawnsFEN)
      (Move.new 35 43 FLAG_NORMAL 0)).1.state.capturedPiece = makePiece BLACK PAWN ∧
    occupied (makeMove sampleKeys (boardOfFEN sampleKeys queenPawnsFEN)
      (Move.new 35 43 FLAG_NORMAL 0)).1.state + 1 =
      occupied (boardOfFEN sampleKeys queenPawnsFEN).state ∧
    searchMove rec 3 alpha beta false 5 (Move.new 35 43 FLAG_NORMAL 0) S
        (makeMove sampleKeys (boardOfFEN sampleKeys queenPawnsFEN)
          (Move.new 35 43 FLAG_NORMAL 0)).1 =
      match rec 1 (-alpha - 1) (-alpha) S
          (makeMove sampleKeys (boardOfFEN sampleKeys queenPawnsFEN)
            (Move.new 35 43 FLAG_NORMAL 0)).1 with
      | none => none
      | some (v, S, b) =>
        if -v > alpha then
          match rec 2 (-beta) (-alpha) S b with
          | none => none
          | some (v, S, b) => some (-v, S, b)
        else some (-v, S, b) := by
  obtain ⟨f1, f2, f3, f4, f5, f6, f7⟩ := queenPawns_facts
  refine ⟨f2, f3, f4, f5, f6, ?_⟩
  exact searchMove_reduced rec 3 alpha beta 5 _ S _ sampleKeys f4 f1 (by decide) (by decide) f7

set_option maxRecDepth 1000000 in
/-- C32 (counterexample): in `kingCaptureFEN` the move Kxe2 lands on a black
pawn, and the cutoff update for it at depth 3 leaves the killers as they were but raises
`history[4][12]` from 0 to 9. -/
theorem capture_cutoff_changes_history :
    (boardOfFEN sampleKeys kingCaptureFEN).state.pieceAt
      (Move.new 4 12 FLAG_NORMAL 0).to_ = makePiece BLACK PAWN ∧
    Search.init.history 4 12 = 0 ∧
    (cutoffUpdate Search.init (boardOfFEN sampleKeys kingCaptureFEN) 3 0
      (Move.new 4 12 FLAG_NORMAL 0)).history 4 12 = 9 ∧
    (cutoffUpdate Search.init (boardOfFEN sampleKeys kingCaptureFEN) 3 0
      (Move.new 4 12 FLAG_NORMAL 0)).killers 0 0 = ⟨0⟩ := by
  decide!

/-- C32 (amended): at a cutoff by the move `m`, `history[from][to]` grows by `depth*depth` whether
or not the to-square of `m` is empty, and no other history entry changes; the killers
change only if the to-square is empty and `ply < 128`: then `killers[ply][1]` becomes the
old `killers[ply][0]`, `killers[ply][0]` becomes `m` and the killers of the other plies
stay. Nothing else of the object changes. -/
theorem cutoffUpdate_spec (S : Search) (b : Board) (depth ply : Int) (m : Move) :
    (cutoffUpdate S b depth ply m).history m.from_ m.to_ =
      S.history m.from_ m.to_ + depth * depth ∧
    (∀ f t, ¬ (f = m.from_ ∧ t = m.to_) →
      (cutoffUpdate S b depth ply m).history f t = S.history f t) ∧
    (b.state.pieceAt m.to_ = 0 ∧ ply < 128 →
      (cutoffUpdate S b depth ply m).killers ply 0 = m ∧
      (cutoffUpdate S b depth ply m).killers ply 1 = S.killers ply 0 ∧
      (∀ p i, ¬ (p = ply ∧ (i = 0 ∨ i = 1)) →
        (cutoffUpdate S b depth ply m).killers p i = S.killers p i)) ∧
    (¬ (b.state.pieceAt m.to_ = 0 ∧ ply < 128) →
      (cutoffUpdate S b depth ply m).killers = S.killers) ∧
    (cutoffUpdate S b depth ply m).tt = S.tt ∧
    (cutoffUpdate S b depth ply m).nodesSearched = S.nodesSearched ∧
    (cutoffUpdate S b depth ply m).depthReached = S.depthReached ∧
    (cutoffUpdate S b depth ply m).bestMoveFound = S.bestMoveFound ∧
    (cutoffUpdate S b depth ply m).lastScore = S.lastScore ∧
    (cutoffUpdate S b depth ply m).clock = S.clock := by
  unfold cutoffUpdate
  by_cases h : b.state.pieceAt m.to_ = 0 ∧ ply < 128
  · simp only [h, and_self, if_true, true_implies, not_true_eq_false, false_implies,
      and_true, true_and]
    refine ⟨fun f t hft => by rw [if_neg hft], by simp, ?_⟩
    intro p i hpi
    have h0 : ¬ (p = ply ∧ i = 0) := fun e => hpi ⟨e.1, Or.inl e.2⟩
    have h1 : ¬ (p = ply ∧ i = 1) := fun e => hpi ⟨e.1, Or.inr e.2⟩
    rw [if_neg h0, if_neg h1]
  · simp only [h, if_false, false_implies, not_false_eq_true, true_implies, and_self,
      if_true, true_and, and_true]
    exact fun f t hft => by rw [if_neg hft]

theorem pawnTerms_eq_undoubled (st : BoardState) (c : Color) (score s : Int) :
    pawnTerms st c score s =
      pawnTermsUndoubled st c
        (if pawnsOnFile st (makePiece c PAWN) (s.tmod 8) > 1 then score - 15 else score) s :=
  rfl

theorem pawnTermsUndoubled_shift (st : BoardState) (c : Color) (score s : Int) :
    pawnTermsUndoubled st c score s = score + pawnTermsUndoubled st c 0 s := by
  unfold pawnTermsUndoubled
  simp only []
  split_ifs <;> omega

theorem foldl_terms_sum (p : Int → Prop) [DecidablePred p] (t : Int → Int → Int) (u : Int → Int)
    (ht : ∀ score s, t score s = score + u s) (l : List Int) (a : Int) :
    l.foldl (fun score s => if ¬ p s then score else t score s) a =
      a + (l.map (fun s => if p s then u s else 0)).sum := by
  induction l generalizing a with
  | nil => simp
  | cons x l ih =>
    simp only [List.foldl_cons, List.map_cons, List.sum_cons]
    rw [ih]
    by_cases hp : p x
    · simp only [hp, not_true_eq_false, if_false, if_true]
      rw [ht]
      omega
    · simp only [hp, not_false_eq_true, if_true, if_false]
      omega

theorem foldl_count_sum (p : Int → Prop) [DecidablePred p] (l : List Int) (a : Int) :
    l.foldl (fun n s => if p s then n + 1 else n) a =
      a + (l.map (fun s => if p s then (1 : Int) else 0)).sum := by
  induction l generalizing a with
  | nil => simp
  | cons x l ih =>
    simp only [List.foldl_cons, List.map_cons, List.sum_cons]
    rw [ih]
    by_cases hp : p x
    · simp only [hp, if_true]
      omega
    · simp only [hp, if_false]
      omega

/-- A sum over pawns of a value of the pawn's file, as a sum over the files. -/
theorem sum_by_file (P : Int → Prop) [DecidablePred P] (g : Int → Int) (l : List Int)
    (hl : ∀ s ∈ l, 0 ≤ s ∧ s < 64) :
    (l.map (fun s => if P s then g (s.tmod 8) else 0)).sum =
      ([0, 1, 2, 3, 4, 5, 6, 7].map (fun f : Int =>
        g f * (l.map (fun s => if P s ∧ s.tmod 8 = f then (1 : Int) else 0)).sum)).sum := by
  induction l with
  | nil =>
    simp only [List.map_nil, List.sum_nil, List.map_cons, List.sum_cons, Int.mul_zero,
      Int.add_zero]
  | cons x l ih =>
    have hx := hl x (List.mem_cons_self _ _)
    have ih2 := ih (fun s hs => hl s (List.mem_cons_of_mem _ hs))
    simp only [List.map_cons, List.sum_cons, List.map_nil, List.sum_nil] at ih2 ⊢
    rw [ih2]
    have h8 : x.tmod 8 = 0 ∨ x.tmod 8 = 1 ∨ x.tmod 8 = 2 ∨ x.tmod 8 = 3 ∨ x.tmod 8 = 4 ∨
        x.tmod 8 = 5 ∨ x.tmod 8 = 6 ∨ x.tmod 8 = 7 := by
      rw [tmod8 hx.1]
      omega
    by_cases hp : P x
    · rcases h8 with h | h | h | h | h | h | h | h <;>
        simp only [hp, h, true_and, if_true, Int.reduceEq, if_false] <;> ring
    · simp only [hp, false_and, if_false]
      ring

set_option maxRecDepth 1000000 in
/-- C33 (counterexample): in `doubledPawnsFEN` White has two pawns on the
a-file and no other pawn; without the doubled-pawn line the pawn-structure term is 30
(twice -20 for isolated, 30 and 40 for passed), and with it the term is 0: the two pawns
cost 30 in total, not 15. -/
theorem two_doubled_pawns_cost_thirty :
    pawnsOnFile (boardOfFEN sampleKeys doubledPawnsFEN).state (makePiece WHITE PAWN) 0 = 2 ∧
    pawnStructureUndoubled (boardOfFEN sampleKeys doubledPawnsFEN).state WHITE = 30 ∧
    evaluatePawnStructure (boardOfFEN sampleKeys doubledPawnsFEN).state WHITE = 0 := by
  decide!

/-- C33 (amended): the pawn-structure term of a colour is the term without the doubled-pawn line
minus, for every file holding `k > 1` pawns of that colour, `15 * k`: every pawn on such a
file is charged 15, and a file with one pawn or none is charged nothing. -/
theorem doubled_pawn_charge (st : BoardState) (c : Color) :
    evaluatePawnStructure st c =
      pawnStructureUndoubled st c -
        ([0, 1, 2, 3, 4, 5, 6, 7].map (fun f : Int =>
          if pawnsOnFile st (makePiece c PAWN) f > 1
            then 15 * pawnsOnFile st (makePiece c PAWN) f else 0)).sum := by
  have hk : ∀ f : Int, pawnsOnFile st (makePiece c PAWN) f =
      (allSquares.map (fun s =>
        if st.pieceAt s = makePiece c PAWN ∧ s.tmod 8 = f then (1 : Int) else 0)).sum := by
    intro f
    unfold pawnsOnFile
    rw [foldl_count_sum]
    omega
  have h1 : evaluatePawnStructure st c =
      (allSquares.map (fun s => if st.pieceAt s = makePiece c PAWN then
        pawnTermsUndoubled st c 0 s -
          (if pawnsOnFile st (makePiece c PAWN) (s.tmod 8) > 1 then 15 else 0) else 0)).sum := by
    unfold evaluatePawnStructure
    rw [foldl_terms_sum (fun s => st.pieceAt s = makePiece c PAWN) (pawnTerms st c)
      (fun s => pawnTermsUndoubled st c 0 s -
          (if pawnsOnFile st (makePiece c PAWN) (s.tmod 8) > 1 then 15 else 0))]
    · omega
    · intro score s
      rw [pawnTerms_eq_undoubled, pawnTermsUndoubled_shift]
      split_ifs <;> omega
  have h2 : pawnStructureUndoubled st c =
      (allSquares.map (fun s => if st.pieceAt s = makePiece c PAWN then
        pawnTermsUndoubled st c 0 s else 0)).sum := by
    unfold pawnStructureUndoubled
    rw [foldl_terms_sum (fun s => st.pieceAt s = makePiece c PAWN) (pawnTermsUndoubled st c)
      (fun s => pawnTermsUndoubled st c 0 s)]
    · omega
    · intro score s
      exact pawnTermsUndoubled_shift st c score s
  have h3 := sum_by_file (fun s => st.pieceAt s = makePiece c PAWN)
    (fun f => if pawnsOnFile st (makePiece c PAWN) f > 1 then 15 else 0) allSquares
    (fun s hs => mem_allSquares.1 hs)
  have h4 : ∀ l : List Int,
      (l.map (fun s => if st.pieceAt s = makePiece c PAWN then
        pawnTermsUndoubled st c 0 s -
          (if pawnsOnFile st (makePiece c PAWN) (s.tmod 8) > 1 then 15 else 0) else 0)).sum =
      (l.map (fun s => if st.pieceAt s = makePiece c PAWN then
        pawnTermsUndoubled st c 0 s else 0)).sum -
      (l.map (fun s => if st.pieceAt s = makePiece c PAWN then
        (if pawnsOnFile st (makePiece c PAWN) (s.tmod 8) > 1 then (15 : Int) else 0)
          else 0)).sum := by
    intro l
    induction l with
    | nil => rfl
    | cons x l ih =>
      simp only [List.map_cons, List.sum_cons]
      rw [ih]
      split_ifs <;> omega
  have hg : ∀ f : Int,
      (if pawnsOnFile st (makePiece c PAWN) f > 1 then (15 : Int) else 0) *
        pawnsOnFile st (makePiece c PAWN) f =
      if pawnsOnFile st (makePiece c PAWN) f > 1
        then 15 * pawnsOnFile st (makePiece c PAWN) f else 0 := by
    intro f
    by_cases h : pawnsOnFile st (makePiece c PAWN) f > 1
    · rw [if_pos h, if_pos h]
    · rw [if_neg h, if_neg h, Int.zero_mul]
  rw [h1, h2, h4, h3]
  simp only [← hk, hg]

theorem foldl_count_filter {α : Type} (p : α → Prop) [DecidablePred p] (l : List α) (a : Int) :
    l.foldl (fun n x => if p x then n + 1 else n) a =
      a + ((l.filter (fun x => decide (p x))).length : Int) := by
  induction l generalizing a with
  | nil => simp
  | cons x l ih =>
    simp only [List.foldl_cons]
    rw [ih]
    by_cases hp : p x
    · simp only [hp, if_true, List.filter_cons, decide_True, List.length_cons]
      push_cast
      omega
    · simp only [hp, if_false, List.filter_cons, decide_False]
      simp

/-- A count over a list of offsets as a count over the squares they lead to. -/
theorem count_by_squares {α : Type} (l : List α) (sq : α → Int) (inR : α → Prop)
    [DecidablePred inR] (good : Int → Prop) [DecidablePred good] (L : List Int)
    (hl : l.Nodup) (hinj : ∀ a ∈ l, ∀ b ∈ l, sq a = sq b → a = b) (hL : L.Nodup)
    (hmem : ∀ t, t ∈ L ↔ ∃ a ∈ l, inR a ∧ sq a = t) :
    l.foldl (fun n a => if inR a ∧ good (sq a) then n + 1 else n) 0 =
      ((L.filter (fun t => decide (good t))).length : Int) := by
  rw [foldl_count_filter, zero_add]
  have e1 : (l.filter (fun a => decide (inR a ∧ good (sq a)))).length =
      (((l.filter (fun a => decide (inR a))).map sq).filter (fun t => decide (good t))).length := by
    rw [List.filter_map, List.length_map, List.filter_filter]
    congr 1
    apply List.filter_congr
    intro a _
    simp only [Function.comp, Bool.decide_and, Bool.and_comm]
  rw [e1]
  have hp : (((l.filter (fun a => decide (inR a))).map sq)).Perm L := by
    apply (List.perm_ext_iff_of_nodup ?_ hL).2
    · intro t
      rw [hmem t]
      simp only [List.mem_map, List.mem_filter, decide_eq_true_eq]
      constructor
      · rintro ⟨a, ⟨h1, h2⟩, h3⟩
        exact ⟨a, h1, h2, h3⟩
      · rintro ⟨a, h1, h2, h3⟩
        exact ⟨a, ⟨h1, h2⟩, h3⟩
    · apply List.Nodup.map_on
      · intro a ha b hb hab
        exact hinj a (List.mem_filter.1 ha).1 b (List.mem_filter.1 hb).1 hab
      · exact hl.filter _
  rw [(hp.filter _).length_eq]

theorem allSquares_filter_nodup (p : Int → Bool) : (allSquares.filter p).Nodup :=
  allSquares_nodup.filter _

/-- The pairs `(ds, df)` of the attacker loop of `evaluateKingSafety`, in its order. -/
theorem zone_pairs_nodup :
    (([-2, -1, 0, 1, 2] : List Int).flatMap (fun ds =>
      ([-2, -1, 0, 1, 2] : List Int).map (fun df => (ds, df)))).Nodup := by
  decide

theorem zone_pairs_mem (p : Int × Int) :
    p ∈ (([-2, -1, 0, 1, 2] : List Int).flatMap (fun ds =>
      ([-2, -1, 0, 1, 2] : List Int).map (fun df => (ds, df)))) ↔
    p.1 ∈ ([-2, -1, 0, 1, 2] : List Int) ∧ p.2 ∈ ([-2, -1, 0, 1, 2] : List Int) := by
  obtain ⟨a, b⟩ := p
  simp only [List.mem_flatMap, List.mem_map, Prod.mk.injEq]
  constructor
  · rintro ⟨ds, h1, df, h2, rfl, rfl⟩
    exact ⟨h1, h2⟩
  · rintro ⟨h1, h2⟩
    exact ⟨a, h1, b, h2, rfl, rfl⟩

theorem mem_five {x : Int} : x ∈ ([-2, -1, 0, 1, 2] : List Int) ↔ -2 ≤ x ∧ x ≤ 2 := by
  simp only [List.mem_cons, List.mem_singleton, List.not_mem_nil, or_false]
  omega

theorem mem_three {x : Int} : x ∈ ([-1, 0, 1] : List Int) ↔ -1 ≤ x ∧ x ≤ 1 := by
  simp only [List.mem_cons, List.mem_singleton, List.not_mem_nil, or_false]
  omega

/-- The attacker count of `evaluateKingSafety` is the number of non-pawn enemy pieces on
the squares of `kingZone`. -/
theorem attackers_eq (st : BoardState) (c : Color) (ks : Int) :
    ([-2, -1, 0, 1, 2] : List Int).foldl (fun n ds =>
      ([-2, -1, 0, 1, 2] : List Int).foldl (fun n df =>
        let ts := ks + ds * 8 + df
        if ts < 0 ∨ ts > 63 then n
        else
          let pc := st.pieceAt ts
          if pc ≠ 0 ∧ pieceColor pc = (if c = WHITE then BLACK else WHITE) ∧
            pieceType pc ≠ PAWN then n + 1 else n) n) (0 : Int) =
    zoneAttackers st c ks := by
  have flat : ([-2, -1, 0, 1, 2] : List Int).foldl (fun n ds =>
      ([-2, -1, 0, 1, 2] : List Int).foldl (fun n df =>
        let ts := ks + ds * 8 + df
        if ts < 0 ∨ ts > 63 then n
        else
          let pc := st.pieceAt ts
          if pc ≠ 0 ∧ pieceColor pc = (if c = WHITE then BLACK else WHITE) ∧
            pieceType pc ≠ PAWN then n + 1 else n) n) (0 : Int) =
      (([-2, -1, 0, 1, 2] : List Int).flatMap (fun ds =>
        ([-2, -1, 0, 1, 2] : List Int).map (fun df => (ds, df)))).foldl
        (fun n (p : Int × Int) =>
          if ¬ (ks + p.1 * 8 + p.2 < 0 ∨ ks + p.1 * 8 + p.2 > 63) ∧
            (st.pieceAt (ks + p.1 * 8 + p.2) ≠ 0 ∧
              pieceColor (st.pieceAt (ks + p.1 * 8 + p.2)) =
                (if c = WHITE then BLACK else WHITE) ∧
              pieceType (st.pieceAt (ks + p.1 * 8 + p.2)) ≠ PAWN) then n + 1 else n) 0 := by
    have body : ∀ (n ts : Int),
        (if ts < 0 ∨ ts > 63 then n
          else if st.pieceAt ts ≠ 0 ∧ pieceColor (st.pieceAt ts) =
              (if c = WHITE then BLACK else WHITE) ∧ pieceType (st.pieceAt ts) ≠ PAWN
            then n + 1 else n) =
        (if ¬ (ts < 0 ∨ ts > 63) ∧ (st.pieceAt ts ≠ 0 ∧ pieceColor (st.pieceAt ts) =
              (if c = WHITE then BLACK else WHITE) ∧ pieceType (st.pieceAt ts) ≠ PAWN)
          then n + 1 else n) := by
      intro n ts
      by_cases h : ts < 0 ∨ ts > 63
      · rw [if_pos h, if_neg (fun e => e.1 h)]
      · rw [if_neg h]
        simp only [h, not_false_eq_true, true_and]
    simp only [body]
    rfl
  rw [flat]
  unfold zoneAttackers
  have key := count_by_squares
    (([-2, -1, 0, 1, 2] : List Int).flatMap (fun ds =>
        ([-2, -1, 0, 1, 2] : List Int).map (fun df => (ds, df))))
    (fun p : Int × Int => ks + p.1 * 8 + p.2)
    (fun p : Int × Int => ¬ (ks + p.1 * 8 + p.2 < 0 ∨ ks + p.1 * 8 + p.2 > 63))
    (fun t => st.pieceAt t ≠ 0 ∧
      pieceColor (st.pieceAt t) = (if c = WHITE then BLACK else WHITE) ∧
      pieceType (st.pieceAt t) ≠ PAWN)
    (allSquares.filter (fun t => decide (kingZone ks t)))
    zone_pairs_nodup ?_ (allSquares_filter_nodup _) ?_
  · rw [key, List.filter_filter]
    congr 2
    apply List.filter_congr
    intro t _
    simp only [Bool.decide_and, Bool.and_comm]
  · intro a ha b hb hab
    obtain ⟨a1, a2⟩ := a
    obtain ⟨b1, b2⟩ := b
    have ha2 := (zone_pairs_mem _).1 ha
    have hb2 := (zone_pairs_mem _).1 hb
    simp only [mem_five] at ha2 hb2
    simp only at hab
    simp only [Prod.mk.injEq]
    omega
  · intro t
    simp only [List.mem_filter, mem_allSquares, decide_eq_true_eq, kingZone]
    constructor
    · rintro ⟨ht, ds, hds, df, hdf, rfl⟩
      exact ⟨(ds, df), (zone_pairs_mem _).2 ⟨hds, hdf⟩, by simp only; omega, rfl⟩
    · rintro ⟨⟨ds, df⟩, hp, hr, rfl⟩
      obtain ⟨h1, h2⟩ := (zone_pairs_mem _).1 hp
      simp only at hr ⊢
      exact ⟨by omega, ds, h1, df, h2, rfl⟩

/-- The shield count of `evaluateKingSafety` is the number of own pawns on the rank in
front of the king, on the files from one to the left to one to the right of it. -/
theorem shields_eq (st : BoardState) (c : Color) (ks : Int) :
    ([-1, 0, 1] : List Int).foldl (fun n df =>
      let sf := ks.tmod 8 + df
      if sf < 0 ∨ sf > 7 then n
      else if (if c = WHITE then ks.tdiv 8 + 1 else ks.tdiv 8 - 1) ≥ 0 ∧
          (if c = WHITE then ks.tdiv 8 + 1 else ks.tdiv 8 - 1) < 8 ∧
          st.pieceAt ((if c = WHITE then ks.tdiv 8 + 1 else ks.tdiv 8 - 1) * 8 + sf) =
            makePiece c PAWN
        then n + 1
      else n) (0 : Int) =
    shieldPawns st c ks := by
  unfold shieldPawns
  generalize (if c = WHITE then ks.tdiv 8 + 1 else ks.tdiv 8 - 1) = sr
  generalize ks.tmod 8 = kf
  have body : ∀ (n df : Int),
      (if kf + df < 0 ∨ kf + df > 7 then n
        else if sr ≥ 0 ∧ sr < 8 ∧ st.pieceAt (sr * 8 + (kf + df)) = makePiece c PAWN
          then n + 1 else n) =
      (if (¬ (kf + df < 0 ∨ kf + df > 7) ∧ sr ≥ 0 ∧ sr < 8) ∧
          st.pieceAt (sr * 8 + (kf + df)) = makePiece c PAWN then n + 1 else n) := by
    intro n df
    by_cases h : kf + df < 0 ∨ kf + df > 7
    · rw [if_pos h, if_neg (fun e => e.1.1 h)]
    · rw [if_neg h]
      simp only [h, not_false_eq_true, true_and, and_assoc]
  simp only [body]
  have key := count_by_squares ([-1, 0, 1] : List Int) (fun df => sr * 8 + (kf + df))
    (fun df => ¬ (kf + df < 0 ∨ kf + df > 7) ∧ sr ≥ 0 ∧ sr < 8)
    (fun t => st.pieceAt t = makePiece c PAWN)
    (allSquares.filter (fun s => decide (s.tdiv 8 = sr ∧ cabs (s.tmod 8 - kf) ≤ 1)))
    (by decide) ?_ (allSquares_filter_nodup _) ?_
  · rw [key, List.filter_filter]
    congr 2
    apply List.filter_congr
    intro t _
    simp only [Bool.decide_and, Bool.and_comm, Bool.and_assoc]
  · intro a _ b _ hab
    simp only at hab
    omega
  · intro t
    simp only [List.mem_filter, mem_allSquares, decide_eq_true_eq, cabs_le_iff]
    constructor
    · rintro ⟨ht, h1, h2⟩
      rw [tdiv8 ht.1] at h1
      rw [tmod8 ht.1] at h2
      exact ⟨t % 8 - kf, mem_three.2 (by omega), by omega, by omega⟩
    · rintro ⟨df, hdf, hr, rfl⟩
      have hd := mem_three.1 hdf
      have h0 : 0 ≤ sr * 8 + (kf + df) := by omega
      rw [tdiv8 h0, tmod8 h0]
      omega

/-- For a king on the files c..f the squares of `kingZone` on the board are the squares
of the 5x5 box. -/
theorem kingZone_eq_box (ks t : Int) (hk : 0 ≤ ks ∧ ks < 64) (ht : 0 ≤ t ∧ t < 64)
    (hf : 2 ≤ ks.tmod 8 ∧ ks.tmod 8 ≤ 5) : kingZone ks t ↔ kingBox ks t := by
  unfold kingZone kingBox
  rw [tmod8 hk.1] at hf
  rw [tmod8 hk.1, tdiv8 hk.1, tmod8 ht.1, tdiv8 ht.1, cabs_le_iff, cabs_le_iff]
  constructor
  · rintro ⟨ds, hds, df, hdf, rfl⟩
    rw [mem_five] at hds hdf
    omega
  · intro h
    exact ⟨t / 8 - ks / 8, mem_five.2 (by omega), t % 8 - ks % 8, mem_five.2 (by omega),
      by omega⟩

/-- No move of `generateCaptures` advances a pawn two squares. -/
theorem capture_not_double_push (b : Board) (m : Move) (hm : m ∈ generateCaptures b) :
    ¬ isDoublePush b.state m := by
  intro hd
  obtain ⟨hpawn, h16⟩ := hd
  have hcap := (generateCaptures_facts b m hm).2
  unfold generateCaptures at hm
  simp only [List.mem_append] at hm
  rw [cabs_eq] at h16
  rcases hm with ((hm | hm) | hm) | hm
  · obtain ⟨-, -, hsh⟩ := addPawnMoves_shape _ _ _ hm
    rcases hsh with h | h | h
    · split_ifs at h h16 <;> omega
    · split_ifs at h h16 <;> omega
    · have hfl : m.flags ≠ FLAG_EP := by rw [h.2.2.1]; decide
      exact hcap.2 hfl h.2.2.2
  · rw [(addKnightMoves_mover _ _ _ hm).1,
      (makePiece_facts _ KNIGHT (by decide)).2.2] at hpawn
    exact absurd hpawn (by decide)
  · rcases (addSliding_mover _ _ _ hm).1 with h | h | h <;> rw [h] at hpawn <;>
      exact absurd hpawn (by decide)
  · rcases addKingMoves_mover _ _ _ hm with h | h
    · rw [h.1, (makePiece_facts _ KING (by decide)).2.2] at hpawn
      exact absurd hpawn (by decide)
    · rcases h.2 with e | e <;> split_ifs at h16 <;> omega

/-- With the ep square empty and an enemy pawn behind it, a move of `generateCaptures`
leaves one piece less on the board and no ep square. -/
theorem capture_removes_one (Z : ZobristKeys) (st : BoardState) (m : Move)
    (hg : GenFacts st m) (hc : CapFacts st m) (hok : EpSquareOK st)
    (hnd : ¬ isDoublePush st m) :
    occupied (applyMove Z st m) + 1 = occupied st ∧ (applyMove Z st m).epSquare = NO_SQ := by
  have hep := applyMove_epSquare Z st m
  rw [if_neg hnd] at hep
  refine ⟨?_, hep⟩
  obtain ⟨s, t, fl, p, rfl, hs0, hs, ht0, ht, hst, hcase⟩ := hg
  have hfl : fl ≤ 3 := by
    rcases hcase with h | h | h | h <;> rw [h.1] <;> decide
  have hp : p ≤ 3 := by
    rcases hcase with h | h | h | h <;> omega
  obtain ⟨e1, e2, e3, e4⟩ := Move.new_fields s t fl p hs0 hs ht0 ht hfl hp
  unfold CapFacts at hc
  rw [e1, e2, e3] at hc
  have hle := countSq_le 0 (applyMove Z st (Move.new s t fl p)).squares
  have hq := countSq_le 0 st.squares
  have hsq := applyMove_squares Z st (Move.new s t fl p)
  rw [e1, e2, e3] at hsq
  unfold occupied
  rcases hcase with h | h | h | h
  · obtain ⟨rfl, -, hps, -, -⟩ := h
    have hpt := hc.2 (by decide)
    have hv : placedPiece st (Move.new s t FLAG_NORMAL p) = st.pieceAt s := by
      unfold placedPiece
      rw [e3, e1, if_neg (by decide)]
    rw [if_neg (by decide), if_neg (by decide), hv] at hsq
    have c := countSq_zero_move st.squares s t (st.pieceAt s) hs0 hs ht0 ht hst
    rw [← hsq] at c
    rw [← pieceAt_eq, ← pieceAt_eq, if_neg hps, if_neg hpt] at c
    omega
  · obtain ⟨rfl, hp3, hps, -⟩ := h
    have hpt := hc.2 (by decide)
    have hps0 : st.pieceAt s ≠ 0 := by
      rw [hps]; exact (makePiece_facts _ PAWN (by decide)).1
    have hv : placedPiece st (Move.new s t FLAG_PROMO p) =
        makePiece st.sideToMove ([KNIGHT, BISHOP, ROOK, QUEEN].getD p 0) := by
      unfold placedPiece
      rw [e3, e4, if_pos rfl]
    rw [if_neg (by decide), if_neg (by decide), hv] at hsq
    have c := countSq_zero_move st.squares s t
      (makePiece st.sideToMove ([KNIGHT, BISHOP, ROOK, QUEEN].getD p 0)) hs0 hs ht0 ht hst
    rw [← hsq] at c
    rw [← pieceAt_eq, ← pieceAt_eq, if_neg hps0, if_neg hpt,
      if_neg (promoPiece_ne_zero _ p hp3)] at c
    omega
  · obtain ⟨rfl, -, hps, hte, hc0, hc1, hcs, hct⟩ := h
    have hps0 : st.pieceAt s ≠ 0 := by
      rw [hps]; exact (makePiece_facts _ PAWN (by decide)).1
    have hne : st.epSquare ≠ NO_SQ := by rw [← hte]; unfold NO_SQ; omega
    obtain ⟨ok1, ok2⟩ := hok hne
    rw [← hte] at ok1 ok2
    have hcp : st.pieceAt (epCapSq st t) ≠ 0 := by
      rw [ok2]; exact (makePiece_facts _ PAWN (by decide)).1
    have hv : placedPiece st (Move.new s t FLAG_EP p) = st.pieceAt s := by
      unfold placedPiece
      rw [e3, e1, if_neg (by decide)]
    rw [if_pos rfl, hv] at hsq
    have c0 := countSq_setSq 0 st.squares (epCapSq st t) 0 hc0 hc1
    have c := countSq_zero_move (setSq st.squares (epCapSq st t) 0) s t (st.pieceAt s)
      hs0 hs ht0 ht hst
    rw [← hsq] at c
    rw [sqAt_setSq_ne _ _ s 0 (Ne.symm hcs), sqAt_setSq_ne _ _ t 0 (Ne.symm hct),
      ← pieceAt_eq, ← pieceAt_eq, if_neg hps0, if_pos ok1] at c
    rw [← pieceAt_eq, if_neg hcp] at c0
    simp only [if_true] at c0
    omega
  · obtain ⟨rfl, -, hco⟩ := h
    have hpt := hc.2 (by decide)
    exfalso
    unfold CastleOK at hco
    rcases hco with ⟨-, -, hh | hh⟩ | ⟨-, -, hh | hh⟩
    · rw [hh.1] at hpt; exact hpt hh.2.2.2.1
    · rw [hh.1] at hpt; exact hpt hh.2.2.2.1
    · rw [hh.1] at hpt; exact hpt hh.2.2.2.1
    · rw [hh.1] at hpt; exact hpt hh.2.2.2.1

/-- The loop of `quiesce` returns when the recursive call returns on every state that one
of the moves leads to. -/
theorem quiesceLoop_returns (Z : ZobristKeys)
    (rec : Search → Board → Int → Int → Option (Int × Search × Board)) (beta : Int)
    (st : BoardState)
    (htot : ∀ S b a c, (∃ m, b.state = applyMove Z st m ∧
      occupied (applyMove Z st m) + 1 = occupied st ∧ (applyMove Z st m).epSquare = NO_SQ) →
      (rec S b a c).isSome = true)
    (hrec : ∀ S b a c r, rec S b a c = some r → SFrame S r.2.1 ∧ BFrame b r.2.2) :
    ∀ (ms : List Move) (S : Search) (b : Board) (alpha : Int), b.state = st →
      (∀ m ∈ ms, occupied (applyMove Z st m) + 1 = occupied st ∧
        (applyMove Z st m).epSquare = NO_SQ) →
      (quiesceLoop Z rec beta ms S b alpha).isSome = true := by
  intro ms
  induction ms with
  | nil =>
    intro S b alpha _ _
    simp only [quiesceLoop, Option.isSome_some]
  | cons m ms ih =>
    intro S b alpha hb hms
    rw [quiesceLoop]
    simp only []
    have hms2 : ∀ x ∈ ms, occupied (applyMove Z st x) + 1 = occupied st ∧
        (applyMove Z st x).epSquare = NO_SQ :=
      fun x hx => hms x (List.mem_cons_of_mem _ hx)
    by_cases hr : (makeMove Z b m).2 = false
    · rw [if_pos hr]
      exact ih _ _ _ ((makeMove_false_frame Z b m hr).1.trans hb) hms2
    · rw [if_neg hr]
      have hr1 : (makeMove Z b m).2 = true := by simpa using hr
      have e := makeMove_fst_of_true Z b m hr1
      have hm := hms m (List.mem_cons_self _ _)
      have hst : (makeMove Z b m).1.state = applyMove Z st m := by
        rw [e, hb]
      have hsome := htot S (makeMove Z b m).1 (-beta) (-alpha) ⟨m, hst, hm⟩
      cases hq : rec S (makeMove Z b m).1 (-beta) (-alpha) with
      | none => rw [hq] at hsome; cases hsome
      | some v =>
        simp only []
        obtain ⟨-, f2⟩ := hrec _ _ _ _ _ hq
        have fb := unmake_frame Z b v.2.2 m hr1 f2
        by_cases hc : -v.1 ≥ beta
        · rw [if_pos hc]
          rfl
        · rw [if_neg hc]
          exact ih _ _ _ (fb.1.trans hb) hms2

/-- `quiesce` returns when the recursion depth allowed is above the number of pieces. -/
theorem quiesce_returns (E : SearchEnv) (hs : SortOK E) : ∀ (fuel : Nat) (S : Search)
    (b : Board) (alpha beta ply : Int), EpSquareOK b.state → occupied b.state < fuel →
    (quiesce E fuel S b alpha beta ply).isSome = true := by
  intro fuel
  induction fuel with
  | zero => intro S b alpha beta ply _ h; omega
  | succ fuel ih =>
    intro S b alpha beta ply hok h
    rw [quiesce]
    simp only []
    split_ifs
    all_goals first
      | rfl
      | (apply quiesceLoop_returns E.Z _ beta b.state
         · intro S2 b2 a c hq
           obtain ⟨m, h1, h2, h3⟩ := hq
           apply ih S2 b2 a c (ply + 1)
           · intro hne
             rw [h1] at hne
             exact absurd h3 hne
           · rw [h1]
             omega
         · intro S2 b2 a c r hq
           exact quiesce_frame E fuel S2 b2 a c (ply + 1) r hq
         · rfl
         · intro m hm
           have hmem := ((hs _ _).mem_iff).1 hm
           have hf := generateCaptures_facts b m hmem
           exact capture_removes_one E.Z b.state m hf.1 hf.2 hok
             (capture_not_double_push b m hmem))

set_option maxRecDepth 1000000 in
/-- C35 (counterexample): in `epOccupiedFEN` the ep square e6 has the black pawn
on e5 directly behind it and holds a black knight; the en passant capture d5xe6 is a move
of `generateCaptures`, `makeMove` succeeds on it, and it takes both the pawn and the
knight: the number of occupied squares goes down by two. -/
theorem ep_capture_removes_two :
    (boardOfFEN sampleKeys epOccupiedFEN).state.epSquare = 44 ∧
    (boardOfFEN sampleKeys epOccupiedFEN).state.pieceAt 36 = makePiece BLACK PAWN ∧
    (boardOfFEN sampleKeys epOccupiedFEN).state.pieceAt 44 = makePiece BLACK KNIGHT ∧
    Move.new 35 44 FLAG_EP 0 ∈ generateCaptures (boardOfFEN sampleKeys epOccupiedFEN) ∧
    (makeMove sampleKeys (boardOfFEN sampleKeys epOccupiedFEN)
      (Move.new 35 44 FLAG_EP 0)).2 = true ∧
    occupied (boardOfFEN sampleKeys epOccupiedFEN).state = 5 ∧
    occupied (makeMove sampleKeys (boardOfFEN sampleKeys epOccupiedFEN)
      (Move.new 35 44 FLAG_EP 0)).1.state = 3 := by
  decide!

/-- C35 (amended): in a position whose ep square, if set, is empty and has an enemy pawn directly
behind it, every move of `generateCaptures` on which `makeMove` succeeds leaves exactly one
occupied square less and no ep square; and `quiesce` returns, whatever the clock answers,
with a recursion depth of the number of occupied squares plus one. -/
theorem quiesce_bounded_by_material (E : SearchEnv) (hs : SortOK E) (fuel : Nat)
    (S : Search) (b : Board) (alpha beta ply : Int) (hok : EpSquareOK b.state)
    (hf : occupied b.state < fuel) :
    (∀ m ∈ generateCaptures b, (makeMove E.Z b m).2 = true →
      occupied (makeMove E.Z b m).1.state + 1 = occupied b.state ∧
      (makeMove E.Z b m).1.state.epSquare = NO_SQ ∧
      EpSquareOK (makeMove E.Z b m).1.state) ∧
    (quiesce E fuel S b alpha beta ply).isSome = true := by
  refine ⟨?_, quiesce_returns E hs fuel S b alpha beta ply hok hf⟩
  intro m hm hr
  rw [makeMove_fst_of_true E.Z b m hr]
  have hf := generateCaptures_facts b m hm
  obtain ⟨h1, h2⟩ := capture_removes_one E.Z b.state m hf.1 hf.2 hok
    (capture_not_double_push b m hm)
  exact ⟨h1, h2, fun hne => absurd h2 hne⟩

set_option maxRecDepth 1000000 in
theorem epReady_facts :
    (boardOfFEN sampleKeys epReadyFEN).state.epSquare = 44 ∧
    (boardOfFEN sampleKeys epReadyFEN).state.pieceAt 44 = 0 ∧
    (boardOfFEN sampleKeys epReadyFEN).state.pieceAt
      (epCapSq (boardOfFEN sampleKeys epReadyFEN).state 44) = makePiece BLACK PAWN ∧
    (boardOfFEN sampleKeys epReadyFEN).state.sideToMove = WHITE ∧
    occupied (boardOfFEN sampleKeys epReadyFEN).state < 5 := by
  decide!

theorem epReady_ok : EpSquareOK (boardOfFEN sampleKeys epReadyFEN).state := by
  obtain ⟨h1, h2, h3, h4, -⟩ := epReady_facts
  intro _
  rw [h1, h4]
  exact ⟨h2, h3⟩

theorem quiesce_bounded_by_material_witness :
    SortOK (sampleEnv 3) ∧ EpSquareOK (boardOfFEN sampleKeys epReadyFEN).state ∧
    occupied (boardOfFEN sampleKeys epReadyFEN).state < 5 ∧
    (∀ m ∈ generateCaptures (boardOfFEN sampleKeys epReadyFEN),
      (makeMove (sampleEnv 3).Z (boardOfFEN sampleKeys epReadyFEN) m).2 = true →
      occupied (makeMove (sampleEnv 3).Z (boardOfFEN sampleKeys epReadyFEN) m).1.state + 1 =
        occupied (boardOfFEN sampleKeys epReadyFEN).state ∧
      (makeMove (sampleEnv 3).Z (boardOfFEN sampleKeys epReadyFEN) m).1.state.epSquare
        = NO_SQ ∧
      EpSquareOK (makeMove (sampleEnv 3).Z (boardOfFEN sampleKeys epReadyFEN) m).1.state) ∧
    (quiesce (sampleEnv 3) 5 Search.init (boardOfFEN sampleKeys epReadyFEN) (-100) 100
      0).isSome = true :=
  ⟨sampleEnv_sortOK 3, epReady_ok, epReady_facts.2.2.2.2,
    quiesce_bounded_by_material (sampleEnv 3) (sampleEnv_sortOK 3) 5 Search.init
      (boardOfFEN sampleKeys epReadyFEN) (-100) 100 0 epReady_ok epReady_facts.2.2.2.2⟩

theorem ttStep_of_eq {S T : Search} (h : T.tt = S.tt) : TTStep S T :=
  fun i => Or.inl (by rw [h])

theorem ttStep_refl (S : Search) : TTStep S S := ttStep_of_eq rfl

theorem ttStep_trans {A B C : Search} (h1 : TTStep A B) (h2 : TTStep B C) : TTStep A C := by
  intro i
  rcases h2 i with e | e
  · rw [e]
    exact h1 i
  · exact Or.inr e

theorem quiesceLoop_tt (Z : ZobristKeys)
    (rec : Search → Board → Int → Int → Option (Int × Search × Board)) (beta : Int)
    (hrec : ∀ S b a c r, rec S b a c = some r → r.2.1.tt = S.tt) :
    ∀ (ms : List Move) (S : Search) (b : Board) (alpha : Int) (r : Int × Search × Board),
      quiesceLoop Z rec beta ms S b alpha = some r → r.2.1.tt = S.tt := by
  intro ms
  induction ms with
  | nil =>
    intro S b alpha r h
    simp only [quiesceLoop, Option.some.injEq] at h
    subst h
    rfl
  | cons m ms ih =>
    intro S b alpha r h
    rw [quiesceLoop] at h
    simp only [] at h
    by_cases hr : (makeMove Z b m).2 = false
    · rw [if_pos hr] at h
      exact ih _ _ _ _ h
    · rw [if_neg hr] at h
      cases hq : rec S (makeMove Z b m).1 (-beta) (-alpha) with
      | none => rw [hq] at h; cases h
      | some v =>
        rw [hq] at h
        simp only [] at h
        have f1 := hrec _ _ _ _ _ hq
        by_cases hc : -v.1 ≥ beta
        · rw [if_pos hc] at h
          simp only [Option.some.injEq] at h
          subst h
          exact f1
        · rw [if_neg hc] at h
          exact (ih _ _ _ _ h).trans f1

/-- `quiesce` does not touch the transposition table. -/
theorem quiesce_tt (E : SearchEnv) : ∀ (fuel : Nat) (S : Search) (b : Board)
    (alpha beta ply : Int) (r : Int × Search × Board),
    quiesce E fuel S b alpha beta ply = some r → r.2.1.tt = S.tt := by
  intro fuel
  induction fuel with
  | zero =>
    intro S b alpha beta ply r h
    simp only [quiesce] at h
    cases h
  | succ fuel ih =>
    intro S b alpha beta ply r h
    rw [quiesce] at h
    simp only [] at h
    split_ifs at h
    all_goals first
      | (simp only [Option.some.injEq] at h
         subst h
         rfl)
      | exact (quiesceLoop_tt E.Z _ beta
           (fun S b a c r hq => ih S b a c (ply + 1) r hq) _ _ _ _ _ h).trans rfl

theorem searchMove_tt
    (rec : Int → Int → Int → Search → Board → Option (Int × Search × Board))
    (hrec : ∀ d a c S b r, rec d a c S b = some r → TTStep S r.2.1)
    (depth alpha beta : Int) (inCheck : Bool) (moveCount : Int) (m : Move) (S : Search)
    (b : Board) (r : Int × Search × Board)
    (h : searchMove rec depth alpha beta inCheck moveCount m S b = some r) :
    TTStep S r.2.1 := by
  have two : ∀ (d1 a1 c1 d2 a2 c2 : Int) (P : Int → Prop) [DecidablePred P],
      (match rec d1 a1 c1 S b with
        | none => none
        | some (v, S, b) =>
          if P v then
            match rec d2 a2 c2 S b with
            | none => none
            | some (v, S, b) => some (-v, S, b)
          else some (-v, S, b)) = some r → TTStep S r.2.1 := by
    intro d1 a1 c1 d2 a2 c2 P _ h
    cases h1 : rec d1 a1 c1 S b with
    | none => rw [h1] at h; cases h
    | some v =>
      rw [h1] at h
      simp only [] at h
      have f1 := hrec _ _ _ _ _ _ h1
      by_cases hp : P v.1
      · rw [if_pos hp] at h
        cases h2 : rec d2 a2 c2 v.2.1 v.2.2 with
        | none => rw [h2] at h; cases h
        | some w =>
          rw [h2] at h
          simp only [Option.some.injEq] at h
          have g1 := hrec _ _ _ _ _ _ h2
          subst h
          exact ttStep_trans f1 g1
      · rw [if_neg hp] at h
        simp only [Option.some.injEq] at h
        subst h
        exact f1
  unfold searchMove at h
  simp only [] at h
  have one : (match rec (depth - 1) (-beta) (-alpha) S b with
        | none => none
        | some (v, S, b) => some (-v, S, b)) = some r → TTStep S r.2.1 := by
    intro h
    cases h1 : rec (depth - 1) (-beta) (-alpha) S b with
    | none => rw [h1] at h; cases h
    | some v =>
      rw [h1] at h
      simp only [Option.some.injEq] at h
      have g1 := hrec _ _ _ _ _ _ h1
      subst h
      exact g1
  split_ifs at h
  all_goals first
    | exact two _ _ _ _ _ _ (fun v => -v > alpha) h
    | exact two _ _ _ _ _ _ (fun v => -v > alpha ∧ -v < beta) h
    | exact one h

theorem raiseAlpha_facts (S : Search) (ply alpha score : Int) (m best : Move) :
    (raiseAlpha S ply alpha score m best).1.tt = S.tt ∧
    (((raiseAlpha S ply alpha score m best).2.1 = alpha ∧
        (raiseAlpha S ply alpha score m best).2.2 = best) ∨
      ((raiseAlpha S ply alpha score m best).2.1 > alpha ∧
        (raiseAlpha S ply alpha score m best).2.2 = m)) := by
  unfold raiseAlpha
  by_cases h1 : score > alpha
  · rw [if_pos h1]
    refine ⟨?_, Or.inr ⟨h1, rfl⟩⟩
    by_cases h2 : ply = 0
    · simp only [h2, if_true]
    · simp only [h2, if_false]
  · rw [if_neg h1]
    exact ⟨rfl, Or.inl ⟨rfl, rfl⟩⟩

theorem cutoffUpdate_tt (S : Search) (b : Board) (depth ply : Int) (m : Move) :
    (cutoffUpdate S b depth ply m).tt = S.tt := by
  unfold cutoffUpdate
  simp only []
  split_ifs <;> rfl

/-- The move loop of `alphaBeta` leaves `alpha` and `bestMove` as they were, or leaves a
move of the list in `bestMove` and a greater `alpha`. -/
theorem abLoop_best (E : SearchEnv)
    (rec : Int → Int → Int → Search → Board → Option (Int × Search × Board))
    (hrec : ∀ d a c S b r, rec d a c S b = some r → TTStep S r.2.1)
    (depth beta ply : Int) (inCheck : Bool) :
    ∀ (ms : List Move) (S : Search) (b : Board) (alpha : Int) (best : Move) (mc : Int)
      (r : Search × Board × Int × Move),
      abLoop E rec depth beta ply inCheck ms S b alpha best mc = some r →
      TTStep S r.1 ∧
        ((r.2.2.1 = alpha ∧ r.2.2.2 = best) ∨ (r.2.2.1 > alpha ∧ r.2.2.2 ∈ ms)) := by
  intro ms
  induction ms with
  | nil =>
    intro S b alpha best mc r h
    simp only [abLoop, Option.some.injEq] at h
    subst h
    exact ⟨ttStep_refl S, Or.inl ⟨rfl, rfl⟩⟩
  | cons m ms ih =>
    intro S b alpha best mc r h
    rw [abLoop] at h
    simp only [] at h
    by_cases hr : (makeMove E.Z b m).2 = false
    · rw [if_pos hr] at h
      obtain ⟨h1, h2⟩ := ih _ _ _ _ _ _ h
      exact ⟨h1, h2.imp id (fun e => ⟨e.1, List.mem_cons_of_mem _ e.2⟩)⟩
    · rw [if_neg hr] at h
      cases hq : searchMove rec depth alpha beta inCheck (mc + 1) m S (makeMove E.Z b m).1 with
      | none => rw [hq] at h; cases h
      | some v =>
        rw [hq] at h
        simp only [] at h
        have f1 := searchMove_tt rec hrec _ _ _ _ _ _ _ _ _ hq
        have ft : TTStep v.2.1 (timeUp E v.2.1).2 := ttStep_of_eq rfl
        by_cases ht : (timeUp E v.2.1).1 = true
        · rw [if_pos ht] at h
          simp only [Option.some.injEq] at h
          subst h
          exact ⟨ttStep_trans f1 ft, Or.inl ⟨rfl, rfl⟩⟩
        · rw [if_neg ht] at h
          obtain ⟨u1, u2⟩ := raiseAlpha_facts (timeUp E v.2.1).2 ply alpha v.1 m best
          have fu : TTStep S (raiseAlpha (timeUp E v.2.1).2 ply alpha v.1 m best).1 :=
            ttStep_trans (ttStep_trans f1 ft) (ttStep_of_eq u1)
          have hb : ((raiseAlpha (timeUp E v.2.1).2 ply alpha v.1 m best).2.1 = alpha ∧
              (raiseAlpha (timeUp E v.2.1).2 ply alpha v.1 m best).2.2 = best) ∨
              ((raiseAlpha (timeUp E v.2.1).2 ply alpha v.1 m best).2.1 > alpha ∧
              (raiseAlpha (timeUp E v.2.1).2 ply alpha v.1 m best).2.2 ∈ m :: ms) :=
            u2.imp id (fun e => ⟨e.1, by rw [e.2]; exact List.mem_cons_self _ _⟩)
          by_cases hc : (raiseAlpha (timeUp E v.2.1).2 ply alpha v.1 m best).2.1 ≥ beta
          · rw [if_pos hc] at h
            simp only [Option.some.injEq] at h
            subst h
            exact ⟨ttStep_trans fu (ttStep_of_eq (cutoffUpdate_tt _ _ _ _ _)), hb⟩
          · rw [if_neg hc] at h
            obtain ⟨h1, h2⟩ := ih _ _ _ _ _ _ h
            refine ⟨ttStep_trans fu h1, ?_⟩
            rcases h2 with e | e
            · rw [e.1, e.2]
              exact hb
            · right
              refine ⟨?_, List.mem_cons_of_mem _ e.2⟩
              rcases hb with g | g
              · rw [← g.1]; exact e.1
              · exact lt_trans g.1 e.1

/-- What `abStore` does after a loop that started with a null `bestMove`: nothing but the
count of the `timeUp()` call, or the store of a score above the old `alpha` with a
non-null move and the flag 1 or 0. -/
theorem abStore_cases (E : SearchEnv) (S : Search) (key : Nat)
    (depth alpha2 alpha beta : Int) (best : Move)
    (hb : (alpha2 = alpha ∧ best = ⟨0⟩) ∨ (alpha2 > alpha ∧ best.isNull = false)) :
    (alpha2 ≤ alpha → abStore E S key depth alpha2 alpha beta best = (timeUp E S).2) ∧
    (abStore E S key depth alpha2 alpha beta best = (timeUp E S).2 ∨
      (alpha2 > alpha ∧ best.isNull = false ∧
        abStore E S key depth alpha2 alpha beta best =
          storeTT (timeUp E S).2 key depth alpha2 best (if alpha2 ≥ beta then 1 else 0))) := by
  unfold abStore
  simp only []
  rcases hb with ⟨h1, h2⟩ | ⟨h1, h2⟩
  · subst h2
    have hn : ¬ ((timeUp E S).1 = false ∧ Move.isNull ⟨0⟩ = false) := by
      intro e
      exact absurd e.2 (by decide)
    rw [if_neg hn]
    exact ⟨fun _ => rfl, Or.inl rfl⟩
  · by_cases ht : (timeUp E S).1 = false ∧ best.isNull = false
    · rw [if_pos ht]
      have hgt : ¬ alpha2 ≤ alpha := by omega
      rw [if_neg hgt]
      exact ⟨fun h => absurd h hgt, Or.inr ⟨h1, h2, rfl⟩⟩
    · rw [if_neg ht]
      exact ⟨fun _ => rfl, Or.inl rfl⟩

theorem storeTT_ttStep (S : Search) (key : Nat) (depth score : Int) (best : Move)
    (flag : Int) (hb : best.isNull = false) (hf : flag = 0 ∨ flag = 1) :
    TTStep S (storeTT S key depth score best flag) := by
  unfold storeTT
  simp only []
  by_cases h : (S.tt (key % TT_SIZE)).key = key ∧ (S.tt (key % TT_SIZE)).depth > depth
  · rw [if_pos h]
    exact ttStep_refl S
  · rw [if_neg h]
    intro i
    by_cases hi : i = key % TT_SIZE
    · right
      simp only [hi, if_true]
      exact ⟨hb, hf⟩
    · left
      simp only [hi, if_false]

theorem abStore_ttStep (E : SearchEnv) (S : Search) (key : Nat)
    (depth alpha2 alpha beta : Int) (best : Move)
    (hb : (alpha2 = alpha ∧ best = ⟨0⟩) ∨ (alpha2 > alpha ∧ best.isNull = false)) :
    TTStep S (abStore E S key depth alpha2 alpha beta best) := by
  have ft : TTStep S (timeUp E S).2 := ttStep_of_eq rfl
  rcases (abStore_cases E S key depth alpha2 alpha beta best hb).2 with e | ⟨_, e2, e3⟩
  · rw [e]
    exact ft
  · rw [e3]
    apply ttStep_trans ft
    apply storeTT_ttStep _ _ _ _ _ _ e2
    by_cases h : alpha2 ≥ beta
    · rw [if_pos h]; exact Or.inr rfl
    · rw [if_neg h]; exact Or.inl rfl

/-- Every table slot that `alphaBeta` leaves different holds a non-null move and the flag
0 or 1. -/
theorem alphaBeta_tt (E : SearchEnv) (hs : SortOK E) : ∀ (fuel : Nat) (S : Search)
    (b : Board) (depth alpha beta ply : Int) (nma : Bool) (r : Int × Search × Board),
    alphaBeta E fuel S b depth alpha beta ply nma = some r → TTStep S r.2.1 := by
  intro fuel
  induction fuel with
  | zero =>
    intro S b depth alpha beta ply nma r h
    simp only [alphaBeta] at h
    cases h
  | succ fuel ih =>
    intro S b depth alpha beta ply nma r h
    rw [alphaBeta] at h
    simp only [] at h
    have ft : TTStep S (timeUp E S).2 := ttStep_of_eq rfl
    by_cases t1 : (timeUp E S).1 = true
    · rw [if_pos t1] at h
      simp only [Option.some.injEq] at h
      subst h
      exact ft
    rw [if_neg t1] at h
    have fn : TTStep S
        { (timeUp E S).2 with nodesSearched := (timeUp E S).2.nodesSearched + 1 } :=
      ttStep_of_eq rfl
    by_cases t2 : isDraw b = true
    · rw [if_pos t2] at h
      simp only [Option.some.injEq] at h
      subst h
      exact fn
    rw [if_neg t2] at h
    generalize hS1 : ({ (timeUp E S).2 with
      nodesSearched := (timeUp E S).2.nodesSearched + 1 } : Search) = S1 at h fn
    generalize hc : ttCut (probeTT S1 b.state.zobrist) depth alpha beta = c at h
    cases hc1 : c.1 with
    | some v =>
      simp only [hc1, Option.some.injEq] at h
      subst h
      exact fn
    | none =>
      simp only [hc1] at h
      by_cases t3 : depth ≤ 0
      · rw [if_pos t3] at h
        exact ttStep_trans fn (ttStep_of_eq (quiesce_tt E _ _ _ _ _ _ _ h))
      rw [if_neg t3] at h
      rw [nullMoveBlock_eq] at h
      by_cases t4 : orderMoves E S1 b (generateMoves b) c.2.2.2 ply = []
      · rw [if_pos t4] at h
        simp only [Option.some.injEq] at h
        subst h
        exact fn
      rw [if_neg t4] at h
      have hrec : ∀ d a c S b r,
          (fun d a c S b => alphaBeta E fuel S b d a c (ply + 1) true) d a c S b = some r →
          TTStep S r.2.1 := by
        intro d a c S b r hr
        exact ih S b d a c (ply + 1) true r hr
      cases hl : abLoop E (fun d a c S b => alphaBeta E fuel S b d a c (ply + 1) true)
          depth c.2.2.1 ply (isInCheck b.state b.state.sideToMove)
          (orderMoves E S1 b (generateMoves b) c.2.2.2 ply) S1 b c.2.1 ⟨0⟩ 0 with
      | none => rw [hl] at h; cases h
      | some w =>
        rw [hl] at h
        simp only [Option.some.injEq] at h
        obtain ⟨l1, l2⟩ := abLoop_best E _ hrec _ _ _ _ _ _ _ _ _ _ _ hl
        subst h
        apply ttStep_trans (ttStep_trans fn l1)
        apply abStore_ttStep
        refine l2.imp id (fun e => ⟨e.1, ?_⟩)
        have hmem : w.2.2.2 ∈ generateMoves b := by
          have := e.2
          unfold orderMoves at this
          exact ((hs _ _).mem_iff).1 this
        exact generated_not_null b _ hmem

/-- C40: every slot of the transposition table that a call of `alphaBeta` leaves different
holds a non-null best move and the flag Exact (0) or LowerBound (1), never UpperBound (2).
At each node, after the move loop started with a null `bestMove` on moves that are not
null: if `alpha` was not raised nothing is stored, and if something is stored then the
score stored is the new `alpha`, strictly above the `alpha` in force after the TT probe,
the move stored is not null, and the flag is 1 if the score is at least `beta` and 0
otherwise. -/
theorem alphaBeta_stores_no_upper_bound (E : SearchEnv) (hs : SortOK E) :
    (∀ (fuel : Nat) (S : Search) (b : Board) (depth alpha beta ply : Int) (nma : Bool)
      (r : Int × Search × Board),
      alphaBeta E fuel S b depth alpha beta ply nma = some r →
      ∀ i, r.2.1.tt i = S.tt i ∨
        ((r.2.1.tt i).best.isNull = false ∧ ((r.2.1.tt i).flag = 0 ∨ (r.2.1.tt i).flag = 1))) ∧
    (∀ (fuel : Nat) (depth beta ply : Int) (inCheck : Bool) (ms : List Move) (S : Search)
      (b : Board) (alpha : Int) (mc : Int) (w : Search × Board × Int × Move) (key : Nat),
      (∀ m ∈ ms, m.isNull = false) →
      abLoop E (fun d a c S b => alphaBeta E fuel S b d a c (ply + 1) true)
        depth beta ply inCheck ms S b alpha ⟨0⟩ mc = some w →
      (w.2.2.1 ≤ alpha →
        abStore E w.1 key depth w.2.2.1 alpha beta w.2.2.2 = (timeUp E w.1).2) ∧
      (abStore E w.1 key depth w.2.2.1 alpha beta w.2.2.2 = (timeUp E w.1).2 ∨
        (w.2.2.1 > alpha ∧ w.2.2.2.isNull = false ∧
          abStore E w.1 key depth w.2.2.1 alpha beta w.2.2.2 =
            storeTT (timeUp E w.1).2 key depth w.2.2.1 w.2.2.2
              (if w.2.2.1 ≥ beta then 1 else 0)))) := by
  refine ⟨fun fuel S b depth alpha beta ply nma r h =>
    alphaBeta_tt E hs fuel S b depth alpha beta ply nma r h, ?_⟩
  intro fuel depth beta ply inCheck ms S b alpha mc w key hms hl
  have hrec : ∀ d a c S b r,
      (fun d a c S b => alphaBeta E fuel S b d a c (ply + 1) true) d a c S b = some r →
      TTStep S r.2.1 := by
    intro d a c S b r hr
    exact alphaBeta_tt E hs fuel S b d a c (ply + 1) true r hr
  obtain ⟨-, l2⟩ := abLoop_best E _ hrec _ _ _ _ _ _ _ _ _ _ _ hl
  exact abStore_cases E w.1 key depth w.2.2.1 alpha beta w.2.2.2
    (l2.imp id (fun e => ⟨e.1, hms _ e.2⟩))

theorem alphaBeta_stores_no_upper_bound_witness :
    SortOK (sampleEnv 3) ∧
    ((∀ (fuel : Nat) (S : Search) (b : Board) (depth alpha beta ply : Int) (nma : Bool)
      (r : Int × Search × Board),
      alphaBeta (sampleEnv 3) fuel S b depth alpha beta ply nma = some r →
      ∀ i, r.2.1.tt i = S.tt i ∨
        ((r.2.1.tt i).best.isNull = false ∧ ((r.2.1.tt i).flag = 0 ∨ (r.2.1.tt i).flag = 1))) ∧
    (∀ (fuel : Nat) (depth beta ply : Int) (inCheck : Bool) (ms : List Move) (S : Search)
      (b : Board) (alpha : Int) (mc : Int) (w : Search × Board × Int × Move) (key : Nat),
      (∀ m ∈ ms, m.isNull = false) →
      abLoop (sampleEnv 3) (fun d a c S b => alphaBeta (sampleEnv 3) fuel S b d a c (ply + 1) true)
        depth beta ply inCheck ms S b alpha ⟨0⟩ mc = some w →
      (w.2.2.1 ≤ alpha →
        abStore (sampleEnv 3) w.1 key depth w.2.2.1 alpha beta w.2.2.2 =
          (timeUp (sampleEnv 3) w.1).2) ∧
      (abStore (sampleEnv 3) w.1 key depth w.2.2.1 alpha beta w.2.2.2 =
          (timeUp (sampleEnv 3) w.1).2 ∨
        (w.2.2.1 > alpha ∧ w.2.2.2.isNull = false ∧
          abStore (sampleEnv 3) w.1 key depth w.2.2.1 alpha beta w.2.2.2 =
            storeTT (timeUp (sampleEnv 3) w.1).2 key depth w.2.2.1 w.2.2.2
              (if w.2.2.1 ≥ beta then 1 else 0))))) :=
  ⟨sampleEnv_sortOK 3, alphaBeta_stores_no_upper_bound (sampleEnv 3) (sampleEnv_sortOK 3)⟩

theorem land_bit (x i : Nat) : x &&& 2 ^ i ≠ 0 ↔ x.testBit i = true := by
  rw [Nat.and_two_pow]
  cases x.testBit i <;> simp

/-- A square of the first or last rank that is neither the from-square nor the to-square
of a generated move, nor a rook square of a castle move, holds after the move what it held
before, when the ep square is on rank 3 or 6. -/
theorem home_square_kept (Z : ZobristKeys) (st : BoardState) (m : Move)
    (hg : GenFacts st m)
    (hep : st.epSquare ≠ NO_SQ → st.epSquare.tdiv 8 = 2 ∨ st.epSquare.tdiv 8 = 5)
    (x : Int) (hx : (0 ≤ x ∧ x < 8) ∨ (56 ≤ x ∧ x < 64)) (hf : x ≠ m.from_) (ht : x ≠ m.to_)
    (hcas : m.flags = FLAG_CASTLE →
      x ≠ castleRookFrom st.sideToMove m.to_ ∧ x ≠ castleRookTo st.sideToMove m.to_) :
    (applyMove Z st m).pieceAt x = st.pieceAt x := by
  have hsq := applyMove_squares Z st m
  obtain ⟨s, t, fl, p, rfl, hs0, hs, ht0, ht1, hst, hcase⟩ := hg
  have hfl : fl ≤ 3 := by
    rcases hcase with h | h | h | h <;> rw [h.1] <;> decide
  have hp : p ≤ 3 := by
    rcases hcase with h | h | h | h <;> omega
  obtain ⟨e1, e2, e3, e4⟩ := Move.new_fields s t fl p hs0 hs ht0 ht1 hfl hp
  rw [e1] at hf
  rw [e2] at ht
  rw [e3, e2] at hcas
  rw [e1, e2, e3] at hsq
  rw [pieceAt_eq, pieceAt_eq, hsq, sqAt_setSq_ne _ _ _ _ ht, sqAt_setSq_ne _ _ _ _ hf]
  rcases hcase with h | h | h | h
  · rw [h.1, if_neg (by decide), if_neg (by decide)]
  · rw [h.1, if_neg (by decide), if_neg (by decide)]
  · obtain ⟨rfl, -, -, hte, hc0, hc1, -, -⟩ := h
    rw [if_pos rfl]
    apply sqAt_setSq_ne
    have hne : st.epSquare ≠ NO_SQ := by rw [← hte]; unfold NO_SQ; omega
    have hr := hep hne
    rw [← hte, tdiv8 ht0] at hr
    clear hsq hcas hf ht e1 e2 e3 e4 hep hne hte hc0 hc1 hst hs0 hs hp hfl
    unfold epCapSq
    by_cases hw : st.sideToMove = WHITE
    · rw [if_pos hw]; omega
    · rw [if_neg hw]; omega
  · obtain ⟨rfl, -, -⟩ := h
    rw [if_neg (by decide), if_pos rfl]
    obtain ⟨c1, c2⟩ := hcas rfl
    rw [sqAt_setSq_ne _ _ _ _ c2, sqAt_setSq_ne _ _ _ _ c1]

theorem not_clears (fr to_ : Int) (i : Nat) (kx rx : Int)
    (hi : (i = 0 ∧ kx = 4 ∧ rx = 7) ∨ (i = 1 ∧ kx = 4 ∧ rx = 0) ∨
      (i = 2 ∧ kx = 60 ∧ rx = 63) ∨ (i = 3 ∧ kx = 60 ∧ rx = 56))
    (h : ¬ clearsBit fr to_ i) : kx ≠ fr ∧ kx ≠ to_ ∧ rx ≠ fr ∧ rx ≠ to_ := by
  unfold clearsBit at h
  rcases hi with ⟨rfl, rfl, rfl⟩ | ⟨rfl, rfl, rfl⟩ | ⟨rfl, rfl, rfl⟩ | ⟨rfl, rfl, rfl⟩
  all_goals
    refine ⟨fun e => h ?_, fun e => h ?_, fun e => h ?_, fun e => h ?_⟩ <;>
      simp [← e]

/-- The rook squares of a castle move of White are 7, 5, 0, 3 and those of Black 63, 61,
56, 59. -/
theorem castle_rook_squares (st : BoardState) (s t : Int) (hco : CastleOK st s t) :
    (s = 4 ∧ castleRookFrom st.sideToMove t < 8 ∧ castleRookTo st.sideToMove t < 8) ∨
    (s = 60 ∧ 56 ≤ castleRookFrom st.sideToMove t ∧ 56 ≤ castleRookTo st.sideToMove t) := by
  unfold CastleOK at hco
  unfold castleRookFrom castleRookTo
  rcases hco with ⟨hw, rfl, hh | hh⟩ | ⟨hw, rfl, hh | hh⟩
  · left; rw [hw, hh.1]; decide
  · left; rw [hw, hh.1]; decide
  · right; rw [hw, hh.1]; decide
  · right; rw [hw, hh.1]; decide

/-- A castling bit set after a generated move was set before, and its king square and
rook square hold what they held. -/
theorem castling_bit_kept (Z : ZobristKeys) (b : Board) (m : Move)
    (hc : b.state.castling < 4294967296) (hm : m ∈ generateMoves b)
    (hep : b.state.epSquare ≠ NO_SQ →
      b.state.epSquare.tdiv 8 = 2 ∨ b.state.epSquare.tdiv 8 = 5)
    (i : Nat) (kx rx : Int)
    (hi : (i = 0 ∧ kx = 4 ∧ rx = 7) ∨ (i = 1 ∧ kx = 4 ∧ rx = 0) ∨
      (i = 2 ∧ kx = 60 ∧ rx = 63) ∨ (i = 3 ∧ kx = 60 ∧ rx = 56))
    (hbit : (applyMove Z b.state m).castling &&& 2 ^ i ≠ 0) :
    b.state.castling &&& 2 ^ i ≠ 0 ∧
    (applyMove Z b.state m).pieceAt kx = b.state.pieceAt kx ∧
    (applyMove Z b.state m).pieceAt rx = b.state.pieceAt rx := by
  have hbit2 := (land_bit _ _).1 hbit
  rw [applyMove_castling_bits Z b.state m hc i, Bool.and_eq_true, decide_eq_true_eq] at hbit2
  obtain ⟨hb, hcl⟩ := hbit2
  refine ⟨(land_bit _ _).2 hb, ?_⟩
  have hg := generateMoves_facts b m hm
  have hfr := Move.from_range m
  have hto := Move.to_range m
  obtain ⟨hk1, hk2, hr1, hr2⟩ := not_clears _ _ i kx rx hi hcl
  have hkr : (kx = 4 ∧ (rx = 7 ∨ rx = 0)) ∨ (kx = 60 ∧ (rx = 63 ∨ rx = 56)) := by
    rcases hi with h | h | h | h
    · exact Or.inl ⟨h.2.1, Or.inl h.2.2⟩
    · exact Or.inl ⟨h.2.1, Or.inr h.2.2⟩
    · exact Or.inr ⟨h.2.1, Or.inl h.2.2⟩
    · exact Or.inr ⟨h.2.1, Or.inr h.2.2⟩
  clear hi hcl hb hbit
  have hcas : m.flags = FLAG_CASTLE → ∀ x, x = kx ∨ x = rx →
      x ≠ castleRookFrom b.state.sideToMove m.to_ ∧
      x ≠ castleRookTo b.state.sideToMove m.to_ := by
    intro hfc x hx
    obtain ⟨s, t, rfl, hco⟩ := castle_flag_facts b m hm hfc
    obtain ⟨r1, r2, r3, r4⟩ := castleOK_range _ _ _ hco
    obtain ⟨e1, e2, -, -⟩ := Move.new_fields s t FLAG_CASTLE 0 r1 r2 r3 r4 (by decide)
      (by decide)
    rw [e1] at hk1 hr1
    rw [e2]
    have hx2 : (56 ≤ x ∧ kx = 60) ∨ (x ≤ 7 ∧ kx = 4) := by omega
    have hrs := castle_rook_squares _ _ _ hco
    clear hkr hk2 hr2 hr1 hx hco hg hfr hto hep hm hc e1 e2 r1 r2 r3 r4
    omega
  have hkx : (0 ≤ kx ∧ kx < 8) ∨ (56 ≤ kx ∧ kx < 64) := by omega
  have hrx : (0 ≤ rx ∧ rx < 8) ∨ (56 ≤ rx ∧ rx < 64) := by omega
  constructor
  · exact home_square_kept Z b.state m hg hep kx hkx hk1 hk2
      (fun hfc => hcas hfc kx (Or.inl rfl))
  · exact home_square_kept Z b.state m hg hep rx hrx hr1 hr2
      (fun hfc => hcas hfc rx (Or.inr rfl))

/-- The ep square left by a generated move is on rank 3 or rank 6. -/
theorem ep_rank_after (Z : ZobristKeys) (b : Board) (m : Move) (hm : m ∈ generateMoves b)
    (h : (applyMove Z b.state m).epSquare ≠ NO_SQ) :
    (applyMove Z b.state m).epSquare.tdiv 8 = 2 ∨ (applyMove Z b.state m).epSquare.tdiv 8 = 5 := by
  rw [applyMove_epSquare] at h ⊢
  by_cases hd : isDoublePush b.state m
  · rw [if_pos hd]
    have hfr := Move.from_range m
    rcases generated_double_push b m hm hd with ⟨-, h1, h2⟩ | ⟨-, h1, h2⟩
    · left
      rw [tdiv8 hfr.1] at h1
      have e : (m.from_ + m.to_).tdiv 2 = m.from_ + 8 := by
        rw [h2, Int.tdiv_eq_ediv (show 0 ≤ m.from_ + (m.from_ + 16) by omega) (by decide)]
        omega
      rw [e, tdiv8 (show 0 ≤ m.from_ + 8 by omega)]
      omega
    · right
      rw [tdiv8 hfr.1] at h1
      have e : (m.from_ + m.to_).tdiv 2 = m.from_ - 8 := by
        rw [h2, Int.tdiv_eq_ediv (show 0 ≤ m.from_ + (m.from_ - 16) by omega) (by decide)]
        omega
      rw [e, tdiv8 (show 0 ≤ m.from_ - 8 by omega)]
      omega
  · rw [if_neg hd] at h
    exact absurd rfl h

theorem castling_after_lt (Z : ZobristKeys) (st : BoardState) (m : Move)
    (hc : st.castling < 4294967296) : (applyMove Z st m).castling < 4294967296 := by
  have h := land_subset_of_bits (applyMove Z st m).castling st.castling (by
    intro i hi
    rw [applyMove_castling_bits Z st m hc i, Bool.and_eq_true] at hi
    exact hi.1)
  have hle : (applyMove Z st m).castling &&& st.castling ≤ st.castling := Nat.and_le_right
  rw [h] at hle
  omega

/-- C36: if in a position, with a castling mask that fits in 32 bits, every set castling
bit has its king and rook on their home squares and the ep square, if set, is on rank 3 or
rank 6, then the same holds after every successful `makeMove` of a move of
`generateMoves`; and every move of `generateMoves` flagged Castle starts on 4 or 60, where
the king of the side to move stands, and the rook square `makeMove` takes the rook from is
the corner 7, 0, 63 or 56 and holds a rook of the side to move. -/
theorem castling_rights_consistent (Z : ZobristKeys) (b : Board) (m : Move)
    (hc : b.state.castling < 4294967296) (hinv : CastlingHome b.state)
    (hm : m ∈ generateMoves b) :
    ((makeMove Z b m).2 = true →
      CastlingHome (makeMove Z b m).1.state ∧
      (makeMove Z b m).1.state.castling < 4294967296) ∧
    (m.flags = FLAG_CASTLE →
      (m.from_ = 4 ∨ m.from_ = 60) ∧
      b.state.pieceAt m.from_ = makePiece b.state.sideToMove KING ∧
      (castleRookFrom b.state.sideToMove m.to_ = 7 ∨
        castleRookFrom b.state.sideToMove m.to_ = 0 ∨
        castleRookFrom b.state.sideToMove m.to_ = 63 ∨
        castleRookFrom b.state.sideToMove m.to_ = 56) ∧
      b.state.pieceAt (castleRookFrom b.state.sideToMove m.to_) =
        makePiece b.state.sideToMove ROOK) := by
  obtain ⟨i0, i1, i2, i3, iep⟩ := hinv
  constructor
  · intro hr
    rw [makeMove_fst_of_true Z b m hr]
    refine ⟨⟨?_, ?_, ?_, ?_, ep_rank_after Z b m hm⟩, castling_after_lt Z b.state m hc⟩
    · intro hbit
      obtain ⟨g1, g2, g3⟩ := castling_bit_kept Z b m hc hm iep 0 4 7
        (Or.inl ⟨rfl, rfl, rfl⟩) hbit
      rw [g2, g3]
      exact i0 g1
    · intro hbit
      obtain ⟨g1, g2, g3⟩ := castling_bit_kept Z b m hc hm iep 1 4 0
        (Or.inr (Or.inl ⟨rfl, rfl, rfl⟩)) hbit
      rw [g2, g3]
      exact i1 g1
    · intro hbit
      obtain ⟨g1, g2, g3⟩ := castling_bit_kept Z b m hc hm iep 2 60 63
        (Or.inr (Or.inr (Or.inl ⟨rfl, rfl, rfl⟩))) hbit
      rw [g2, g3]
      exact i2 g1
    · intro hbit
      obtain ⟨g1, g2, g3⟩ := castling_bit_kept Z b m hc hm iep 3 60 56
        (Or.inr (Or.inr (Or.inr ⟨rfl, rfl, rfl⟩))) hbit
      rw [g2, g3]
      exact i3 g1
  · intro hfc
    obtain ⟨s, t, rfl, hco⟩ := castle_flag_facts b m hm hfc
    obtain ⟨r1, r2, r3, r4⟩ := castleOK_range _ _ _ hco
    obtain ⟨e1, e2, -, -⟩ := Move.new_fields s t FLAG_CASTLE 0 r1 r2 r3 r4 (by decide)
      (by decide)
    rw [e1, e2]
    unfold CastleOK at hco
    unfold castleRookFrom
    rcases hco with ⟨hw, rfl, hh | hh⟩ | ⟨hw, rfl, hh | hh⟩
    · obtain ⟨k1, k2⟩ := i0 hh.2.1
      rw [hw, hh.1]
      exact ⟨Or.inl rfl, k1, Or.inl rfl, k2⟩
    · obtain ⟨k1, k2⟩ := i1 hh.2.1
      rw [hw, hh.1]
      exact ⟨Or.inl rfl, k1, Or.inr (Or.inl rfl), k2⟩
    · obtain ⟨k1, k2⟩ := i2 hh.2.1
      rw [hw, hh.1]
      exact ⟨Or.inr rfl, k1, Or.inr (Or.inr (Or.inl rfl)), k2⟩
    · obtain ⟨k1, k2⟩ := i3 hh.2.1
      rw [hw, hh.1]
      exact ⟨Or.inr rfl, k1, Or.inr (Or.inr (Or.inr rfl)), k2⟩

set_option maxRecDepth 1000000 in
theorem castle_position_facts :
    (boardOfFEN sampleKeys castleFEN).state.castling < 4294967296 ∧
    CastlingHome (boardOfFEN sampleKeys castleFEN).state ∧
    Move.new 4 6 FLAG_CASTLE 0 ∈ generateMoves (boardOfFEN sampleKeys castleFEN) := by
  decide!

theorem castling_rights_consistent_witness :
    (boardOfFEN sampleKeys castleFEN).state.castling < 4294967296 ∧
    CastlingHome (boardOfFEN sampleKeys castleFEN).state ∧
    Move.new 4 6 FLAG_CASTLE 0 ∈ generateMoves (boardOfFEN sampleKeys castleFEN) ∧
    ((makeMove sampleKeys (boardOfFEN sampleKeys castleFEN)
        (Move.new 4 6 FLAG_CASTLE 0)).2 = true →
      CastlingHome (makeMove sampleKeys (boardOfFEN sampleKeys castleFEN)
        (Move.new 4 6 FLAG_CASTLE 0)).1.state ∧
      (makeMove sampleKeys (boardOfFEN sampleKeys castleFEN)
        (Move.new 4 6 FLAG_CASTLE 0)).1.state.castling < 4294967296) ∧
    ((Move.new 4 6 FLAG_CASTLE 0).flags = FLAG_CASTLE →
      ((Move.new 4 6 FLAG_CASTLE 0).from_ = 4 ∨ (Move.new 4 6 FLAG_CASTLE 0).from_ = 60) ∧
      (boardOfFEN sampleKeys castleFEN).state.pieceAt (Move.new 4 6 FLAG_CASTLE 0).from_ =
        makePiece (boardOfFEN sampleKeys castleFEN).state.sideToMove KING ∧
      (castleRookFrom (boardOfFEN sampleKeys castleFEN).state.sideToMove
          (Move.new 4 6 FLAG_CASTLE 0).to_ = 7 ∨
        castleRookFrom (boardOfFEN sampleKeys castleFEN).state.sideToMove
          (Move.new 4 6 FLAG_CASTLE 0).to_ = 0 ∨
        castleRookFrom (boardOfFEN sampleKeys castleFEN).state.sideToMove
          (Move.new 4 6 FLAG_CASTLE 0).to_ = 63 ∨
        castleRookFrom (boardOfFEN sampleKeys castleFEN).state.sideToMove
          (Move.new 4 6 FLAG_CASTLE 0).to_ = 56) ∧
      (boardOfFEN sampleKeys castleFEN).state.pieceAt
          (castleRookFrom (boardOfFEN sampleKeys castleFEN).state.sideToMove
            (Move.new 4 6 FLAG_CASTLE 0).to_) =
        makePiece (boardOfFEN sampleKeys castleFEN).state.sideToMove ROOK) :=
  ⟨castle_position_facts.1, castle_position_facts.2.1, castle_position_facts.2.2,
    castling_rights_consistent sampleKeys (boardOfFEN sampleKeys castleFEN)
      (Move.new 4 6 FLAG_CASTLE 0) castle_position_facts.1 castle_position_facts.2.1
      castle_position_facts.2.2⟩

end Jongfish
